import Mathlib

/-!
# BarCodeFinder: a shallow embedding of `BarCode.h`

The C functions of `src/BarCodeFinder/BarCode.h` are translated into Lean
definitions that keep the names of the source.

Conventions of the embedding

* `uint8_t` values are natural numbers below 256, `int` values are
  mathematical integers (pixel coordinates and counters stay far away from
  the 32-bit limits), `size_t` values are natural numbers, reduced modulo
  `2 ^ 64` where the source relies on the wrap-around.
* `float` values are rational numbers: scores are taken in exact arithmetic.
* A `__m256i` register is the map from a byte position (0 is the least
  significant byte) to the byte stored there; only positions 0..31 are used.
* The pixel buffer `rgba8` is the map from a byte offset to the byte there.
* A loop `while (true)` is run with an explicit amount of fuel and yields
  `none` when the fuel runs out; a failing `assert` yields `none` as well.
-/

set_option linter.unusedVariables false

namespace BarCodeFinder

/-! ## AVX2 intrinsics used by the source -/

/-- A 256-bit register as its 32 bytes, byte 0 being the least significant. -/
abbrev M256 := Nat → Nat

/-- The intrinsic `_mm256_set_epi8(e31, ..., e0)`: the arguments are listed from the most
significant byte down to byte 0, each reduced to an unsigned byte. -/
def _mm256_set_epi8 (es : List Int) : M256 :=
  fun j => ((es.reverse.getD j 0) % 256).toNat

/-- The intrinsic `_mm256_set1_epi32(a)`: every 32-bit lane holds `a` (two's complement). -/
def _mm256_set1_epi32 (a : Int) : M256 :=
  fun j => ((a % 2 ^ 32).toNat / 2 ^ (8 * (j % 4))) % 256

/-- The intrinsic `_mm256_and_si256`: bitwise and. -/
def _mm256_and_si256 (a b : M256) : M256 :=
  fun j => a j &&& b j

/-- The intrinsic `_mm256_shuffle_epi8`: within each 128-bit half, byte `j` of the result is
zero when the top bit of the control byte is set and otherwise the byte of `a` selected by the
low four bits of the control byte. -/
def _mm256_shuffle_epi8 (a b : M256) : M256 :=
  fun j => if 128 ≤ b j then 0 else a (16 * (j / 16) + b j % 16)

/-- The unsigned value of the 32-bit lane `i` (little endian). -/
def m256i_u32 (v : M256) (i : Nat) : Nat :=
  v (4 * i) + 2 ^ 8 * v (4 * i + 1) + 2 ^ 16 * v (4 * i + 2) + 2 ^ 24 * v (4 * i + 3)

/-- The member `m256i_i32[i]`: lane `i` read as a signed 32-bit integer. -/
def m256i_i32 (v : M256) (i : Nat) : Int :=
  if m256i_u32 v i < 2 ^ 31 then (m256i_u32 v i : Int) else (m256i_u32 v i : Int) - 2 ^ 32

/-- The register whose 32-bit lane `i` holds `f i` (reduced modulo `2 ^ 32`). -/
def ofLanes32 (f : Nat → Int) : M256 :=
  fun j => ((f (j / 4) % 2 ^ 32).toNat / 2 ^ (8 * (j % 4))) % 256

/-- The intrinsic `_mm256_sub_epi32`: lane-wise wrapping subtraction. -/
def _mm256_sub_epi32 (a b : M256) : M256 :=
  ofLanes32 (fun i => m256i_i32 a i - m256i_i32 b i)

/-- The intrinsic `_mm256_cmpgt_epi32`: lane-wise signed `a > b`, all ones when true. -/
def _mm256_cmpgt_epi32 (a b : M256) : M256 :=
  ofLanes32 (fun i => if m256i_i32 a i > m256i_i32 b i then -1 else 0)

/-- The intrinsic `_mm256_testz_si256`: 1 when `a AND b` is zero in all 256 bits, else 0. -/
def _mm256_testz_si256 (a b : M256) : Int :=
  if (List.range 32).all (fun j => a j &&& b j == 0) then 1 else 0

/-! ## Pixel classification -/

/-- The struct `YellowConfig` (three `uint8_t` thresholds). -/
structure YellowConfig where
  maxRedGreenSeparation : Nat
  minRedBlueSeparation : Nat
  minRed : Nat

/-- The struct `YellowConfigAVX`. -/
structure YellowConfigAVX where
  redGreenSeparationLessThan : M256
  redBlueSeparationGreaterThan : M256
  redGreaterThan : M256

/-- The scalar classifier `is_yellow`. `redGreenSeparation` is `abs(r - g)` stored in a
`uint8_t`, `redBlueSeparation` is the signed `int` difference. -/
def is_yellow (r g b : Nat) (config : YellowConfig) : Bool :=
  let redGreenSeparation : Nat := (Int.natAbs ((r : Int) - (g : Int))) % 256
  let redBlueSeparation : Int := (r : Int) - (b : Int)
  decide (redGreenSeparation ≤ config.maxRedGreenSeparation)
    && decide (redBlueSeparation ≥ (config.minRedBlueSeparation : Int))
    && decide (r ≥ config.minRed)

/-- The conversion `to_avx`. -/
def to_avx (config : YellowConfig) : YellowConfigAVX :=
  { redGreenSeparationLessThan := _mm256_set1_epi32 ((config.maxRedGreenSeparation : Int) + 1)
    redBlueSeparationGreaterThan := _mm256_set1_epi32 ((config.minRedBlueSeparation : Int) - 1)
    redGreaterThan := _mm256_set1_epi32 ((config.minRed : Int) - 1) }

/-- The batch classifier `_are_yellow` on a group of 8 RGBA pixels. -/
def _are_yellow (rgba8 : M256) (config : YellowConfigAVX) : M256 :=
  let reds := _mm256_and_si256 rgba8 (_mm256_set_epi8
    [0, 0, 0, -1, 0, 0, 0, -1, 0, 0, 0, -1, 0, 0, 0, -1,
     0, 0, 0, -1, 0, 0, 0, -1, 0, 0, 0, -1, 0, 0, 0, -1])
  let greens := _mm256_and_si256 rgba8 (_mm256_set_epi8
    [0, 0, -1, 0, 0, 0, -1, 0, 0, 0, -1, 0, 0, 0, -1, 0,
     0, 0, -1, 0, 0, 0, -1, 0, 0, 0, -1, 0, 0, 0, -1, 0])
  let blues := _mm256_and_si256 rgba8 (_mm256_set_epi8
    [0, -1, 0, 0, 0, -1, 0, 0, 0, -1, 0, 0, 0, -1, 0, 0,
     0, -1, 0, 0, 0, -1, 0, 0, 0, -1, 0, 0, 0, -1, 0, 0])
  let greens := _mm256_shuffle_epi8 greens (_mm256_set_epi8
    [0, 0, 0, 29, 0, 0, 0, 25, 0, 0, 0, 21, 0, 0, 0, 17,
     0, 0, 0, 13, 0, 0, 0, 9, 0, 0, 0, 5, 0, 0, 0, 1])
  let blues := _mm256_shuffle_epi8 blues (_mm256_set_epi8
    [0, 0, 0, 30, 0, 0, 0, 26, 0, 0, 0, 22, 0, 0, 0, 18,
     0, 0, 0, 14, 0, 0, 0, 10, 0, 0, 0, 6, 0, 0, 0, 2])
  let redSubGreen := _mm256_sub_epi32 reds greens
  let redSubBlue := _mm256_sub_epi32 reds blues
  let redPassed := _mm256_cmpgt_epi32 reds config.redGreaterThan
  let redSubGreenPassed := _mm256_cmpgt_epi32 config.redGreenSeparationLessThan redSubGreen
  let redSubBluePassed := _mm256_cmpgt_epi32 redSubBlue config.redBlueSeparationGreaterThan
  _mm256_and_si256 redPassed (_mm256_and_si256 redSubGreenPassed redSubBluePassed)

/-- A register holding 8 copies of the RGBA pixel `(r, g, b, a)`. -/
def pixelGroup (r g b a : Nat) : M256 :=
  fun j => match j % 4 with
    | 0 => r
    | 1 => g
    | 2 => b
    | _ => a

/-! ## Scan-line extraction -/

/-- The struct `YellowScanLine` (the field `end` is written `end_`). -/
structure YellowScanLine where
  start : Int
  end_ : Int
  y : Int
  _ignore : Bool
  deriving DecidableEq, Repr, Inhabited

/-- The local state of `find_yellow_lines`: the filled part `dst[0..found)` of the destination
buffer, the flag `onLine`, the variable `currentLine` and the pointer `blocks` (counted in
`__m256i` units from the start of the image). -/
structure ScanState where
  dst : List YellowScanLine
  onLine : Bool
  currentLine : YellowScanLine
  blocks : Nat

/-- The statements `if (found < maxCount) dst[found++] = currentLine; else return found;` and
`onLine = false`. An early `return found` is the `error` branch. -/
def endLine (maxCount : Nat) (s : ScanState) : Except (List YellowScanLine) ScanState :=
  if s.dst.length < maxCount then
    .ok { s with dst := s.dst ++ [s.currentLine], onLine := false }
  else
    .error s.dst

/-- The body of the loop `for (int i = 0; i < 8; i++)` of `find_yellow_lines`. -/
def scanPixel (maxCount : Nat) (x y : Int) (yellowMask : M256) (s : ScanState) (i : Nat) :
    Except (List YellowScanLine) ScanState :=
  let isYellow : Bool := m256i_i32 yellowMask i != 0
  if isYellow then
    if s.onLine then
      .ok { s with currentLine := { s.currentLine with end_ := s.currentLine.end_ + 1 } }
    else
      .ok { s with
            currentLine := { start := x + i, end_ := x + i, y := y, _ignore := false }
            onLine := true }
  else
    if s.onLine then endLine maxCount s else .ok s

/-- The body of the loop `for (int x = 0; x < width; x += 8)` of `find_yellow_lines`. -/
def scanBlock (rgba8 : Nat → Nat) (configAvx : YellowConfigAVX) (maxCount : Nat) (y : Int)
    (s : ScanState) (x : Int) : Except (List YellowScanLine) ScanState :=
  let currentBlock : M256 := fun j => rgba8 (32 * s.blocks + j)
  let s := { s with blocks := s.blocks + 1 }
  let yellowMask := _are_yellow currentBlock configAvx
  let noneYellow : Bool := _mm256_testz_si256 yellowMask yellowMask != 0
  if noneYellow then
    if s.onLine then endLine maxCount s else .ok s
  else
    (List.range 8).foldlM (scanPixel maxCount x y yellowMask) s

/-- The values taken by `x` in `for (int x = 0; x < width; x += 8)`. -/
def blockColumns (width : Int) : List Int :=
  (List.range ((width.toNat + 7) / 8)).map (fun (k : Nat) => 8 * (k : Int))

/-- The body of the loop `for (int y = 0; y < height; y++)` of `find_yellow_lines`.
The variable `currentLine` is declared without a value there; it keeps whatever it held and is
not read before `onLine` is set. -/
def scanRow (rgba8 : Nat → Nat) (configAvx : YellowConfigAVX) (maxCount : Nat) (width : Int)
    (s : ScanState) (y : Nat) : Except (List YellowScanLine) ScanState := do
  let s := { s with onLine := false }
  let s ← (blockColumns width).foldlM (scanBlock rgba8 configAvx maxCount y) s
  if s.onLine then endLine maxCount s else .ok s

/-- The function `find_yellow_lines`. The result is `none` when `assert(width % 8 == 0)` fails
and otherwise the filled part `dst[0..found)` of the destination buffer, whose length is the
returned count. -/
def find_yellow_lines (rgba8 : Nat → Nat) (width height : Int) (cfg : YellowConfig)
    (maxCount : Nat) : Option (List YellowScanLine) :=
  if Int.tmod width 8 ≠ 0 then none
  else
    let configAvx := to_avx cfg
    match (List.range height.toNat).foldlM (scanRow rgba8 configAvx maxCount width)
        { dst := [], onLine := false, currentLine := default, blocks := 0 } with
    | .ok s => some s.dst
    | .error found => some found

/-- Whether `find_yellow_lines` classifies the pixel `(x, y)` of the image as yellow: lane
`x % 8` of `_are_yellow` on the block that holds the pixel. -/
def classified (rgba8 : Nat → Nat) (width : Int) (cfg : YellowConfig) (x y : Int) : Bool :=
  let k := y.toNat * (width.toNat / 8) + x.toNat / 8
  m256i_i32 (_are_yellow (fun j => rgba8 (32 * k + j)) (to_avx cfg)) (x.toNat % 8) != 0

/-- A test image of one row and 32 columns: columns 0..7 and 16..23 are yellow
`(255, 255, 0)`, the others black. -/
def testRow : Nat → Nat :=
  fun j => if (j / 32) % 2 = 0 ∧ j / 32 < 4 ∧ j % 4 < 2 then 255 else 0

/-! ## Clustering of scan lines into bounding boxes -/

/-- The struct `YellowBoundingBox`. -/
structure YellowBoundingBox where
  left : Int
  top : Int
  right : Int
  bottom : Int
  isComplete : Bool
  deriving DecidableEq, Repr, Inhabited

/-- The predicate `_are_lines_adjacent`. -/
def _are_lines_adjacent (a b : YellowScanLine) (maxSpacing : Int) : Bool :=
  let verticalSpacing : Int := |a.y - b.y|
  if verticalSpacing > maxSpacing + 1 then false
  else if a.start + maxSpacing ≥ b.start ∧ a.start - maxSpacing ≤ b.end_ then true
  else if b.start + maxSpacing ≥ a.start ∧ b.start - maxSpacing ≤ a.end_ then true
  else if a.end_ + maxSpacing ≥ b.start ∧ a.end_ - maxSpacing ≤ b.end_ then true
  else if b.end_ + maxSpacing ≥ a.start ∧ b.end_ - maxSpacing ≤ a.end_ then true
  else false

/-- The assignment `lines[k]._ignore = v`. -/
def setIgnore (lines : Nat → YellowScanLine) (k : Nat) (v : Bool) : Nat → YellowScanLine :=
  Function.update lines k { lines k with _ignore := v }

/-- The state of `find_yellow_rectangles` while the lines of one box are collected: the array
`lines`, the scratch `tmpIndexBuffer`, `containedLineCount` and `ranOutOfTempSpace`. -/
structure CollectState where
  lines : Nat → YellowScanLine
  tmpIndexBuffer : Nat → Nat
  containedLineCount : Nat
  ranOutOfTempSpace : Bool

/-- The body of the loop `for (size_t k = i + 1; k < lineCount; k++)`. -/
def adjacentStep (maxSpacing : Int) (maxTmpIndexCount currentIndex : Nat)
    (currentLine : YellowScanLine) (s : CollectState) (k : Nat) : CollectState :=
  if (s.lines k)._ignore then s
  else if k = currentIndex then s
  else if _are_lines_adjacent currentLine (s.lines k) maxSpacing then
    if s.containedLineCount < maxTmpIndexCount then
      { s with
        tmpIndexBuffer := Function.update s.tmpIndexBuffer s.containedLineCount k
        containedLineCount := s.containedLineCount + 1
        lines := setIgnore s.lines k true }
    else
      { s with ranOutOfTempSpace := true }
  else s

/-- The loop `for (int j = 0; j < containedLineCount; j++)` that collects the lines of a box.
Its bound grows while it runs, so it is run with fuel. -/
def collectLines (lineCount : Nat) (maxSpacing : Int) (maxTmpIndexCount i : Nat) :
    Nat → Nat → CollectState → Option CollectState
  | 0, _, _ => none
  | fuel + 1, j, s =>
    if j < s.containedLineCount then
      let currentIndex := s.tmpIndexBuffer j
      let currentLine := s.lines currentIndex
      let s := { s with lines := setIgnore s.lines currentIndex true }
      let s := (List.range' (i + 1) (lineCount - (i + 1))).foldl
        (adjacentStep maxSpacing maxTmpIndexCount currentIndex currentLine) s
      collectLines lineCount maxSpacing maxTmpIndexCount i fuel (j + 1) s
    else some s

/-- The body of the second loop `for (int j = 0; j < containedLineCount; j++)`, which fits the
box around a collected line. -/
def fitStep (tmpIndexBuffer : Nat → Nat)
    (s : YellowBoundingBox × (Nat → YellowScanLine)) (j : Nat) :
    YellowBoundingBox × (Nat → YellowScanLine) :=
  let currentBox := s.1
  let lines := s.2
  let currentLine := lines (tmpIndexBuffer j)
  let currentBox :=
    if currentLine.start < currentBox.left then { currentBox with left := currentLine.start }
    else currentBox
  let currentBox :=
    if currentLine.end_ > currentBox.right then { currentBox with right := currentLine.end_ }
    else currentBox
  let currentBox :=
    if currentLine.y < currentBox.top then { currentBox with top := currentLine.y }
    else currentBox
  let currentBox :=
    if currentLine.y > currentBox.bottom then { currentBox with bottom := currentLine.y }
    else currentBox
  (currentBox, setIgnore lines (tmpIndexBuffer j) true)

/-- The state of the outer loop of `find_yellow_rectangles`: the array `lines`, the scratch
`tmpIndexBuffer` and the filled part `dst[0..boxCount)` of the destination buffer. -/
structure RectState where
  lines : Nat → YellowScanLine
  tmpIndexBuffer : Nat → Nat
  dst : List YellowBoundingBox

/-- How the outer loop of `find_yellow_rectangles` is left early: the fuel of the collecting
loop ran out, or the statement `return boxCount` was reached. -/
inductive RectExit where
  | outOfFuel
  | returned (s : RectState)

/-- The body of the loop `for (size_t i = 0; i < lineCount; i++)` of
`find_yellow_rectangles`. -/
def boxStep (fuel lineCount : Nat) (maxSpacing : Int) (maxTmpIndexCount maxCount : Nat)
    (s : RectState) (i : Nat) : Except RectExit RectState :=
  if (s.lines i)._ignore then .ok s
  else
    let currentBox : YellowBoundingBox :=
      { left := (s.lines i).start, top := (s.lines i).y, right := (s.lines i).end_,
        bottom := (s.lines i).y, isComplete := false }
    let c : CollectState :=
      { lines := s.lines, tmpIndexBuffer := Function.update s.tmpIndexBuffer 0 i,
        containedLineCount := 1, ranOutOfTempSpace := false }
    match collectLines lineCount maxSpacing maxTmpIndexCount i fuel 0 c with
    | none => .error .outOfFuel
    | some c =>
      let currentBox := { currentBox with isComplete := !c.ranOutOfTempSpace }
      let fit := (List.range c.containedLineCount).foldl (fitStep c.tmpIndexBuffer)
        (currentBox, c.lines)
      let s' : RectState := { lines := fit.2, tmpIndexBuffer := c.tmpIndexBuffer, dst := s.dst }
      if s.dst.length < maxCount then .ok { s' with dst := s.dst ++ [fit.1] }
      else .error (.returned s')

/-- The function `find_yellow_rectangles`. The result is `none` when the fuel given to the
collecting loop does not suffice; otherwise it is the final state, whose `dst` is the filled
part of the destination buffer (its length is the returned count). `isComplete` of the box
under construction has no value in the source before it is assigned; it is `false` here. -/
def find_yellow_rectangles (fuel : Nat) (lines : Nat → YellowScanLine) (lineCount : Nat)
    (maxSpacing : Int) (tmpIndexBuffer : Nat → Nat) (maxTmpIndexCount maxCount : Nat) :
    Option RectState :=
  let lines := (List.range lineCount).foldl (fun l i => setIgnore l i false) lines
  match (List.range lineCount).foldlM (boxStep fuel lineCount maxSpacing maxTmpIndexCount maxCount)
      { lines := lines, tmpIndexBuffer := tmpIndexBuffer, dst := [] } with
  | .ok s => some s
  | .error (.returned s) => some s
  | .error .outOfFuel => none

/-- An array of scan lines given by a list (positions past the end hold a default line). -/
def linesOf (l : List YellowScanLine) : Nat → YellowScanLine :=
  fun k => l.getD k default

/-! ## Pattern scoring -/

/-- The enum `BarCodeColor`. -/
inductive BarCodeColor where
  | BAR_CODE_RED
  | BAR_CODE_GREEN
  | BAR_CODE_BLUE
  deriving DecidableEq, Repr, Inhabited

/-- The struct `BarCode`: the array `colors` and the `size_t` field `colorCount`. -/
structure BarCode where
  colors : Nat → BarCodeColor
  colorCount : Nat

/-- The struct `BarCodeAppearance`. -/
structure BarCodeAppearance where
  _firstBox : YellowBoundingBox
  _secondBox : YellowBoundingBox
  colorStartX : Int
  colorStartY : Int
  colorEndX : Int
  colorEndY : Int
  sectionCount : Int
  redAverage : Nat → ℚ
  greenAverage : Nat → ℚ
  blueAverage : Nat → ℚ
  pixelCount : Nat → Int

/-- The loop of `_quantify_bar_code_appearance_match`. `scanI` is a `size_t`, so the test
`scanI >= 0` always holds and `scanI += increment` wraps modulo `2 ^ 64`. Besides the sum, the
loop records the values of `scanI` for which the body ran, in order. -/
def quantifyLoop (code : BarCode) (rAvg gAvg bAvg : Nat → ℚ) (sectionCount increment : Nat) :
    Nat → Nat → Nat → ℚ → List Nat → Option (ℚ × List Nat)
  | 0, _, _, _, _ => none
  | fuel + 1, scanI, codeI, sum, seen =>
    if scanI < sectionCount then
      let expectedColor := code.colors codeI
      let r := rAvg scanI
      let g := gAvg scanI
      let b := bAvg scanI
      let sum :=
        match expectedColor with
        | .BAR_CODE_RED => sum + r - g - b
        | .BAR_CODE_GREEN => sum + g - r - b
        | .BAR_CODE_BLUE => sum + b - r - g
      quantifyLoop code rAvg gAvg bAvg sectionCount increment fuel
        ((scanI + increment) % 2 ^ 64) (codeI + 1) sum (seen ++ [scanI])
    else some (sum, seen)

/-- The function `_quantify_bar_code_appearance_match`, returning the score and the sections
read by the loop; `none` when the fuel does not suffice. -/
def _quantify_bar_code_appearance_match (fuel : Nat) (code : BarCode)
    (rAvg gAvg bAvg : Nat → ℚ) (reverse : Bool) : Option (ℚ × List Nat) :=
  let sectionCount := code.colorCount
  let start : Nat := if reverse then (sectionCount + 2 ^ 64 - 1) % 2 ^ 64 else 0
  let increment : Nat := if reverse then 2 ^ 64 - 1 else 1
  match quantifyLoop code rAvg gAvg bAvg sectionCount increment fuel start 0 0 [] with
  | none => none
  | some (sum, seen) =>
    let score : ℚ := sum / (sectionCount : ℚ)
    let score := if score < 0 then 0 else score
    let score := if score > 1 then 1 else score
    some (score, seen)

/-- The function `quantify_bar_code_appearance_match`; `none` when the assertion
`code->colorCount == appearance->sectionCount` fails or the fuel does not suffice. -/
def quantify_bar_code_appearance_match (fuel : Nat) (code : BarCode)
    (appearance : BarCodeAppearance) : Option ℚ :=
  if (code.colorCount : Int) ≠ appearance.sectionCount % 2 ^ 64 then none
  else
    match _quantify_bar_code_appearance_match fuel code appearance.redAverage
        appearance.greenAverage appearance.blueAverage false,
      _quantify_bar_code_appearance_match fuel code appearance.redAverage
        appearance.greenAverage appearance.blueAverage true with
    | some (forward, _), some (reverse, _) => some (if forward > reverse then forward else reverse)
    | _, _ => none

/-! ## Line walks -/

/-- The statements that end the body of each of the three line-walk loops: they move
`(x1, y1)` one step and update `error`. The result is `(x1, y1, error)`. -/
def walkStep (dx dy sx sy : Int) (x1 y1 error : Int) : Int × Int × Int :=
  let errorCopy := error
  let (error, x1) := if errorCopy > -dx then (error - dy, x1 + sx) else (error, x1)
  let (error, y1) := if errorCopy < dy then (error + dx, y1 + sy) else (error, y1)
  (x1, y1, error)

/-- The byte offset `((x + (y * width)) * 4) + c` into the pixel buffer. -/
def pixelOffset (width x y : Int) (c : Nat) : Nat :=
  ((x + y * width) * 4).toNat + c

/-- The loop of `_draw_line`: the state is the pixel buffer and the list of pixels written
so far, in order. -/
def drawLoop (width x2 y2 dx dy sx sy : Int) (r g b a : Nat) :
    Nat → (Nat → Nat) → Int → Int → Int → List (Int × Int) → Option ((Nat → Nat) × List (Int × Int))
  | 0, _, _, _, _, _ => none
  | fuel + 1, rgba8, x1, y1, error, visited =>
    let rgba8 := Function.update rgba8 (pixelOffset width x1 y1 0) r
    let rgba8 := Function.update rgba8 (pixelOffset width x1 y1 1) g
    let rgba8 := Function.update rgba8 (pixelOffset width x1 y1 2) b
    let rgba8 := Function.update rgba8 (pixelOffset width x1 y1 3) a
    let visited := visited ++ [(x1, y1)]
    if x1 = x2 ∧ y1 = y2 then some (rgba8, visited)
    else
      let (x1, y1, error) := walkStep dx dy sx sy x1 y1 error
      drawLoop width x2 y2 dx dy sx sy r g b a fuel rgba8 x1 y1 error visited

/-- The function `_draw_line`: it returns the new pixel buffer and the pixels written, in
order; `none` when the fuel does not suffice. The division by 2 truncates toward zero. -/
def _draw_line (fuel : Nat) (rgba8 : Nat → Nat) (width height x1 y1 x2 y2 : Int)
    (r g b a : Nat) : Option ((Nat → Nat) × List (Int × Int)) :=
  let dx : Int := |x2 - x1|
  let dy : Int := |y2 - y1|
  let sx : Int := if x1 < x2 then 1 else -1
  let sy : Int := if y1 < y2 then 1 else -1
  let error : Int := Int.tdiv (if dx > dy then dx else -dy) 2
  drawLoop width x2 y2 dx dy sx sy r g b a fuel rgba8 x1 y1 error []

/-- The state of the loop of `_find_colorful_line_endpoints`: the four output cells, the
flags, `lastX`, `lastY`, and the pixels read so far, in order. -/
structure EndpointState where
  firstX : Int
  firstY : Int
  secondX : Int
  secondY : Int
  foundColorStart : Bool
  inColor : Bool
  lastX : Int
  lastY : Int
  visited : List (Int × Int)
  deriving DecidableEq, Repr

/-- The loop of `_find_colorful_line_endpoints`. -/
def endpointLoop (rgba8 : Nat → Nat) (width : Int) (yellowCfg : YellowConfig)
    (x2 y2 dx dy sx sy : Int) : Nat → Int → Int → Int → EndpointState → Option EndpointState
  | 0, _, _, _, _ => none
  | fuel + 1, x1, y1, error, s =>
    let r := rgba8 (pixelOffset width x1 y1 0)
    let g := rgba8 (pixelOffset width x1 y1 1)
    let b := rgba8 (pixelOffset width x1 y1 2)
    let s := { s with visited := s.visited ++ [(x1, y1)] }
    let s :=
      if is_yellow r g b yellowCfg then
        if s.inColor then { s with secondX := s.lastX, secondY := s.lastY, inColor := false }
        else s
      else
        if s.inColor then s
        else
          let s := if !s.foundColorStart then
              { s with firstX := x1, firstY := y1, foundColorStart := true }
            else s
          { s with inColor := true }
    if x1 = x2 ∧ y1 = y2 then some s
    else
      let (x1, y1, error) := walkStep dx dy sx sy x1 y1 error
      let s := { s with lastX := x1, lastY := y1 }
      endpointLoop rgba8 width yellowCfg x2 y2 dx dy sx sy fuel x1 y1 error s

/-- The function `_find_colorful_line_endpoints`: the four cells `firstX`, `firstY`,
`secondX`, `secondY` are passed by value and their final contents are read from the returned
state; `none` when the fuel does not suffice. -/
def _find_colorful_line_endpoints (fuel : Nat) (rgba8 : Nat → Nat) (width height : Int)
    (yellowCfg : YellowConfig) (firstX firstY secondX secondY : Int) : Option EndpointState :=
  let x1 := firstX
  let y1 := firstY
  let x2 := secondX
  let y2 := secondY
  let dx : Int := |x2 - x1|
  let dy : Int := |y2 - y1|
  let sx : Int := if x1 < x2 then 1 else -1
  let sy : Int := if y1 < y2 then 1 else -1
  let error : Int := Int.tdiv (if dx > dy then dx else -dy) 2
  endpointLoop rgba8 width yellowCfg x2 y2 dx dy sx sy fuel x1 y1 error
    { firstX := firstX, firstY := firstY, secondX := secondX, secondY := secondY,
      foundColorStart := false, inColor := false, lastX := x2, lastY := y2, visited := [] }

/-- The function `_get_distance`: the square root is truncated to an `int`. -/
def _get_distance (x0 y0 x1 y1 : Int) : Int :=
  (Nat.sqrt ((x1 - x0) * (x1 - x0) + (y1 - y0) * (y1 - y0)).toNat : Int)

/-! ## Ranking -/

/-- The state of `find_appearances_of_bar_code`: `count` and the two output buffers. An entry
of `results` is the index `i` of the appearance it points to (`&appearances[i]`). -/
structure RankState where
  count : Nat
  results : Nat → Nat
  resultScores : Nat → ℚ

/-- The loop `for (size_t j = count; j > insertPosition; j--)` that moves the entries at and
after `insertPosition` down by one; `n` is the number of iterations left. -/
def shiftDown (insertPosition : Nat) : Nat → Nat → RankState → RankState
  | 0, _, s => s
  | n + 1, j, s =>
    if j > insertPosition then
      shiftDown insertPosition n (j - 1)
        { s with
          results := Function.update s.results j (s.results (j - 1))
          resultScores := Function.update s.resultScores j (s.resultScores (j - 1)) }
    else s

/-- The body of the loop `for (size_t i = 0; i < appearanceCount; i++)` of
`find_appearances_of_bar_code`; `none` when the scoring fails. -/
def rankStep (fuel : Nat) (barCode : BarCode) (minLineDistance : Int) (minMatchScore : ℚ)
    (appearances : Nat → BarCodeAppearance) (maxResultCount : Nat)
    (s : RankState) (i : Nat) : Option RankState :=
  let lineDistance := _get_distance (appearances i).colorStartX (appearances i).colorStartY
    (appearances i).colorEndX (appearances i).colorEndY
  if lineDistance < minLineDistance then some s
  else
    match quantify_bar_code_appearance_match fuel barCode (appearances i) with
    | none => none
    | some matchScore =>
      if matchScore < minMatchScore then some s
      else
        let found := (List.range s.count).find? (fun j => matchScore > s.resultScores j)
        let insertPosition? : Option Nat :=
          match found with
          | some j => some j
          | none => if s.count < maxResultCount then some s.count else none
        match insertPosition? with
        | none => some s
        | some insertPosition =>
          if insertPosition < maxResultCount ∧ s.count < maxResultCount then
            let s := if s.count > 0 then shiftDown insertPosition s.count s.count s else s
            some { count := s.count + 1
                   results := Function.update s.results insertPosition i
                   resultScores := Function.update s.resultScores insertPosition matchScore }
          else some s

/-- The function `find_appearances_of_bar_code`. The result is the final state: its `count` is
the returned value and the first `count` entries of `results` and `resultScores` are the
ranking. `none` when scoring an appearance fails (assertion or fuel). -/
def find_appearances_of_bar_code (fuel : Nat) (barCode : BarCode) (minLineDistance : Int)
    (minMatchScore : ℚ) (appearances : Nat → BarCodeAppearance) (appearanceCount : Nat)
    (results : Nat → Nat) (resultScores : Nat → ℚ) (maxResultCount : Nat) : Option RankState :=
  (List.range appearanceCount).foldlM
    (rankStep fuel barCode minLineDistance minMatchScore appearances maxResultCount)
    { count := 0, results := results, resultScores := resultScores }

/-- The ranking held by a state: the pairs `(results[j], resultScores[j])` for `j < count`. -/
def RankState.ranking (s : RankState) : List (Nat × ℚ) :=
  (List.range s.count).map (fun j => (s.results j, s.resultScores j))

/-- A pattern given by a list of colours. -/
def barCodeOf (l : List BarCodeColor) : BarCode :=
  { colors := fun k => l.getD k default, colorCount := l.length }

/-- An appearance with the given endpoints and section averages (lists of red, green and blue
averages of equal length). -/
def appearanceOf (x0 y0 x1 y1 : Int) (r g b : List ℚ) : BarCodeAppearance :=
  { _firstBox := default, _secondBox := default,
    colorStartX := x0, colorStartY := y0, colorEndX := x1, colorEndY := y1,
    sectionCount := r.length,
    redAverage := fun k => r.getD k 0, greenAverage := fun k => g.getD k 0,
    blueAverage := fun k => b.getD k 0, pixelCount := fun _ => 1 }

/-- The pattern read backwards: the first `colorCount` colours in reverse order. -/
def BarCode.reverse (code : BarCode) : BarCode :=
  { colors := fun k => code.colors (code.colorCount - 1 - k), colorCount := code.colorCount }

/-- The term of the score for expected colour `c` at section `k`: the average of channel `c`
minus the averages of the two other channels. -/
def sectionTerm (appearance : BarCodeAppearance) (c : BarCodeColor) (k : Nat) : ℚ :=
  match c with
  | .BAR_CODE_RED => appearance.redAverage k - appearance.greenAverage k - appearance.blueAverage k
  | .BAR_CODE_GREEN => appearance.greenAverage k - appearance.redAverage k - appearance.blueAverage k
  | .BAR_CODE_BLUE => appearance.blueAverage k - appearance.redAverage k - appearance.greenAverage k

/-- Clamping to the interval `[0, 1]`. -/
def clamp01 (q : ℚ) : ℚ := max 0 (min 1 q)

/-- The forward score as the specification words it: the clamped mean of the section terms,
section `i` being matched with colour `i`. -/
def forwardScore (code : BarCode) (appearance : BarCodeAppearance) : ℚ :=
  clamp01 ((1 / (code.colorCount : ℚ)) *
    ∑ i in Finset.range code.colorCount, sectionTerm appearance (code.colors i) i)

/-- The reverse score as the specification words it: colour `i` is matched with section
`N - 1 - i`. -/
def reverseScore (code : BarCode) (appearance : BarCodeAppearance) : ℚ :=
  clamp01 ((1 / (code.colorCount : ℚ)) *
    ∑ i in Finset.range code.colorCount,
      sectionTerm appearance (code.colors i) (code.colorCount - 1 - i))

/-- The state reached by `rankStep` when the candidate `i` with score `m` is stored at
position `p`: the entries at and after `p` have moved down by one. -/
def insertedState (s : RankState) (p i : Nat) (m : ℚ) : RankState :=
  { count := s.count + 1
    results := fun t => if t = p then i else if p < t ∧ t ≤ s.count then s.results (t - 1)
      else s.results t
    resultScores := fun t => if t = p then m else if p < t ∧ t ≤ s.count then
      s.resultScores (t - 1) else s.resultScores t }

/-- Three test appearances of one section each, all with the segment `(0,0)-(10,0)`; their
red averages are `1/5`, `9/10` and `1/2`, the green and blue averages are zero. -/
def rankTestAppearances : Nat → BarCodeAppearance :=
  fun i => [appearanceOf 0 0 10 0 [1 / 5] [0] [0], appearanceOf 0 0 10 0 [9 / 10] [0] [0],
    appearanceOf 0 0 10 0 [1 / 2] [0] [0]].getD i (appearanceOf 0 0 10 0 [0] [0] [0])

/-- The pixels visited by a line-walk loop that is at `(x1, y1)` with the given `error`: the
current pixel, and, unless it is `(x2, y2)`, the pixels visited after `walkStep`. -/
def walkTrace (x2 y2 dx dy sx sy : Int) : Nat → Int → Int → Int → Option (List (Int × Int))
  | 0, _, _, _ => none
  | fuel + 1, x1, y1, error =>
    if x1 = x2 ∧ y1 = y2 then some [(x1, y1)]
    else
      (walkTrace x2 y2 dx dy sx sy fuel (walkStep dx dy sx sy x1 y1 error).1
        (walkStep dx dy sx sy x1 y1 error).2.1 (walkStep dx dy sx sy x1 y1 error).2.2).map
        (fun t => (x1, y1) :: t)

/-- Two pixels that differ by at most 1 in `x` and by at most 1 in `y`. -/
def adjacentPixels (p q : Int × Int) : Prop :=
  |q.1 - p.1| ≤ 1 ∧ |q.2 - p.2| ≤ 1

/-- The properties of a trace that starts at `p0`, ends at `(x2, y2)`, has `m + 1` pixels, no
repeated pixel and only steps between adjacent pixels. -/
def GoodTrace (t : List (Int × Int)) (p0 : Int × Int) (x2 y2 : Int) (m : Nat) : Prop :=
  t.length = m + 1 ∧ t.head? = some p0 ∧ t.getLast? = some (x2, y2) ∧ t.Nodup ∧
    t.Chain' adjacentPixels

/-- A test image of one row and 8 columns: the pixels of columns 1 and 2 are red
`(255, 0, 0)`, all the others are yellow `(255, 255, 0)`. -/
def endpointTestRow : Nat → Nat :=
  fun j => if j % 4 = 0 then 255 else if j % 4 = 1 ∧ j / 4 ≠ 1 ∧ j / 4 ≠ 2 then 255 else 0

/-- The classification by `is_yellow` of the pixel `(x, y)` of an image. -/
def yellowAt (rgba8 : Nat → Nat) (width : Int) (yellowCfg : YellowConfig) (p : Int × Int) :
    Bool :=
  is_yellow (rgba8 (pixelOffset width p.1 p.2 0)) (rgba8 (pixelOffset width p.1 p.2 1))
    (rgba8 (pixelOffset width p.1 p.2 2)) yellowCfg

/-! ## Auxiliary definitions for the proofs about `find_yellow_lines` -/

/-- The part of a `ScanState` besides `dst`: `onLine`, `currentLine` and `blocks`. -/
abbrev ScanCore := Bool × YellowScanLine × Nat

/-- The part of a `ScanState` besides `dst`. -/
def ScanState.core (s : ScanState) : ScanCore := (s.onLine, s.currentLine, s.blocks)

/-- Storing the lines `r.1` one after the other into a buffer that holds `dst` and has room for
`maxCount` lines, continuing with the state `r.2`: the outcome is an early return with the
full buffer as soon as a line does not fit. -/
def pushAll (maxCount : Nat) (dst : List YellowScanLine)
    (r : List YellowScanLine × ScanCore) : Except (List YellowScanLine) ScanState :=
  if dst.length + r.1.length ≤ maxCount then
    .ok { dst := dst ++ r.1, onLine := r.2.1, currentLine := r.2.2.1, blocks := r.2.2.2 }
  else .error ((dst ++ r.1).take maxCount)

/-- A loop over a list whose body returns the lines it emits together with the next state:
the emitted lines are concatenated. -/
def emitFold {α ρ : Type} (R : ρ → α → List YellowScanLine × ρ) :
    List α → ρ → List YellowScanLine × ρ
  | [], st => ([], st)
  | a :: as, st => ((R st a).1 ++ (emitFold R as (R st a).2).1, (emitFold R as (R st a).2).2)

/-- What `scanPixel` emits and the state it leaves, capacity aside. -/
def pixelEmit (x y : Int) (yellowMask : M256) (st : ScanCore) (i : Nat) :
    List YellowScanLine × ScanCore :=
  if m256i_i32 yellowMask i != 0 then
    if st.1 then ([], (true, { st.2.1 with end_ := st.2.1.end_ + 1 }, st.2.2))
    else ([], (true, { start := x + i, end_ := x + i, y := y, _ignore := false }, st.2.2))
  else
    if st.1 then ([st.2.1], (false, st.2.1, st.2.2)) else ([], st)

/-- What `scanBlock` emits and the state it leaves, capacity aside. -/
def blockEmit (rgba8 : Nat → Nat) (configAvx : YellowConfigAVX) (y : Int) (st : ScanCore)
    (x : Int) : List YellowScanLine × ScanCore :=
  let yellowMask := _are_yellow (fun j => rgba8 (32 * st.2.2 + j)) configAvx
  if _mm256_testz_si256 yellowMask yellowMask != 0 then
    if st.1 then ([st.2.1], (false, st.2.1, st.2.2 + 1)) else ([], (st.1, st.2.1, st.2.2 + 1))
  else emitFold (pixelEmit x y yellowMask) (List.range 8) (st.1, st.2.1, st.2.2 + 1)

/-- What `scanRow` emits and the state it leaves, capacity aside. -/
def rowEmit (rgba8 : Nat → Nat) (configAvx : YellowConfigAVX) (width : Int) (st : ScanCore)
    (y : Nat) : List YellowScanLine × ScanCore :=
  let r := emitFold (blockEmit rgba8 configAvx y) (blockColumns width) (false, st.2.1, st.2.2)
  if r.2.1 then (r.1 ++ [r.2.2.1], (false, r.2.2.1, r.2.2.2)) else r

/-- The scan of one pixel of a row, as `pixelEmit` but for a row given by its classification
`cls` (column to Boolean) and without the block pointer: `p` is the column of the pixel. -/
def rowPixel (cls : Int → Bool) (y : Int) (st : Bool × YellowScanLine) (p : Nat) :
    List YellowScanLine × (Bool × YellowScanLine) :=
  if cls p then
    if st.1 then ([], (true, { st.2 with end_ := st.2.end_ + 1 }))
    else ([], (true, { start := p, end_ := p, y := y, _ignore := false }))
  else
    if st.1 then ([st.2], (false, st.2)) else ([], st)

/-- Adding the block pointer `b` to a result of `rowPixel`. -/
def withBlocks (b : Nat) (r : List YellowScanLine × (Bool × YellowScanLine)) :
    List YellowScanLine × ScanCore :=
  (r.1, r.2.1, r.2.2, b)

/-- Whether the line `l` covers the column `x`. -/
def coversColumn (x : Int) (l : YellowScanLine) : Bool :=
  decide (l.start ≤ x ∧ x ≤ l.end_)

/-- Whether the line `l` covers the pixel `(x, y)`. -/
def coversPixel (x y : Int) (l : YellowScanLine) : Bool :=
  decide (l.y = y ∧ l.start ≤ x ∧ x ≤ l.end_)

/-- Whether a run starts at column `p` of a row with classification `cls`: the pixel is
classified and its left neighbour, if there is one, is not. -/
def isRunStart (cls : Int → Bool) (p : Nat) : Bool :=
  cls p && !(decide (0 < p) && cls ((p : Int) - 1))

/-- The number of maximal horizontal runs of classified pixels in the image. -/
def runCount (rgba8 : Nat → Nat) (width height : Int) (cfg : YellowConfig) : Nat :=
  ((List.range height.toNat).map (fun (y : Nat) =>
    (List.range width.toNat).countP
      (isRunStart (fun x => classified rgba8 width cfg x y)))).sum

/-- The invariant of the scan of a row `y` with classification `cls` after the columns
`0..n-1`: `E` are the lines emitted so far, `onL` and `cur` the flag `onLine` and the variable
`currentLine`. -/
structure RowInv (cls : Int → Bool) (y : Int) (n : Nat) (E : List YellowScanLine) (onL : Bool)
    (cur : YellowScanLine) : Prop where
  wf : ∀ l ∈ E, l.y = y ∧ 0 ≤ l.start ∧ l.start ≤ l.end_ ∧ l.end_ + 1 < n
  yellow : ∀ l ∈ E, ∀ x : Int, l.start ≤ x → x ≤ l.end_ → cls x = true
  maximal : ∀ l ∈ E, (0 < l.start → cls (l.start - 1) = false) ∧ cls (l.end_ + 1) = false
  count : ∀ x : Int, E.countP (coversColumn x)
    = if 0 ≤ x ∧ x < n ∧ cls x = true ∧ ¬ (onL = true ∧ cur.start ≤ x) then 1 else 0
  len : E.length + (if onL = true then 1 else 0) = (List.range n).countP (isRunStart cls)
  cur_ok : onL = true → cur.y = y ∧ 0 ≤ cur.start ∧ cur.start ≤ cur.end_ ∧ cur.end_ + 1 = n ∧
    (∀ x : Int, cur.start ≤ x → x ≤ cur.end_ → cls x = true) ∧
    (0 < cur.start → cls (cur.start - 1) = false)
  off_ok : onL = false → 0 < n → cls ((n : Int) - 1) = false

/-- What the lines `L` emitted for a complete row `y` of width `W` with classification `cls`
satisfy: they are the maximal runs of the row. -/
structure RowDone (cls : Int → Bool) (y : Int) (W : Nat) (L : List YellowScanLine) : Prop where
  wf : ∀ l ∈ L, l.y = y ∧ 0 ≤ l.start ∧ l.start ≤ l.end_ ∧ l.end_ < W
  yellow : ∀ l ∈ L, ∀ x : Int, l.start ≤ x → x ≤ l.end_ → cls x = true
  maximal : ∀ l ∈ L, (0 < l.start → cls (l.start - 1) = false) ∧
    (l.end_ + 1 < W → cls (l.end_ + 1) = false)
  count : ∀ x : Int, L.countP (coversColumn x)
    = if 0 ≤ x ∧ x < W ∧ cls x = true then 1 else 0
  len : L.length = (List.range W).countP (isRunStart cls)

/-- What the lines `L` emitted for the rows `0..h-1` of an image of width `W` satisfy. -/
structure ImageInv (rgba8 : Nat → Nat) (width : Int) (cfg : YellowConfig) (W h : Nat)
    (L : List YellowScanLine) : Prop where
  wf : ∀ l ∈ L, 0 ≤ l.y ∧ l.y < h ∧ 0 ≤ l.start ∧ l.start ≤ l.end_ ∧ l.end_ < W
  yellow : ∀ l ∈ L, ∀ x : Int, l.start ≤ x → x ≤ l.end_ →
    classified rgba8 width cfg x l.y = true
  maximal : ∀ l ∈ L, (0 < l.start → classified rgba8 width cfg (l.start - 1) l.y = false) ∧
    (l.end_ + 1 < W → classified rgba8 width cfg (l.end_ + 1) l.y = false)
  count : ∀ x y : Int, L.countP (coversPixel x y)
    = if 0 ≤ y ∧ y < h ∧ 0 ≤ x ∧ x < W ∧ classified rgba8 width cfg x y = true then 1 else 0
  len : L.length = ((List.range h).map (fun (y : Nat) =>
    (List.range W).countP (isRunStart (fun x => classified rgba8 width cfg x y)))).sum

/-! ## Auxiliary definitions for the proofs about `find_yellow_rectangles` -/

/-- Two lines of the array `lines[0..n)` are adjacent under the spacing `S`. -/
def lineAdjacent (lines : Nat → YellowScanLine) (n : Nat) (S : Int) (a b : Nat) : Prop :=
  a < n ∧ b < n ∧ _are_lines_adjacent (lines a) (lines b) S = true

/-- Two lines are linked by a chain of adjacent lines. -/
def Connected (lines : Nat → YellowScanLine) (n : Nat) (S : Int) : Nat → Nat → Prop :=
  Relation.ReflTransGen (lineAdjacent lines n S)

/-- The box `box` is the bounding box of the connected component of the line `i`: its left
and top are the least start and row, its right and bottom the greatest end and row, over the
lines linked to `i`. -/
def IsComponentBox (lines : Nat → YellowScanLine) (n : Nat) (S : Int) (i : Nat)
    (box : YellowBoundingBox) : Prop :=
  ((∃ k, Connected lines n S i k ∧ (lines k).start = box.left) ∧
    ∀ k, Connected lines n S i k → box.left ≤ (lines k).start) ∧
  ((∃ k, Connected lines n S i k ∧ (lines k).end_ = box.right) ∧
    ∀ k, Connected lines n S i k → (lines k).end_ ≤ box.right) ∧
  ((∃ k, Connected lines n S i k ∧ (lines k).y = box.top) ∧
    ∀ k, Connected lines n S i k → box.top ≤ (lines k).y) ∧
  ((∃ k, Connected lines n S i k ∧ (lines k).y = box.bottom) ∧
    ∀ k, Connected lines n S i k → (lines k).y ≤ box.bottom)

/-- Two scan lines with the same `start`, `end` and `y`. -/
def sameGeom (a b : YellowScanLine) : Prop :=
  a.start = b.start ∧ a.end_ = b.end_ ∧ a.y = b.y

/-- The invariant of the collecting loop of `find_yellow_rectangles` for the seed line `i`:
`lines0` is the array at the call, `flag0` the `_ignore` flags when the seed is reached, `j` the
number of members already expanded, `fl` tells whether the seed has been flagged. -/
structure CollectInv (lines0 : Nat → YellowScanLine) (n : Nat) (S : Int) (i : Nat)
    (flag0 : Nat → Bool) (j : Nat) (fl : Bool) (c : CollectState) : Prop where
  geom : ∀ k, sameGeom (c.lines k) (lines0 k)
  seed : c.tmpIndexBuffer 0 = i
  pos : 1 ≤ c.containedLineCount
  mem : ∀ t < c.containedLineCount, c.tmpIndexBuffer t < n ∧ i ≤ c.tmpIndexBuffer t ∧
    Connected lines0 n S i (c.tmpIndexBuffer t)
  inj : ∀ t t', t < c.containedLineCount → t' < c.containedLineCount →
    c.tmpIndexBuffer t = c.tmpIndexBuffer t' → t = t'
  flags : ∀ k < n, (c.lines k)._ignore = true ↔
    (flag0 k = true ∨ ∃ t < c.containedLineCount, c.tmpIndexBuffer t = k ∧ (0 < t ∨ fl = true))
  closed : ∀ t < j, ∀ k, lineAdjacent lines0 n S (c.tmpIndexBuffer t) k →
    ∃ t' < c.containedLineCount, c.tmpIndexBuffer t' = k
  ran : c.ranOutOfTempSpace = false

/-- The invariant of the fitting loop of `find_yellow_rectangles` after `m` of the collected
lines: the box reaches at least as far as the seed line `seed` and the lines
`tmp[0..m)`, and each side is the side of one of them. -/
structure FitInv (lines0 : Nat → YellowScanLine) (tmp : Nat → Nat) (seed : YellowScanLine)
    (m : Nat) (box : YellowBoundingBox) : Prop where
  left_le : box.left ≤ seed.start ∧ ∀ t < m, box.left ≤ (lines0 (tmp t)).start
  left_mem : box.left = seed.start ∨ ∃ t < m, box.left = (lines0 (tmp t)).start
  right_le : seed.end_ ≤ box.right ∧ ∀ t < m, (lines0 (tmp t)).end_ ≤ box.right
  right_mem : box.right = seed.end_ ∨ ∃ t < m, box.right = (lines0 (tmp t)).end_
  top_le : box.top ≤ seed.y ∧ ∀ t < m, box.top ≤ (lines0 (tmp t)).y
  top_mem : box.top = seed.y ∨ ∃ t < m, box.top = (lines0 (tmp t)).y
  bottom_le : seed.y ≤ box.bottom ∧ ∀ t < m, (lines0 (tmp t)).y ≤ box.bottom
  bottom_mem : box.bottom = seed.y ∨ ∃ t < m, box.bottom = (lines0 (tmp t)).y

/-- The invariant of the outer loop of `find_yellow_rectangles` before the line `i`: the
flagged lines are those linked to a line below `i`, and the boxes emitted so far are the
component boxes of the lines `seeds`, the least lines of the components met so far. -/
structure OuterInv (lines0 : Nat → YellowScanLine) (n : Nat) (S : Int) (i : Nat)
    (s : RectState) (seeds : List Nat) : Prop where
  geom : ∀ k, sameGeom (s.lines k) (lines0 k)
  flags : ∀ k < n, (s.lines k)._ignore = true ↔ ∃ j' < i, Connected lines0 n S j' k
  sorted : seeds.Pairwise (· < ·)
  mem : ∀ j, j ∈ seeds ↔ j < i ∧ ∀ j' < j, ¬ Connected lines0 n S j' j
  boxes : List.Forall₂
    (fun j box => box.isComplete = true ∧ IsComponentBox lines0 n S j box) seeds s.dst
  len : s.dst.length ≤ i

/-- The update of the state of `_find_colorful_line_endpoints` by the part of the loop body
that reads and classifies the pixel `p`. -/
def visitPixel (rgba8 : Nat → Nat) (width : Int) (yellowCfg : YellowConfig)
    (s : EndpointState) (p : Int × Int) : EndpointState :=
  let r := rgba8 (pixelOffset width p.1 p.2 0)
  let g := rgba8 (pixelOffset width p.1 p.2 1)
  let b := rgba8 (pixelOffset width p.1 p.2 2)
  let s := { s with visited := s.visited ++ [(p.1, p.2)] }
  if is_yellow r g b yellowCfg then
    if s.inColor then { s with secondX := s.lastX, secondY := s.lastY, inColor := false }
    else s
  else
    if s.inColor then s
    else
      let s := if !s.foundColorStart then
          { s with firstX := p.1, firstY := p.2, foundColorStart := true }
        else s
      { s with inColor := true }

/-- The loop of `_find_colorful_line_endpoints` run over a given list of pixels: every pixel
is visited, and before the next pixel is visited `lastX`, `lastY` are set to it. -/
def endpointFold (rgba8 : Nat → Nat) (width : Int) (yellowCfg : YellowConfig) :
    List (Int × Int) → EndpointState → EndpointState
  | [], s => s
  | [p], s => visitPixel rgba8 width yellowCfg s p
  | p :: q :: rest, s =>
    endpointFold rgba8 width yellowCfg (q :: rest)
      { visitPixel rgba8 width yellowCfg s p with lastX := q.1, lastY := q.2 }

/-! ## Sampling of an appearance -/

/-- The constant `BAR_CODE_MAX_COLOR_COUNT`. -/
def BAR_CODE_MAX_COLOR_COUNT : Int := 25

/-- The function `quantify_red`. -/
def quantify_red (r g b : Nat) : ℚ :=
  if r > g ∧ r > b then 1 else 0

/-- The function `quantify_green`. -/
def quantify_green (r g b : Nat) : ℚ :=
  if g > r ∧ g > b then 1 else 0

/-- The function `quantify_blue`. -/
def quantify_blue (r g b : Nat) : ℚ :=
  if b > r ∧ b > g then 1 else 0

/-- The conversion `(int)` of a `float`: truncation toward zero. -/
def truncToInt (q : ℚ) : Int :=
  if 0 ≤ q then ⌊q⌋ else ⌈q⌉

/-- The section index computed at the head of the loop body of `_read_bar_code_appearance`
from `currentDistance`, with its saturation. -/
def sectionIndexOf (sectionCount totalDistance currentDistance : Int) : Int :=
  let progress : ℚ := (currentDistance : ℚ) / (totalDistance : ℚ)
  let sectionIndex : Int := truncToInt (progress * (sectionCount : ℚ))
  let sectionIndex := if sectionIndex ≥ BAR_CODE_MAX_COLOR_COUNT then
    BAR_CODE_MAX_COLOR_COUNT - 1 else sectionIndex
  let sectionIndex := if sectionIndex < 0 then 0 else sectionIndex
  sectionIndex

/-- The accumulation `ret.redAverage[k] += redNess; ...; ret.pixelCount[k]++`. -/
def accumulate (ret : BarCodeAppearance) (k : Nat) (redNess greenNess blueNess : ℚ) :
    BarCodeAppearance :=
  { ret with
    redAverage := Function.update ret.redAverage k (ret.redAverage k + redNess)
    greenAverage := Function.update ret.greenAverage k (ret.greenAverage k + greenNess)
    blueAverage := Function.update ret.blueAverage k (ret.blueAverage k + blueNess)
    pixelCount := Function.update ret.pixelCount k (ret.pixelCount k + 1) }

/-- The walk loop of `_read_bar_code_appearance`. Besides `ret`, the state records every
visited pixel with the section index it was accumulated into, in order. -/
def readLoop (rgba8 : Nat → Nat) (width sectionCount origX origY endX endY dx dy sx sy
    totalDistance : Int) :
    Nat → Int → Int → Int → BarCodeAppearance → List ((Int × Int) × Int) →
      Option (BarCodeAppearance × List ((Int × Int) × Int))
  | 0, _, _, _, _, _ => none
  | fuel + 1, startX, startY, error, ret, buckets =>
    let currentDistance := _get_distance startX startY origX origY
    let sectionIndex := sectionIndexOf sectionCount totalDistance currentDistance
    let r := rgba8 (pixelOffset width startX startY 0)
    let g := rgba8 (pixelOffset width startX startY 1)
    let b := rgba8 (pixelOffset width startX startY 2)
    let redNess := quantify_red r g b
    let greenNess := quantify_green r g b
    let blueNess := quantify_blue r g b
    let ret := accumulate ret sectionIndex.toNat redNess greenNess blueNess
    let buckets := buckets ++ [((startX, startY), sectionIndex)]
    if startX = endX ∧ startY = endY then some (ret, buckets)
    else
      readLoop rgba8 width sectionCount origX origY endX endY dx dy sx sy totalDistance fuel
        (walkStep dx dy sx sy startX startY error).1
        (walkStep dx dy sx sy startX startY error).2.1
        (walkStep dx dy sx sy startX startY error).2.2 ret buckets

/-- The body of the first loop of `_read_bar_code_appearance`, which clears section `i`. -/
def clearSection (ret : BarCodeAppearance) (i : Nat) : BarCodeAppearance :=
  { ret with
    redAverage := Function.update ret.redAverage i 0
    blueAverage := Function.update ret.blueAverage i 0
    greenAverage := Function.update ret.greenAverage i 0
    pixelCount := Function.update ret.pixelCount i 0 }

/-- The body of the last loop of `_read_bar_code_appearance`, which turns the sums of section
`i` into averages (a division by a zero count yields 0 in `ℚ`; in C it yields a NaN or an infinity). -/
def averageSection (ret : BarCodeAppearance) (i : Nat) : BarCodeAppearance :=
  { ret with
    redAverage := Function.update ret.redAverage i (ret.redAverage i / (ret.pixelCount i : ℚ))
    greenAverage :=
      Function.update ret.greenAverage i (ret.greenAverage i / (ret.pixelCount i : ℚ))
    blueAverage :=
      Function.update ret.blueAverage i (ret.blueAverage i / (ret.pixelCount i : ℚ)) }

/-- The function `_read_bar_code_appearance`. `uninitialized` is the content of the local
variable `ret` before it is assigned. The result is the state after the walk (the sums and
counts), the returned appearance, and the visited pixels with their section indices; `none`
when the fuel does not suffice. -/
def _read_bar_code_appearance (fuel : Nat) (uninitialized : BarCodeAppearance)
    (rgba8 : Nat → Nat) (width height sectionCount : Int)
    (startBox endBox : YellowBoundingBox) (startX startY endX endY : Int) :
    Option (BarCodeAppearance × BarCodeAppearance × List ((Int × Int) × Int)) :=
  let ret : BarCodeAppearance :=
    { uninitialized with
      _firstBox := startBox, _secondBox := endBox, sectionCount := sectionCount,
      colorStartX := startX, colorStartY := startY, colorEndX := endX, colorEndY := endY }
  let ret := (List.range sectionCount.toNat).foldl clearSection ret
  let origX := startX
  let origY := startY
  let dx : Int := |endX - startX|
  let dy : Int := |endY - startY|
  let sx : Int := if startX < endX then 1 else -1
  let sy : Int := if startY < endY then 1 else -1
  let error : Int := Int.tdiv (if dx > dy then dx else -dy) 2
  let totalDistance := _get_distance startX startY endX endY
  match readLoop rgba8 width sectionCount origX origY endX endY dx dy sx sy totalDistance fuel
      startX startY error ret [] with
  | none => none
  | some (sums, buckets) =>
    some (sums, (List.range sectionCount.toNat).foldl averageSection sums, buckets)

/-- The section index that `_read_bar_code_appearance` computes for the pixel `p` of the walk
from `(origX, origY)`. -/
def sectionOfPixel (sectionCount origX origY totalDistance : Int) (p : Int × Int) : Int :=
  sectionIndexOf sectionCount totalDistance (_get_distance p.1 p.2 origX origY)

/-- What one iteration of the walk loop of `_read_bar_code_appearance` does at pixel `p` to
`ret` and to the recorded list. -/
def readPixel (rgba8 : Nat → Nat) (width sectionCount origX origY totalDistance : Int)
    (st : BarCodeAppearance × List ((Int × Int) × Int)) (p : Int × Int) :
    BarCodeAppearance × List ((Int × Int) × Int) :=
  (accumulate st.1 (sectionOfPixel sectionCount origX origY totalDistance p).toNat
      (quantify_red (rgba8 (pixelOffset width p.1 p.2 0)) (rgba8 (pixelOffset width p.1 p.2 1))
        (rgba8 (pixelOffset width p.1 p.2 2)))
      (quantify_green (rgba8 (pixelOffset width p.1 p.2 0)) (rgba8 (pixelOffset width p.1 p.2 1))
        (rgba8 (pixelOffset width p.1 p.2 2)))
      (quantify_blue (rgba8 (pixelOffset width p.1 p.2 0)) (rgba8 (pixelOffset width p.1 p.2 1))
        (rgba8 (pixelOffset width p.1 p.2 2))),
    st.2 ++ [(p, sectionOfPixel sectionCount origX origY totalDistance p)])

/-! ## Auxiliary definitions for the proofs about `find_yellow_rectangles` with any capacity -/

/-- The invariant of the collecting loop of `find_yellow_rectangles` for the seed line `i` and a
scratch of `T` indices, while the member `tmp[j]` is compared with the lines below `K`: `lines0`
is the array at the call, `flag0` the `_ignore` flags when the seed is reached, `fl` tells
whether the seed has been flagged. A pair `(t, k)` has been compared when `t < j`, or `t = j`
and `k < K`. -/
structure CapCollectInv (lines0 : Nat → YellowScanLine) (n : Nat) (S : Int) (T i : Nat)
    (flag0 : Nat → Bool) (j K : Nat) (fl : Bool) (c : CollectState) : Prop where
  geom : ∀ k, sameGeom (c.lines k) (lines0 k)
  seed : c.tmpIndexBuffer 0 = i
  pos : 1 ≤ c.containedLineCount
  cap : c.containedLineCount ≤ T
  mem : ∀ t < c.containedLineCount, c.tmpIndexBuffer t < n ∧ i ≤ c.tmpIndexBuffer t ∧
    flag0 (c.tmpIndexBuffer t) = false
  inj : ∀ t t', t < c.containedLineCount → t' < c.containedLineCount →
    c.tmpIndexBuffer t = c.tmpIndexBuffer t' → t = t'
  flags : ∀ k, (c.lines k)._ignore = true ↔
    (flag0 k = true ∨ ∃ t < c.containedLineCount, c.tmpIndexBuffer t = k ∧ (0 < t ∨ fl = true))
  link : ∀ t < c.containedLineCount, 0 < t → ∃ t' < t,
    _are_lines_adjacent (lines0 (c.tmpIndexBuffer t')) (lines0 (c.tmpIndexBuffer t)) S = true
  ranT : c.ranOutOfTempSpace = true → T ≤ c.containedLineCount ∧
    ∃ t k, t < c.containedLineCount ∧ (t < j ∨ (t = j ∧ k < K)) ∧ i < k ∧ k < n ∧
      (c.lines k)._ignore = false ∧
      _are_lines_adjacent (lines0 (c.tmpIndexBuffer t)) (lines0 k) S = true
  ranF : c.ranOutOfTempSpace = false → ∀ t k, t < c.containedLineCount →
    (t < j ∨ (t = j ∧ k < K)) → i < k → k < n →
    _are_lines_adjacent (lines0 (c.tmpIndexBuffer t)) (lines0 k) S = true →
    (c.lines k)._ignore = true

/-- The relation between a box `box` emitted by `find_yellow_rectangles`, the list `g` of the
lines collected into it (in the order of collection, the seed first) and the lists `prev` of
the lines collected into the boxes before it, for a scratch of `T` indices. -/
structure GroupBox (lines0 : Nat → YellowScanLine) (n : Nat) (S : Int) (T : Nat)
    (prev : List (List Nat)) (g : List Nat) (box : YellowBoundingBox) : Prop where
  nonempty : g ≠ []
  nodup : g.Nodup
  cap : g.length ≤ T
  mem : ∀ a ∈ g, g.headD 0 ≤ a ∧ a < n ∧ ∀ p ∈ prev, a ∉ p
  first : ∀ k < g.headD 0, ∃ p ∈ prev, k ∈ p
  link : ∀ t < g.length, 0 < t → ∃ t' < t,
    _are_lines_adjacent (lines0 (g.getD t' 0)) (lines0 (g.getD t 0)) S = true
  left : (∀ a ∈ g, box.left ≤ (lines0 a).start) ∧ ∃ a ∈ g, box.left = (lines0 a).start
  right : (∀ a ∈ g, (lines0 a).end_ ≤ box.right) ∧ ∃ a ∈ g, box.right = (lines0 a).end_
  top : (∀ a ∈ g, box.top ≤ (lines0 a).y) ∧ ∃ a ∈ g, box.top = (lines0 a).y
  bottom : (∀ a ∈ g, (lines0 a).y ≤ box.bottom) ∧ ∃ a ∈ g, box.bottom = (lines0 a).y
  incomplete : box.isComplete = false ↔
    ∃ a ∈ g, ∃ k, g.headD 0 < k ∧ k < n ∧ k ∉ g ∧ (∀ p ∈ prev, k ∉ p) ∧
      _are_lines_adjacent (lines0 a) (lines0 k) S = true
  full : box.isComplete = false → g.length = T

/-- The invariant of the outer loop of `find_yellow_rectangles` before the line `i`, for any
capacities `T` of the scratch and `M` of the destination: `groups` are the lists of lines
collected into the boxes emitted so far. -/
structure GroupsInv (lines0 : Nat → YellowScanLine) (n : Nat) (S : Int) (T M i : Nat)
    (s : RectState) (groups : List (List Nat)) : Prop where
  geom : ∀ k, sameGeom (s.lines k) (lines0 k)
  flags : ∀ k < n, (s.lines k)._ignore = true ↔ ∃ g ∈ groups, k ∈ g
  below : ∀ k < i, (s.lines k)._ignore = true
  len : groups.length = s.dst.length
  fits : s.dst.length ≤ M
  boxes : ∀ m g box, groups[m]? = some g → s.dst[m]? = some box →
    GroupBox lines0 n S T (groups.take m) g box

/-- The lines whose indices are in `tmp[0..count)`, in this order. -/
def collected (tmp : Nat → Nat) (count : Nat) : List Nat :=
  (List.range count).map tmp

/-! ## Appearances between pairs of boxes -/

/-- How the loops of `find_bar_code_appearances` are left early: the fuel of a line walk ran
out, or the statement `return count` was reached with the filled part `dst[0..count)`. -/
inductive AppearExit where
  | outOfFuel
  | returned (dst : List BarCodeAppearance)

/-- The body of the loop `for (size_t j = i + 1; j < yellowBoxCount; j++)` of
`find_bar_code_appearances`; the state is the filled part of `dst`. The divisions by 2
truncate toward zero. `uninitialized i j` is the content of the local variable `ret` of
`_read_bar_code_appearance` in the call made for the pair `(i, j)`. -/
def pairStep (fuel : Nat) (uninitialized : Nat → Nat → BarCodeAppearance) (rgba8 : Nat → Nat)
    (width height : Int) (yellowCfg : YellowConfig) (yellowBoxes : Nat → YellowBoundingBox)
    (sectionCount : Int) (maxCount : Nat) (i : Nat) (dst : List BarCodeAppearance) (j : Nat) :
    Except AppearExit (List BarCodeAppearance) :=
  let start := yellowBoxes i
  let startX := Int.tdiv (start.left + start.right) 2
  let startY := Int.tdiv (start.top + start.bottom) 2
  let end_ := yellowBoxes j
  let endX := Int.tdiv (end_.left + end_.right) 2
  let endY := Int.tdiv (end_.top + end_.bottom) 2
  match _find_colorful_line_endpoints fuel rgba8 width height yellowCfg startX startY endX
      endY with
  | none => .error .outOfFuel
  | some e =>
    let startX := e.firstX
    let startY := e.firstY
    let endX := e.secondX
    let endY := e.secondY
    if startX = endX ∧ startY = endY then .ok dst
    else if dst.length < maxCount then
      match _read_bar_code_appearance fuel (uninitialized i j) rgba8 width height sectionCount
          start end_ startX startY endX endY with
      | none => .error .outOfFuel
      | some r => .ok (dst ++ [r.2.1])
    else .error (.returned dst)

/-- The function `find_bar_code_appearances`: the result is the filled part of `dst` (its
length is the returned count); `none` when the fuel of a line walk does not suffice. -/
def find_bar_code_appearances (fuel : Nat) (uninitialized : Nat → Nat → BarCodeAppearance)
    (rgba8 : Nat → Nat) (width height : Int) (yellowCfg : YellowConfig)
    (yellowBoxes : Nat → YellowBoundingBox) (yellowBoxCount : Nat) (sectionCount : Int)
    (maxCount : Nat) : Option (List BarCodeAppearance) :=
  match (List.range yellowBoxCount).foldlM
      (fun (dst : List BarCodeAppearance) (i : Nat) =>
        (List.range' (i + 1) (yellowBoxCount - (i + 1))).foldlM
          (pairStep fuel uninitialized rgba8 width height yellowCfg yellowBoxes sectionCount
            maxCount i) dst) [] with
  | .ok dst => some dst
  | .error (.returned dst) => some dst
  | .error .outOfFuel => none

/-- The centre `((left + right) / 2, (top + bottom) / 2)` of a box, the divisions truncating
toward zero. -/
def boxCentre (b : YellowBoundingBox) : Int × Int :=
  (Int.tdiv (b.left + b.right) 2, Int.tdiv (b.top + b.bottom) 2)

/-- The pairs `(i, j)` with `i < j < B`, in lexicographic order. -/
def boxPairs (B : Nat) : List (Nat × Nat) :=
  (List.range B).flatMap (fun (i : Nat) =>
    (List.range' (i + 1) (B - (i + 1))).map (fun (j : Nat) => (i, j)))

/-- The segment between the centres of the boxes `i` and `j`, refined by
`_find_colorful_line_endpoints`. -/
def refinedSegment (fuel : Nat) (rgba8 : Nat → Nat) (width height : Int)
    (yellowCfg : YellowConfig) (yellowBoxes : Nat → YellowBoundingBox) (p : Nat × Nat) :
    Option EndpointState :=
  _find_colorful_line_endpoints fuel rgba8 width height yellowCfg
    (boxCentre (yellowBoxes p.1)).1 (boxCentre (yellowBoxes p.1)).2
    (boxCentre (yellowBoxes p.2)).1 (boxCentre (yellowBoxes p.2)).2

/-- Whether the refined segment of the pair `p` of boxes has distinct start and end. -/
def refinedDistinct (fuel : Nat) (rgba8 : Nat → Nat) (width height : Int)
    (yellowCfg : YellowConfig) (yellowBoxes : Nat → YellowBoundingBox) (p : Nat × Nat) : Bool :=
  match refinedSegment fuel rgba8 width height yellowCfg yellowBoxes p with
  | none => false
  | some e => !(decide (e.firstX = e.secondX ∧ e.firstY = e.secondY))

/-- The appearance sampled for the pair `p` of boxes, if its refined segment has distinct start
and end. -/
def pairAppearance (fuel : Nat) (uninitialized : Nat → Nat → BarCodeAppearance)
    (rgba8 : Nat → Nat) (width height : Int) (yellowCfg : YellowConfig)
    (yellowBoxes : Nat → YellowBoundingBox) (sectionCount : Int) (p : Nat × Nat) :
    Option BarCodeAppearance :=
  match refinedSegment fuel rgba8 width height yellowCfg yellowBoxes p with
  | none => none
  | some e =>
    if e.firstX = e.secondX ∧ e.firstY = e.secondY then none
    else
      (_read_bar_code_appearance fuel (uninitialized p.1 p.2) rgba8 width height sectionCount
        (yellowBoxes p.1) (yellowBoxes p.2) e.firstX e.firstY e.secondX e.secondY).map
        (fun r => r.2.1)

/-- Appending the appearance `a`, if there is one, to the filled part `dst` of a buffer with
room for `maxCount` appearances: the outcome is an early return when it does not fit. -/
def pushAppearance (maxCount : Nat) (dst : List BarCodeAppearance)
    (a : Option BarCodeAppearance) : Except AppearExit (List BarCodeAppearance) :=
  match a with
  | none => .ok dst
  | some a => if dst.length < maxCount then .ok (dst ++ [a]) else .error (.returned dst)

/-- The fields of an appearance besides the arrays: the two boxes, the endpoints of the colour
line and the section count. -/
def BarCodeAppearance.header (a : BarCodeAppearance) :
    YellowBoundingBox × YellowBoundingBox × Int × Int × Int × Int × Int :=
  (a._firstBox, a._secondBox, a.colorStartX, a.colorStartY, a.colorEndX, a.colorEndY,
    a.sectionCount)

/-! ## The search over one image for several contexts -/

/-- The struct `BarCodeFindContext`; its two buffers are given by their contents. -/
structure BarCodeFindContext where
  appearanceBuffer : Nat → BarCodeAppearance
  appearanceMatchScores : Nat → ℚ
  appearanceBufferCapacity : Nat
  appearanceCount : Nat
  barCode : BarCode
  minMatchScore : ℚ
  minLineDistance : Int

/-- The struct `BarCodeFindTemporaryMemory`; its buffers are given by their contents, and an
entry of `appearanceSortBuffer` is the index `i` of the appearance it points to
(`&appearances[i]`). -/
structure BarCodeFindTemporaryMemory where
  scanLines : Nat → YellowScanLine
  scanLineCapacity : Nat
  yellowBoxes : Nat → YellowBoundingBox
  yellowBoxCapacity : Nat
  temporaryIndexBuffer : Nat → Nat
  temporaryIndexBufferCapacity : Nat
  appearances : Nat → BarCodeAppearance
  appearanceCapacity : Nat
  appearanceSortBuffer : Nat → Nat
  appearanceSortMatchScoreBuffer : Nat → ℚ
  appearanceSortBufferCapacity : Nat

/-- The conversion `(int)` of a `size_t`: the low 32 bits, read as a signed integer. -/
def sizeToInt (c : Nat) : Int :=
  if c % 2 ^ 32 < 2 ^ 31 then ((c % 2 ^ 32 : Nat) : Int)
  else ((c % 2 ^ 32 : Nat) : Int) - 2 ^ 32

/-- The loop of `find_appearances_of_bar_code_interests_in_bitmap` that determines
`sectionCount`; `none` when the assertion fails. The comparison of the `int` with the `size_t`
converts the `int` to `size_t`. -/
def sectionCountLoop (contexts : Nat → BarCodeFindContext) (contextCount : Nat) : Option Int :=
  (List.range contextCount).foldlM (fun (sectionCount : Int) (i : Nat) =>
    if i = 0 then some (sizeToInt (contexts i).barCode.colorCount)
    else if sectionCount % 2 ^ 64 = ((contexts i).barCode.colorCount : Int) then
      some sectionCount
    else none) 0

/-- The three calls of `find_appearances_of_bar_code_interests_in_bitmap` that find the scan
lines, the boxes and the appearances. The result is the memory with the buffers they have
written, and `appearanceCount`; `none` when the assertion of `find_yellow_lines` fails or the
fuel does not suffice. -/
def findAllAppearances (fuel : Nat) (uninitialized : Nat → Nat → BarCodeAppearance)
    (rgba8 : Nat → Nat) (width height : Int) (yellowCfg : YellowConfig)
    (maxYellowSpacing sectionCount : Int) (memory : BarCodeFindTemporaryMemory) :
    Option (BarCodeFindTemporaryMemory × Nat) :=
  match find_yellow_lines rgba8 width height yellowCfg memory.scanLineCapacity with
  | none => none
  | some found =>
    let scanLines : Nat → YellowScanLine := fun k => found.getD k (memory.scanLines k)
    let scanLineCount := found.length
    match find_yellow_rectangles fuel scanLines scanLineCount maxYellowSpacing
        memory.temporaryIndexBuffer memory.temporaryIndexBufferCapacity
        memory.yellowBoxCapacity with
    | none => none
    | some rect =>
      let yellowBoxes : Nat → YellowBoundingBox :=
        fun k => rect.dst.getD k (memory.yellowBoxes k)
      let boxCount := rect.dst.length
      match find_bar_code_appearances fuel uninitialized rgba8 width height yellowCfg
          yellowBoxes boxCount sectionCount memory.appearanceCapacity with
      | none => none
      | some found =>
        some ({ memory with
                scanLines := rect.lines
                temporaryIndexBuffer := rect.tmpIndexBuffer
                yellowBoxes := yellowBoxes
                appearances := fun k => found.getD k (memory.appearances k) },
          found.length)

/-- The state of the last loop of `find_appearances_of_bar_code_interests_in_bitmap`: the
contexts and the two sort buffers of the memory. -/
structure MatchState where
  contexts : Nat → BarCodeFindContext
  appearanceSortBuffer : Nat → Nat
  appearanceSortMatchScoreBuffer : Nat → ℚ

/-- The body of the loop that copies the ranked appearances to the buffers of a context. -/
def copyStep (appearances : Nat → BarCodeAppearance) (appearanceSortBuffer : Nat → Nat)
    (appearanceSortMatchScoreBuffer : Nat → ℚ) (ctx : BarCodeFindContext) (j : Nat) :
    BarCodeFindContext :=
  let appearance := appearances (appearanceSortBuffer j)
  { ctx with
    appearanceBuffer := Function.update ctx.appearanceBuffer j appearance
    appearanceMatchScores :=
      Function.update ctx.appearanceMatchScores j (appearanceSortMatchScoreBuffer j) }

/-- The body of the last loop of `find_appearances_of_bar_code_interests_in_bitmap`, for the
context `i`; `none` when the ranking fails (assertion or fuel). -/
def matchStep (fuel : Nat) (appearances : Nat → BarCodeAppearance)
    (appearanceCount appearanceSortBufferCapacity : Nat) (s : MatchState) (i : Nat) :
    Option MatchState :=
  match find_appearances_of_bar_code fuel (s.contexts i).barCode (s.contexts i).minLineDistance
      (s.contexts i).minMatchScore appearances appearanceCount s.appearanceSortBuffer
      s.appearanceSortMatchScoreBuffer appearanceSortBufferCapacity with
  | none => none
  | some r =>
    let ctx := { s.contexts i with appearanceCount := r.count }
    let ctx :=
      if ctx.appearanceCount > ctx.appearanceBufferCapacity then
        { ctx with appearanceCount := ctx.appearanceBufferCapacity }
      else ctx
    let ctx := (List.range ctx.appearanceCount).foldl
      (copyStep appearances r.results r.resultScores) ctx
    some { contexts := Function.update s.contexts i ctx
           appearanceSortBuffer := r.results
           appearanceSortMatchScoreBuffer := r.resultScores }

/-- The function `find_appearances_of_bar_code_interests_in_bitmap`. The result is the
contexts and the memory after the call; `none` when an assertion fails or the fuel does not
suffice. -/
def find_appearances_of_bar_code_interests_in_bitmap (fuel : Nat)
    (uninitialized : Nat → Nat → BarCodeAppearance) (rgba8 : Nat → Nat) (width height : Int)
    (yellowCfg : YellowConfig) (maxYellowSpacing : Int) (contexts : Nat → BarCodeFindContext)
    (contextCount : Nat) (memory : BarCodeFindTemporaryMemory) :
    Option ((Nat → BarCodeFindContext) × BarCodeFindTemporaryMemory) :=
  if contextCount = 0 then some (contexts, memory)
  else
    match sectionCountLoop contexts contextCount with
    | none => none
    | some sectionCount =>
      match findAllAppearances fuel uninitialized rgba8 width height yellowCfg
          maxYellowSpacing sectionCount memory with
      | none => none
      | some (memory, appearanceCount) =>
        match (List.range contextCount).foldlM
            (matchStep fuel memory.appearances appearanceCount
              memory.appearanceSortBufferCapacity)
            { contexts := contexts
              appearanceSortBuffer := memory.appearanceSortBuffer
              appearanceSortMatchScoreBuffer := memory.appearanceSortMatchScoreBuffer } with
        | none => none
        | some s =>
          some (s.contexts,
            { memory with
              appearanceSortBuffer := s.appearanceSortBuffer
              appearanceSortMatchScoreBuffer := s.appearanceSortMatchScoreBuffer })

/-- Two ranking states hold the same ranking: the same count and the same entries below it. -/
def RankAgree (s s' : RankState) : Prop :=
  s.count = s'.count ∧
    ∀ j < s.count, s.results j = s'.results j ∧ s.resultScores j = s'.resultScores j

/-- What `find_appearances_of_bar_code_interests_in_bitmap` leaves in a context that held
`ctx0`, when the ranking of the appearances `A` for it is `r`: the count is the count of the
ranking cut to the capacity of the context, the entries below the count are the ranked
appearances and their scores, and nothing else has changed. -/
structure ContextResult (A : Nat → BarCodeAppearance) (r : RankState)
    (ctx0 ctx : BarCodeFindContext) : Prop where
  count : ctx.appearanceCount = min r.count ctx0.appearanceBufferCapacity
  entries : ∀ j < ctx.appearanceCount,
    ctx.appearanceBuffer j = A (r.results j) ∧ ctx.appearanceMatchScores j = r.resultScores j
  others : ∀ j, ctx.appearanceCount ≤ j →
    ctx.appearanceBuffer j = ctx0.appearanceBuffer j ∧
      ctx.appearanceMatchScores j = ctx0.appearanceMatchScores j
  capacity : ctx.appearanceBufferCapacity = ctx0.appearanceBufferCapacity
  barCode : ctx.barCode = ctx0.barCode
  minMatchScore : ctx.minMatchScore = ctx0.minMatchScore
  minLineDistance : ctx.minLineDistance = ctx0.minLineDistance

/-- Two states of the collecting loop of `find_yellow_rectangles` over `n` lines that cannot be
told apart by the loop: the same lines below `n`, the same count and flag, and the same
indices, all below `n`, in the used part of the scratch. -/
structure CollectRel (n : Nat) (c c' : CollectState) : Prop where
  lines : ∀ k < n, c.lines k = c'.lines k
  count : c.containedLineCount = c'.containedLineCount
  ran : c.ranOutOfTempSpace = c'.ranOutOfTempSpace
  tmp : ∀ t < c.containedLineCount,
    c.tmpIndexBuffer t = c'.tmpIndexBuffer t ∧ c.tmpIndexBuffer t < n

/-- The appearances that `find_appearances_of_bar_code_interests_in_bitmap` samples on an
image, for given capacities of the memory: the result of the three calls of
`findAllAppearances` on buffers that hold default values. -/
def sampledAppearances (fuel : Nat) (uninitialized : Nat → Nat → BarCodeAppearance)
    (rgba8 : Nat → Nat) (width height : Int) (yellowCfg : YellowConfig)
    (maxYellowSpacing sectionCount : Int)
    (scanLineCapacity temporaryIndexBufferCapacity yellowBoxCapacity appearanceCapacity : Nat) :
    Option (List BarCodeAppearance) :=
  match find_yellow_lines rgba8 width height yellowCfg scanLineCapacity with
  | none => none
  | some found =>
    match find_yellow_rectangles fuel (fun k => found.getD k default) found.length
        maxYellowSpacing (fun _ => 0) temporaryIndexBufferCapacity yellowBoxCapacity with
    | none => none
    | some rect =>
      find_bar_code_appearances fuel uninitialized rgba8 width height yellowCfg
        (fun k => rect.dst.getD k default) rect.dst.length sectionCount appearanceCapacity

/-- An array of appearances given by a list (positions past the end hold an appearance without
sections). -/
def appearancesOf (l : List BarCodeAppearance) : Nat → BarCodeAppearance :=
  fun k => l.getD k (appearanceOf 0 0 0 0 [] [] [])

/-- A context that asks for the pattern given by a list of colours, with the given capacity
and thresholds; its buffers hold no result yet. -/
def contextOf (l : List BarCodeColor) (capacity : Nat) (minMatchScore : ℚ)
    (minLineDistance : Int) : BarCodeFindContext :=
  { appearanceBuffer := fun _ => appearanceOf 0 0 0 0 [] [] []
    appearanceMatchScores := fun _ => 0
    appearanceBufferCapacity := capacity
    appearanceCount := 0
    barCode := barCodeOf l
    minMatchScore := minMatchScore
    minLineDistance := minLineDistance }

/-- A temporary memory with the five given capacities, as
`AllocateBarCodeFindTemporaryMemory` builds it; the buffers hold default values. -/
def memoryOf (scanLineCapacity yellowBoxCapacity tempIndexBufferCapacity appearanceCapacity
    appearanceSortBufferCapacity : Nat) : BarCodeFindTemporaryMemory :=
  { scanLines := fun _ => default
    scanLineCapacity := scanLineCapacity
    yellowBoxes := fun _ => default
    yellowBoxCapacity := yellowBoxCapacity
    temporaryIndexBuffer := fun _ => 0
    temporaryIndexBufferCapacity := tempIndexBufferCapacity
    appearances := fun _ => appearanceOf 0 0 0 0 [] [] []
    appearanceCapacity := appearanceCapacity
    appearanceSortBuffer := fun _ => 0
    appearanceSortMatchScoreBuffer := fun _ => 0
    appearanceSortBufferCapacity := appearanceSortBufferCapacity }

/-! ## Auxiliary definitions: sampled pixels, ranking thresholds, constants of `_are_yellow` -/

/-- The bytes `(r, g, b)` that the line walks read at the pixel `p`. -/
def pixelAt (rgba8 : Nat → Nat) (width : Int) (p : Int × Int) : Nat × Nat × Nat :=
  (rgba8 (pixelOffset width p.1 p.2 0), rgba8 (pixelOffset width p.1 p.2 1),
    rgba8 (pixelOffset width p.1 p.2 2))

/-- The constant of `_are_yellow` that selects the red bytes. -/
def redMask : M256 := _mm256_set_epi8
  [0, 0, 0, -1, 0, 0, 0, -1, 0, 0, 0, -1, 0, 0, 0, -1,
   0, 0, 0, -1, 0, 0, 0, -1, 0, 0, 0, -1, 0, 0, 0, -1]

/-- The constant of `_are_yellow` that selects the green bytes. -/
def greenMask : M256 := _mm256_set_epi8
  [0, 0, -1, 0, 0, 0, -1, 0, 0, 0, -1, 0, 0, 0, -1, 0,
   0, 0, -1, 0, 0, 0, -1, 0, 0, 0, -1, 0, 0, 0, -1, 0]

/-- The constant of `_are_yellow` that selects the blue bytes. -/
def blueMask : M256 := _mm256_set_epi8
  [0, -1, 0, 0, 0, -1, 0, 0, 0, -1, 0, 0, 0, -1, 0, 0,
   0, -1, 0, 0, 0, -1, 0, 0, 0, -1, 0, 0, 0, -1, 0, 0]

/-- The control bytes with which `_are_yellow` moves the green bytes to the low byte of their
lane. -/
def greenShuffle : M256 := _mm256_set_epi8
  [0, 0, 0, 29, 0, 0, 0, 25, 0, 0, 0, 21, 0, 0, 0, 17,
   0, 0, 0, 13, 0, 0, 0, 9, 0, 0, 0, 5, 0, 0, 0, 1]

/-- The control bytes with which `_are_yellow` moves the blue bytes to the low byte of their
lane. -/
def blueShuffle : M256 := _mm256_set_epi8
  [0, 0, 0, 30, 0, 0, 0, 26, 0, 0, 0, 22, 0, 0, 0, 18,
   0, 0, 0, 14, 0, 0, 0, 10, 0, 0, 0, 6, 0, 0, 0, 2]

/-! ## Theorems: pixel classification -/

theorem is_yellow_iff_aux (r g b : Nat) (config : YellowConfig) (hr : r < 256) (hg : g < 256) :
    is_yellow r g b config = true ↔
      |(r : Int) - (g : Int)| ≤ (config.maxRedGreenSeparation : Int) ∧
      (r : Int) - (b : Int) ≥ (config.minRedBlueSeparation : Int) ∧
      r ≥ config.minRed := by
  have h1 : Int.natAbs ((r : Int) - (g : Int)) < 256 := by omega
  simp only [is_yellow, Nat.mod_eq_of_lt h1, Bool.and_eq_true, decide_eq_true_eq, and_assoc]
  constructor
  · rintro ⟨h, h2, h3⟩
    exact ⟨by rw [Int.abs_eq_natAbs]; exact_mod_cast h, h2, h3⟩
  · rintro ⟨h, h2, h3⟩
    refine ⟨?_, h2, h3⟩
    rw [Int.abs_eq_natAbs] at h
    exact_mod_cast h

/-- C1, evaluated on the code at a failing input: for the greenish pixel `(100, 200, 0)` and
the thresholds `(30, 50, 80)` the scalar classifier `is_yellow` answers false (the red-green
separation is 100 > 30), while every lane of `_are_yellow` on a group of eight such pixels is
all ones: the batch form compares the signed difference `r - g`, not its absolute value. -/
theorem are_yellow_differs_from_is_yellow :
    is_yellow 100 200 0 ⟨30, 50, 80⟩ = false ∧
    ∀ i < 8, m256i_i32 (_are_yellow (pixelGroup 100 200 0 255) (to_avx ⟨30, 50, 80⟩)) i = -1 := by
  decide

/-- C2: for channel values in 0..255, `is_yellow r g b config` is true if and only if
`|r - g| <= maxRedGreenSeparation`, the signed difference `r - b >= minRedBlueSeparation` and
`r >= minRed`. -/
theorem is_yellow_iff (r g b : Nat) (config : YellowConfig)
    (hr : r < 256) (hg : g < 256) (hb : b < 256) :
    is_yellow r g b config = true ↔
      |(r : Int) - (g : Int)| ≤ (config.maxRedGreenSeparation : Int) ∧
      (r : Int) - (b : Int) ≥ (config.minRedBlueSeparation : Int) ∧
      r ≥ config.minRed :=
  is_yellow_iff_aux r g b config hr hg

theorem is_yellow_iff_witness :
    is_yellow 200 190 20 ⟨30, 50, 80⟩ = true ↔
      |((200 : Nat) : Int) - ((190 : Nat) : Int)| ≤ (((⟨30, 50, 80⟩ : YellowConfig).maxRedGreenSeparation : Nat) : Int) ∧
      ((200 : Nat) : Int) - ((20 : Nat) : Int) ≥ (((⟨30, 50, 80⟩ : YellowConfig).minRedBlueSeparation : Nat) : Int) ∧
      200 ≥ (⟨30, 50, 80⟩ : YellowConfig).minRed :=
  is_yellow_iff 200 190 20 ⟨30, 50, 80⟩ (by decide) (by decide) (by decide)

/-! ## Theorems: pattern scoring -/

theorem quantifyLoop_step (code : BarCode) (A : BarCodeAppearance) (N inc f scanI codeI : Nat)
    (sum : ℚ) (seen : List Nat) (h : scanI < N) :
    quantifyLoop code A.redAverage A.greenAverage A.blueAverage N inc (f + 1) scanI codeI sum seen
      = quantifyLoop code A.redAverage A.greenAverage A.blueAverage N inc f
          ((scanI + inc) % 2 ^ 64) (codeI + 1)
          (sum + sectionTerm A (code.colors codeI) scanI) (seen ++ [scanI]) := by
  rw [quantifyLoop, if_pos h]
  have : (match code.colors codeI with
      | .BAR_CODE_RED => sum + A.redAverage scanI - A.greenAverage scanI - A.blueAverage scanI
      | .BAR_CODE_GREEN => sum + A.greenAverage scanI - A.redAverage scanI - A.blueAverage scanI
      | .BAR_CODE_BLUE => sum + A.blueAverage scanI - A.redAverage scanI - A.greenAverage scanI)
      = sum + sectionTerm A (code.colors codeI) scanI := by
    cases code.colors codeI <;> simp only [sectionTerm] <;> ring
  simp only [this]

theorem quantifyLoop_exit (code : BarCode) (A : BarCodeAppearance) (N inc f scanI codeI : Nat)
    (sum : ℚ) (seen : List Nat) (h : ¬ scanI < N) :
    quantifyLoop code A.redAverage A.greenAverage A.blueAverage N inc (f + 1) scanI codeI sum seen
      = some (sum, seen) := by
  rw [quantifyLoop, if_neg h]

theorem quantifyLoop_forward (code : BarCode) (A : BarCodeAppearance) (N : Nat) :
    ∀ (m fuel scanI codeI : Nat) (sum : ℚ) (seen : List Nat),
      scanI + m = N → N < 2 ^ 64 → m < fuel →
      quantifyLoop code A.redAverage A.greenAverage A.blueAverage N 1 fuel scanI codeI sum seen
        = some (sum + ∑ i in Finset.range m, sectionTerm A (code.colors (codeI + i)) (scanI + i),
                seen ++ List.range' scanI m) := by
  intro m
  induction m with
  | zero =>
    intro fuel scanI codeI sum seen h hN hf
    obtain ⟨f, rfl⟩ : ∃ f, fuel = f + 1 := ⟨fuel - 1, by omega⟩
    rw [quantifyLoop_exit _ _ _ _ _ _ _ _ _ (by omega)]
    simp
  | succ m ih =>
    intro fuel scanI codeI sum seen h hN hf
    obtain ⟨f, rfl⟩ : ∃ f, fuel = f + 1 := ⟨fuel - 1, by omega⟩
    have h2 : (scanI + 1) % 2 ^ 64 = scanI + 1 := Nat.mod_eq_of_lt (by omega)
    rw [quantifyLoop_step _ _ _ _ _ _ _ _ _ (by omega), h2,
      ih f (scanI + 1) (codeI + 1) _ _ (by omega) hN (by omega), Finset.sum_range_succ']
    have hs : ∑ i in Finset.range m, sectionTerm A (code.colors (codeI + 1 + i)) (scanI + 1 + i)
        = ∑ i in Finset.range m, sectionTerm A (code.colors (codeI + (i + 1))) (scanI + (i + 1)) :=
      Finset.sum_congr rfl (fun i _ => by
        rw [show codeI + 1 + i = codeI + (i + 1) by omega,
          show scanI + 1 + i = scanI + (i + 1) by omega])
    rw [hs]
    simp only [List.range'_succ, List.append_assoc, List.singleton_append, Nat.add_zero,
      Option.some.injEq, Prod.mk.injEq, and_true]
    ring

theorem quantifyLoop_reverse (code : BarCode) (A : BarCodeAppearance) (N : Nat) :
    ∀ (m fuel codeI : Nat) (sum : ℚ) (seen : List Nat),
      m ≤ N → N < 2 ^ 64 → m < fuel →
      quantifyLoop code A.redAverage A.greenAverage A.blueAverage N (2 ^ 64 - 1) fuel
          ((m + 2 ^ 64 - 1) % 2 ^ 64) codeI sum seen
        = some (sum + ∑ i in Finset.range m, sectionTerm A (code.colors (codeI + i)) (m - 1 - i),
                seen ++ (List.range m).reverse) := by
  intro m
  induction m with
  | zero =>
    intro fuel codeI sum seen h hN hf
    obtain ⟨f, rfl⟩ : ∃ f, fuel = f + 1 := ⟨fuel - 1, by omega⟩
    rw [quantifyLoop_exit _ _ _ _ _ _ _ _ _ (by omega)]
    simp
  | succ m ih =>
    intro fuel codeI sum seen h hN hf
    obtain ⟨f, rfl⟩ : ∃ f, fuel = f + 1 := ⟨fuel - 1, by omega⟩
    have h0 : (m + 1 + 2 ^ 64 - 1) % 2 ^ 64 = m := by omega
    have h2 : (m + (2 ^ 64 - 1)) % 2 ^ 64 = (m + 2 ^ 64 - 1) % 2 ^ 64 := by omega
    rw [h0, quantifyLoop_step _ _ _ _ _ _ _ _ _ (by omega), h2,
      ih f (codeI + 1) _ _ (by omega) hN (by omega), Finset.sum_range_succ']
    have hs : ∑ i in Finset.range m, sectionTerm A (code.colors (codeI + 1 + i)) (m - 1 - i)
        = ∑ i in Finset.range m,
            sectionTerm A (code.colors (codeI + (i + 1))) (m + 1 - 1 - (i + 1)) :=
      Finset.sum_congr rfl (fun i _ => by
        rw [show codeI + 1 + i = codeI + (i + 1) by omega,
          show m + 1 - 1 - (i + 1) = m - 1 - i by omega])
    rw [hs]
    simp only [List.range_succ, List.reverse_append, List.reverse_singleton, List.append_assoc,
      List.singleton_append, Nat.add_zero, Option.some.injEq, Prod.mk.injEq, and_true,
      Nat.add_sub_cancel, Nat.sub_zero]
    ring

theorem clamp_eq (q : ℚ) :
    (if (if q < 0 then 0 else q) > 1 then 1 else (if q < 0 then 0 else q)) = clamp01 q := by
  unfold clamp01
  split_ifs with h1 h2 h2
  · linarith
  · rw [min_eq_right (by linarith), max_eq_left (by linarith)]
  · rw [min_eq_left (by linarith), max_eq_right (by linarith)]
  · rw [min_eq_right (by linarith), max_eq_right (by linarith)]

theorem quantify_forward_eq (fuel : Nat) (code : BarCode) (A : BarCodeAppearance)
    (hN : code.colorCount < 2 ^ 64) (hf : code.colorCount < fuel) :
    _quantify_bar_code_appearance_match fuel code A.redAverage A.greenAverage A.blueAverage false
      = some (forwardScore code A, List.range code.colorCount) := by
  have h := quantifyLoop_forward code A code.colorCount code.colorCount fuel 0 0 0 []
    (by omega) hN hf
  simp only [_quantify_bar_code_appearance_match, Bool.false_eq_true, if_false, h]
  simp only [Nat.zero_add, zero_add, List.nil_append, clamp_eq, forwardScore,
    List.range_eq_range', Option.some.injEq, Prod.mk.injEq, and_true]
  rw [div_eq_mul_inv, mul_comm, one_div]

theorem quantify_reverse_eq (fuel : Nat) (code : BarCode) (A : BarCodeAppearance)
    (hN : code.colorCount < 2 ^ 64) (hf : code.colorCount < fuel) :
    _quantify_bar_code_appearance_match fuel code A.redAverage A.greenAverage A.blueAverage true
      = some (reverseScore code A, (List.range code.colorCount).reverse) := by
  have h := quantifyLoop_reverse code A code.colorCount code.colorCount fuel 0 0 []
    (le_refl _) hN hf
  simp only [_quantify_bar_code_appearance_match, if_true, h]
  simp only [Nat.zero_add, zero_add, List.nil_append, clamp_eq, reverseScore,
    Option.some.injEq, Prod.mk.injEq, and_true]
  rw [div_eq_mul_inv, mul_comm, one_div]

theorem quantify_eq_max (fuel : Nat) (code : BarCode) (A : BarCodeAppearance)
    (hN : code.colorCount < 2 ^ 64) (hf : code.colorCount < fuel)
    (hA : (code.colorCount : Int) = A.sectionCount) :
    quantify_bar_code_appearance_match fuel code A
      = some (max (forwardScore code A) (reverseScore code A)) := by
  have hm : A.sectionCount % 2 ^ 64 = (code.colorCount : Int) := by
    rw [← hA]
    exact Int.emod_eq_of_lt (by positivity) (by exact_mod_cast hN)
  simp only [quantify_bar_code_appearance_match, hm, ne_eq, not_true_eq_false, if_false,
    quantify_forward_eq fuel code A hN hf, quantify_reverse_eq fuel code A hN hf]
  simp only [Option.some.injEq]
  split_ifs with h
  · exact (max_eq_left (le_of_lt h)).symm
  · exact (max_eq_right (not_lt.mp h)).symm
theorem forwardScore_reverse (code : BarCode) (A : BarCodeAppearance) :
    forwardScore code.reverse A = reverseScore code A := by
  simp only [forwardScore, reverseScore, BarCode.reverse]
  congr 2
  rw [← Finset.sum_range_reflect]
  refine Finset.sum_congr rfl (fun i hi => ?_)
  have := Finset.mem_range.mp hi
  rw [show code.colorCount - 1 - (code.colorCount - 1 - i) = i by omega]

theorem reverseScore_reverse (code : BarCode) (A : BarCodeAppearance) :
    reverseScore code.reverse A = forwardScore code A := by
  simp only [forwardScore, reverseScore, BarCode.reverse]
  congr 2
  exact Finset.sum_range_reflect
    (fun i => sectionTerm A (code.colors i) i) code.colorCount

/-- C7: for a pattern `P` of length `N >= 1` (a `size_t`, so `N < 2 ^ 64`) and an appearance
`A` with `N` sections, `quantify_bar_code_appearance_match` returns a score for `P` and for the
reversed pattern, and the two scores are equal (exact arithmetic). -/
theorem quantify_reverse_pattern (fuel : Nat) (P : BarCode) (A : BarCodeAppearance)
    (hN1 : 1 ≤ P.colorCount) (hN : P.colorCount < 2 ^ 64) (hf : P.colorCount < fuel)
    (hA : (P.colorCount : Int) = A.sectionCount) :
    ∃ q : ℚ, quantify_bar_code_appearance_match fuel P A = some q ∧
      quantify_bar_code_appearance_match fuel P.reverse A = some q := by
  refine ⟨max (forwardScore P A) (reverseScore P A), quantify_eq_max fuel P A hN hf hA, ?_⟩
  rw [quantify_eq_max fuel P.reverse A hN hf hA, forwardScore_reverse, reverseScore_reverse,
    max_comm]

theorem quantify_reverse_pattern_witness :
    ∃ q : ℚ,
      quantify_bar_code_appearance_match 4
        (barCodeOf [.BAR_CODE_RED, .BAR_CODE_GREEN, .BAR_CODE_BLUE])
        (appearanceOf 0 0 10 0 [1, 0, 0] [0, 1, 0] [0, 1 / 2, 1]) = some q ∧
      quantify_bar_code_appearance_match 4
        (barCodeOf [.BAR_CODE_RED, .BAR_CODE_GREEN, .BAR_CODE_BLUE]).reverse
        (appearanceOf 0 0 10 0 [1, 0, 0] [0, 1, 0] [0, 1 / 2, 1]) = some q :=
  quantify_reverse_pattern 4 (barCodeOf [.BAR_CODE_RED, .BAR_CODE_GREEN, .BAR_CODE_BLUE])
    (appearanceOf 0 0 10 0 [1, 0, 0] [0, 1, 0] [0, 1 / 2, 1])
    (by decide) (by simp [barCodeOf]) (by decide) (by rfl)

/-- C8: for a pattern `P` of length `N >= 1` (a `size_t`, so `N < 2 ^ 64`) and an appearance
`A` with `N` sections, `quantify_bar_code_appearance_match P A` is `max F R`, where `F` is the
clamp to `[0, 1]` of `(1/N) * sum_i t(P[i], i)`, `R` the clamp of
`(1/N) * sum_i t(P[i], N-1-i)`, and `t(c, k)` the section-`k` average of channel `c` minus those
of the two other channels; and the reverse pass, whose index is stepped by `2 ^ 64 - 1` modulo
`2 ^ 64`, reads the sections `N-1, ..., 0`, each exactly once, in that order. -/
theorem quantify_bar_code_appearance_match_spec (fuel : Nat) (P : BarCode)
    (A : BarCodeAppearance)
    (hN1 : 1 ≤ P.colorCount) (hN : P.colorCount < 2 ^ 64) (hf : P.colorCount < fuel)
    (hA : (P.colorCount : Int) = A.sectionCount) :
    quantify_bar_code_appearance_match fuel P A
        = some (max (forwardScore P A) (reverseScore P A)) ∧
      (_quantify_bar_code_appearance_match fuel P A.redAverage A.greenAverage A.blueAverage
          true).map Prod.snd = some (List.range P.colorCount).reverse := by
  refine ⟨quantify_eq_max fuel P A hN hf hA, ?_⟩
  rw [quantify_reverse_eq fuel P A hN hf]
  rfl

theorem quantify_bar_code_appearance_match_spec_witness :
    quantify_bar_code_appearance_match 4
        (barCodeOf [.BAR_CODE_RED, .BAR_CODE_GREEN, .BAR_CODE_BLUE])
        (appearanceOf 0 0 10 0 [1, 0, 0] [0, 1, 0] [0, 1 / 2, 1])
        = some (max
            (forwardScore (barCodeOf [.BAR_CODE_RED, .BAR_CODE_GREEN, .BAR_CODE_BLUE])
              (appearanceOf 0 0 10 0 [1, 0, 0] [0, 1, 0] [0, 1 / 2, 1]))
            (reverseScore (barCodeOf [.BAR_CODE_RED, .BAR_CODE_GREEN, .BAR_CODE_BLUE])
              (appearanceOf 0 0 10 0 [1, 0, 0] [0, 1, 0] [0, 1 / 2, 1]))) ∧
      (_quantify_bar_code_appearance_match 4
          (barCodeOf [.BAR_CODE_RED, .BAR_CODE_GREEN, .BAR_CODE_BLUE])
          (appearanceOf 0 0 10 0 [1, 0, 0] [0, 1, 0] [0, 1 / 2, 1]).redAverage
          (appearanceOf 0 0 10 0 [1, 0, 0] [0, 1, 0] [0, 1 / 2, 1]).greenAverage
          (appearanceOf 0 0 10 0 [1, 0, 0] [0, 1, 0] [0, 1 / 2, 1]).blueAverage
          true).map Prod.snd
        = some (List.range
            (barCodeOf [.BAR_CODE_RED, .BAR_CODE_GREEN, .BAR_CODE_BLUE]).colorCount).reverse :=
  quantify_bar_code_appearance_match_spec 4
    (barCodeOf [.BAR_CODE_RED, .BAR_CODE_GREEN, .BAR_CODE_BLUE])
    (appearanceOf 0 0 10 0 [1, 0, 0] [0, 1, 0] [0, 1 / 2, 1])
    (by decide) (by simp [barCodeOf]) (by decide) (by rfl)

/-! ## Theorems: ranking -/

theorem find?_range_some {P : Nat → Bool} {c p : Nat}
    (h : (List.range c).find? P = some p) : p < c ∧ P p = true ∧ ∀ j < p, P j = false := by
  obtain ⟨h1, h2, h3⟩ := List.find?_range_eq_some.mp h
  refine ⟨List.mem_range.mp h2, h1, fun j hj => ?_⟩
  simpa using h3 j hj

theorem find?_range_none {P : Nat → Bool} {c : Nat}
    (h : (List.range c).find? P = none) : ∀ j < c, P j = false := by
  intro j hj
  simpa using List.find?_range_eq_none.mp h j hj

theorem shiftDown_spec (p : Nat) :
    ∀ (n j : Nat) (s : RankState), j - p ≤ n →
      (shiftDown p n j s).count = s.count ∧
      (∀ t, (shiftDown p n j s).results t
          = if p < t ∧ t ≤ j then s.results (t - 1) else s.results t) ∧
      (∀ t, (shiftDown p n j s).resultScores t
          = if p < t ∧ t ≤ j then s.resultScores (t - 1) else s.resultScores t) := by
  intro n
  induction n with
  | zero =>
    intro j s h
    simp only [shiftDown, true_and]
    constructor <;> intro t <;> rw [if_neg (by omega)]
  | succ n ih =>
    intro j s h
    rw [shiftDown]
    by_cases hj : j > p
    · rw [if_pos hj]
      obtain ⟨h1, h2, h3⟩ := ih (j - 1) _ (by omega)
      refine ⟨h1, fun t => ?_, fun t => ?_⟩
      · rw [h2 t]
        by_cases ht : t = j
        · subst ht
          rw [if_neg (by omega), if_pos (by omega)]
          simp
        · by_cases ht2 : p < t ∧ t ≤ j
          · rw [if_pos (by omega), if_pos ht2]
            simp only
            rw [Function.update_noteq (by omega)]
          · rw [if_neg (by omega), if_neg ht2]
            simp only
            rw [Function.update_noteq ht]
      · rw [h3 t]
        by_cases ht : t = j
        · subst ht
          rw [if_neg (by omega), if_pos (by omega)]
          simp
        · by_cases ht2 : p < t ∧ t ≤ j
          · rw [if_pos (by omega), if_pos ht2]
            simp only
            rw [Function.update_noteq (by omega)]
          · rw [if_neg (by omega), if_neg ht2]
            simp only
            rw [Function.update_noteq ht]
    · rw [if_neg hj]
      simp only [true_and]
      constructor <;> intro t <;> rw [if_neg (by omega)]

theorem RankState.ext' {a b : RankState} (h1 : a.count = b.count)
    (h2 : ∀ t, a.results t = b.results t) (h3 : ∀ t, a.resultScores t = b.resultScores t) :
    a = b := by
  cases a; cases b
  simp only [RankState.mk.injEq]
  exact ⟨h1, funext h2, funext h3⟩

theorem insert_eq_insertedState (s : RankState) (p i : Nat) (m : ℚ) (hp : p ≤ s.count) :
    ({ count := (if s.count > 0 then shiftDown p s.count s.count s else s).count + 1
       results := Function.update
         (if s.count > 0 then shiftDown p s.count s.count s else s).results p i
       resultScores := Function.update
         (if s.count > 0 then shiftDown p s.count s.count s else s).resultScores p m }
      : RankState) = insertedState s p i m := by
  by_cases hc : s.count > 0
  · obtain ⟨h1, h2, h3⟩ := shiftDown_spec p s.count s.count s (by omega)
    simp only [if_pos hc]
    apply RankState.ext'
    · simp [insertedState, h1]
    · intro t
      simp only [insertedState, Function.update_apply, h2]
    · intro t
      simp only [insertedState, Function.update_apply, h3]
  · simp only [if_neg hc]
    have h0 : s.count = 0 := by omega
    have hp0 : p = 0 := by omega
    apply RankState.ext'
    · simp [insertedState]
    · intro t
      simp only [insertedState, Function.update_apply, h0, hp0]
      split_ifs with h1 h2
      · rfl
      · omega
      · rfl
    · intro t
      simp only [insertedState, Function.update_apply, h0, hp0]
      split_ifs with h1 h2
      · rfl
      · omega
      · rfl
theorem foldlM_range_option {σ : Type} (step : σ → Nat → Option σ) (Inv : Nat → σ → Prop)
    (n : Nat) (s0 : σ) (h0 : Inv 0 s0)
    (hstep : ∀ i s, i < n → Inv i s → ∃ s', step s i = some s' ∧ Inv (i + 1) s') :
    ∃ s', (List.range n).foldlM step s0 = some s' ∧ Inv n s' := by
  induction n with
  | zero => exact ⟨s0, rfl, h0⟩
  | succ n ih =>
    obtain ⟨s1, h1, hI⟩ := ih (fun i s hi => hstep i s (by omega))
    obtain ⟨s2, h2, hI2⟩ := hstep n s1 (by omega) hI
    refine ⟨s2, ?_, hI2⟩
    rw [List.range_succ, List.foldlM_append, h1]
    simp [h2]

theorem rankStep_eq (fuel : Nat) (barCode : BarCode) (minLineDistance : Int) (minMatchScore : ℚ)
    (appearances : Nat → BarCodeAppearance) (K : Nat) (s : RankState) (i : Nat) (m : ℚ)
    (hm : quantify_bar_code_appearance_match fuel barCode (appearances i) = some m) :
    rankStep fuel barCode minLineDistance minMatchScore appearances K s i =
      some (
        if _get_distance (appearances i).colorStartX (appearances i).colorStartY
            (appearances i).colorEndX (appearances i).colorEndY < minLineDistance then s
        else if m < minMatchScore then s
        else if s.count < K then
          insertedState s
            (((List.range s.count).find? (fun j => m > s.resultScores j)).getD s.count) i m
        else s) := by
  unfold rankStep
  simp only [hm]
  by_cases h1 : _get_distance (appearances i).colorStartX (appearances i).colorStartY
      (appearances i).colorEndX (appearances i).colorEndY < minLineDistance
  · rw [if_pos h1, if_pos h1]
  rw [if_neg h1, if_neg h1]
  by_cases h2 : m < minMatchScore
  · rw [if_pos h2, if_pos h2]
  rw [if_neg h2, if_neg h2]
  cases hf : (List.range s.count).find? (fun j => decide (m > s.resultScores j)) with
  | some p =>
    have hp := (find?_range_some hf).1
    simp only [Option.getD_some]
    by_cases h3 : s.count < K
    · rw [if_pos ⟨by omega, h3⟩, if_pos h3, insert_eq_insertedState s p i m (by omega)]
    · rw [if_neg (fun h => h3 h.2), if_neg h3]
  | none =>
    simp only [Option.getD_none]
    by_cases h3 : s.count < K
    · simp only [if_pos h3]
      rw [if_pos ⟨h3, h3⟩, insert_eq_insertedState s s.count i m (le_refl _)]
    · simp only [if_neg h3]
theorem foldlM_range_option_partial {σ : Type} (step : σ → Nat → Option σ)
    (Inv : Nat → σ → Prop) (n : Nat) (s0 : σ) (h0 : Inv 0 s0)
    (hstep : ∀ i s s', i < n → Inv i s → step s i = some s' → Inv (i + 1) s') :
    ∀ s', (List.range n).foldlM step s0 = some s' → Inv n s' := by
  induction n with
  | zero =>
    intro s' h
    simp only [List.range_zero, List.foldlM_nil] at h
    cases h
    exact h0
  | succ n ih =>
    intro s' h
    rw [List.range_succ, List.foldlM_append] at h
    cases h1 : (List.range n).foldlM step s0 with
    | none => simp [h1] at h
    | some s1 =>
      rw [h1] at h
      simp only [List.foldlM_cons, List.foldlM_nil, Option.some_bind, Option.bind_eq_some,
        Option.pure_def, Option.bind_some] at h
      have hI := ih (fun i s s' hi => hstep i s s' (by omega)) s1 h1
      have : step s1 n = some s' := by
        cases h2 : step s1 n with
        | none => simp [h2] at h
        | some s2 => simpa [h2] using h
      exact hstep n s1 s' (by omega) hI this

theorem rankStep_cases (fuel : Nat) (barCode : BarCode) (minLineDistance : Int)
    (minMatchScore : ℚ) (appearances : Nat → BarCodeAppearance) (K : Nat) (s s' : RankState)
    (i : Nat)
    (h : rankStep fuel barCode minLineDistance minMatchScore appearances K s i = some s') :
    s' = s ∨ ∃ m, quantify_bar_code_appearance_match fuel barCode (appearances i) = some m ∧
      ¬ (_get_distance (appearances i).colorStartX (appearances i).colorStartY
            (appearances i).colorEndX (appearances i).colorEndY < minLineDistance) ∧
      ¬ m < minMatchScore ∧ s.count < K ∧
      s' = insertedState s
        (((List.range s.count).find? (fun j => m > s.resultScores j)).getD s.count) i m := by
  cases hm : quantify_bar_code_appearance_match fuel barCode (appearances i) with
  | none =>
    left
    unfold rankStep at h
    simp only [hm] at h
    by_cases h1 : _get_distance (appearances i).colorStartX (appearances i).colorStartY
        (appearances i).colorEndX (appearances i).colorEndY < minLineDistance
    · rw [if_pos h1] at h
      exact (Option.some.inj h).symm
    · rw [if_neg h1] at h
      cases h
  | some m =>
    rw [rankStep_eq fuel barCode minLineDistance minMatchScore appearances K s i m hm] at h
    have h := Option.some.inj h
    by_cases h1 : _get_distance (appearances i).colorStartX (appearances i).colorStartY
        (appearances i).colorEndX (appearances i).colorEndY < minLineDistance
    · rw [if_pos h1] at h
      exact Or.inl h.symm
    rw [if_neg h1] at h
    by_cases h2 : m < minMatchScore
    · rw [if_pos h2] at h
      exact Or.inl h.symm
    rw [if_neg h2] at h
    by_cases h3 : s.count < K
    · rw [if_pos h3] at h
      exact Or.inr ⟨m, rfl, h1, h2, h3, h.symm⟩
    · rw [if_neg h3] at h
      exact Or.inl h.symm

theorem insertPosition_spec (s : RankState) (m : ℚ) :
    let p := ((List.range s.count).find? (fun j => m > s.resultScores j)).getD s.count
    p ≤ s.count ∧ (∀ j < p, m ≤ s.resultScores j) ∧ (p < s.count → s.resultScores p < m) := by
  intro p
  cases hf : (List.range s.count).find? (fun j => decide (m > s.resultScores j)) with
  | some q =>
    have hp : p = q := by simp only [p, hf, Option.getD_some]
    obtain ⟨h1, h2, h3⟩ := find?_range_some hf
    rw [hp]
    refine ⟨by omega, fun j hj => ?_, fun _ => ?_⟩
    · have := h3 j hj
      simpa using this
    · simpa using h2
  | none =>
    have hp : p = s.count := by simp only [p, hf, Option.getD_none]
    have h3 := find?_range_none hf
    rw [hp]
    refine ⟨le_refl _, fun j hj => ?_, fun h => absurd h (lt_irrefl _)⟩
    have := h3 j hj
    simpa using this

theorem insertedState_sorted (s : RankState) (m : ℚ) (p i : Nat)
    (hp1 : p ≤ s.count) (hp2 : ∀ j < p, m ≤ s.resultScores j)
    (hp3 : p < s.count → s.resultScores p < m)
    (hs : ∀ j, j + 1 < s.count → s.resultScores (j + 1) ≤ s.resultScores j) :
    ∀ j, j + 1 < (insertedState s p i m).count →
      (insertedState s p i m).resultScores (j + 1) ≤ (insertedState s p i m).resultScores j := by
  intro j hj
  simp only [insertedState] at hj ⊢
  by_cases h1 : j + 1 = p
  · rw [if_pos h1, if_neg (by omega), if_neg (by omega)]
    exact hp2 j (by omega)
  · rw [if_neg h1]
    by_cases h2 : j = p
    · rw [if_pos (by omega), if_pos h2]
      subst h2
      simp only [Nat.add_sub_cancel]
      exact le_of_lt (hp3 (by omega))
    · rw [if_neg h2]
      by_cases h3 : p < j
      · rw [if_pos (by omega), if_pos (by omega)]
        simp only [Nat.add_sub_cancel]
        have := hs (j - 1) (by omega)
        rwa [show j - 1 + 1 = j by omega] at this
      · rw [if_neg (by omega), if_neg (by omega)]
        exact hs j (by omega)

theorem insertedState_entries (s : RankState) (p i : Nat) (m : ℚ) (hp : p ≤ s.count)
    (Q : Nat → ℚ → Prop) (hs : ∀ j < s.count, Q (s.results j) (s.resultScores j))
    (hi : Q i m) :
    ∀ j < (insertedState s p i m).count,
      Q ((insertedState s p i m).results j) ((insertedState s p i m).resultScores j) := by
  intro j hj
  simp only [insertedState] at hj ⊢
  by_cases h1 : j = p
  · rw [if_pos h1, if_pos h1]
    exact hi
  · rw [if_neg h1, if_neg h1]
    by_cases h2 : p < j ∧ j ≤ s.count
    · rw [if_pos h2, if_pos h2]
      exact hs (j - 1) (by omega)
    · rw [if_neg h2, if_neg h2]
      exact hs j (by omega)

theorem rankTest_distance (i : Nat) :
    _get_distance (rankTestAppearances i).colorStartX (rankTestAppearances i).colorStartY
      (rankTestAppearances i).colorEndX (rankTestAppearances i).colorEndY = 10 := by
  have h : ∀ i, (rankTestAppearances i).colorStartX = 0 ∧ (rankTestAppearances i).colorStartY = 0
      ∧ (rankTestAppearances i).colorEndX = 10 ∧ (rankTestAppearances i).colorEndY = 0 := by
    intro i
    unfold rankTestAppearances
    rcases i with _ | _ | _ | i <;> simp [appearanceOf]
  obtain ⟨h1, h2, h3, h4⟩ := h i
  rw [h1, h2, h3, h4]
  simp only [_get_distance]
  have : ((10 - 0) * (10 - 0) + (0 - 0) * (0 - 0) : Int).toNat = 10 * 10 := by decide
  rw [this, Nat.sqrt_eq]
  rfl

theorem rankTest_score :
    quantify_bar_code_appearance_match 2 (barCodeOf [.BAR_CODE_RED]) (rankTestAppearances 0)
      = some (1 / 5) ∧
    quantify_bar_code_appearance_match 2 (barCodeOf [.BAR_CODE_RED]) (rankTestAppearances 1)
      = some (9 / 10) ∧
    quantify_bar_code_appearance_match 2 (barCodeOf [.BAR_CODE_RED]) (rankTestAppearances 2)
      = some (1 / 2) := by
  refine ⟨?_, ?_, ?_⟩
  all_goals
    rw [quantify_eq_max 2 _ _ (by simp [barCodeOf]) (by simp [barCodeOf]) (by rfl)]
    simp [forwardScore, reverseScore, barCodeOf, rankTestAppearances, appearanceOf, sectionTerm,
      clamp01]
    norm_num

/-- C5, evaluated on the code at a failing input: with `maxResultCount = 1` and three
appearances that all pass both thresholds, scored `1/5`, `9/10` and `1/2` in this order, the
returned list is the single entry `(0, 1/5)`: the first appearance found stays, and the
appearance 1, whose score `9/10` is greater, is not in the list. -/
theorem find_appearances_of_bar_code_keeps_first :
    (find_appearances_of_bar_code 2 (barCodeOf [.BAR_CODE_RED]) 5 (1 / 10)
        rankTestAppearances 3 (fun _ => 0) (fun _ => 0) 1).map RankState.ranking
      = some [(0, 1 / 5)] ∧
    quantify_bar_code_appearance_match 2 (barCodeOf [.BAR_CODE_RED]) (rankTestAppearances 1)
      = some (9 / 10) ∧
    ¬ (_get_distance (rankTestAppearances 1).colorStartX (rankTestAppearances 1).colorStartY
      (rankTestAppearances 1).colorEndX (rankTestAppearances 1).colorEndY < 5) ∧
    ¬ ((9 / 10 : ℚ) < 1 / 10) := by
  obtain ⟨h0, h1, h2⟩ := rankTest_score
  refine ⟨?_, h1, by rw [rankTest_distance]; decide, by norm_num⟩
  unfold find_appearances_of_bar_code
  rw [show List.range 3 = [0, 1, 2] from rfl]
  simp only [List.foldlM_cons, List.foldlM_nil, rankStep_eq _ _ _ _ _ _ _ _ _ h0,
    rankStep_eq _ _ _ _ _ _ _ _ _ h1, rankStep_eq _ _ _ _ _ _ _ _ _ h2, rankTest_distance]
  norm_num [insertedState, RankState.ranking, List.range_succ]
theorem drawLoop_visited (width x2 y2 dx dy sx sy : Int) (r g b a : Nat) :
    ∀ (fuel : Nat) (rgba8 : Nat → Nat) (x1 y1 error : Int) (visited : List (Int × Int)),
      (drawLoop width x2 y2 dx dy sx sy r g b a fuel rgba8 x1 y1 error visited).map Prod.snd
        = (walkTrace x2 y2 dx dy sx sy fuel x1 y1 error).map (fun t => visited ++ t) := by
  intro fuel
  induction fuel with
  | zero => intro rgba8 x1 y1 error visited; rfl
  | succ fuel ih =>
    intro rgba8 x1 y1 error visited
    rw [drawLoop, walkTrace]
    by_cases h : x1 = x2 ∧ y1 = y2
    · simp only [if_pos h, Option.map_some']
    · simp only [if_neg h]
      rw [ih]
      simp only [Option.map_map]
      congr 1
      funext t
      simp

theorem walkStep_xmajor (dx dy sx sy x y e : Int) (h1 : 0 ≤ e) (h2 : e < dx) :
    walkStep dx dy sx sy x y e =
      if e < dy then (x + sx, y + sy, e - dy + dx) else (x + sx, y, e - dy) := by
  unfold walkStep
  have : e > -dx := by omega
  simp only [if_pos this]
  split_ifs <;> rfl

theorem walkStep_ymajor (dx dy sx sy x y e : Int) (h1 : e ≤ 0) (h2 : 0 < dy) :
    walkStep dx dy sx sy x y e =
      if e > -dx then (x + sx, y + sy, e - dy + dx) else (x, y + sy, e + dx) := by
  unfold walkStep
  have : e < dy := by omega
  by_cases h : e > -dx
  · have h' : e - dy < dy := by omega
    simp only [if_pos h, if_pos this]
  · simp only [if_neg h, if_pos this]

theorem sign_mul_eq_zero {s k : Int} (hs : s = 1 ∨ s = -1) (h : s * k = 0) : k = 0 := by
  rcases hs with rfl | rfl <;> omega

theorem sign_mul_cancel {s a b : Int} (hs : s = 1 ∨ s = -1) (h : s * a = s * b) : a = b := by
  rcases hs with rfl | rfl <;> omega

theorem small_multiple_zero {k d : Int} (hd : 0 < d) (h1 : -d < k * d) (h2 : k * d < d) :
    k = 0 := by
  by_contra hk
  rcases lt_or_gt_of_ne hk with h | h
  · have : k * d ≤ -1 * d := by
      apply mul_le_mul_of_nonneg_right _ (le_of_lt hd)
      omega
    linarith
  · have : 1 * d ≤ k * d := by
      apply mul_le_mul_of_nonneg_right _ (le_of_lt hd)
      omega
    linarith

theorem walkTrace_xmajor (x2 y2 dx dy sx sy e0 : Int) (hsx : sx = 1 ∨ sx = -1)
    (hsy : sy = 1 ∨ sy = -1) (hd : dy < dx) (hdy : 0 ≤ dy) (he0 : 0 ≤ e0) (he0' : e0 < dx) :
    ∀ (m fuel : Nat) (x y e ry : Int), x2 = x + sx * m → y2 = y + sy * ry → 0 ≤ e → e < dx →
      e + ry * dx = e0 + m * dy → m < fuel →
      ∃ t, walkTrace x2 y2 dx dy sx sy fuel x y e = some t ∧ GoodTrace t (x, y) x2 y2 m ∧
        ∀ p ∈ t, ∃ k : Nat, k ≤ m ∧ x2 = p.1 + sx * k := by
  intro m
  induction m with
  | zero =>
    intro fuel x y e ry hx hy h1 h2 hinv hf
    obtain ⟨f, rfl⟩ : ∃ f, fuel = f + 1 := ⟨fuel - 1, by omega⟩
    have hxe : x = x2 := by simp at hx; omega
    have hry : ry = 0 := by
      apply small_multiple_zero (show 0 < dx by omega)
      · simp at hinv; linarith
      · simp at hinv; linarith
    have hye : y = y2 := by rw [hy, hry]; ring
    refine ⟨[(x, y)], ?_, ?_, ?_⟩
    · rw [walkTrace, if_pos ⟨hxe, hye⟩]
    · subst hxe hye
      exact ⟨rfl, rfl, rfl, by simp, by simp⟩
    · intro p hp
      simp only [List.mem_singleton] at hp
      subst hp
      exact ⟨0, le_refl _, by simp [hxe]⟩
  | succ m ih =>
    intro fuel x y e ry hx hy h1 h2 hinv hf
    obtain ⟨f, rfl⟩ : ∃ f, fuel = f + 1 := ⟨fuel - 1, by omega⟩
    have hne : ¬ (x = x2 ∧ y = y2) := by
      rintro ⟨hxe, _⟩
      have : sx * ((m + 1 : Nat) : Int) = 0 := by linarith
      have := sign_mul_eq_zero hsx this
      omega
    have hx' : x2 = (x + sx) + sx * (m : Int) := by
      rw [hx]; push_cast; ring
    have hinv' : e + ry * dx = e0 + m * dy + dy := by
      rw [hinv]; push_cast; ring
    rw [walkTrace, if_neg hne, walkStep_xmajor dx dy sx sy x y e h1 h2]
    by_cases hlt : e < dy
    · simp only [if_pos hlt]
      obtain ⟨t, ht, ⟨hl, hh, hlast, hnd, hch⟩, hk⟩ := ih f (x + sx) (y + sy) (e - dy + dx) (ry - 1)
        hx' (by rw [hy]; ring) (by omega) (by omega) (by linarith [(show (ry - 1) * dx = ry * dx - dx by ring)]) (by omega)
      refine ⟨(x, y) :: t, by rw [ht]; rfl, ⟨by simp [hl], rfl, ?_, ?_, ?_⟩, ?_⟩
      · obtain ⟨q, t', rfl⟩ : ∃ q t', t = q :: t' := by
          cases t with
          | nil => simp at hl
          | cons q t' => exact ⟨q, t', rfl⟩
        rw [List.getLast?_cons_cons]; exact hlast
      · refine List.nodup_cons.mpr ⟨fun hmem => ?_, hnd⟩
        obtain ⟨k, hk1, hk2⟩ := hk _ hmem
        simp only at hk2
        have : sx * ((m + 1 : Nat) : Int) = sx * (k : Int) := by linarith
        have := sign_mul_cancel hsx this
        omega
      · obtain ⟨q, t', rfl⟩ : ∃ q t', t = q :: t' := by
          cases t with
          | nil => simp at hl
          | cons q t' => exact ⟨q, t', rfl⟩
        simp only [List.head?_cons, Option.some.injEq] at hh
        subst hh
        refine List.chain'_cons.mpr ⟨?_, hch⟩
        simp only [adjacentPixels]
        rcases hsx with rfl | rfl <;> rcases hsy with rfl | rfl <;> simp
      · intro p hp
        rcases List.mem_cons.mp hp with rfl | hp
        · exact ⟨m + 1, le_refl _, hx⟩
        · obtain ⟨k, hk1, hk2⟩ := hk p hp
          exact ⟨k, by omega, hk2⟩
    · simp only [if_neg hlt]
      obtain ⟨t, ht, ⟨hl, hh, hlast, hnd, hch⟩, hk⟩ := ih f (x + sx) y (e - dy) ry
        hx' hy (by omega) (by omega) (by linarith) (by omega)
      refine ⟨(x, y) :: t, by rw [ht]; rfl, ⟨by simp [hl], rfl, ?_, ?_, ?_⟩, ?_⟩
      · obtain ⟨q, t', rfl⟩ : ∃ q t', t = q :: t' := by
          cases t with
          | nil => simp at hl
          | cons q t' => exact ⟨q, t', rfl⟩
        rw [List.getLast?_cons_cons]; exact hlast
      · refine List.nodup_cons.mpr ⟨fun hmem => ?_, hnd⟩
        obtain ⟨k, hk1, hk2⟩ := hk _ hmem
        simp only at hk2
        have : sx * ((m + 1 : Nat) : Int) = sx * (k : Int) := by linarith
        have := sign_mul_cancel hsx this
        omega
      · obtain ⟨q, t', rfl⟩ : ∃ q t', t = q :: t' := by
          cases t with
          | nil => simp at hl
          | cons q t' => exact ⟨q, t', rfl⟩
        simp only [List.head?_cons, Option.some.injEq] at hh
        subst hh
        refine List.chain'_cons.mpr ⟨?_, hch⟩
        simp only [adjacentPixels]
        rcases hsx with rfl | rfl <;> simp
      · intro p hp
        rcases List.mem_cons.mp hp with rfl | hp
        · exact ⟨m + 1, le_refl _, hx⟩
        · obtain ⟨k, hk1, hk2⟩ := hk p hp
          exact ⟨k, by omega, hk2⟩
theorem GoodTrace_cons {t : List (Int × Int)} {p q : Int × Int} {x2 y2 : Int} {m : Nat}
    (h : GoodTrace t q x2 y2 m) (hadj : adjacentPixels p q) (hp : p ∉ t) :
    GoodTrace (p :: t) p x2 y2 (m + 1) := by
  obtain ⟨hl, hh, hlast, hnd, hch⟩ := h
  obtain ⟨q', t', rfl⟩ : ∃ q' t', t = q' :: t' := by
    cases t with
    | nil => simp at hl
    | cons q' t' => exact ⟨q', t', rfl⟩
  simp only [List.head?_cons, Option.some.injEq] at hh
  subst hh
  refine ⟨by simp [hl], rfl, ?_, List.nodup_cons.mpr ⟨hp, hnd⟩, List.chain'_cons.mpr ⟨hadj, hch⟩⟩
  rw [List.getLast?_cons_cons]; exact hlast

theorem walkTrace_ymajor (x2 y2 dx dy sx sy e0 : Int) (hsx : sx = 1 ∨ sx = -1)
    (hsy : sy = 1 ∨ sy = -1) (hd : dx ≤ dy) (hdx : 0 ≤ dx) (hdy : 0 < dy) (he0 : -dy < e0)
    (he0' : e0 ≤ 0) :
    ∀ (m fuel : Nat) (x y e rx : Int), y2 = y + sy * m → x2 = x + sx * rx → -dy < e → e ≤ 0 →
      e + m * dx = e0 + rx * dy → m < fuel →
      ∃ t, walkTrace x2 y2 dx dy sx sy fuel x y e = some t ∧ GoodTrace t (x, y) x2 y2 m ∧
        ∀ p ∈ t, ∃ k : Nat, k ≤ m ∧ y2 = p.2 + sy * k := by
  intro m
  induction m with
  | zero =>
    intro fuel x y e rx hy hx h1 h2 hinv hf
    obtain ⟨f, rfl⟩ : ∃ f, fuel = f + 1 := ⟨fuel - 1, by omega⟩
    have hye : y = y2 := by simp at hy; omega
    have hrx : rx = 0 := by
      apply small_multiple_zero hdy
      · simp at hinv; linarith
      · simp at hinv; linarith
    have hxe : x = x2 := by rw [hx, hrx]; ring
    refine ⟨[(x, y)], ?_, ?_, ?_⟩
    · rw [walkTrace, if_pos ⟨hxe, hye⟩]
    · subst hxe hye
      exact ⟨rfl, rfl, rfl, by simp, by simp⟩
    · intro p hp
      simp only [List.mem_singleton] at hp
      subst hp
      exact ⟨0, le_refl _, by simp [hye]⟩
  | succ m ih =>
    intro fuel x y e rx hy hx h1 h2 hinv hf
    obtain ⟨f, rfl⟩ : ∃ f, fuel = f + 1 := ⟨fuel - 1, by omega⟩
    have hne : ¬ (x = x2 ∧ y = y2) := by
      rintro ⟨_, hye⟩
      have : sy * ((m + 1 : Nat) : Int) = 0 := by linarith
      have := sign_mul_eq_zero hsy this
      omega
    have hy' : y2 = (y + sy) + sy * (m : Int) := by
      rw [hy]; push_cast; ring
    have hinv' : e + m * dx + dx = e0 + rx * dy := by
      rw [← hinv]; push_cast; ring
    have hnot : ∀ t : List (Int × Int),
        (∀ p ∈ t, ∃ k : Nat, k ≤ m ∧ y2 = p.2 + sy * k) → (x, y) ∉ t := by
      intro t hk hmem
      obtain ⟨k, hk1, hk2⟩ := hk _ hmem
      simp only at hk2
      have : sy * ((m + 1 : Nat) : Int) = sy * (k : Int) := by linarith
      have := sign_mul_cancel hsy this
      omega
    have hmemk : ∀ t : List (Int × Int),
        (∀ p ∈ t, ∃ k : Nat, k ≤ m ∧ y2 = p.2 + sy * k) →
        ∀ p ∈ (x, y) :: t, ∃ k : Nat, k ≤ m + 1 ∧ y2 = p.2 + sy * k := by
      intro t hk p hp
      rcases List.mem_cons.mp hp with rfl | hp
      · exact ⟨m + 1, le_refl _, hy⟩
      · obtain ⟨k, hk1, hk2⟩ := hk p hp
        exact ⟨k, by omega, hk2⟩
    rw [walkTrace, if_neg hne, walkStep_ymajor dx dy sx sy x y e h2 hdy]
    by_cases hgt : e > -dx
    · simp only [if_pos hgt]
      obtain ⟨t, ht, hg, hk⟩ := ih f (x + sx) (y + sy) (e - dy + dx) (rx - 1)
        hy' (by rw [hx]; ring) (by omega) (by omega)
        (by linarith [(show (rx - 1) * dy = rx * dy - dy by ring)]) (by omega)
      refine ⟨(x, y) :: t, by rw [ht]; rfl, GoodTrace_cons hg ?_ (hnot t hk), hmemk t hk⟩
      simp only [adjacentPixels]
      rcases hsx with rfl | rfl <;> rcases hsy with rfl | rfl <;> simp
    · simp only [if_neg hgt]
      obtain ⟨t, ht, hg, hk⟩ := ih f x (y + sy) (e + dx) rx
        hy' hx (by omega) (by omega) (by linarith) (by omega)
      refine ⟨(x, y) :: t, by rw [ht]; rfl, GoodTrace_cons hg ?_ (hnot t hk), hmemk t hk⟩
      simp only [adjacentPixels]
      rcases hsy with rfl | rfl <;> simp

theorem walkTrace_good (x1 y1 x2 y2 : Int) (fuel : Nat)
    (hf : max |x2 - x1| |y2 - y1| < (fuel : Int)) :
    ∃ t, walkTrace x2 y2 |x2 - x1| |y2 - y1| (if x1 < x2 then 1 else -1)
        (if y1 < y2 then 1 else -1) fuel x1 y1
        (Int.tdiv (if |x2 - x1| > |y2 - y1| then |x2 - x1| else -|y2 - y1|) 2) = some t ∧
      GoodTrace t (x1, y1) x2 y2 (max |x2 - x1| |y2 - y1|).toNat := by
  have hsx : (if x1 < x2 then (1 : Int) else -1) = 1 ∨ (if x1 < x2 then (1 : Int) else -1) = -1 := by
    split_ifs <;> simp
  have hsy : (if y1 < y2 then (1 : Int) else -1) = 1 ∨ (if y1 < y2 then (1 : Int) else -1) = -1 := by
    split_ifs <;> simp
  have hdx0 : 0 ≤ |x2 - x1| := abs_nonneg _
  have hdy0 : 0 ≤ |y2 - y1| := abs_nonneg _
  have hx : x2 = x1 + (if x1 < x2 then (1 : Int) else -1) * |x2 - x1| := by
    split_ifs with h
    · rw [abs_of_nonneg (by omega)]; ring
    · rw [abs_of_nonpos (by omega)]; ring
  have hy : y2 = y1 + (if y1 < y2 then (1 : Int) else -1) * |y2 - y1| := by
    split_ifs with h
    · rw [abs_of_nonneg (by omega)]; ring
    · rw [abs_of_nonpos (by omega)]; ring
  generalize (if x1 < x2 then (1 : Int) else -1) = sx at hsx hx
  generalize (if y1 < y2 then (1 : Int) else -1) = sy at hsy hy
  generalize |x2 - x1| = dx at hf hdx0 hx
  generalize |y2 - y1| = dy at hf hdy0 hy
  by_cases hgt : dx > dy
  · have hmax : max dx dy = dx := max_eq_left (le_of_lt hgt)
    rw [hmax] at hf ⊢
    simp only [if_pos hgt]
    rw [Int.tdiv_eq_ediv hdx0 (by norm_num)]
    obtain ⟨t, ht, hg, _⟩ := walkTrace_xmajor x2 y2 dx dy sx sy (dx / 2) hsx hsy hgt hdy0
      (by omega) (by omega) dx.toNat fuel x1 y1 (dx / 2) dy
      (by rw [Int.toNat_of_nonneg hdx0]; exact hx) hy (by omega) (by omega)
      (by rw [Int.toNat_of_nonneg hdx0]; ring) (by omega)
    exact ⟨t, ht, hg⟩
  · have hmax : max dx dy = dy := max_eq_right (not_lt.mp hgt)
    rw [hmax] at hf ⊢
    simp only [if_neg hgt]
    rw [Int.neg_tdiv, Int.tdiv_eq_ediv hdy0 (by norm_num)]
    by_cases hz : dy = 0
    · have hdxz : dx = 0 := by omega
      subst hz hdxz
      obtain ⟨f, rfl⟩ : ∃ f, fuel = f + 1 := ⟨fuel - 1, by omega⟩
      have hxe : x1 = x2 := by rw [hx]; ring
      have hye : y1 = y2 := by rw [hy]; ring
      subst hxe hye
      refine ⟨[(x1, y1)], by rw [walkTrace, if_pos ⟨rfl, rfl⟩], rfl, rfl, rfl, by simp, by simp⟩
    · obtain ⟨t, ht, hg, _⟩ := walkTrace_ymajor x2 y2 dx dy sx sy (-(dy / 2)) hsx hsy
        (not_lt.mp hgt) hdx0 (by omega) (by omega) (by omega) dy.toNat fuel x1 y1 (-(dy / 2)) dx
        (by rw [Int.toNat_of_nonneg hdy0]; exact hy) hx (by omega) (by omega)
        (by rw [Int.toNat_of_nonneg hdy0]; ring) (by omega)
      exact ⟨t, ht, hg⟩

/-- C9: for all integer endpoints `(x1, y1)` and `(x2, y2)` the walk of `_draw_line` returns
(given more fuel than `max(|x2-x1|, |y2-y1|)`), and the sequence of pixels it visits starts with
`(x1, y1)`, ends with `(x2, y2)`, visits no pixel twice, and any two consecutive pixels differ
by at most 1 in `x` and at most 1 in `y`. -/
theorem draw_line_walk (fuel : Nat) (rgba8 : Nat → Nat) (width height x1 y1 x2 y2 : Int)
    (r g b a : Nat) (hf : max |x2 - x1| |y2 - y1| < (fuel : Int)) :
    ∃ visited, (_draw_line fuel rgba8 width height x1 y1 x2 y2 r g b a).map Prod.snd
        = some visited ∧
      visited.head? = some (x1, y1) ∧ visited.getLast? = some (x2, y2) ∧ visited.Nodup ∧
      visited.Chain' adjacentPixels := by
  obtain ⟨t, ht, _, h1, h2, h3, h4⟩ := walkTrace_good x1 y1 x2 y2 fuel hf
  refine ⟨t, ?_, h1, h2, h3, h4⟩
  unfold _draw_line
  simp only []
  rw [drawLoop_visited, ht]
  simp

theorem draw_line_walk_witness :
    (_draw_line 5 (fun _ => 0) 8 1 0 0 4 0 255 0 0 255).map Prod.snd
        = some [(0, 0), (1, 0), (2, 0), (3, 0), (4, 0)] ∧
    ∃ visited, (_draw_line 5 (fun _ => 0) 8 1 0 0 4 0 255 0 0 255).map Prod.snd
        = some visited ∧
      visited.head? = some (0, 0) ∧ visited.getLast? = some (4, 0) ∧ visited.Nodup ∧
      visited.Chain' adjacentPixels :=
  ⟨by decide, draw_line_walk 5 (fun _ => 0) 8 1 0 0 4 0 255 0 0 255 (by decide)⟩

/-- C10, evaluated on the code at a failing input: on a row whose pixels 0, 3 and 4 are yellow
and whose pixels 1 and 2 are red, the walk from `(0,0)` to `(4,0)` visits the five pixels in
order; the only non-yellow pixel followed by a yellow one is `(2,0)`, yet the end written to
`(secondX, secondY)` is `(3,0)`, the yellow pixel itself. -/
theorem find_colorful_line_endpoints_end_is_yellow :
    (_find_colorful_line_endpoints 5 endpointTestRow 8 1 ⟨30, 50, 80⟩ 0 0 4 0).map
        (fun s => (s.firstX, s.firstY, s.secondX, s.secondY))
      = some ((1 : Int), (0 : Int), (3 : Int), (0 : Int)) ∧
    (_find_colorful_line_endpoints 5 endpointTestRow 8 1 ⟨30, 50, 80⟩ 0 0 4 0).map
        (fun s => s.visited)
      = some ([(0, 0), (1, 0), (2, 0), (3, 0), (4, 0)] : List (Int × Int)) ∧
    ([(0, 0), (1, 0), (2, 0), (3, 0), (4, 0)] : List (Int × Int)).map
        (yellowAt endpointTestRow 8 ⟨30, 50, 80⟩)
      = [true, false, false, true, true] :=
  ⟨by decide, by decide, by decide⟩

/-! ## Theorems: scan-line extraction -/

theorem pushAll_nil (M : Nat) (s : ScanState) (h : s.dst.length ≤ M) :
    pushAll M s.dst ([], s.core) = .ok s := by
  simp [pushAll, ScanState.core, h]

theorem pushAll_bind (M : Nat) (dst : List YellowScanLine)
    (r1 r2 : List YellowScanLine × ScanCore)
    (f : ScanState → Except (List YellowScanLine) ScanState) (hd : dst.length ≤ M)
    (hf : ∀ s : ScanState, s.dst.length ≤ M → s.core = r1.2 → f s = pushAll M s.dst r2) :
    (pushAll M dst r1 >>= f) = pushAll M dst (r1.1 ++ r2.1, r2.2) := by
  by_cases h1 : dst.length + r1.1.length ≤ M
  · have e1 : pushAll M dst r1 = .ok
        { dst := dst ++ r1.1, onLine := r1.2.1, currentLine := r1.2.2.1, blocks := r1.2.2.2 } := by
      unfold pushAll; rw [if_pos h1]
    rw [e1]
    simp only [bind, Except.bind]
    rw [hf { dst := dst ++ r1.1, onLine := r1.2.1, currentLine := r1.2.2.1, blocks := r1.2.2.2 }
      (by simp only [List.length_append]; omega) rfl]
    unfold pushAll
    simp only [List.length_append, List.append_assoc, Nat.add_assoc]
  · have e1 : pushAll M dst r1 = .error ((dst ++ r1.1).take M) := by
      unfold pushAll; rw [if_neg h1]
    have e2 : pushAll M dst (r1.1 ++ r2.1, r2.2) = .error ((dst ++ (r1.1 ++ r2.1)).take M) := by
      unfold pushAll; rw [if_neg (by simp only [List.length_append]; omega)]
    rw [e1, e2]
    simp only [bind, Except.bind]
    have e : (dst ++ (r1.1 ++ r2.1)).take M = (dst ++ r1.1).take M := by
      rw [← List.append_assoc]
      exact List.take_append_of_le_length (by simp only [List.length_append]; omega)
    rw [e]

theorem foldlM_pushAll {α : Type} (M : Nat)
    (stepC : ScanState → α → Except (List YellowScanLine) ScanState)
    (R : ScanCore → α → List YellowScanLine × ScanCore)
    (hstep : ∀ (s : ScanState) (a : α), s.dst.length ≤ M →
      stepC s a = pushAll M s.dst (R s.core a)) :
    ∀ (xs : List α) (s : ScanState), s.dst.length ≤ M →
      xs.foldlM stepC s = pushAll M s.dst (emitFold R xs s.core) := by
  intro xs
  induction xs with
  | nil =>
    intro s hs
    rw [List.foldlM_nil, emitFold, pushAll_nil M s hs]
    rfl
  | cons a as ih =>
    intro s hs
    rw [List.foldlM_cons, hstep s a hs, emitFold]
    exact pushAll_bind M s.dst (R s.core a) (emitFold R as (R s.core a).2) _ hs
      (fun s' hs' hc => by rw [ih s' hs', hc])

theorem endLine_eq (M : Nat) (s : ScanState) (h : s.dst.length ≤ M) :
    endLine M s = pushAll M s.dst ([s.currentLine], (false, s.currentLine, s.blocks)) := by
  unfold endLine pushAll
  by_cases h1 : s.dst.length < M
  · rw [if_pos h1, if_pos (by simp; omega)]
  · rw [if_neg h1, if_neg (by simp; omega)]
    congr 1
    rw [List.take_append_of_le_length (by omega), List.take_of_length_le (by omega)]

theorem scanPixel_eq (M : Nat) (x y : Int) (mask : M256) (s : ScanState) (i : Nat)
    (h : s.dst.length ≤ M) :
    scanPixel M x y mask s i = pushAll M s.dst (pixelEmit x y mask s.core i) := by
  by_cases h1 : (m256i_i32 mask i != 0) = true
  · by_cases h2 : s.onLine = true
    · simp [scanPixel, pixelEmit, ScanState.core, h1, h2, pushAll, h]
    · simp [scanPixel, pixelEmit, ScanState.core, h1, h2, pushAll, h]
  · by_cases h2 : s.onLine = true
    · have e : pixelEmit x y mask s.core i = ([s.currentLine], (false, s.currentLine, s.blocks)) := by
        simp [pixelEmit, ScanState.core, h1, h2]
      rw [e, ← endLine_eq M s h]
      simp [scanPixel, h1, h2]
    · have e : pixelEmit x y mask s.core i = ([], s.core) := by
        simp [pixelEmit, ScanState.core, h1, h2]
      rw [e, pushAll_nil M s h]
      simp [scanPixel, h1, h2]

theorem scanBlock_eq (rgba8 : Nat → Nat) (configAvx : YellowConfigAVX) (M : Nat) (y : Int)
    (s : ScanState) (x : Int) (h : s.dst.length ≤ M) :
    scanBlock rgba8 configAvx M y s x
      = pushAll M s.dst (blockEmit rgba8 configAvx y s.core x) := by
  unfold scanBlock blockEmit
  simp only [ScanState.core]
  split_ifs with h1 h2
  · exact endLine_eq M { s with blocks := s.blocks + 1 } h
  · have := pushAll_nil M { s with blocks := s.blocks + 1 } h
    simp only [ScanState.core] at this
    exact this.symm
  · exact foldlM_pushAll M _ _ (fun s a hs => scanPixel_eq M x y _ s a hs) _
      { s with blocks := s.blocks + 1 } h

theorem scanRow_eq (rgba8 : Nat → Nat) (configAvx : YellowConfigAVX) (M : Nat) (width : Int)
    (s : ScanState) (y : Nat) (h : s.dst.length ≤ M) :
    scanRow rgba8 configAvx M width s y
      = pushAll M s.dst (rowEmit rgba8 configAvx width s.core y) := by
  simp only [scanRow, rowEmit]
  rw [foldlM_pushAll M _ _ (fun s a hs => scanBlock_eq rgba8 configAvx M y s a hs) _
    { s with onLine := false } h]
  simp only [ScanState.core]
  generalize emitFold (blockEmit rgba8 configAvx y) (blockColumns width)
    (false, s.currentLine, s.blocks) = r
  by_cases h1 : r.2.1 = true
  · rw [if_pos h1]
    have := pushAll_bind M s.dst r ([r.2.2.1], (false, r.2.2.1, r.2.2.2))
      (fun s => if s.onLine = true then endLine M s else Except.ok s) h
      (fun s' hs' hc => by
        have h0 : s'.onLine = true := by
          have := congrArg Prod.fst hc
          simp only [ScanState.core] at this
          rw [this, h1]
        show (if s'.onLine = true then endLine M s' else Except.ok s') = _
        rw [if_pos h0, endLine_eq M s' hs']
        have h2 := congrArg (fun c => c.2.1) hc
        have h3 := congrArg (fun c => c.2.2) hc
        simp only [ScanState.core] at h2 h3
        rw [h2, h3])
    exact this
  · rw [if_neg h1]
    have := pushAll_bind M s.dst r ([], r.2)
      (fun s => if s.onLine = true then endLine M s else Except.ok s) h
      (fun s' hs' hc => by
        have h0 : ¬ s'.onLine = true := by
          have := congrArg Prod.fst hc
          simp only [ScanState.core] at this
          rw [this]; exact h1
        show (if s'.onLine = true then endLine M s' else Except.ok s') = _
        rw [if_neg h0, ← hc, pushAll_nil M s' hs'])
    simp only [List.append_nil] at this
    exact this

theorem find_yellow_lines_eq (rgba8 : Nat → Nat) (width height : Int) (cfg : YellowConfig)
    (maxCount : Nat) (hw : width % 8 = 0) :
    find_yellow_lines rgba8 width height cfg maxCount
      = some ((emitFold (rowEmit rgba8 (to_avx cfg) width) (List.range height.toNat)
          (false, default, 0)).1.take maxCount) := by
  unfold find_yellow_lines
  have hw' : ¬ Int.tmod width 8 ≠ 0 := by
    simp only [ne_eq, not_not]
    have : (8 : Int) ∣ width := Int.dvd_of_emod_eq_zero hw
    exact Int.tmod_eq_zero_of_dvd this
  rw [if_neg hw']
  simp only []
  rw [foldlM_pushAll maxCount _ _
    (fun s a hs => scanRow_eq rgba8 (to_avx cfg) maxCount width s a hs) _ _ (Nat.zero_le _)]
  simp only [ScanState.core, pushAll, List.length_nil, Nat.zero_add, List.nil_append]
  split_ifs with h
  · simp only [Option.some.injEq]
    rw [List.take_of_length_le h]
  · rfl

theorem emitFold_append {α ρ : Type} (R : ρ → α → List YellowScanLine × ρ) :
    ∀ (xs ys : List α) (st : ρ),
      emitFold R (xs ++ ys) st
        = ((emitFold R xs st).1 ++ (emitFold R ys (emitFold R xs st).2).1,
           (emitFold R ys (emitFold R xs st).2).2) := by
  intro xs
  induction xs with
  | nil => intro ys st; simp [emitFold]
  | cons a as ih =>
    intro ys st
    rw [List.cons_append, emitFold, emitFold, ih]
    simp only [List.append_assoc]

theorem emitFold_map {α β ρ : Type} (R : ρ → β → List YellowScanLine × ρ) (f : α → β) :
    ∀ (xs : List α) (st : ρ),
      emitFold R (xs.map f) st = emitFold (fun st a => R st (f a)) xs st := by
  intro xs
  induction xs with
  | nil => intro st; rfl
  | cons a as ih => intro st; simp only [List.map_cons, emitFold, ih]

theorem emitFold_withBlocks {α : Type} (b : Nat)
    (R1 : ScanCore → α → List YellowScanLine × ScanCore)
    (R2 : Bool × YellowScanLine → α → List YellowScanLine × (Bool × YellowScanLine)) :
    ∀ (xs : List α), (∀ a ∈ xs, ∀ st : Bool × YellowScanLine,
        R1 (st.1, st.2, b) a = withBlocks b (R2 st a)) →
      ∀ st : Bool × YellowScanLine,
        emitFold R1 xs (st.1, st.2, b) = withBlocks b (emitFold R2 xs st) := by
  intro xs
  induction xs with
  | nil => intro _ st; rfl
  | cons a as ih =>
    intro h st
    have h1 := h a (List.mem_cons_self _ _) st
    have h2 := ih (fun a' ha' => h a' (List.mem_cons_of_mem _ ha')) (R2 st a).2
    simp only [emitFold, h1]
    simp only [withBlocks] at h2 ⊢
    rw [h2]

theorem lanes_zero_of_testz (v : M256) (h : (_mm256_testz_si256 v v != 0) = true) :
    ∀ i, i < 8 → m256i_i32 v i = 0 := by
  have hall : ∀ j, j < 32 → v j = 0 := by
    intro j hj
    unfold _mm256_testz_si256 at h
    by_cases hc : (List.range 32).all (fun j => v j &&& v j == 0) = true
    · rw [List.all_eq_true] at hc
      have := hc j (List.mem_range.mpr hj)
      simpa using this
    · rw [if_neg hc] at h
      simp at h
  intro i hi
  have h0 := hall (4 * i) (by omega)
  have h1 := hall (4 * i + 1) (by omega)
  have h2 := hall (4 * i + 2) (by omega)
  have h3 := hall (4 * i + 3) (by omega)
  simp [m256i_i32, m256i_u32, h0, h1, h2, h3]

theorem pixelEmit_zero (x y : Int) (mask : M256) (st : ScanCore) (i : Nat)
    (h : m256i_i32 mask i = 0) :
    pixelEmit x y mask st i = if st.1 then ([st.2.1], (false, st.2.1, st.2.2)) else ([], st) := by
  simp [pixelEmit, h]

theorem blockEmit_eq_pixels (rgba8 : Nat → Nat) (configAvx : YellowConfigAVX) (y : Int)
    (st : ScanCore) (x : Int) :
    blockEmit rgba8 configAvx y st x
      = emitFold (pixelEmit x y (_are_yellow (fun j => rgba8 (32 * st.2.2 + j)) configAvx))
          (List.range 8) (st.1, st.2.1, st.2.2 + 1) := by
  unfold blockEmit
  simp only []
  by_cases h : (_mm256_testz_si256 (_are_yellow (fun j => rgba8 (32 * st.2.2 + j)) configAvx)
      (_are_yellow (fun j => rgba8 (32 * st.2.2 + j)) configAvx) != 0) = true
  · have hz := lanes_zero_of_testz _ h
    rw [if_pos h, show List.range 8 = [0, 1, 2, 3, 4, 5, 6, 7] from rfl]
    simp only [emitFold, pixelEmit_zero _ _ _ _ _ (hz 0 (by omega)),
      pixelEmit_zero _ _ _ _ _ (hz 1 (by omega)), pixelEmit_zero _ _ _ _ _ (hz 2 (by omega)),
      pixelEmit_zero _ _ _ _ _ (hz 3 (by omega)), pixelEmit_zero _ _ _ _ _ (hz 4 (by omega)),
      pixelEmit_zero _ _ _ _ _ (hz 5 (by omega)), pixelEmit_zero _ _ _ _ _ (hz 6 (by omega)),
      pixelEmit_zero _ _ _ _ _ (hz 7 (by omega))]
    by_cases hon : st.1 = true
    · simp [hon]
    · simp [hon]
  · rw [if_neg h]

theorem pixelEmit_eq_rowPixel (rgba8 : Nat → Nat) (width : Int) (cfg : YellowConfig)
    (nb y k i b : Nat) (hnb : width.toNat / 8 = nb) (hi : i < 8) (st : Bool × YellowScanLine) :
    pixelEmit (8 * (k : Int)) (y : Int)
        (_are_yellow (fun j => rgba8 (32 * (y * nb + k) + j)) (to_avx cfg)) (st.1, st.2, b) i
      = withBlocks b
          (rowPixel (fun x => classified rgba8 width cfg x y) y st (8 * k + i)) := by
  have hc : classified rgba8 width cfg ((8 * k + i : Nat) : Int) (y : Int)
      = (m256i_i32 (_are_yellow (fun j => rgba8 (32 * (y * nb + k) + j)) (to_avx cfg)) i
          != 0) := by
    unfold classified
    simp only [Int.toNat_ofNat, hnb]
    rw [show (8 * k + i) / 8 = k by omega, show (8 * k + i) % 8 = i by omega]
  unfold pixelEmit rowPixel withBlocks
  simp only [hc]
  have hx : (8 * (k : Int) + (i : Int)) = ((8 * k + i : Nat) : Int) := by push_cast; ring
  rw [hx]
  split_ifs <;> rfl

theorem blocks_eq_pixels (rgba8 : Nat → Nat) (width : Int) (cfg : YellowConfig)
    (nb y : Nat) (hnb : width.toNat / 8 = nb) :
    ∀ (n k0 : Nat) (st : Bool × YellowScanLine),
      emitFold (blockEmit rgba8 (to_avx cfg) (y : Int))
          ((List.range' k0 n).map (fun (k : Nat) => 8 * (k : Int))) (st.1, st.2, y * nb + k0)
        = withBlocks (y * nb + k0 + n)
            (emitFold (rowPixel (fun x => classified rgba8 width cfg x y) y)
              (List.range' (8 * k0) (8 * n)) st) := by
  intro n
  induction n with
  | zero => intro k0 st; rfl
  | succ n ih =>
    intro k0 st
    have hblock : blockEmit rgba8 (to_avx cfg) (y : Int) (st.1, st.2, y * nb + k0)
          (8 * (k0 : Int))
        = withBlocks (y * nb + k0 + 1)
            (emitFold (rowPixel (fun x => classified rgba8 width cfg x y) y)
              (List.range' (8 * k0) 8) st) := by
      rw [blockEmit_eq_pixels, List.range'_eq_map_range, emitFold_map]
      exact emitFold_withBlocks (y * nb + k0 + 1) _ _ (List.range 8)
        (fun i hi st' => pixelEmit_eq_rowPixel rgba8 width cfg nb y k0 i _ hnb
          (List.mem_range.mp hi) st') st
    rw [List.range'_succ, List.map_cons, emitFold, hblock]
    have hsplit : List.range' (8 * k0) (8 * (n + 1))
        = List.range' (8 * k0) 8 ++ List.range' (8 * (k0 + 1)) (8 * n) := by
      rw [show 8 * (n + 1) = 8 * n + 8 by ring, show 8 * (k0 + 1) = 8 * k0 + 8 by ring,
        List.range'_append_1]
    rw [hsplit, emitFold_append]
    have := ih (k0 + 1)
      (emitFold (rowPixel (fun x => classified rgba8 width cfg x y) y)
        (List.range' (8 * k0) 8) st).2
    simp only [withBlocks] at this ⊢
    rw [show y * nb + k0 + 1 = y * nb + (k0 + 1) by ring, this]
    simp only [show y * nb + (k0 + 1) + n = y * nb + k0 + (n + 1) by ring]

theorem countP_range_succ (P : Nat → Bool) (n : Nat) :
    (List.range (n + 1)).countP P = (List.range n).countP P + (if P n = true then 1 else 0) := by
  rw [List.range_succ, List.countP_append]
  by_cases h : P n = true
  · simp [h]
  · simp [h]

theorem RowInv_step (cls : Int → Bool) (y : Int) (n : Nat) (E : List YellowScanLine)
    (onL : Bool) (cur : YellowScanLine) (h : RowInv cls y n E onL cur) :
    RowInv cls y (n + 1) (E ++ (rowPixel cls y (onL, cur) n).1)
      (rowPixel cls y (onL, cur) n).2.1 (rowPixel cls y (onL, cur) n).2.2 := by
  have hcast : ((n + 1 : Nat) : Int) = (n : Int) + 1 := by push_cast; rfl
  by_cases hc : cls (n : Int) = true
  · cases onL with
    | true =>
      obtain ⟨c1, c2, c3, c4, c5, c6⟩ := h.cur_ok rfl
      have hr : rowPixel cls y (true, cur) n = ([], (true, { cur with end_ := cur.end_ + 1 })) := by
        simp [rowPixel, hc]
      rw [hr]
      simp only [List.append_nil]
      refine ⟨fun l hl => ?_, h.yellow, h.maximal, fun x => ?_, ?_, fun _ => ?_, fun hf => ?_⟩
      · obtain ⟨w1, w2, w3, w4⟩ := h.wf l hl
        exact ⟨w1, w2, w3, by omega⟩
      · rw [h.count x]
        apply if_congr _ rfl rfl
        simp only [true_and]
        constructor
        · rintro ⟨a, b, c, d⟩; exact ⟨a, by omega, c, d⟩
        · rintro ⟨a, b, c, d⟩; exact ⟨a, by omega, c, d⟩
      · rw [countP_range_succ, ← h.len]
        have hn : 0 < n := by omega
        have : cls ((n : Int) - 1) = true := c5 _ (by omega) (by omega)
        simp [isRunStart, hc, hn, this]
      · refine ⟨c1, c2, by simp only; omega, by simp only; omega, fun x hx1 hx2 => ?_, c6⟩
        simp only at hx2
        by_cases hx : x ≤ cur.end_
        · exact c5 x hx1 hx
        · have : x = (n : Int) := by omega
          rw [this]; exact hc
      · cases hf
    | false =>
      have hr : rowPixel cls y (false, cur) n
          = ([], (true, { start := n, end_ := n, y := y, _ignore := false })) := by
        simp [rowPixel, hc]
      rw [hr]
      simp only [List.append_nil]
      refine ⟨fun l hl => ?_, h.yellow, h.maximal, fun x => ?_, ?_, fun _ => ?_, fun hf => ?_⟩
      · obtain ⟨w1, w2, w3, w4⟩ := h.wf l hl
        exact ⟨w1, w2, w3, by omega⟩
      · rw [h.count x]
        apply if_congr _ rfl rfl
        simp only [Bool.false_eq_true, false_and, not_false_eq_true, and_true, true_and]
        constructor
        · rintro ⟨a, b, c⟩; exact ⟨a, by omega, c, by omega⟩
        · rintro ⟨a, b, c, d⟩; exact ⟨a, by omega, c⟩
      · rw [countP_range_succ, ← h.len]
        have : isRunStart cls n = true := by
          by_cases hn : 0 < n
          · simp [isRunStart, hc, hn, h.off_ok rfl hn]
          · simp [isRunStart, hc, hn]
        simp [this]
      · refine ⟨rfl, by simp only; omega, le_refl _, by simp only; omega, fun x hx1 hx2 => ?_,
          fun hpos => ?_⟩
        · simp only at hx1 hx2
          have : x = (n : Int) := by omega
          rw [this]; exact hc
        · simp only at hpos ⊢
          exact h.off_ok rfl (by omega)
      · cases hf
  · have hc' : cls (n : Int) = false := by simpa using hc
    cases onL with
    | true =>
      obtain ⟨c1, c2, c3, c4, c5, c6⟩ := h.cur_ok rfl
      have hr : rowPixel cls y (true, cur) n = ([cur], (false, cur)) := by
        simp [rowPixel, hc']
      rw [hr]
      refine ⟨fun l hl => ?_, fun l hl => ?_, fun l hl => ?_, fun x => ?_, ?_, fun hf => ?_,
        fun _ _ => ?_⟩
      · rcases List.mem_append.mp hl with hl | hl
        · obtain ⟨w1, w2, w3, w4⟩ := h.wf l hl
          exact ⟨w1, w2, w3, by omega⟩
        · simp only [List.mem_singleton] at hl
          subst hl
          exact ⟨c1, c2, c3, by omega⟩
      · rcases List.mem_append.mp hl with hl | hl
        · exact h.yellow l hl
        · simp only [List.mem_singleton] at hl
          subst hl
          exact c5
      · rcases List.mem_append.mp hl with hl | hl
        · exact h.maximal l hl
        · simp only [List.mem_singleton] at hl
          subst hl
          refine ⟨c6, ?_⟩
          rw [show l.end_ + 1 = (n : Int) by omega]; exact hc'
      · rw [List.countP_append, h.count x]
        simp only [true_and, Bool.false_eq_true, false_and, not_false_eq_true, and_true]
        by_cases hcov : cur.start ≤ x ∧ x ≤ cur.end_
        · have e1 : List.countP (coversColumn x) [cur] = 1 := by
            simp [List.countP_cons, coversColumn, hcov]
          rw [e1, if_neg (by intro hh; exact hh.2.2.2 hcov.1),
            if_pos ⟨by omega, by omega, c5 x hcov.1 hcov.2⟩]
        · have e1 : List.countP (coversColumn x) [cur] = 0 := by
            simp only [List.countP_cons, List.countP_nil, coversColumn]
            simp [hcov]
          rw [e1, Nat.add_zero]
          apply if_congr _ rfl rfl
          constructor
          · rintro ⟨a, b, c, d⟩; exact ⟨a, by omega, c⟩
          · rintro ⟨a, b, c⟩
            have hxn : x ≠ (n : Int) := by
              intro hx; rw [hx, hc'] at c; cases c
            exact ⟨a, by omega, c, by omega⟩
      · rw [countP_range_succ, ← h.len]
        simp [isRunStart, hc']
      · cases hf
      · rw [hcast, show (n : Int) + 1 - 1 = (n : Int) by ring]; exact hc'
    | false =>
      have hr : rowPixel cls y (false, cur) n = ([], (false, cur)) := by
        simp [rowPixel, hc']
      rw [hr]
      simp only [List.append_nil]
      refine ⟨fun l hl => ?_, h.yellow, h.maximal, fun x => ?_, ?_, fun hf => ?_, fun _ _ => ?_⟩
      · obtain ⟨w1, w2, w3, w4⟩ := h.wf l hl
        exact ⟨w1, w2, w3, by omega⟩
      · rw [h.count x]
        apply if_congr _ rfl rfl
        simp only [Bool.false_eq_true, false_and, not_false_eq_true, and_true]
        constructor
        · rintro ⟨a, b, c⟩; exact ⟨a, by omega, c⟩
        · rintro ⟨a, b, c⟩
          have hxn : x ≠ (n : Int) := by
            intro hx; rw [hx, hc'] at c; cases c
          exact ⟨a, by omega, c⟩
      · rw [countP_range_succ, ← h.len]
        simp [isRunStart, hc']
      · cases hf
      · rw [hcast, show (n : Int) + 1 - 1 = (n : Int) by ring]; exact hc'

theorem RowInv_fold (cls : Int → Bool) (y : Int) (cur0 : YellowScanLine) :
    ∀ n : Nat, RowInv cls y n
      (emitFold (rowPixel cls y) (List.range n) (false, cur0)).1
      (emitFold (rowPixel cls y) (List.range n) (false, cur0)).2.1
      (emitFold (rowPixel cls y) (List.range n) (false, cur0)).2.2 := by
  intro n
  induction n with
  | zero =>
    simp only [List.range_zero, emitFold]
    refine ⟨fun l hl => (by cases hl), fun l hl => (by cases hl), fun l hl => (by cases hl),
      fun x => ?_, rfl, fun hf => (by cases hf), fun _ h => (by omega)⟩
    rw [if_neg (by intro h; have := h.2.1; simp at this; omega)]
    rfl
  | succ n ih =>
    rw [List.range_succ, emitFold_append]
    have := RowInv_step cls y n _ _ _ ih
    simpa [emitFold] using this

theorem RowDone_of_fold (cls : Int → Bool) (y : Int) (cur0 : YellowScanLine) (W : Nat) :
    RowDone cls y W
      ((emitFold (rowPixel cls y) (List.range W) (false, cur0)).1 ++
        (if (emitFold (rowPixel cls y) (List.range W) (false, cur0)).2.1 = true then
          [(emitFold (rowPixel cls y) (List.range W) (false, cur0)).2.2] else [])) := by
  have h := RowInv_fold cls y cur0 W
  generalize (emitFold (rowPixel cls y) (List.range W) (false, cur0)) = r at h
  obtain ⟨E, onL, cur⟩ := r
  simp only at h ⊢
  cases onL with
  | true =>
    obtain ⟨c1, c2, c3, c4, c5, c6⟩ := h.cur_ok rfl
    simp only [if_true]
    refine ⟨fun l hl => ?_, fun l hl => ?_, fun l hl => ?_, fun x => ?_, ?_⟩
    · rcases List.mem_append.mp hl with hl | hl
      · obtain ⟨w1, w2, w3, w4⟩ := h.wf l hl
        exact ⟨w1, w2, w3, by omega⟩
      · simp only [List.mem_singleton] at hl
        subst hl
        exact ⟨c1, c2, c3, by omega⟩
    · rcases List.mem_append.mp hl with hl | hl
      · exact h.yellow l hl
      · simp only [List.mem_singleton] at hl
        subst hl
        exact c5
    · rcases List.mem_append.mp hl with hl | hl
      · exact ⟨(h.maximal l hl).1, fun _ => (h.maximal l hl).2⟩
      · simp only [List.mem_singleton] at hl
        subst hl
        exact ⟨c6, fun hlt => by omega⟩
    · rw [List.countP_append, h.count x]
      simp only [true_and]
      by_cases hcov : cur.start ≤ x ∧ x ≤ cur.end_
      · have e1 : List.countP (coversColumn x) [cur] = 1 := by
          simp [List.countP_cons, coversColumn, hcov]
        rw [e1, if_neg (by intro hh; exact hh.2.2.2 hcov.1),
          if_pos ⟨by omega, by omega, c5 x hcov.1 hcov.2⟩]
      · have e1 : List.countP (coversColumn x) [cur] = 0 := by
          simp only [List.countP_cons, List.countP_nil, coversColumn]
          simp [hcov]
        rw [e1, Nat.add_zero]
        apply if_congr _ rfl rfl
        constructor
        · rintro ⟨a, b, c, d⟩; exact ⟨a, b, c⟩
        · rintro ⟨a, b, c⟩; exact ⟨a, b, c, by omega⟩
    · have := h.len
      simp only [if_true] at this
      simp only [List.length_append, List.length_singleton]
      exact this
  | false =>
    simp only [Bool.false_eq_true, if_false, List.append_nil]
    refine ⟨fun l hl => ?_, h.yellow, fun l hl => ?_, fun x => ?_, ?_⟩
    · obtain ⟨w1, w2, w3, w4⟩ := h.wf l hl
      exact ⟨w1, w2, w3, by omega⟩
    · exact ⟨(h.maximal l hl).1, fun _ => (h.maximal l hl).2⟩
    · rw [h.count x]
      apply if_congr _ rfl rfl
      simp
    · have := h.len
      simp only [Bool.false_eq_true, if_false, Nat.add_zero] at this
      exact this

theorem ImageInv_row (rgba8 : Nat → Nat) (width : Int) (cfg : YellowConfig) (W h : Nat)
    (L R : List YellowScanLine) (hL : ImageInv rgba8 width cfg W h L)
    (hR : RowDone (fun x => classified rgba8 width cfg x h) h W R) :
    ImageInv rgba8 width cfg W (h + 1) (L ++ R) := by
  have hcast : ((h + 1 : Nat) : Int) = (h : Int) + 1 := by push_cast; rfl
  refine ⟨fun l hl => ?_, fun l hl => ?_, fun l hl => ?_, fun x y => ?_, ?_⟩
  · rcases List.mem_append.mp hl with hl | hl
    · obtain ⟨w1, w2, w3, w4, w5⟩ := hL.wf l hl
      exact ⟨w1, by omega, w3, w4, w5⟩
    · obtain ⟨w1, w2, w3, w4⟩ := hR.wf l hl
      exact ⟨by omega, by omega, w2, w3, w4⟩
  · rcases List.mem_append.mp hl with hl | hl
    · exact hL.yellow l hl
    · rw [(hR.wf l hl).1]; exact hR.yellow l hl
  · rcases List.mem_append.mp hl with hl | hl
    · exact hL.maximal l hl
    · rw [(hR.wf l hl).1]; exact hR.maximal l hl
  · rw [List.countP_append, hL.count x y]
    by_cases hy : y = (h : Int)
    · subst hy
      have e : List.countP (coversPixel x (h : Int)) R = List.countP (coversColumn x) R := by
        apply List.countP_congr
        intro l hl
        simp [coversPixel, coversColumn, (hR.wf l hl).1]
      rw [e, hR.count x, if_neg (by intro hh; omega), Nat.zero_add]
      apply if_congr _ rfl rfl
      constructor
      · rintro ⟨a, b, c⟩; exact ⟨by omega, by omega, a, b, c⟩
      · rintro ⟨_, _, a, b, c⟩; exact ⟨a, b, c⟩
    · have e : List.countP (coversPixel x y) R = 0 := by
        rw [List.countP_eq_zero]
        intro l hl
        simp only [coversPixel, decide_eq_true_eq, not_and]
        intro hly
        exact absurd ((hR.wf l hl).1.symm.trans hly).symm hy
      rw [e, Nat.add_zero]
      apply if_congr _ rfl rfl
      constructor
      · rintro ⟨a, b, c⟩; exact ⟨a, by omega, c⟩
      · rintro ⟨a, b, c⟩; exact ⟨a, by omega, c⟩
  · rw [List.length_append, hL.len, hR.len, List.range_succ, List.map_append, List.sum_append]
    simp

theorem rowEmit_eq (rgba8 : Nat → Nat) (width : Int) (cfg : YellowConfig) (nb y : Nat)
    (hW : width.toNat = 8 * nb) (st : ScanCore) (hb : st.2.2 = y * nb) :
    rowEmit rgba8 (to_avx cfg) width st y
      = ((emitFold (rowPixel (fun x => classified rgba8 width cfg x y) y)
            (List.range width.toNat) (false, st.2.1)).1 ++
          (if (emitFold (rowPixel (fun x => classified rgba8 width cfg x y) y)
              (List.range width.toNat) (false, st.2.1)).2.1 = true then
            [(emitFold (rowPixel (fun x => classified rgba8 width cfg x y) y)
              (List.range width.toNat) (false, st.2.1)).2.2] else []),
         (false,
          (emitFold (rowPixel (fun x => classified rgba8 width cfg x y) y)
            (List.range width.toNat) (false, st.2.1)).2.2,
          (y + 1) * nb)) := by
  have hnb : width.toNat / 8 = nb := by omega
  have hcols : blockColumns width = (List.range' 0 nb).map (fun (k : Nat) => 8 * (k : Int)) := by
    unfold blockColumns
    rw [show (width.toNat + 7) / 8 = nb by omega, List.range_eq_range']
  have h := blocks_eq_pixels rgba8 width cfg nb y hnb nb 0 (false, st.2.1)
  simp only [Nat.add_zero, Nat.mul_zero] at h
  unfold rowEmit
  simp only []
  rw [hcols, hb, h, ← List.range_eq_range', ← hW]
  simp only [withBlocks]
  rw [show y * nb + nb = (y + 1) * nb by ring]
  generalize emitFold (rowPixel (fun x => classified rgba8 width cfg x y) y)
    (List.range width.toNat) (false, st.2.1) = r
  obtain ⟨E, onL, cur⟩ := r
  cases onL <;> simp

theorem ImageInv_fold (rgba8 : Nat → Nat) (width : Int) (cfg : YellowConfig) (nb : Nat)
    (hW : width.toNat = 8 * nb) :
    ∀ h : Nat,
      (emitFold (rowEmit rgba8 (to_avx cfg) width) (List.range h) (false, default, 0)).2.2.2
        = h * nb ∧
      ImageInv rgba8 width cfg width.toNat h
        (emitFold (rowEmit rgba8 (to_avx cfg) width) (List.range h) (false, default, 0)).1 := by
  intro h
  induction h with
  | zero =>
    simp only [List.range_zero, emitFold, Nat.zero_mul, true_and]
    refine ⟨fun l hl => (by cases hl), fun l hl => (by cases hl), fun l hl => (by cases hl),
      fun x y => ?_, rfl⟩
    rw [if_neg (by intro hh; have := hh.2.1; simp at this; omega)]
    rfl
  | succ h ih =>
    obtain ⟨hb, hinv⟩ := ih
    rw [List.range_succ, emitFold_append]
    simp only [emitFold, List.append_nil]
    rw [rowEmit_eq rgba8 width cfg nb h hW _ hb]
    exact ⟨rfl, ImageInv_row rgba8 width cfg width.toNat h _ _ hinv
      (RowDone_of_fold _ _ _ _)⟩

/-- C3: for an image whose width is a multiple of 8 and a capacity that the number of maximal
runs of the image does not exceed, `find_yellow_lines` returns lines that are exactly the maximal
horizontal runs of the pixels it classifies as yellow (lane of `_are_yellow`): each line has
`0 <= start <= end < width` and `0 <= y < height`, all its pixels are classified, the pixels
`(start-1, y)` and `(end+1, y)` are not classified when they exist, every classified pixel of
the image lies in exactly one line, and the number of lines is the number of runs. -/
theorem find_yellow_lines_maximal_runs (rgba8 : Nat → Nat) (width height : Int)
    (cfg : YellowConfig) (maxCount : Nat) (hw : width % 8 = 0)
    (hcap : runCount rgba8 width height cfg ≤ maxCount) :
    ∃ L, find_yellow_lines rgba8 width height cfg maxCount = some L ∧
      (∀ l ∈ L, 0 ≤ l.start ∧ l.start ≤ l.end_ ∧ l.end_ < width ∧ 0 ≤ l.y ∧ l.y < height) ∧
      (∀ l ∈ L, ∀ x : Int, l.start ≤ x → x ≤ l.end_ →
        classified rgba8 width cfg x l.y = true) ∧
      (∀ l ∈ L, (0 ≤ l.start - 1 → classified rgba8 width cfg (l.start - 1) l.y = false) ∧
        (l.end_ + 1 < width → classified rgba8 width cfg (l.end_ + 1) l.y = false)) ∧
      (∀ x y : Int, 0 ≤ x → x < width → 0 ≤ y → y < height →
        classified rgba8 width cfg x y = true → L.countP (coversPixel x y) = 1) ∧
      L.length = runCount rgba8 width height cfg := by
  obtain ⟨nb, hW⟩ : ∃ nb, width.toNat = 8 * nb := ⟨width.toNat / 8, by omega⟩
  obtain ⟨_, hinv⟩ := ImageInv_fold rgba8 width cfg nb hW height.toNat
  have hlen : (emitFold (rowEmit rgba8 (to_avx cfg) width) (List.range height.toNat)
      (false, default, 0)).1.length = runCount rgba8 width height cfg := hinv.len
  refine ⟨_, find_yellow_lines_eq rgba8 width height cfg maxCount hw, ?_⟩
  rw [List.take_of_length_le (by omega)]
  refine ⟨fun l hl => ?_, hinv.yellow, fun l hl => ?_, fun x y hx0 hx1 hy0 hy1 hc => ?_, hlen⟩
  · obtain ⟨w1, w2, w3, w4, w5⟩ := hinv.wf l hl
    exact ⟨w3, w4, by omega, w1, by omega⟩
  · exact ⟨fun h0 => (hinv.maximal l hl).1 (by omega),
      fun h1 => (hinv.maximal l hl).2 (by omega)⟩
  · rw [hinv.count x y, if_pos ⟨hy0, by omega, hx0, by omega, hc⟩]

theorem find_yellow_lines_maximal_runs_witness :
    find_yellow_lines testRow 32 1 ⟨30, 50, 80⟩ 2
        = some [⟨0, 7, 0, false⟩, ⟨16, 23, 0, false⟩] ∧
    ∃ L, find_yellow_lines testRow 32 1 ⟨30, 50, 80⟩ 2 = some L ∧
      (∀ l ∈ L, 0 ≤ l.start ∧ l.start ≤ l.end_ ∧ l.end_ < 32 ∧ 0 ≤ l.y ∧ l.y < 1) ∧
      (∀ l ∈ L, ∀ x : Int, l.start ≤ x → x ≤ l.end_ →
        classified testRow 32 ⟨30, 50, 80⟩ x l.y = true) ∧
      (∀ l ∈ L, (0 ≤ l.start - 1 → classified testRow 32 ⟨30, 50, 80⟩ (l.start - 1) l.y = false) ∧
        (l.end_ + 1 < 32 → classified testRow 32 ⟨30, 50, 80⟩ (l.end_ + 1) l.y = false)) ∧
      (∀ x y : Int, 0 ≤ x → x < 32 → 0 ≤ y → y < 1 →
        classified testRow 32 ⟨30, 50, 80⟩ x y = true → L.countP (coversPixel x y) = 1) ∧
      L.length = runCount testRow 32 1 ⟨30, 50, 80⟩ :=
  ⟨by decide, find_yellow_lines_maximal_runs testRow 32 1 ⟨30, 50, 80⟩ 2 (by decide) (by decide)⟩

/-! ## Theorems: clustering -/

theorem are_lines_adjacent_iff (a b : YellowScanLine) (S : Int) :
    _are_lines_adjacent a b S = true ↔
      |a.y - b.y| ≤ S + 1 ∧
      ((a.start + S ≥ b.start ∧ a.start - S ≤ b.end_) ∨
       (b.start + S ≥ a.start ∧ b.start - S ≤ a.end_) ∨
       (a.end_ + S ≥ b.start ∧ a.end_ - S ≤ b.end_) ∨
       (b.end_ + S ≥ a.start ∧ b.end_ - S ≤ a.end_)) := by
  unfold _are_lines_adjacent
  simp only []
  split_ifs with h1 h2 h3 h4 h5
  · simp only [Bool.false_eq_true, false_iff, not_and]
    intro h; omega
  · simp only [true_iff]; exact ⟨by omega, Or.inl h2⟩
  · simp only [true_iff]; exact ⟨by omega, Or.inr (Or.inl h3)⟩
  · simp only [true_iff]; exact ⟨by omega, Or.inr (Or.inr (Or.inl h4))⟩
  · simp only [true_iff]; exact ⟨by omega, Or.inr (Or.inr (Or.inr h5))⟩
  · simp only [Bool.false_eq_true, false_iff, not_and]
    intro _ h
    rcases h with h | h | h | h
    · exact h2 h
    · exact h3 h
    · exact h4 h
    · exact h5 h

theorem are_lines_adjacent_symm (a b : YellowScanLine) (S : Int) :
    _are_lines_adjacent a b S = _are_lines_adjacent b a S := by
  rw [Bool.eq_iff_iff, are_lines_adjacent_iff, are_lines_adjacent_iff, abs_sub_comm]
  tauto

theorem are_lines_adjacent_congr {a a' b b' : YellowScanLine} (S : Int) (ha : sameGeom a a')
    (hb : sameGeom b b') : _are_lines_adjacent a b S = _are_lines_adjacent a' b' S := by
  obtain ⟨a1, a2, a3⟩ := ha
  obtain ⟨b1, b2, b3⟩ := hb
  rw [Bool.eq_iff_iff, are_lines_adjacent_iff, are_lines_adjacent_iff, a1, a2, a3, b1, b2, b3]

theorem lineAdjacent_symm {lines : Nat → YellowScanLine} {n : Nat} {S : Int} {a b : Nat}
    (h : lineAdjacent lines n S a b) : lineAdjacent lines n S b a :=
  ⟨h.2.1, h.1, by rw [are_lines_adjacent_symm]; exact h.2.2⟩

theorem Connected_symm {lines : Nat → YellowScanLine} {n : Nat} {S : Int} {a b : Nat}
    (h : Connected lines n S a b) : Connected lines n S b a := by
  induction h with
  | refl => exact Relation.ReflTransGen.refl
  | tail _ hbc ih => exact Relation.ReflTransGen.head (lineAdjacent_symm hbc) ih

theorem setIgnore_apply (lines : Nat → YellowScanLine) (k k' : Nat) (v : Bool) :
    setIgnore lines k v k' = if k' = k then { lines k with _ignore := v } else lines k' := by
  unfold setIgnore
  rw [Function.update_apply]

theorem setIgnore_geom (lines : Nat → YellowScanLine) (k k' : Nat) (v : Bool) :
    sameGeom (setIgnore lines k v k') (lines k') := by
  rw [setIgnore_apply]
  by_cases h : k' = k
  · subst h; simp [sameGeom]
  · simp [h, sameGeom]

theorem setIgnore_flag (lines : Nat → YellowScanLine) (k k' : Nat) (v : Bool) :
    (setIgnore lines k v k')._ignore = if k' = k then v else (lines k')._ignore := by
  rw [setIgnore_apply]
  by_cases h : k' = k
  · subst h; simp
  · simp [h]

theorem sameGeom_trans {a b c : YellowScanLine} (h1 : sameGeom a b) (h2 : sameGeom b c) :
    sameGeom a c :=
  ⟨h1.1.trans h2.1, h1.2.1.trans h2.2.1, h1.2.2.trans h2.2.2⟩

theorem count_le_of_inj (tmp : Nat → Nat) (count n : Nat)
    (hmem : ∀ t < count, tmp t < n)
    (hinj : ∀ t t', t < count → t' < count → tmp t = tmp t' → t = t') : count ≤ n := by
  have := Finset.card_le_card_of_injOn (s := Finset.range count) (t := Finset.range n) tmp
    (fun t ht => Finset.mem_range.mpr (hmem t (Finset.mem_range.mp ht)))
    (fun t ht t' ht' h => hinj t t' (by simpa using ht) (by simpa using ht') h)
  simpa using this

theorem Connected_lt {lines : Nat → YellowScanLine} {n : Nat} {S : Int} {a b : Nat}
    (h : Connected lines n S a b) (ha : a < n) : b < n := by
  induction h with
  | refl => exact ha
  | tail _ hbc _ => exact hbc.2.1

theorem no_cross {lines0 : Nat → YellowScanLine} {n : Nat} {S : Int} {i : Nat}
    {flag0 : Nat → Bool} (hi : i < n)
    (hflag0 : ∀ k < n, flag0 k = true ↔ ∃ j' < i, Connected lines0 n S j' k)
    (hseed : flag0 i = false) {k : Nat} (hk : Connected lines0 n S i k) :
    flag0 k = false ∧ i ≤ k := by
  have hkn := Connected_lt hk hi
  have hno : ¬ ∃ j' < i, Connected lines0 n S j' i := by
    rw [← hflag0 i hi, hseed]; simp
  constructor
  · by_contra hc
    have hc' : flag0 k = true := by simpa using hc
    obtain ⟨j', hj', hconn⟩ := (hflag0 k hkn).mp hc'
    exact hno ⟨j', hj', hconn.trans (Connected_symm hk)⟩
  · by_contra hlt
    exact hno ⟨k, by omega, Connected_symm hk⟩

theorem adjacentStep_inv {lines0 : Nat → YellowScanLine} {n : Nat} {S : Int} {i T : Nat}
    {flag0 : Nat → Bool} (hT : n ≤ T) (j ci : Nat) (c : CollectState) (k : Nat)
    (hk1 : i < k) (hk2 : k < n)
    (hc : CollectInv lines0 n S i flag0 j true c) (hj : j < c.containedLineCount)
    (hci : c.tmpIndexBuffer j = ci) (cl : YellowScanLine) (hcl : sameGeom cl (lines0 ci)) :
    CollectInv lines0 n S i flag0 j true (adjacentStep S T ci cl c k) ∧
      c.containedLineCount ≤ (adjacentStep S T ci cl c k).containedLineCount ∧
      (∀ t < c.containedLineCount,
        (adjacentStep S T ci cl c k).tmpIndexBuffer t = c.tmpIndexBuffer t) ∧
      (lineAdjacent lines0 n S ci k → ((adjacentStep S T ci cl c k).lines k)._ignore = true) ∧
      (∀ k', (c.lines k')._ignore = true →
        ((adjacentStep S T ci cl c k).lines k')._ignore = true) := by
  have hadj : _are_lines_adjacent cl (c.lines k) S
      = _are_lines_adjacent (lines0 ci) (lines0 k) S :=
    are_lines_adjacent_congr S hcl (hc.geom k)
  have hcin : ci < n := by rw [← hci]; exact (hc.mem j hj).1
  unfold adjacentStep
  by_cases h1 : (c.lines k)._ignore = true
  · rw [if_pos h1]
    exact ⟨hc, le_refl _, fun _ _ => rfl, fun _ => h1, fun _ h => h⟩
  rw [if_neg h1]
  by_cases h2 : k = ci
  · rw [if_pos h2]
    refine ⟨hc, le_refl _, fun _ _ => rfl, fun _ => ?_, fun _ h => h⟩
    exact absurd ((hc.flags k hk2).mpr (Or.inr ⟨j, hj, by rw [hci, h2], Or.inr rfl⟩)) h1
  rw [if_neg h2]
  by_cases h3 : _are_lines_adjacent cl (c.lines k) S = true
  · rw [if_pos h3]
    have hla : lineAdjacent lines0 n S ci k := ⟨hcin, hk2, by rw [← hadj]; exact h3⟩
    have hnotmem : ∀ t < c.containedLineCount, c.tmpIndexBuffer t ≠ k := by
      intro t ht heq
      exact h1 ((hc.flags k hk2).mpr (Or.inr ⟨t, ht, heq, Or.inr rfl⟩))
    have hmem' : ∀ t < c.containedLineCount + 1,
        Function.update c.tmpIndexBuffer c.containedLineCount k t < n ∧
        i ≤ Function.update c.tmpIndexBuffer c.containedLineCount k t ∧
        Connected lines0 n S i (Function.update c.tmpIndexBuffer c.containedLineCount k t) := by
      intro t ht
      rw [Function.update_apply]
      by_cases e : t = c.containedLineCount
      · rw [if_pos e]
        refine ⟨hk2, by omega, ?_⟩
        have := (hc.mem j hj).2.2
        rw [hci] at this
        exact this.tail hla
      · rw [if_neg e]
        exact hc.mem t (by omega)
    have hinj' : ∀ t t', t < c.containedLineCount + 1 → t' < c.containedLineCount + 1 →
        Function.update c.tmpIndexBuffer c.containedLineCount k t
          = Function.update c.tmpIndexBuffer c.containedLineCount k t' → t = t' := by
      intro t t' ht ht'
      rw [Function.update_apply, Function.update_apply]
      by_cases e : t = c.containedLineCount <;> by_cases e' : t' = c.containedLineCount
      · intro _; rw [e, e']
      · rw [if_pos e, if_neg e']
        intro h; exact absurd h.symm (hnotmem t' (by omega))
      · rw [if_neg e, if_pos e']
        intro h; exact absurd h (hnotmem t (by omega))
      · rw [if_neg e, if_neg e']
        exact hc.inj t t' (by omega) (by omega)
    have hcount : c.containedLineCount + 1 ≤ n :=
      count_le_of_inj _ _ n (fun t ht => (hmem' t ht).1) hinj'
    rw [if_pos (by omega)]
    refine ⟨⟨fun k' => ?_, ?_, ?_, hmem', hinj', fun k' hk' => ?_, fun t ht k' hk' => ?_, hc.ran⟩,
      by simp, fun t ht => ?_, fun _ => ?_, fun k' h => ?_⟩
    · exact sameGeom_trans (setIgnore_geom _ _ _ _) (hc.geom k')
    · simp only
      rw [Function.update_noteq (by have := hc.pos; omega)]
      exact hc.seed
    · simp only; omega
    · show (setIgnore c.lines k true k')._ignore = true ↔
        (flag0 k' = true ∨ ∃ t < c.containedLineCount + 1,
          Function.update c.tmpIndexBuffer c.containedLineCount k t = k' ∧ (0 < t ∨ true = true))
      rw [setIgnore_flag]
      by_cases e : k' = k
      · rw [if_pos e]
        exact ⟨fun _ => Or.inr ⟨c.containedLineCount, by omega,
          by rw [Function.update_same, e], Or.inr rfl⟩, fun _ => rfl⟩
      · rw [if_neg e, hc.flags k' hk']
        constructor
        · rintro (h | ⟨t, ht, he, hfl⟩)
          · exact Or.inl h
          · exact Or.inr ⟨t, by omega, by rw [Function.update_noteq (by omega)]; exact he, hfl⟩
        · rintro (h | ⟨t, ht, he, hfl⟩)
          · exact Or.inl h
          · rw [Function.update_apply] at he
            by_cases e2 : t = c.containedLineCount
            · rw [if_pos e2] at he; exact absurd he.symm e
            · rw [if_neg e2] at he
              exact Or.inr ⟨t, by omega, he, hfl⟩
    · simp only at hk' ⊢
      rw [Function.update_noteq (by omega)] at hk'
      obtain ⟨t', ht', he⟩ := hc.closed t ht k' hk'
      exact ⟨t', by omega, by rw [Function.update_noteq (by omega)]; exact he⟩
    · simp only
      rw [Function.update_noteq (by omega)]
    · simp only
      rw [setIgnore_flag, if_pos rfl]
    · simp only
      rw [setIgnore_flag]
      by_cases e : k' = k
      · rw [if_pos e]
      · rw [if_neg e]; exact h
  · rw [if_neg h3]
    refine ⟨hc, le_refl _, fun _ _ => rfl, fun hla => ?_, fun _ h => h⟩
    exact absurd (by rw [hadj]; exact hla.2.2) h3
theorem adjacentFold_inv {lines0 : Nat → YellowScanLine} {n : Nat} {S : Int} {i T : Nat}
    {flag0 : Nat → Bool} (hT : n ≤ T) (j ci : Nat) (cl : YellowScanLine)
    (hcl : sameGeom cl (lines0 ci)) :
    ∀ (m : Nat) (c : CollectState), i + 1 + m ≤ n →
      CollectInv lines0 n S i flag0 j true c → j < c.containedLineCount →
      c.tmpIndexBuffer j = ci →
      CollectInv lines0 n S i flag0 j true
          ((List.range' (i + 1) m).foldl (adjacentStep S T ci cl) c) ∧
        c.containedLineCount
          ≤ ((List.range' (i + 1) m).foldl (adjacentStep S T ci cl) c).containedLineCount ∧
        (∀ t < c.containedLineCount,
          ((List.range' (i + 1) m).foldl (adjacentStep S T ci cl) c).tmpIndexBuffer t
            = c.tmpIndexBuffer t) ∧
        (∀ k, i < k → k < i + 1 + m → lineAdjacent lines0 n S ci k →
          (((List.range' (i + 1) m).foldl (adjacentStep S T ci cl) c).lines k)._ignore = true) ∧
        (∀ k', (c.lines k')._ignore = true →
          (((List.range' (i + 1) m).foldl (adjacentStep S T ci cl) c).lines k')._ignore
            = true) := by
  intro m
  induction m with
  | zero =>
    intro c _ hc _ _
    exact ⟨hc, le_refl _, fun _ _ => rfl, fun k h1 h2 => by omega, fun _ h => h⟩
  | succ m ih =>
    intro c hm hc hj hci
    obtain ⟨h1, h2, h3, h4, h5⟩ := ih c (by omega) hc hj hci
    rw [List.range'_1_concat, List.foldl_append]
    simp only [List.foldl_cons, List.foldl_nil]
    obtain ⟨g1, g2, g3, g4, g5⟩ := adjacentStep_inv hT j ci _ (i + 1 + m) (by omega) (by omega)
      h1 (by omega) (by rw [h3 j hj]; exact hci) cl hcl
    refine ⟨g1, by omega, fun t ht => ?_, fun k hk1 hk2 hla => ?_, fun k' h => g5 k' (h5 k' h)⟩
    · rw [g3 t (by omega), h3 t ht]
    · by_cases e : k = i + 1 + m
      · subst e; exact g4 hla
      · exact g5 k (h4 k hk1 (by omega) hla)

theorem collect_expand {lines0 : Nat → YellowScanLine} {n : Nat} {S : Int} {i T : Nat}
    {flag0 : Nat → Bool} (hi : i < n) (hT : n ≤ T)
    (hflag0 : ∀ k < n, flag0 k = true ↔ ∃ j' < i, Connected lines0 n S j' k)
    (hseed : flag0 i = false) (j : Nat) (c : CollectState)
    (hc : CollectInv lines0 n S i flag0 j (decide (0 < j)) c)
    (hj : j < c.containedLineCount) :
    CollectInv lines0 n S i flag0 (j + 1) true
        ((List.range' (i + 1) (n - (i + 1))).foldl
          (adjacentStep S T (c.tmpIndexBuffer j) (c.lines (c.tmpIndexBuffer j)))
          { c with lines := setIgnore c.lines (c.tmpIndexBuffer j) true }) ∧
      j + 1 ≤ ((List.range' (i + 1) (n - (i + 1))).foldl
          (adjacentStep S T (c.tmpIndexBuffer j) (c.lines (c.tmpIndexBuffer j)))
          { c with lines := setIgnore c.lines (c.tmpIndexBuffer j) true }).containedLineCount := by
  have hcin := (hc.mem j hj).1
  have hc1 : CollectInv lines0 n S i flag0 j true
      { c with lines := setIgnore c.lines (c.tmpIndexBuffer j) true } := by
    refine ⟨fun k => sameGeom_trans (setIgnore_geom _ _ _ _) (hc.geom k), hc.seed, hc.pos,
      hc.mem, hc.inj, fun k hk => ?_, hc.closed, hc.ran⟩
    show (setIgnore c.lines (c.tmpIndexBuffer j) true k)._ignore = true ↔ _
    rw [setIgnore_flag]
    by_cases e : k = c.tmpIndexBuffer j
    · rw [if_pos e]
      exact ⟨fun _ => Or.inr ⟨j, hj, e.symm, Or.inr rfl⟩, fun _ => rfl⟩
    · rw [if_neg e, hc.flags k hk]
      constructor
      · rintro (h | ⟨t, ht, he, hfl⟩)
        · exact Or.inl h
        · exact Or.inr ⟨t, ht, he, Or.inr rfl⟩
      · rintro (h | ⟨t, ht, he, _⟩)
        · exact Or.inl h
        · refine Or.inr ⟨t, ht, he, ?_⟩
          by_cases ht0 : 0 < t
          · exact Or.inl ht0
          · have ht0' : t = 0 := by omega
            subst ht0'
            by_cases hj0 : 0 < j
            · exact Or.inr (by simpa using hj0)
            · have hj0' : j = 0 := by omega
              subst hj0'
              exact absurd he.symm e
  obtain ⟨h1, h2, h3, h4, _⟩ := adjacentFold_inv hT j (c.tmpIndexBuffer j)
    (c.lines (c.tmpIndexBuffer j)) (hc.geom _) (n - (i + 1))
    { c with lines := setIgnore c.lines (c.tmpIndexBuffer j) true } (by omega) hc1 hj rfl
  generalize ((List.range' (i + 1) (n - (i + 1))).foldl
    (adjacentStep S T (c.tmpIndexBuffer j) (c.lines (c.tmpIndexBuffer j)))
    { c with lines := setIgnore c.lines (c.tmpIndexBuffer j) true }) = c2 at h1 h2 h3 h4
  simp only at h2 h3
  refine ⟨⟨h1.geom, h1.seed, h1.pos, h1.mem, h1.inj, h1.flags, fun t ht k hla => ?_, h1.ran⟩,
    by omega⟩
  by_cases e : t = j
  · subst e
    rw [h3 t hj] at hla
    have hconn : Connected lines0 n S i k := (hc.mem t hj).2.2.tail hla
    obtain ⟨hf0, hik⟩ := no_cross hi hflag0 hseed hconn
    by_cases hki : k = i
    · exact ⟨0, by have := h1.pos; omega, by rw [h1.seed, hki]⟩
    · have hfl := h4 k (by omega) (by have := hla.2.1; omega) hla
      rcases (h1.flags k hla.2.1).mp hfl with h | ⟨t', ht', he, _⟩
      · rw [hf0] at h; cases h
      · exact ⟨t', ht', he⟩
  · exact h1.closed t (by omega) k hla

theorem collectLines_inv {lines0 : Nat → YellowScanLine} {n : Nat} {S : Int} {i T : Nat}
    {flag0 : Nat → Bool} (hi : i < n) (hT : n ≤ T)
    (hflag0 : ∀ k < n, flag0 k = true ↔ ∃ j' < i, Connected lines0 n S j' k)
    (hseed : flag0 i = false) :
    ∀ (fuel j : Nat) (c : CollectState),
      CollectInv lines0 n S i flag0 j (decide (0 < j)) c → j ≤ c.containedLineCount →
      n - j < fuel →
      ∃ c', collectLines n S T i fuel j c = some c' ∧
        CollectInv lines0 n S i flag0 c'.containedLineCount true c' := by
  intro fuel
  induction fuel with
  | zero => intro j c _ _ hf; omega
  | succ fuel ih =>
    intro j c hc hj hf
    rw [collectLines]
    by_cases hlt : j < c.containedLineCount
    · rw [if_pos hlt]
      obtain ⟨h1, h2⟩ := collect_expand hi hT hflag0 hseed j c hc hlt
      have hcn : c.containedLineCount ≤ n :=
        count_le_of_inj _ _ n (fun t ht => (hc.mem t ht).1) hc.inj
      exact ih (j + 1) _ (by simpa using h1) h2 (by omega)
    · rw [if_neg hlt]
      have hjc : j = c.containedLineCount := by omega
      have hpos := hc.pos
      have : decide (0 < j) = true := by simp; omega
      rw [this] at hc
      exact ⟨c, rfl, by rw [← hjc]; exact hc⟩

theorem members_eq_component {lines0 : Nat → YellowScanLine} {n : Nat} {S : Int} {i : Nat}
    {flag0 : Nat → Bool} {c : CollectState}
    (hc : CollectInv lines0 n S i flag0 c.containedLineCount true c) (k : Nat) :
    Connected lines0 n S i k ↔ ∃ t < c.containedLineCount, c.tmpIndexBuffer t = k := by
  constructor
  · intro h
    induction h with
    | refl => exact ⟨0, hc.pos, hc.seed⟩
    | tail _ hbc ih =>
      obtain ⟨t, ht, he⟩ := ih
      exact hc.closed t ht _ (by rw [he]; exact hbc)
  · rintro ⟨t, ht, rfl⟩
    exact (hc.mem t ht).2.2

theorem fitStep_fields (tmp : Nat → Nat) (box : YellowBoundingBox)
    (lines : Nat → YellowScanLine) (m : Nat) :
    (fitStep tmp (box, lines) m).1.left
        = (if (lines (tmp m)).start < box.left then (lines (tmp m)).start else box.left) ∧
      (fitStep tmp (box, lines) m).1.right
        = (if (lines (tmp m)).end_ > box.right then (lines (tmp m)).end_ else box.right) ∧
      (fitStep tmp (box, lines) m).1.top
        = (if (lines (tmp m)).y < box.top then (lines (tmp m)).y else box.top) ∧
      (fitStep tmp (box, lines) m).1.bottom
        = (if (lines (tmp m)).y > box.bottom then (lines (tmp m)).y else box.bottom) ∧
      (fitStep tmp (box, lines) m).1.isComplete = box.isComplete ∧
      (fitStep tmp (box, lines) m).2 = setIgnore lines (tmp m) true := by
  refine ⟨?_, ?_, ?_, ?_, ?_, rfl⟩ <;> simp only [fitStep] <;> split_ifs <;> rfl

theorem fitStep_inv (lines0 : Nat → YellowScanLine) (tmp : Nat → Nat) (seed : YellowScanLine)
    (m : Nat) (box : YellowBoundingBox) (lines : Nat → YellowScanLine)
    (hg : ∀ k, sameGeom (lines k) (lines0 k)) (h : FitInv lines0 tmp seed m box) :
    FitInv lines0 tmp seed (m + 1) (fitStep tmp (box, lines) m).1 := by
  obtain ⟨g1, g2, g3⟩ := hg (tmp m)
  obtain ⟨f1, f2, f3, f4, _, _⟩ := fitStep_fields tmp box lines m
  rw [g1] at f1
  rw [g2] at f2
  rw [g3] at f3 f4
  refine ⟨?_, ?_, ?_, ?_, ?_, ?_, ?_, ?_⟩
  · have := h.left_le
    rw [f1]
    split_ifs <;>
      exact ⟨by omega, fun t ht => by
        by_cases e : t = m
        · subst e; omega
        · have := this.2 t (by omega); omega⟩
  · have := h.left_mem
    rw [f1]
    split_ifs
    · exact Or.inr ⟨m, by omega, rfl⟩
    · rcases this with h' | ⟨t, ht, h'⟩
      · exact Or.inl h'
      · exact Or.inr ⟨t, by omega, h'⟩
  · have := h.right_le
    rw [f2]
    split_ifs <;>
      exact ⟨by omega, fun t ht => by
        by_cases e : t = m
        · subst e; omega
        · have := this.2 t (by omega); omega⟩
  · have := h.right_mem
    rw [f2]
    split_ifs
    · exact Or.inr ⟨m, by omega, rfl⟩
    · rcases this with h' | ⟨t, ht, h'⟩
      · exact Or.inl h'
      · exact Or.inr ⟨t, by omega, h'⟩
  · have := h.top_le
    rw [f3]
    split_ifs <;>
      exact ⟨by omega, fun t ht => by
        by_cases e : t = m
        · subst e; omega
        · have := this.2 t (by omega); omega⟩
  · have := h.top_mem
    rw [f3]
    split_ifs
    · exact Or.inr ⟨m, by omega, rfl⟩
    · rcases this with h' | ⟨t, ht, h'⟩
      · exact Or.inl h'
      · exact Or.inr ⟨t, by omega, h'⟩
  · have := h.bottom_le
    rw [f4]
    split_ifs <;>
      exact ⟨by omega, fun t ht => by
        by_cases e : t = m
        · subst e; omega
        · have := this.2 t (by omega); omega⟩
  · have := h.bottom_mem
    rw [f4]
    split_ifs
    · exact Or.inr ⟨m, by omega, rfl⟩
    · rcases this with h' | ⟨t, ht, h'⟩
      · exact Or.inl h'
      · exact Or.inr ⟨t, by omega, h'⟩

theorem fitFold_inv (lines0 : Nat → YellowScanLine) (tmp : Nat → Nat) (seed : YellowScanLine)
    (box : YellowBoundingBox) (lines : Nat → YellowScanLine)
    (hg : ∀ k, sameGeom (lines k) (lines0 k)) (h0 : FitInv lines0 tmp seed 0 box) :
    ∀ m : Nat,
      FitInv lines0 tmp seed m ((List.range m).foldl (fitStep tmp) (box, lines)).1 ∧
      ((List.range m).foldl (fitStep tmp) (box, lines)).1.isComplete = box.isComplete ∧
      (∀ k, sameGeom (((List.range m).foldl (fitStep tmp) (box, lines)).2 k) (lines0 k)) ∧
      (∀ k, (((List.range m).foldl (fitStep tmp) (box, lines)).2 k)._ignore = true ↔
        ((lines k)._ignore = true ∨ ∃ t < m, tmp t = k)) := by
  intro m
  induction m with
  | zero =>
    refine ⟨h0, rfl, hg, fun k => ?_⟩
    simp
  | succ m ih =>
    obtain ⟨h1, h2, h3, h4⟩ := ih
    rw [List.range_succ, List.foldl_append]
    simp only [List.foldl_cons, List.foldl_nil]
    generalize (List.range m).foldl (fitStep tmp) (box, lines) = r at h1 h2 h3 h4
    obtain ⟨b, l⟩ := r
    simp only at h1 h2 h3 h4
    obtain ⟨_, _, _, _, f5, f6⟩ := fitStep_fields tmp b l m
    refine ⟨fitStep_inv lines0 tmp seed m b l h3 h1, by rw [f5, h2], fun k => ?_, fun k => ?_⟩
    · rw [f6]; exact sameGeom_trans (setIgnore_geom _ _ _ _) (h3 k)
    · rw [f6, setIgnore_flag]
      by_cases e : k = tmp m
      · rw [if_pos e]
        exact ⟨fun _ => Or.inr ⟨m, by omega, e.symm⟩, fun _ => rfl⟩
      · rw [if_neg e, h4 k]
        constructor
        · rintro (h | ⟨t, ht, he⟩)
          · exact Or.inl h
          · exact Or.inr ⟨t, by omega, he⟩
        · rintro (h | ⟨t, ht, he⟩)
          · exact Or.inl h
          · by_cases e2 : t = m
            · subst e2; exact absurd he.symm e
            · exact Or.inr ⟨t, by omega, he⟩

theorem boxStep_inv {lines0 : Nat → YellowScanLine} {n : Nat} {S : Int} {T K fuel : Nat}
    (hT : n ≤ T) (hK : n ≤ K) (hfuel : n < fuel) (i : Nat) (hi : i < n) (s : RectState)
    (seeds : List Nat) (h : OuterInv lines0 n S i s seeds) :
    ∃ s' seeds', boxStep fuel n S T K s i = .ok s' ∧ OuterInv lines0 n S (i + 1) s' seeds' := by
  unfold boxStep
  by_cases hig : (s.lines i)._ignore = true
  · rw [if_pos hig]
    obtain ⟨j0, hj0, hconn0⟩ := (h.flags i hi).mp hig
    refine ⟨s, seeds, rfl, h.geom, fun k hk => ?_, h.sorted, fun j => ?_, h.boxes, by
      have := h.len; omega⟩
    · rw [h.flags k hk]
      constructor
      · rintro ⟨j', hj', hc⟩; exact ⟨j', by omega, hc⟩
      · rintro ⟨j', hj', hc⟩
        by_cases e : j' = i
        · subst e; exact ⟨j0, hj0, hconn0.trans hc⟩
        · exact ⟨j', by omega, hc⟩
    · rw [h.mem j]
      constructor
      · rintro ⟨a, b⟩; exact ⟨by omega, b⟩
      · rintro ⟨a, b⟩
        refine ⟨?_, b⟩
        by_contra hge
        have e : j = i := by omega
        subst e
        exact b j0 hj0 hconn0
  · rw [if_neg hig]
    simp only []
    have hseed : (fun k => (s.lines k)._ignore) i = false := by simpa using hig
    have hflag0 : ∀ k < n, (fun k => (s.lines k)._ignore) k = true ↔
        ∃ j' < i, Connected lines0 n S j' k := h.flags
    have hc0 : CollectInv lines0 n S i (fun k => (s.lines k)._ignore) 0 (decide (0 < 0))
        { lines := s.lines, tmpIndexBuffer := Function.update s.tmpIndexBuffer 0 i,
          containedLineCount := 1, ranOutOfTempSpace := false } := by
      refine ⟨h.geom, by simp, le_refl _, fun t ht => ?_, fun t t' ht ht' _ => ?_,
        fun k hk => ?_, fun t ht => ?_, rfl⟩
      · simp only at ht
        have e : t = 0 := by omega
        subst e
        simp only [Function.update_same]
        exact ⟨hi, le_refl _, Relation.ReflTransGen.refl⟩
      · simp only at ht ht'
        omega
      · constructor
        · intro hf; exact Or.inl hf
        · rintro (hf | ⟨t, ht, _, h0⟩)
          · exact hf
          · simp only at ht
            rcases h0 with h0 | h0
            · omega
            · simp at h0
      · omega
    obtain ⟨c, hcl, hc⟩ := collectLines_inv hi hT hflag0 hseed fuel 0 _ hc0 (by simp) (by omega)
    rw [hcl]
    simp only []
    have hfit0 : FitInv lines0 c.tmpIndexBuffer (lines0 i) 0
        { left := (s.lines i).start, top := (s.lines i).y, right := (s.lines i).end_,
          bottom := (s.lines i).y, isComplete := !c.ranOutOfTempSpace } := by
      obtain ⟨g1, g2, g3⟩ := h.geom i
      simp only [g1, g2, g3]
      exact ⟨⟨le_refl _, fun t ht => by omega⟩, Or.inl rfl, ⟨le_refl _, fun t ht => by omega⟩,
        Or.inl rfl, ⟨le_refl _, fun t ht => by omega⟩, Or.inl rfl,
        ⟨le_refl _, fun t ht => by omega⟩, Or.inl rfl⟩
    obtain ⟨f1, f2, f3, f4⟩ := fitFold_inv lines0 c.tmpIndexBuffer (lines0 i) _ c.lines hc.geom
      hfit0 c.containedLineCount
    have hlen := h.len
    rw [if_pos (by omega)]
    have hcomp := members_eq_component hc
    have hunflag : ¬ ∃ j' < i, Connected lines0 n S j' i := by
      rw [← h.flags i hi]; exact hig
    refine ⟨_, seeds ++ [i], rfl, f3, fun k hk => ?_, ?_, fun j => ?_, ?_, by simp; omega⟩
    · show (((List.range c.containedLineCount).foldl (fitStep c.tmpIndexBuffer) _).2 k)._ignore
        = true ↔ _
      rw [f4 k, hc.flags k hk]
      constructor
      · rintro ((hf | ⟨t, ht, he, _⟩) | ⟨t, ht, he⟩)
        · obtain ⟨j', hj', hcj⟩ := (h.flags k hk).mp hf
          exact ⟨j', by omega, hcj⟩
        · exact ⟨i, by omega, (hcomp k).mpr ⟨t, ht, he⟩⟩
        · exact ⟨i, by omega, (hcomp k).mpr ⟨t, ht, he⟩⟩
      · rintro ⟨j', hj', hcj⟩
        by_cases e : j' = i
        · subst e
          exact Or.inr ((hcomp k).mp hcj)
        · exact Or.inl (Or.inl ((h.flags k hk).mpr ⟨j', by omega, hcj⟩))
    · rw [List.pairwise_append]
      refine ⟨h.sorted, List.pairwise_singleton _ _, fun a ha b hb => ?_⟩
      simp only [List.mem_singleton] at hb
      subst hb
      exact ((h.mem a).mp ha).1
    · rw [List.mem_append, h.mem j, List.mem_singleton]
      constructor
      · rintro (⟨a, b⟩ | e)
        · exact ⟨by omega, b⟩
        · subst e
          exact ⟨by omega, fun j' hj' hcj => hunflag ⟨j', hj', hcj⟩⟩
      · rintro ⟨a, b⟩
        by_cases e : j = i
        · exact Or.inr e
        · exact Or.inl ⟨by omega, b⟩
    · apply List.rel_append h.boxes
      refine List.Forall₂.cons ⟨?_, ?_⟩ List.Forall₂.nil
      · rw [f2]; simp [hc.ran]
      · have hseed0 : c.tmpIndexBuffer 0 = i := hc.seed
        have hpos := hc.pos
        refine ⟨⟨?_, fun k hk => ?_⟩, ⟨?_, fun k hk => ?_⟩, ⟨?_, fun k hk => ?_⟩,
          ⟨?_, fun k hk => ?_⟩⟩
        · rcases f1.left_mem with e | ⟨t, ht, e⟩
          · exact ⟨i, Relation.ReflTransGen.refl, e.symm⟩
          · exact ⟨_, (hcomp _).mpr ⟨t, ht, rfl⟩, e.symm⟩
        · obtain ⟨t, ht, rfl⟩ := (hcomp k).mp hk
          exact f1.left_le.2 t ht
        · rcases f1.right_mem with e | ⟨t, ht, e⟩
          · exact ⟨i, Relation.ReflTransGen.refl, e.symm⟩
          · exact ⟨_, (hcomp _).mpr ⟨t, ht, rfl⟩, e.symm⟩
        · obtain ⟨t, ht, rfl⟩ := (hcomp k).mp hk
          exact f1.right_le.2 t ht
        · rcases f1.top_mem with e | ⟨t, ht, e⟩
          · exact ⟨i, Relation.ReflTransGen.refl, e.symm⟩
          · exact ⟨_, (hcomp _).mpr ⟨t, ht, rfl⟩, e.symm⟩
        · obtain ⟨t, ht, rfl⟩ := (hcomp k).mp hk
          exact f1.top_le.2 t ht
        · rcases f1.bottom_mem with e | ⟨t, ht, e⟩
          · exact ⟨i, Relation.ReflTransGen.refl, e.symm⟩
          · exact ⟨_, (hcomp _).mpr ⟨t, ht, rfl⟩, e.symm⟩
        · obtain ⟨t, ht, rfl⟩ := (hcomp k).mp hk
          exact f1.bottom_le.2 t ht
theorem foldlM_range_except {ε σ : Type} (step : σ → Nat → Except ε σ) (Inv : Nat → σ → Prop)
    (n : Nat) (s0 : σ) (h0 : Inv 0 s0)
    (hstep : ∀ i s, i < n → Inv i s → ∃ s', step s i = .ok s' ∧ Inv (i + 1) s') :
    ∃ s', (List.range n).foldlM step s0 = .ok s' ∧ Inv n s' := by
  induction n with
  | zero => exact ⟨s0, rfl, h0⟩
  | succ n ih =>
    obtain ⟨s1, h1, hI⟩ := ih (fun i s hi => hstep i s (by omega))
    obtain ⟨s2, h2, hI2⟩ := hstep n s1 (by omega) hI
    refine ⟨s2, ?_, hI2⟩
    rw [List.range_succ, List.foldlM_append, h1]
    simp only [List.foldlM_cons, List.foldlM_nil, bind, Except.bind, h2]
    rfl

theorem resetIgnore_spec (lines : Nat → YellowScanLine) :
    ∀ n : Nat,
      (∀ k, sameGeom ((List.range n).foldl (fun l i => setIgnore l i false) lines k) (lines k)) ∧
      ∀ k < n, ((List.range n).foldl (fun l i => setIgnore l i false) lines k)._ignore = false := by
  intro n
  induction n with
  | zero => exact ⟨fun k => ⟨rfl, rfl, rfl⟩, fun k hk => by omega⟩
  | succ n ih =>
    obtain ⟨h1, h2⟩ := ih
    rw [List.range_succ, List.foldl_append]
    simp only [List.foldl_cons, List.foldl_nil]
    refine ⟨fun k => sameGeom_trans (setIgnore_geom _ _ _ _) (h1 k), fun k hk => ?_⟩
    rw [setIgnore_flag]
    by_cases e : k = n
    · rw [if_pos e]
    · rw [if_neg e]; exact h2 k (by omega)

theorem Connected_congr {lines lines' : Nat → YellowScanLine} {n : Nat} {S : Int}
    (hg : ∀ k, sameGeom (lines' k) (lines k)) {a b : Nat} (h : Connected lines n S a b) :
    Connected lines' n S a b := by
  induction h with
  | refl => exact Relation.ReflTransGen.refl
  | tail _ hbc ih =>
    refine ih.tail ⟨hbc.1, hbc.2.1, ?_⟩
    rw [are_lines_adjacent_congr S (hg _) (hg _)]
    exact hbc.2.2

/-- C4: with index-scratch capacity and box capacity both at least `lineCount` (and fuel for
the collecting loop above `lineCount`), `find_yellow_rectangles` returns, and it emits exactly
one box per connected component of the graph whose edges are the `_are_lines_adjacent` pairs:
the emitted boxes correspond, in order, to the lines `seeds` that are the least lines of their
components, listed increasingly; each box has `isComplete = true`, `left` the least start,
`right` the greatest end, `top` the least row and `bottom` the greatest row over the lines of
its component. (The hypotheses `start <= end` and `maxSpacing >= 0` are not needed.) -/
theorem find_yellow_rectangles_components (fuel : Nat) (lines : Nat → YellowScanLine)
    (lineCount : Nat) (maxSpacing : Int) (tmpIndexBuffer : Nat → Nat)
    (maxTmpIndexCount maxCount : Nat) (hT : lineCount ≤ maxTmpIndexCount)
    (hK : lineCount ≤ maxCount) (hfuel : lineCount < fuel) :
    ∃ s seeds, find_yellow_rectangles fuel lines lineCount maxSpacing tmpIndexBuffer
        maxTmpIndexCount maxCount = some s ∧
      seeds.Pairwise (· < ·) ∧
      (∀ j, j ∈ seeds ↔
        j < lineCount ∧ ∀ j' < j, ¬ Connected lines lineCount maxSpacing j' j) ∧
      List.Forall₂
        (fun j box => box.isComplete = true ∧ IsComponentBox lines lineCount maxSpacing j box)
        seeds s.dst := by
  obtain ⟨hr1, hr2⟩ := resetIgnore_spec lines lineCount
  obtain ⟨s, hs, seeds, hinv⟩ := foldlM_range_except
    (boxStep fuel lineCount maxSpacing maxTmpIndexCount maxCount)
    (fun i s => ∃ seeds, OuterInv lines lineCount maxSpacing i s seeds) lineCount
    { lines := (List.range lineCount).foldl (fun l i => setIgnore l i false) lines,
      tmpIndexBuffer := tmpIndexBuffer, dst := [] }
    ⟨[], hr1, fun k hk => by
        simp only [hr2 k hk, Bool.false_eq_true, false_iff, not_exists, not_and]
        intro j' hj'; omega,
      List.Pairwise.nil, fun j => by simp, List.Forall₂.nil, le_refl _⟩
    (fun i s hi ⟨seeds, hinv⟩ => by
      obtain ⟨s', seeds', h1, h2⟩ := boxStep_inv hT hK hfuel i hi s seeds hinv
      exact ⟨s', h1, seeds', h2⟩)
  refine ⟨s, seeds, ?_, hinv.sorted, hinv.mem, hinv.boxes⟩
  unfold find_yellow_rectangles
  simp only [hs]

theorem find_yellow_rectangles_components_witness :
    ∃ s seeds, find_yellow_rectangles 6
        (linesOf [⟨0, 3, 0, true⟩, ⟨10, 12, 0, false⟩, ⟨2, 5, 1, false⟩, ⟨5, 9, 2, false⟩,
          ⟨20, 30, 5, false⟩]) 5 0 (fun _ => 0) 5 5 = some s ∧
      seeds.Pairwise (· < ·) ∧
      (∀ j, j ∈ seeds ↔
        j < 5 ∧ ∀ j' < j, ¬ Connected
          (linesOf [⟨0, 3, 0, true⟩, ⟨10, 12, 0, false⟩, ⟨2, 5, 1, false⟩, ⟨5, 9, 2, false⟩,
            ⟨20, 30, 5, false⟩]) 5 0 j' j) ∧
      List.Forall₂
        (fun j box => box.isComplete = true ∧ IsComponentBox
          (linesOf [⟨0, 3, 0, true⟩, ⟨10, 12, 0, false⟩, ⟨2, 5, 1, false⟩, ⟨5, 9, 2, false⟩,
            ⟨20, 30, 5, false⟩]) 5 0 j box)
        seeds s.dst :=
  find_yellow_rectangles_components 6
    (linesOf [⟨0, 3, 0, true⟩, ⟨10, 12, 0, false⟩, ⟨2, 5, 1, false⟩, ⟨5, 9, 2, false⟩,
      ⟨20, 30, 5, false⟩]) 5 0 (fun _ => 0) 5 5 (by decide) (by decide) (by decide)

/-! ## Theorems: endpoint refinement -/

theorem walkTrace_head (x2 y2 dx dy sx sy : Int) :
    ∀ (fuel : Nat) (x1 y1 e : Int) (t : List (Int × Int)),
      walkTrace x2 y2 dx dy sx sy fuel x1 y1 e = some t → ∃ rest, t = (x1, y1) :: rest := by
  intro fuel
  cases fuel with
  | zero => intro x1 y1 e t h; simp [walkTrace] at h
  | succ fuel =>
    intro x1 y1 e t h
    rw [walkTrace] at h
    by_cases hc : x1 = x2 ∧ y1 = y2
    · rw [if_pos hc] at h
      exact ⟨[], (Option.some.inj h).symm⟩
    · rw [if_neg hc] at h
      cases hw : walkTrace x2 y2 dx dy sx sy fuel (walkStep dx dy sx sy x1 y1 e).1
          (walkStep dx dy sx sy x1 y1 e).2.1 (walkStep dx dy sx sy x1 y1 e).2.2 with
      | none => rw [hw] at h; simp at h
      | some t' =>
        rw [hw] at h
        exact ⟨t', (Option.some.inj h).symm⟩

theorem endpointLoop_eq (rgba8 : Nat → Nat) (width : Int) (yellowCfg : YellowConfig)
    (x2 y2 dx dy sx sy : Int) :
    ∀ (fuel : Nat) (x1 y1 e : Int) (s : EndpointState),
      endpointLoop rgba8 width yellowCfg x2 y2 dx dy sx sy fuel x1 y1 e s
        = (walkTrace x2 y2 dx dy sx sy fuel x1 y1 e).map
            (fun t => endpointFold rgba8 width yellowCfg t s) := by
  intro fuel
  induction fuel with
  | zero => intro x1 y1 e s; rfl
  | succ fuel ih =>
    intro x1 y1 e s
    rw [endpointLoop, walkTrace]
    have hv : (if is_yellow (rgba8 (pixelOffset width x1 y1 0)) (rgba8 (pixelOffset width x1 y1 1))
          (rgba8 (pixelOffset width x1 y1 2)) yellowCfg = true then
        if ({ s with visited := s.visited ++ [(x1, y1)] } : EndpointState).inColor = true then
          { ({ s with visited := s.visited ++ [(x1, y1)] } : EndpointState) with
            secondX := ({ s with visited := s.visited ++ [(x1, y1)] } : EndpointState).lastX,
            secondY := ({ s with visited := s.visited ++ [(x1, y1)] } : EndpointState).lastY,
            inColor := false }
        else ({ s with visited := s.visited ++ [(x1, y1)] } : EndpointState)
      else
        if ({ s with visited := s.visited ++ [(x1, y1)] } : EndpointState).inColor = true then
          ({ s with visited := s.visited ++ [(x1, y1)] } : EndpointState)
        else
          { (if (!({ s with visited := s.visited ++ [(x1, y1)] } : EndpointState).foundColorStart)
                = true then
              { ({ s with visited := s.visited ++ [(x1, y1)] } : EndpointState) with
                firstX := x1, firstY := y1, foundColorStart := true }
            else ({ s with visited := s.visited ++ [(x1, y1)] } : EndpointState)) with
            inColor := true })
        = visitPixel rgba8 width yellowCfg s (x1, y1) := rfl
    simp only [] at hv ⊢
    rw [hv]
    by_cases hc : x1 = x2 ∧ y1 = y2
    · rw [if_pos hc, if_pos hc]
      rfl
    · rw [if_neg hc, if_neg hc, ih]
      cases hw : walkTrace x2 y2 dx dy sx sy fuel (walkStep dx dy sx sy x1 y1 e).1
          (walkStep dx dy sx sy x1 y1 e).2.1 (walkStep dx dy sx sy x1 y1 e).2.2 with
      | none => rfl
      | some t' =>
        obtain ⟨rest, rfl⟩ := walkTrace_head _ _ _ _ _ _ _ _ _ _ _ hw
        rfl
theorem visitPixel_visited (rgba8 : Nat → Nat) (width : Int) (cfg : YellowConfig)
    (s : EndpointState) (p : Int × Int) :
    (visitPixel rgba8 width cfg s p).visited = s.visited ++ [p] := by
  unfold visitPixel
  simp only []
  split_ifs <;> rfl

theorem visitPixel_yellow (rgba8 : Nat → Nat) (width : Int) (cfg : YellowConfig)
    (s : EndpointState) (p : Int × Int) (hy : yellowAt rgba8 width cfg p = true)
    (hc : s.inColor = false) :
    visitPixel rgba8 width cfg s p = { s with visited := s.visited ++ [p] } := by
  unfold yellowAt at hy
  unfold visitPixel
  simp only [hy, hc, if_true, Bool.false_eq_true, if_false]

theorem visitPixel_first_color (rgba8 : Nat → Nat) (width : Int) (cfg : YellowConfig)
    (s : EndpointState) (p : Int × Int) (hy : yellowAt rgba8 width cfg p = false)
    (hc : s.inColor = false) (hf : s.foundColorStart = false) :
    (visitPixel rgba8 width cfg s p).foundColorStart = true ∧
      (visitPixel rgba8 width cfg s p).firstX = p.1 ∧
      (visitPixel rgba8 width cfg s p).firstY = p.2 := by
  unfold yellowAt at hy
  unfold visitPixel
  simp [hy, hc, hf]

theorem visitPixel_found (rgba8 : Nat → Nat) (width : Int) (cfg : YellowConfig)
    (s : EndpointState) (p : Int × Int) (hf : s.foundColorStart = true) :
    (visitPixel rgba8 width cfg s p).foundColorStart = true ∧
      (visitPixel rgba8 width cfg s p).firstX = s.firstX ∧
      (visitPixel rgba8 width cfg s p).firstY = s.firstY := by
  unfold visitPixel
  simp only [hf]
  split_ifs <;> simp_all

theorem endpointFold_found (rgba8 : Nat → Nat) (width : Int) (cfg : YellowConfig) :
    ∀ (t : List (Int × Int)) (s : EndpointState), s.foundColorStart = true →
      (endpointFold rgba8 width cfg t s).firstX = s.firstX ∧
        (endpointFold rgba8 width cfg t s).firstY = s.firstY := by
  intro t
  induction t with
  | nil => intro s _; exact ⟨rfl, rfl⟩
  | cons p rest ih =>
    intro s hf
    obtain ⟨h1, h2, h3⟩ := visitPixel_found rgba8 width cfg s p hf
    cases rest with
    | nil => exact ⟨h2, h3⟩
    | cons q rest =>
      rw [endpointFold]
      obtain ⟨g1, g2⟩ := ih { visitPixel rgba8 width cfg s p with lastX := q.1, lastY := q.2 } h1
      exact ⟨g1.trans h2, g2.trans h3⟩

theorem endpointFold_visited (rgba8 : Nat → Nat) (width : Int) (cfg : YellowConfig) :
    ∀ (t : List (Int × Int)) (s : EndpointState),
      (endpointFold rgba8 width cfg t s).visited = s.visited ++ t := by
  intro t
  induction t with
  | nil => intro s; simp [endpointFold]
  | cons p rest ih =>
    intro s
    cases rest with
    | nil => exact visitPixel_visited rgba8 width cfg s p
    | cons q rest =>
      rw [endpointFold, ih]
      simp [visitPixel_visited]

theorem endpointFold_first (rgba8 : Nat → Nat) (width : Int) (cfg : YellowConfig) :
    ∀ (t : List (Int × Int)) (s : EndpointState), s.foundColorStart = false →
      s.inColor = false →
      (∀ p, t.find? (fun p => !yellowAt rgba8 width cfg p) = some p →
        ((endpointFold rgba8 width cfg t s).firstX, (endpointFold rgba8 width cfg t s).firstY)
          = p) ∧
      (t.find? (fun p => !yellowAt rgba8 width cfg p) = none →
        (endpointFold rgba8 width cfg t s).firstX = s.firstX ∧
        (endpointFold rgba8 width cfg t s).firstY = s.firstY ∧
        (endpointFold rgba8 width cfg t s).secondX = s.secondX ∧
        (endpointFold rgba8 width cfg t s).secondY = s.secondY) := by
  intro t
  induction t with
  | nil =>
    intro s _ _
    exact ⟨fun p h => by simp at h, fun _ => ⟨rfl, rfl, rfl, rfl⟩⟩
  | cons p rest ih =>
    intro s hf hc
    by_cases hy : yellowAt rgba8 width cfg p = true
    · have hv := visitPixel_yellow rgba8 width cfg s p hy hc
      have hfind : (p :: rest).find? (fun p => !yellowAt rgba8 width cfg p)
          = rest.find? (fun p => !yellowAt rgba8 width cfg p) := by
        rw [List.find?_cons_of_neg]; simp [hy]
      rw [hfind]
      cases rest with
      | nil =>
        refine ⟨fun p' h => by simp at h, fun _ => ?_⟩
        have e : endpointFold rgba8 width cfg [p] s = visitPixel rgba8 width cfg s p := rfl
        rw [e, hv]
        exact ⟨rfl, rfl, rfl, rfl⟩
      | cons q rest =>
        rw [endpointFold, hv]
        exact ih _ hf hc
    · have hy' : yellowAt rgba8 width cfg p = false := by simpa using hy
      obtain ⟨h1, h2, h3⟩ := visitPixel_first_color rgba8 width cfg s p hy' hc hf
      have hfind : (p :: rest).find? (fun p => !yellowAt rgba8 width cfg p) = some p := by
        rw [List.find?_cons_of_pos]; simp [hy']
      rw [hfind]
      refine ⟨fun p' h => ?_, fun h => by cases h⟩
      have hp : p' = p := (Option.some.inj h).symm
      subst hp
      cases rest with
      | nil =>
        show ((visitPixel rgba8 width cfg s p').firstX, (visitPixel rgba8 width cfg s p').firstY)
          = p'
        rw [h2, h3]
      | cons q rest =>
        rw [endpointFold]
        obtain ⟨g1, g2⟩ := endpointFold_found rgba8 width cfg (q :: rest)
          { visitPixel rgba8 width cfg s p' with lastX := q.1, lastY := q.2 } h1
        rw [g1, g2]
        show ((visitPixel rgba8 width cfg s p').firstX, (visitPixel rgba8 width cfg s p').firstY)
          = p'
        rw [h2, h3]

/-- C11: `_find_colorful_line_endpoints` returns (given more fuel than
`max(|x2-x1|, |y2-y1|)`); the pixels it reads form the walk from the first point to the second
point; if some pixel of the walk is not yellow (`is_yellow` false), the start written to
`(firstX, firstY)` is the first such pixel in walk order; if every pixel of the walk is yellow,
both the start and the end are left at their input values. -/
theorem find_colorful_line_endpoints_start (fuel : Nat) (rgba8 : Nat → Nat)
    (width height : Int) (yellowCfg : YellowConfig) (firstX firstY secondX secondY : Int)
    (hf : max |secondX - firstX| |secondY - firstY| < (fuel : Int)) :
    ∃ s, _find_colorful_line_endpoints fuel rgba8 width height yellowCfg firstX firstY
        secondX secondY = some s ∧
      s.visited.head? = some (firstX, firstY) ∧
      s.visited.getLast? = some (secondX, secondY) ∧
      s.visited.Nodup ∧ s.visited.Chain' adjacentPixels ∧
      (∀ p, s.visited.find? (fun p => !yellowAt rgba8 width yellowCfg p) = some p →
        (s.firstX, s.firstY) = p) ∧
      (s.visited.find? (fun p => !yellowAt rgba8 width yellowCfg p) = none →
        s.firstX = firstX ∧ s.firstY = firstY ∧ s.secondX = secondX ∧ s.secondY = secondY) := by
  obtain ⟨t, ht, _, h1, h2, h3, h4⟩ := walkTrace_good firstX firstY secondX secondY fuel hf
  unfold _find_colorful_line_endpoints
  simp only []
  rw [endpointLoop_eq, ht]
  simp only [Option.map_some', Option.some.injEq, exists_eq_left']
  have hv := endpointFold_visited rgba8 width yellowCfg t
    { firstX := firstX, firstY := firstY, secondX := secondX, secondY := secondY,
      foundColorStart := false, inColor := false, lastX := secondX, lastY := secondY,
      visited := [] }
  simp only [List.nil_append] at hv
  rw [hv]
  refine ⟨h1, h2, h3, h4, ?_⟩
  exact endpointFold_first rgba8 width yellowCfg t _ rfl rfl

theorem find_colorful_line_endpoints_start_witness :
    ∃ s, _find_colorful_line_endpoints 5 endpointTestRow 8 1 ⟨30, 50, 80⟩ 0 0 4 0 = some s ∧
      s.visited.head? = some (0, 0) ∧
      s.visited.getLast? = some (4, 0) ∧
      s.visited.Nodup ∧ s.visited.Chain' adjacentPixels ∧
      (∀ p, s.visited.find? (fun p => !yellowAt endpointTestRow 8 ⟨30, 50, 80⟩ p) = some p →
        (s.firstX, s.firstY) = p) ∧
      (s.visited.find? (fun p => !yellowAt endpointTestRow 8 ⟨30, 50, 80⟩ p) = none →
        s.firstX = 0 ∧ s.firstY = 0 ∧ s.secondX = 4 ∧ s.secondY = 0) :=
  find_colorful_line_endpoints_start 5 endpointTestRow 8 1 ⟨30, 50, 80⟩ 0 0 4 0 (by decide)

/-! ## Theorems: ranking, continued -/

/-- C14, evaluated on the code at a failing input: with `maxResultCount = 2` and three
appearances that all pass both thresholds, scored `1/5`, `9/10` and `1/2` in this order, the list
is full after the second appearance, `[(1, 9/10), (0, 1/5)]`; the third appearance scores `1/2`,
strictly more than the entry `(0, 1/5)`, yet the returned list is still
`[(1, 9/10), (0, 1/5)]`: nothing is inserted and the lowest entry is not dropped. -/
theorem find_appearances_of_bar_code_full_list :
    (find_appearances_of_bar_code 2 (barCodeOf [.BAR_CODE_RED]) 5 (1 / 10)
        rankTestAppearances 2 (fun _ => 0) (fun _ => 0) 2).map RankState.ranking
      = some [(1, 9 / 10), (0, 1 / 5)] ∧
    (find_appearances_of_bar_code 2 (barCodeOf [.BAR_CODE_RED]) 5 (1 / 10)
        rankTestAppearances 3 (fun _ => 0) (fun _ => 0) 2).map RankState.ranking
      = some [(1, 9 / 10), (0, 1 / 5)] ∧
    quantify_bar_code_appearance_match 2 (barCodeOf [.BAR_CODE_RED]) (rankTestAppearances 2)
      = some (1 / 2) ∧
    ¬ (_get_distance (rankTestAppearances 2).colorStartX (rankTestAppearances 2).colorStartY
      (rankTestAppearances 2).colorEndX (rankTestAppearances 2).colorEndY < 5) ∧
    ¬ ((1 / 2 : ℚ) < 1 / 10) ∧ (1 / 5 : ℚ) < 1 / 2 := by
  obtain ⟨h0, h1, h2⟩ := rankTest_score
  refine ⟨?_, ?_, h2, by rw [rankTest_distance]; decide, by norm_num, by norm_num⟩
  · unfold find_appearances_of_bar_code
    rw [show List.range 2 = [0, 1] from rfl]
    simp only [List.foldlM_cons, List.foldlM_nil, rankStep_eq _ _ _ _ _ _ _ _ _ h0,
      rankStep_eq _ _ _ _ _ _ _ _ _ h1, rankTest_distance]
    norm_num [insertedState, RankState.ranking, List.range_succ]
  · unfold find_appearances_of_bar_code
    rw [show List.range 3 = [0, 1, 2] from rfl]
    simp only [List.foldlM_cons, List.foldlM_nil, rankStep_eq _ _ _ _ _ _ _ _ _ h0,
      rankStep_eq _ _ _ _ _ _ _ _ _ h1, rankStep_eq _ _ _ _ _ _ _ _ _ h2, rankTest_distance]
    norm_num [insertedState, RankState.ranking, List.range_succ]

theorem find_appearances_entries (fuel : Nat) (barCode : BarCode) (minLineDistance : Int)
    (minMatchScore : ℚ) (appearances : Nat → BarCodeAppearance) (appearanceCount : Nat)
    (results : Nat → Nat) (resultScores : Nat → ℚ) (maxResultCount : Nat) :
    ∀ s, find_appearances_of_bar_code fuel barCode minLineDistance minMatchScore appearances
        appearanceCount results resultScores maxResultCount = some s →
      (∀ j, j + 1 < s.count → s.resultScores (j + 1) ≤ s.resultScores j) ∧
      ∀ j < s.count, s.results j < appearanceCount ∧
        quantify_bar_code_appearance_match fuel barCode (appearances (s.results j))
          = some (s.resultScores j) ∧
        ¬ (_get_distance (appearances (s.results j)).colorStartX
            (appearances (s.results j)).colorStartY (appearances (s.results j)).colorEndX
            (appearances (s.results j)).colorEndY < minLineDistance) ∧
        ¬ (s.resultScores j < minMatchScore) := by
  refine foldlM_range_option_partial
    (rankStep fuel barCode minLineDistance minMatchScore appearances maxResultCount)
    (fun n s =>
      (∀ j, j + 1 < s.count → s.resultScores (j + 1) ≤ s.resultScores j) ∧
      ∀ j < s.count, s.results j < n ∧
        quantify_bar_code_appearance_match fuel barCode (appearances (s.results j))
          = some (s.resultScores j) ∧
        ¬ (_get_distance (appearances (s.results j)).colorStartX
            (appearances (s.results j)).colorStartY (appearances (s.results j)).colorEndX
            (appearances (s.results j)).colorEndY < minLineDistance) ∧
        ¬ (s.resultScores j < minMatchScore))
    appearanceCount _ ⟨fun j hj => absurd hj (by simp), fun j hj => absurd hj (by simp)⟩ ?_
  intro i s s' hi ⟨hsorted, hent⟩ hstep
  rcases rankStep_cases fuel barCode minLineDistance minMatchScore appearances
    maxResultCount s s' i hstep with h | ⟨m, hm, hd, hms, hK, h⟩
  · subst h
    exact ⟨hsorted, fun j hj => ⟨by have := (hent j hj).1; omega, (hent j hj).2⟩⟩
  · subst h
    refine ⟨insertedState_sorted s m _ i (insertPosition_spec s m).1
      (insertPosition_spec s m).2.1 (insertPosition_spec s m).2.2 hsorted, ?_⟩
    exact insertedState_entries s _ i m (insertPosition_spec s m).1
      (fun r q => r < i + 1 ∧
        quantify_bar_code_appearance_match fuel barCode (appearances r) = some q ∧
        ¬ (_get_distance (appearances r).colorStartX (appearances r).colorStartY
            (appearances r).colorEndX (appearances r).colorEndY < minLineDistance) ∧
        ¬ (q < minMatchScore))
      (fun j hj => ⟨by have := (hent j hj).1; omega, (hent j hj).2⟩)
      ⟨by omega, hm, hd, hms⟩

theorem find_appearances_total (fuel : Nat) (barCode : BarCode)
    (minLineDistance : Int) (minMatchScore : ℚ) (appearances : Nat → BarCodeAppearance)
    (appearanceCount : Nat) (results : Nat → Nat) (resultScores : Nat → ℚ)
    (maxResultCount : Nat) (hN : barCode.colorCount < 2 ^ 64) (hf : barCode.colorCount < fuel)
    (hsec : ∀ i < appearanceCount,
      ¬ (_get_distance (appearances i).colorStartX (appearances i).colorStartY
          (appearances i).colorEndX (appearances i).colorEndY < minLineDistance) →
      (barCode.colorCount : Int) = (appearances i).sectionCount) :
    ∃ s, find_appearances_of_bar_code fuel barCode minLineDistance minMatchScore appearances
      appearanceCount results resultScores maxResultCount = some s := by
  obtain ⟨s, hs, _⟩ := foldlM_range_option
    (rankStep fuel barCode minLineDistance minMatchScore appearances maxResultCount)
    (fun _ _ => True) appearanceCount
    { count := 0, results := results, resultScores := resultScores } trivial
    (fun i s hi _ => by
      by_cases h1 : _get_distance (appearances i).colorStartX (appearances i).colorStartY
          (appearances i).colorEndX (appearances i).colorEndY < minLineDistance
      · exact ⟨s, by unfold rankStep; rw [if_pos h1], trivial⟩
      · have hm := quantify_eq_max fuel barCode (appearances i) hN hf (hsec i hi h1)
        exact ⟨_, rankStep_eq fuel barCode minLineDistance minMatchScore appearances
          maxResultCount s i _ hm, trivial⟩)
  exact ⟨s, hs⟩

theorem rankTest_total (K : Nat) :
    ∃ s, find_appearances_of_bar_code 2 (barCodeOf [.BAR_CODE_RED]) 5 (1 / 10)
      rankTestAppearances 3 (fun _ => 0) (fun _ => 0) K = some s :=
  find_appearances_total 2 (barCodeOf [.BAR_CODE_RED]) 5 (1 / 10) rankTestAppearances 3
    (fun _ => 0) (fun _ => 0) K (by simp [barCodeOf]) (by simp [barCodeOf])
    (fun i hi _ => by
      unfold rankTestAppearances
      rcases i with _ | _ | _ | i
      · rfl
      · rfl
      · rfl
      · omega)

theorem insertedState_ties (s : RankState) (m : ℚ) (p i : Nat)
    (hp1 : p ≤ s.count) (hp2 : ∀ j < p, m ≤ s.resultScores j)
    (hp3 : p < s.count → s.resultScores p < m)
    (hs : ∀ j, j + 1 < s.count → s.resultScores (j + 1) ≤ s.resultScores j)
    (hb : ∀ j < s.count, s.results j < i)
    (ht : ∀ j j', j < j' → j' < s.count → s.resultScores j = s.resultScores j' →
      s.results j < s.results j') :
    ∀ j j', j < j' → j' < (insertedState s p i m).count →
      (insertedState s p i m).resultScores j = (insertedState s p i m).resultScores j' →
      (insertedState s p i m).results j < (insertedState s p i m).results j' := by
  have hmono : ∀ a b, a ≤ b → b < s.count → s.resultScores b ≤ s.resultScores a := by
    intro a b hab hb
    induction b with
    | zero =>
      have : a = 0 := by omega
      subst this; exact le_refl _
    | succ b ih =>
      by_cases e : a = b + 1
      · subst e; exact le_refl _
      · exact le_trans (hs b hb) (ih (by omega) (by omega))
  intro j j' hjj hj'
  simp only [insertedState] at hj' ⊢
  by_cases e1 : j' = p
  · have c0 : ¬ j = p := by omega
    have c1 : ¬ (p < j ∧ j ≤ s.count) := by omega
    simp only [if_pos e1, if_neg c0, if_neg c1]
    intro _
    exact hb j (by omega)
  · by_cases e2 : j = p
    · have c1 : p < j' ∧ j' ≤ s.count := by omega
      simp only [if_pos e2, if_neg e1, if_pos c1]
      intro heq
      have h1 : s.resultScores (j' - 1) ≤ s.resultScores p :=
        hmono p (j' - 1) (by omega) (by omega)
      have h2 := hp3 (by omega)
      rw [← heq] at h1
      exact absurd (lt_of_le_of_lt h1 h2) (lt_irrefl _)
    · by_cases e3 : p < j
      · have c1 : p < j ∧ j ≤ s.count := by omega
        have c2 : p < j' ∧ j' ≤ s.count := by omega
        simp only [if_neg e2, if_neg e1, if_pos c1, if_pos c2]
        exact ht (j - 1) (j' - 1) (by omega) (by omega)
      · have c1 : ¬ (p < j ∧ j ≤ s.count) := by omega
        by_cases e4 : p < j'
        · have c2 : p < j' ∧ j' ≤ s.count := by omega
          simp only [if_neg e2, if_neg e1, if_neg c1, if_pos c2]
          exact ht j (j' - 1) (by omega) (by omega)
        · have c2 : ¬ (p < j' ∧ j' ≤ s.count) := by omega
          simp only [if_neg e2, if_neg e1, if_neg c1, if_neg c2]
          exact ht j j' hjj (by omega)

/-- C16: whenever `find_appearances_of_bar_code` returns, any two entries of the returned
list that have equal scores are in discovery order: the one at the earlier position has the
smaller index in the `appearances` array. -/
theorem find_appearances_of_bar_code_ties (fuel : Nat) (barCode : BarCode)
    (minLineDistance : Int) (minMatchScore : ℚ) (appearances : Nat → BarCodeAppearance)
    (appearanceCount : Nat) (results : Nat → Nat) (resultScores : Nat → ℚ)
    (maxResultCount : Nat) :
    ∀ s, find_appearances_of_bar_code fuel barCode minLineDistance minMatchScore appearances
        appearanceCount results resultScores maxResultCount = some s →
      ∀ j j', j < j' → j' < s.count → s.resultScores j = s.resultScores j' →
        s.results j < s.results j' := by
  intro s hs
  have := foldlM_range_option_partial
    (rankStep fuel barCode minLineDistance minMatchScore appearances maxResultCount)
    (fun n s =>
      (∀ j, j + 1 < s.count → s.resultScores (j + 1) ≤ s.resultScores j) ∧
      (∀ j < s.count, s.results j < n) ∧
      ∀ j j', j < j' → j' < s.count → s.resultScores j = s.resultScores j' →
        s.results j < s.results j')
    appearanceCount { count := 0, results := results, resultScores := resultScores }
    ⟨fun j hj => absurd hj (by simp), fun j hj => absurd hj (by simp),
      fun j j' _ hj => absurd hj (by simp)⟩
    (fun i s s' hi ⟨hsorted, hb, ht⟩ hstep => by
      rcases rankStep_cases fuel barCode minLineDistance minMatchScore appearances
        maxResultCount s s' i hstep with h | ⟨m, hm, hd, hms, hK, h⟩
      · subst h
        exact ⟨hsorted, fun j hj => by have := hb j hj; omega, ht⟩
      · subst h
        refine ⟨insertedState_sorted s m _ i (insertPosition_spec s m).1
          (insertPosition_spec s m).2.1 (insertPosition_spec s m).2.2 hsorted, ?_,
          insertedState_ties s m _ i (insertPosition_spec s m).1
            (insertPosition_spec s m).2.1 (insertPosition_spec s m).2.2 hsorted hb ht⟩
        exact insertedState_entries s _ i m (insertPosition_spec s m).1
          (fun r _ => r < i + 1) (fun j hj => by have := hb j hj; omega) (by omega))
    s hs
  exact this.2.2

theorem find_appearances_of_bar_code_ties_witness :
    ∃ s, find_appearances_of_bar_code 2 (barCodeOf [.BAR_CODE_RED]) 5 (1 / 10)
        rankTestAppearances 3 (fun _ => 0) (fun _ => 0) 3 = some s ∧
      ∀ j j', j < j' → j' < s.count → s.resultScores j = s.resultScores j' →
        s.results j < s.results j' := by
  obtain ⟨s, hs⟩ := rankTest_total 3
  exact ⟨s, hs, find_appearances_of_bar_code_ties 2 (barCodeOf [.BAR_CODE_RED]) 5 (1 / 10)
    rankTestAppearances 3 (fun _ => 0) (fun _ => 0) 3 s hs⟩

/-! ## Theorems: scan-line extraction, continued -/

/-- C17: for a width that is a multiple of 8 there is one list `L` of lines, the output with
unlimited capacity (it is returned for every capacity of at least `L.length`, and `L.length`
is the number of runs of the image), such that for every `maxCount` the function
`find_yellow_lines` returns `min(maxCount, L.length)` lines and the destination buffer holds
exactly the first `min(maxCount, L.length)` lines of `L`, in the same order. -/
theorem find_yellow_lines_truncates (rgba8 : Nat → Nat) (width height : Int)
    (cfg : YellowConfig) (hw : width % 8 = 0) :
    ∃ L : List YellowScanLine,
      (∀ M, L.length ≤ M → find_yellow_lines rgba8 width height cfg M = some L) ∧
      L.length = runCount rgba8 width height cfg ∧
      ∀ maxCount, ∃ R, find_yellow_lines rgba8 width height cfg maxCount = some R ∧
        R = L.take maxCount ∧ R.length = min maxCount L.length := by
  obtain ⟨nb, hW⟩ : ∃ nb, width.toNat = 8 * nb := ⟨width.toNat / 8, by omega⟩
  obtain ⟨_, hinv⟩ := ImageInv_fold rgba8 width cfg nb hW height.toNat
  refine ⟨_, fun M hM => ?_, hinv.len, fun maxCount =>
    ⟨_, find_yellow_lines_eq rgba8 width height cfg maxCount hw, rfl, List.length_take _ _⟩⟩
  rw [find_yellow_lines_eq rgba8 width height cfg M hw, List.take_of_length_le hM]

theorem find_yellow_lines_truncates_witness :
    ∃ L : List YellowScanLine,
      (∀ M, L.length ≤ M → find_yellow_lines testRow 32 1 ⟨30, 50, 80⟩ M = some L) ∧
      L.length = runCount testRow 32 1 ⟨30, 50, 80⟩ ∧
      ∀ maxCount, ∃ R, find_yellow_lines testRow 32 1 ⟨30, 50, 80⟩ maxCount = some R ∧
        R = L.take maxCount ∧ R.length = min maxCount L.length :=
  find_yellow_lines_truncates testRow 32 1 ⟨30, 50, 80⟩ (by decide)

theorem RowOrd_fold (cls : Int → Bool) (y : Int) (cur0 : YellowScanLine) :
    ∀ n : Nat,
      (emitFold (rowPixel cls y) (List.range n) (false, cur0)).1.Pairwise
          (fun a b => a.end_ + 1 < b.start) ∧
        ((emitFold (rowPixel cls y) (List.range n) (false, cur0)).2.1 = true →
          ∀ l ∈ (emitFold (rowPixel cls y) (List.range n) (false, cur0)).1,
            l.end_ + 1 < (emitFold (rowPixel cls y) (List.range n) (false, cur0)).2.2.start) := by
  intro n
  induction n with
  | zero =>
    simp only [List.range_zero, emitFold]
    exact ⟨List.Pairwise.nil, fun h => by cases h⟩
  | succ n ih =>
    have hinv := RowInv_fold cls y cur0 n
    rw [List.range_succ, emitFold_append]
    simp only [emitFold, List.append_nil]
    generalize emitFold (rowPixel cls y) (List.range n) (false, cur0) = r at ih hinv
    obtain ⟨E, onL, cur⟩ := r
    simp only at ih hinv ⊢
    obtain ⟨ih1, ih2⟩ := ih
    by_cases hc : cls (n : Int) = true
    · cases onL with
      | true =>
        have hr : rowPixel cls y (true, cur) n = ([], (true, { cur with end_ := cur.end_ + 1 })) := by
          simp [rowPixel, hc]
        rw [hr]
        simp only [List.append_nil]
        exact ⟨ih1, fun _ => ih2 rfl⟩
      | false =>
        have hr : rowPixel cls y (false, cur) n
            = ([], (true, { start := n, end_ := n, y := y, _ignore := false })) := by
          simp [rowPixel, hc]
        rw [hr]
        simp only [List.append_nil]
        exact ⟨ih1, fun _ l hl => (hinv.wf l hl).2.2.2⟩
    · have hc' : cls (n : Int) = false := by simpa using hc
      cases onL with
      | true =>
        have hr : rowPixel cls y (true, cur) n = ([cur], (false, cur)) := by
          simp [rowPixel, hc']
        rw [hr]
        refine ⟨?_, fun h => by cases h⟩
        rw [List.pairwise_append]
        exact ⟨ih1, List.pairwise_singleton _ _, fun a ha b hb => by
          simp only [List.mem_singleton] at hb
          subst hb
          exact ih2 rfl a ha⟩
      | false =>
        have hr : rowPixel cls y (false, cur) n = ([], (false, cur)) := by
          simp [rowPixel, hc']
        rw [hr]
        simp only [List.append_nil]
        exact ⟨ih1, fun h => by cases h⟩

theorem ImageOrd_fold (rgba8 : Nat → Nat) (width : Int) (cfg : YellowConfig) (nb : Nat)
    (hW : width.toNat = 8 * nb) :
    ∀ h : Nat,
      (emitFold (rowEmit rgba8 (to_avx cfg) width) (List.range h) (false, default, 0)).1.Pairwise
        (fun a b => a.y < b.y ∨ (a.y = b.y ∧ a.end_ + 1 < b.start)) := by
  intro h
  induction h with
  | zero =>
    simp only [List.range_zero, emitFold]
    exact List.Pairwise.nil
  | succ h ih =>
    obtain ⟨hb, hinv⟩ := ImageInv_fold rgba8 width cfg nb hW h
    rw [List.range_succ, emitFold_append]
    simp only [emitFold, List.append_nil]
    rw [rowEmit_eq rgba8 width cfg nb h hW _ hb]
    simp only []
    have hdone := RowDone_of_fold (fun x => classified rgba8 width cfg x h) h
      (emitFold (rowEmit rgba8 (to_avx cfg) width) (List.range h) (false, default, 0)).2.2.1
      width.toNat
    obtain ⟨o1, o2⟩ := RowOrd_fold (fun x => classified rgba8 width cfg x h) h
      (emitFold (rowEmit rgba8 (to_avx cfg) width) (List.range h) (false, default, 0)).2.2.1
      width.toNat
    rw [List.pairwise_append]
    refine ⟨ih, ?_, fun a ha b hb' => Or.inl ?_⟩
    · have hrow : ((emitFold (rowPixel (fun x => classified rgba8 width cfg x h) h)
            (List.range width.toNat) (false, (emitFold (rowEmit rgba8 (to_avx cfg) width)
              (List.range h) (false, default, 0)).2.2.1)).1 ++
          (if (emitFold (rowPixel (fun x => classified rgba8 width cfg x h) h)
              (List.range width.toNat) (false, (emitFold (rowEmit rgba8 (to_avx cfg) width)
                (List.range h) (false, default, 0)).2.2.1)).2.1 = true then
            [(emitFold (rowPixel (fun x => classified rgba8 width cfg x h) h)
              (List.range width.toNat) (false, (emitFold (rowEmit rgba8 (to_avx cfg) width)
                (List.range h) (false, default, 0)).2.2.1)).2.2] else [])).Pairwise
          (fun a b => a.end_ + 1 < b.start) := by
        rw [List.pairwise_append]
        refine ⟨o1, ?_, fun a ha b hb' => ?_⟩
        · split_ifs
          · exact List.pairwise_singleton _ _
          · exact List.Pairwise.nil
        · split_ifs at hb' with hon
          · simp only [List.mem_singleton] at hb'
            subst hb'
            exact o2 hon a ha
          · cases hb'
      refine List.Pairwise.imp_of_mem ?_ hrow
      intro a b ha hb' hab
      exact Or.inr ⟨((hdone.wf a ha).1).trans ((hdone.wf b hb').1).symm, hab⟩
    · have h1 := (hinv.wf a ha).2.1
      have h2 := (hdone.wf b hb').1
      omega

/-- C18: for a width that is a multiple of 8 and every capacity, the lines returned by
`find_yellow_lines` are strictly increasing in the lexicographic order of `(y, start)`, and of
two lines on the same row the later one starts after at least one pixel that follows the end
of the earlier one (`previous.end + 1 < next.start`); this holds for any two lines of the
output, in particular for consecutive ones. -/
theorem find_yellow_lines_ordered (rgba8 : Nat → Nat) (width height : Int)
    (cfg : YellowConfig) (maxCount : Nat) (hw : width % 8 = 0) :
    ∃ L, find_yellow_lines rgba8 width height cfg maxCount = some L ∧
      L.Pairwise (fun a b =>
        (a.y < b.y ∨ (a.y = b.y ∧ a.start < b.start)) ∧ (a.y = b.y → a.end_ + 1 < b.start)) := by
  obtain ⟨nb, hW⟩ : ∃ nb, width.toNat = 8 * nb := ⟨width.toNat / 8, by omega⟩
  obtain ⟨_, hinv⟩ := ImageInv_fold rgba8 width cfg nb hW height.toNat
  have hord := ImageOrd_fold rgba8 width cfg nb hW height.toNat
  refine ⟨_, find_yellow_lines_eq rgba8 width height cfg maxCount hw, ?_⟩
  refine List.Pairwise.sublist (List.take_sublist _ _) ?_
  refine List.Pairwise.imp_of_mem ?_ hord
  intro a b ha _ hab
  have hwf := (hinv.wf a ha).2.2.2.1
  rcases hab with h | ⟨h1, h2⟩
  · exact ⟨Or.inl h, fun e => by omega⟩
  · exact ⟨Or.inr ⟨h1, by omega⟩, fun _ => h2⟩

theorem find_yellow_lines_ordered_witness :
    ∃ L, find_yellow_lines testRow 32 1 ⟨30, 50, 80⟩ 2 = some L ∧
      L.Pairwise (fun a b =>
        (a.y < b.y ∨ (a.y = b.y ∧ a.start < b.start)) ∧ (a.y = b.y → a.end_ + 1 < b.start)) :=
  find_yellow_lines_ordered testRow 32 1 ⟨30, 50, 80⟩ 2 (by decide)

/-! ## Theorems: sampling of an appearance -/

theorem readLoop_eq (rgba8 : Nat → Nat)
    (width sectionCount origX origY endX endY dx dy sx sy totalDistance : Int) :
    ∀ (fuel : Nat) (x y e : Int) (ret : BarCodeAppearance) (buckets : List ((Int × Int) × Int)),
      readLoop rgba8 width sectionCount origX origY endX endY dx dy sx sy totalDistance fuel
          x y e ret buckets
        = (walkTrace endX endY dx dy sx sy fuel x y e).map
            (fun t => t.foldl (readPixel rgba8 width sectionCount origX origY totalDistance)
              (ret, buckets)) := by
  intro fuel
  induction fuel with
  | zero => intro x y e ret buckets; rfl
  | succ fuel ih =>
    intro x y e ret buckets
    rw [readLoop, walkTrace]
    by_cases hc : x = endX ∧ y = endY
    · simp only [if_pos hc, Option.map_some', List.foldl_cons, List.foldl_nil]
      rfl
    · simp only [if_neg hc]
      rw [ih]
      simp only [Option.map_map]
      rfl

theorem readFold_buckets (rgba8 : Nat → Nat) (width sectionCount origX origY totalDistance : Int)
    (t : List (Int × Int)) :
    ∀ st : BarCodeAppearance × List ((Int × Int) × Int),
      (t.foldl (readPixel rgba8 width sectionCount origX origY totalDistance) st).2
        = st.2 ++ t.map (fun p => (p, sectionOfPixel sectionCount origX origY totalDistance p)) := by
  induction t with
  | nil => intro st; simp
  | cons p t ih =>
    intro st
    rw [List.foldl_cons, ih]
    simp [readPixel]

theorem sectionIndexOf_range (sectionCount totalDistance currentDistance : Int) :
    0 ≤ sectionIndexOf sectionCount totalDistance currentDistance ∧
      sectionIndexOf sectionCount totalDistance currentDistance ≤ 24 := by
  unfold sectionIndexOf BAR_CODE_MAX_COLOR_COUNT
  simp only []
  split_ifs <;> omega

theorem readFold_count (rgba8 : Nat → Nat) (width sectionCount origX origY totalDistance : Int)
    (i : Nat) (t : List (Int × Int)) :
    ∀ st : BarCodeAppearance × List ((Int × Int) × Int),
      (t.foldl (readPixel rgba8 width sectionCount origX origY totalDistance) st).1.pixelCount i
        = st.1.pixelCount i +
          ((t.countP (fun p => sectionOfPixel sectionCount origX origY totalDistance p = (i : Int))
            : Nat) : Int) := by
  induction t with
  | nil => intro st; simp
  | cons p t ih =>
    intro st
    rw [List.foldl_cons, ih, List.countP_cons]
    have hr := sectionIndexOf_range sectionCount totalDistance (_get_distance p.1 p.2 origX origY)
    by_cases h : sectionOfPixel sectionCount origX origY totalDistance p = (i : Int)
    · have h2 : (sectionOfPixel sectionCount origX origY totalDistance p).toNat = i := by
        rw [h]; simp
      simp only [readPixel, accumulate, h2, Function.update_same]
      simp only [h, decide_True, if_true]
      push_cast
      ring
    · have h2 : i ≠ (sectionOfPixel sectionCount origX origY totalDistance p).toNat := by
        intro hi
        apply h
        unfold sectionOfPixel at hi ⊢
        omega
      simp only [readPixel, accumulate, Function.update_noteq h2, h, decide_False]
      simp

theorem clearFold_pixelCount (n : Nat) (ret : BarCodeAppearance) (i : Nat) :
    ((List.range n).foldl clearSection ret).pixelCount i
      = if i < n then 0 else ret.pixelCount i := by
  induction n with
  | zero => simp
  | succ n ih =>
    rw [List.range_succ, List.foldl_append, List.foldl_cons, List.foldl_nil]
    by_cases h : i = n
    · subst h
      simp [clearSection]
    · simp only [clearSection, Function.update_noteq h, ih]
      by_cases h2 : i < n
      · rw [if_pos h2, if_pos (by omega)]
      · rw [if_neg h2, if_neg (by omega)]

theorem averageFold_spec (n : Nat) (s : BarCodeAppearance) (i : Nat) :
    ((List.range n).foldl averageSection s).pixelCount = s.pixelCount ∧
    ((List.range n).foldl averageSection s).redAverage i
      = (if i < n then s.redAverage i / (s.pixelCount i : ℚ) else s.redAverage i) ∧
    ((List.range n).foldl averageSection s).greenAverage i
      = (if i < n then s.greenAverage i / (s.pixelCount i : ℚ) else s.greenAverage i) ∧
    ((List.range n).foldl averageSection s).blueAverage i
      = (if i < n then s.blueAverage i / (s.pixelCount i : ℚ) else s.blueAverage i) := by
  induction n with
  | zero => simp
  | succ n ih =>
    rw [List.range_succ, List.foldl_append, List.foldl_cons, List.foldl_nil]
    obtain ⟨h0, h1, h2, h3⟩ := ih
    by_cases h : i = n
    · subst h
      simp [averageSection, h0, h1, h2, h3]
    · simp only [averageSection, Function.update_noteq h, h0, h1, h2, h3, true_and]
      by_cases h2 : i < n
      · simp only [if_pos h2, if_pos (show i < n + 1 by omega), and_self]
      · simp only [if_neg h2, if_neg (show ¬ i < n + 1 by omega), and_self]

theorem get_distance_pos (x0 y0 x1 y1 : Int) (h : ¬ (x0 = x1 ∧ y0 = y1)) :
    1 ≤ _get_distance x0 y0 x1 y1 := by
  unfold _get_distance
  have hp : 0 < (x1 - x0) * (x1 - x0) + (y1 - y0) * (y1 - y0) := by
    by_cases hx : x0 = x1
    · have hy : y1 - y0 ≠ 0 := fun e => h ⟨hx, by omega⟩
      have := mul_self_pos.mpr hy
      nlinarith [mul_self_nonneg (x1 - x0)]
    · have hx2 : x1 - x0 ≠ 0 := fun e => hx (by omega)
      have := mul_self_pos.mpr hx2
      nlinarith [mul_self_nonneg (y1 - y0)]
  have : 0 < Nat.sqrt ((x1 - x0) * (x1 - x0) + (y1 - y0) * (y1 - y0)).toNat :=
    Nat.sqrt_pos.mpr (by omega)
  omega

theorem get_distance_comm (x0 y0 x1 y1 : Int) :
    _get_distance x0 y0 x1 y1 = _get_distance x1 y1 x0 y0 := by
  unfold _get_distance
  congr 3
  ring

theorem truncToInt_intCast (z : Int) : truncToInt (z : ℚ) = z := by
  unfold truncToInt
  split_ifs <;> simp

theorem sectionIndexOf_end (sectionCount totalDistance : Int) (h1 : 0 ≤ sectionCount)
    (hD : 1 ≤ totalDistance) :
    sectionIndexOf sectionCount totalDistance totalDistance
      = if sectionCount ≥ 25 then 24 else sectionCount := by
  unfold sectionIndexOf BAR_CODE_MAX_COLOR_COUNT
  have hq : ((totalDistance : ℚ) / (totalDistance : ℚ)) * (sectionCount : ℚ)
      = ((sectionCount : Int) : ℚ) := by
    have : (totalDistance : ℚ) ≠ 0 := by
      have : (0 : ℚ) < totalDistance := by exact_mod_cast (by omega : 0 < totalDistance)
      exact ne_of_gt this
    field_simp
  simp only [hq, truncToInt_intCast]
  split_ifs <;> omega

theorem read_bar_code_appearance_of_trace (fuel : Nat) (uninitialized : BarCodeAppearance)
    (rgba8 : Nat → Nat) (width height sectionCount : Int) (startBox endBox : YellowBoundingBox)
    (startX startY endX endY : Int) (t : List (Int × Int))
    (ht : walkTrace endX endY |endX - startX| |endY - startY| (if startX < endX then 1 else -1)
        (if startY < endY then 1 else -1) fuel startX startY
        (Int.tdiv (if |endX - startX| > |endY - startY| then |endX - startX|
          else -|endY - startY|) 2) = some t) :
    ∃ sums,
      _read_bar_code_appearance fuel uninitialized rgba8 width height sectionCount startBox endBox
          startX startY endX endY
        = some (sums, (List.range sectionCount.toNat).foldl averageSection sums,
            t.map (fun p => (p, sectionOfPixel sectionCount startX startY
              (_get_distance startX startY endX endY) p))) ∧
      ∀ i : Nat, (i : Int) < sectionCount →
        sums.pixelCount i = ((t.countP (fun p => sectionOfPixel sectionCount startX startY
          (_get_distance startX startY endX endY) p = (i : Int)) : Nat) : Int) := by
  refine ⟨(t.foldl (readPixel rgba8 width sectionCount startX startY
      (_get_distance startX startY endX endY))
      ((List.range sectionCount.toNat).foldl clearSection
        { uninitialized with
          _firstBox := startBox, _secondBox := endBox, sectionCount := sectionCount,
          colorStartX := startX, colorStartY := startY, colorEndX := endX, colorEndY := endY },
        [])).1, ?_, ?_⟩
  · unfold _read_bar_code_appearance
    simp only []
    rw [readLoop_eq, ht]
    simp only [Option.map_some']
    rw [← Prod.mk.eta (p := List.foldl _ _ t)]
    simp only [readFold_buckets, List.nil_append]
  · intro i hi
    rw [readFold_count]
    simp only []
    rw [clearFold_pixelCount, if_pos (by omega)]
    simp

theorem read_bar_code_appearance_eq (fuel : Nat) (uninitialized : BarCodeAppearance)
    (rgba8 : Nat → Nat) (width height sectionCount : Int) (startBox endBox : YellowBoundingBox)
    (startX startY endX endY : Int)
    (hf : max |endX - startX| |endY - startY| < (fuel : Int)) :
    ∃ t sums, GoodTrace t (startX, startY) endX endY (max |endX - startX| |endY - startY|).toNat ∧
      _read_bar_code_appearance fuel uninitialized rgba8 width height sectionCount startBox endBox
          startX startY endX endY
        = some (sums, (List.range sectionCount.toNat).foldl averageSection sums,
            t.map (fun p => (p, sectionOfPixel sectionCount startX startY
              (_get_distance startX startY endX endY) p))) ∧
      ∀ i : Nat, (i : Int) < sectionCount →
        sums.pixelCount i = ((t.countP (fun p => sectionOfPixel sectionCount startX startY
          (_get_distance startX startY endX endY) p = (i : Int)) : Nat) : Int) := by
  obtain ⟨t, ht, hg⟩ := walkTrace_good startX startY endX endY fuel hf
  obtain ⟨sums, h1, h2⟩ := read_bar_code_appearance_of_trace fuel uninitialized rgba8 width height
    sectionCount startBox endBox startX startY endX endY t ht
  exact ⟨t, sums, hg, h1, h2⟩

/-- C12, the claim fails on the code: for every segment with distinct endpoints and every
`sectionCount` from 1 to 24, `_read_bar_code_appearance` returns (given more fuel than
`max(|endX-startX|, |endY-startY|)`), and the last pixel it visits is the end point, which it
accumulates into section index `sectionCount`, outside `[0, sectionCount-1]`: the saturation
compares with `BAR_CODE_MAX_COLOR_COUNT`, not with `sectionCount`. -/
theorem read_bar_code_appearance_last_section (fuel : Nat) (uninitialized : BarCodeAppearance)
    (rgba8 : Nat → Nat) (width height sectionCount : Int) (startBox endBox : YellowBoundingBox)
    (startX startY endX endY : Int)
    (hne : ¬ (startX = endX ∧ startY = endY)) (h1 : 1 ≤ sectionCount) (h24 : sectionCount ≤ 24)
    (hf : max |endX - startX| |endY - startY| < (fuel : Int)) :
    ∃ r, _read_bar_code_appearance fuel uninitialized rgba8 width height sectionCount startBox
        endBox startX startY endX endY = some r ∧
      r.2.2.getLast? = some ((endX, endY), sectionCount) := by
  obtain ⟨t, sums, hg, hr, _⟩ := read_bar_code_appearance_eq fuel uninitialized rgba8 width height
    sectionCount startBox endBox startX startY endX endY hf
  refine ⟨_, hr, ?_⟩
  obtain ⟨_, _, hl, _, _⟩ := hg
  simp only [List.getLast?_map, hl, Option.map_some', sectionOfPixel]
  rw [get_distance_comm endX endY startX startY,
    sectionIndexOf_end sectionCount _ (by omega) (get_distance_pos _ _ _ _ hne),
    if_neg (by omega)]

theorem read_bar_code_appearance_last_section_witness :
    ¬ ((0 : Int) = 1 ∧ (0 : Int) = 0) ∧
    ∃ r, _read_bar_code_appearance 2 (appearanceOf 0 0 0 0 [] [] []) endpointTestRow 8 1 2
        default default 0 0 1 0 = some r ∧
      r.2.2.getLast? = some ((1, 0), 2) :=
  ⟨by decide, read_bar_code_appearance_last_section 2 (appearanceOf 0 0 0 0 [] [] [])
    endpointTestRow 8 1 2 default default 0 0 1 0 (by decide) (by decide) (by decide)
    (by decide)⟩
theorem capAdjacentStep_inv {lines0 : Nat → YellowScanLine} {n : Nat} {S : Int} {i T : Nat}
    {flag0 : Nat → Bool} (j ci : Nat) (c : CollectState) (K : Nat)
    (hk1 : i < K) (hk2 : K < n)
    (hc : CapCollectInv lines0 n S T i flag0 j K true c) (hj : j < c.containedLineCount)
    (hci : c.tmpIndexBuffer j = ci) (cl : YellowScanLine) (hcl : sameGeom cl (lines0 ci)) :
    CapCollectInv lines0 n S T i flag0 j (K + 1) true (adjacentStep S T ci cl c K) ∧
      c.containedLineCount ≤ (adjacentStep S T ci cl c K).containedLineCount ∧
      (∀ t < c.containedLineCount,
        (adjacentStep S T ci cl c K).tmpIndexBuffer t = c.tmpIndexBuffer t) := by
  have hadj : _are_lines_adjacent cl (c.lines K) S
      = _are_lines_adjacent (lines0 (c.tmpIndexBuffer j)) (lines0 K) S := by
    rw [hci]; exact are_lines_adjacent_congr S hcl (hc.geom K)
  have hkeep : CapCollectInv lines0 n S T i flag0 j (K + 1) true c →
      CapCollectInv lines0 n S T i flag0 j (K + 1) true c ∧
      c.containedLineCount ≤ c.containedLineCount ∧
      (∀ t < c.containedLineCount, c.tmpIndexBuffer t = c.tmpIndexBuffer t) :=
    fun h => ⟨h, le_refl _, fun _ _ => rfl⟩
  have hranT : c.ranOutOfTempSpace = true → T ≤ c.containedLineCount ∧
      ∃ t k, t < c.containedLineCount ∧ (t < j ∨ (t = j ∧ k < K + 1)) ∧ i < k ∧ k < n ∧
        (c.lines k)._ignore = false ∧
        _are_lines_adjacent (lines0 (c.tmpIndexBuffer t)) (lines0 k) S = true := by
    intro h
    obtain ⟨a, t, k, b1, b2, b3, b4, b5, b6⟩ := hc.ranT h
    exact ⟨a, t, k, b1, by omega, b3, b4, b5, b6⟩
  unfold adjacentStep
  by_cases hig : (c.lines K)._ignore = true
  · rw [if_pos hig]
    refine hkeep ⟨hc.geom, hc.seed, hc.pos, hc.cap, hc.mem, hc.inj, hc.flags, hc.link, hranT,
      fun h t k ht hd hik hkn ha => ?_⟩
    by_cases e : t = j ∧ k = K
    · rw [e.2]; exact hig
    · exact hc.ranF h t k ht (by omega) hik hkn ha
  · rw [if_neg hig]
    have hne : K ≠ ci := by
      intro e
      apply hig
      rw [hc.flags K]
      exact Or.inr ⟨j, hj, by rw [hci, e], Or.inr rfl⟩
    rw [if_neg hne]
    by_cases ha : _are_lines_adjacent cl (c.lines K) S = true
    · rw [if_pos ha]
      have hnotmem : ∀ t < c.containedLineCount, c.tmpIndexBuffer t ≠ K := by
        intro t ht e
        apply hig
        rw [hc.flags K]
        exact Or.inr ⟨t, ht, e, Or.inr rfl⟩
      have hflag0K : flag0 K = false := by
        by_contra hx
        apply hig
        rw [hc.flags K]
        exact Or.inl (by simpa using hx)
      by_cases hroom : c.containedLineCount < T
      · rw [if_pos hroom]
        have hran : c.ranOutOfTempSpace = false := by
          by_contra hx
          have := (hc.ranT (by simpa using hx)).1
          omega
        have htmp : ∀ t < c.containedLineCount,
            Function.update c.tmpIndexBuffer c.containedLineCount K t = c.tmpIndexBuffer t :=
          fun t ht => Function.update_noteq (by omega) _ _
        refine ⟨⟨fun k => sameGeom_trans (setIgnore_geom _ _ _ _) (hc.geom k), ?_, ?_, ?_, ?_, ?_,
          ?_, ?_, ?_, ?_⟩, by simp, htmp⟩
        · show Function.update c.tmpIndexBuffer c.containedLineCount K 0 = i
          rw [htmp 0 hc.pos]; exact hc.seed
        · show 1 ≤ c.containedLineCount + 1
          omega
        · show c.containedLineCount + 1 ≤ T
          omega
        · intro t ht
          show Function.update c.tmpIndexBuffer c.containedLineCount K t < n ∧
            i ≤ Function.update c.tmpIndexBuffer c.containedLineCount K t ∧
            flag0 (Function.update c.tmpIndexBuffer c.containedLineCount K t) = false
          simp only at ht
          by_cases e : t = c.containedLineCount
          · rw [e, Function.update_same]
            exact ⟨hk2, by omega, hflag0K⟩
          · rw [htmp t (by omega)]; exact hc.mem t (by omega)
        · intro t t' ht ht'
          show Function.update c.tmpIndexBuffer c.containedLineCount K t
            = Function.update c.tmpIndexBuffer c.containedLineCount K t' → t = t'
          simp only at ht ht'
          by_cases e : t = c.containedLineCount <;> by_cases e' : t' = c.containedLineCount
          · omega
          · rw [e, Function.update_same, htmp t' (by omega)]
            intro h; exact absurd h.symm (hnotmem t' (by omega))
          · rw [e', Function.update_same, htmp t (by omega)]
            intro h; exact absurd h (hnotmem t (by omega))
          · rw [htmp t (by omega), htmp t' (by omega)]
            exact hc.inj t t' (by omega) (by omega)
        · intro k
          show (setIgnore c.lines K true k)._ignore = true ↔
            (flag0 k = true ∨ ∃ t < c.containedLineCount + 1,
              Function.update c.tmpIndexBuffer c.containedLineCount K t = k ∧
                (0 < t ∨ true = true))
          rw [setIgnore_flag]
          by_cases e : k = K
          · rw [if_pos e]
            refine ⟨fun _ => Or.inr ⟨c.containedLineCount, by omega, ?_, Or.inr rfl⟩, fun _ => rfl⟩
            rw [Function.update_same, e]
          · rw [if_neg e, hc.flags k]
            constructor
            · rintro (h | ⟨t, ht, he, _⟩)
              · exact Or.inl h
              · exact Or.inr ⟨t, by omega, by rw [htmp t ht]; exact he, Or.inr rfl⟩
            · rintro (h | ⟨t, ht, he, _⟩)
              · exact Or.inl h
              · by_cases e2 : t = c.containedLineCount
                · rw [e2, Function.update_same] at he
                  exact absurd he.symm e
                · rw [htmp t (by omega)] at he
                  exact Or.inr ⟨t, by omega, he, Or.inr rfl⟩
        · intro t ht ht0
          show ∃ t' < t, _are_lines_adjacent
            (lines0 (Function.update c.tmpIndexBuffer c.containedLineCount K t'))
            (lines0 (Function.update c.tmpIndexBuffer c.containedLineCount K t)) S = true
          simp only at ht
          by_cases e : t = c.containedLineCount
          · refine ⟨j, by omega, ?_⟩
            rw [htmp j hj, e, Function.update_same, ← hadj]
            exact ha
          · obtain ⟨t', ht', hl⟩ := hc.link t (by omega) ht0
            exact ⟨t', ht', by rw [htmp t' (by omega), htmp t (by omega)]; exact hl⟩
        · intro h
          rw [hran] at h
          cases h
        · intro _ t k ht hd hik hkn hak
          show (setIgnore c.lines K true k)._ignore = true
          simp only at ht
          rw [setIgnore_flag]
          by_cases e : k = K
          · rw [if_pos e]
          · rw [if_neg e]
            have ht' : t < c.containedLineCount := by
              rcases hd with hd | hd
              · omega
              · omega
            simp only at hak
            rw [htmp t ht'] at hak
            exact hc.ranF hran t k ht' (by omega) hik hkn hak
      · rw [if_neg hroom]
        refine ⟨⟨hc.geom, hc.seed, hc.pos, hc.cap, hc.mem, hc.inj, hc.flags, hc.link,
          fun _ => ⟨Nat.le_of_not_lt hroom, j, K, hj, Or.inr ⟨rfl, Nat.lt_succ_self K⟩, hk1, hk2,
            by simpa using hig, ?_⟩,
          fun h => by cases h⟩, le_refl _, fun _ _ => rfl⟩
        rw [← hadj]; exact ha
    · rw [if_neg ha]
      refine hkeep ⟨hc.geom, hc.seed, hc.pos, hc.cap, hc.mem, hc.inj, hc.flags, hc.link, hranT,
        fun h t k ht hd hik hkn hak => ?_⟩
      by_cases e : t = j ∧ k = K
      · rw [e.1, e.2, ← hadj] at hak
        exact absurd hak ha
      · exact hc.ranF h t k ht (by omega) hik hkn hak
theorem capAdjacentFold_inv {lines0 : Nat → YellowScanLine} {n : Nat} {S : Int} {i T : Nat}
    {flag0 : Nat → Bool} (j ci : Nat) (cl : YellowScanLine)
    (hcl : sameGeom cl (lines0 ci)) :
    ∀ (m : Nat) (c : CollectState), i + 1 + m ≤ n →
      CapCollectInv lines0 n S T i flag0 j (i + 1) true c → j < c.containedLineCount →
      c.tmpIndexBuffer j = ci →
      CapCollectInv lines0 n S T i flag0 j (i + 1 + m) true
          ((List.range' (i + 1) m).foldl (adjacentStep S T ci cl) c) ∧
        c.containedLineCount
          ≤ ((List.range' (i + 1) m).foldl (adjacentStep S T ci cl) c).containedLineCount ∧
        (∀ t < c.containedLineCount,
          ((List.range' (i + 1) m).foldl (adjacentStep S T ci cl) c).tmpIndexBuffer t
            = c.tmpIndexBuffer t) := by
  intro m
  induction m with
  | zero =>
    intro c _ hc _ _
    exact ⟨hc, le_refl _, fun _ _ => rfl⟩
  | succ m ih =>
    intro c hm hc hj hci
    obtain ⟨h1, h2, h3⟩ := ih c (by omega) hc hj hci
    rw [List.range'_1_concat, List.foldl_append]
    simp only [List.foldl_cons, List.foldl_nil]
    obtain ⟨g1, g2, g3⟩ := capAdjacentStep_inv j ci _ (i + 1 + m) (by omega) (by omega)
      h1 (by omega) (by rw [h3 j hj]; exact hci) cl hcl
    exact ⟨g1, by omega, fun t ht => by rw [g3 t (by omega), h3 t ht]⟩

theorem capCollect_expand {lines0 : Nat → YellowScanLine} {n : Nat} {S : Int} {i T : Nat}
    {flag0 : Nat → Bool} (hi : i < n) (j : Nat) (c : CollectState)
    (hc : CapCollectInv lines0 n S T i flag0 j (i + 1) (decide (0 < j)) c)
    (hj : j < c.containedLineCount) :
    CapCollectInv lines0 n S T i flag0 (j + 1) (i + 1) true
        ((List.range' (i + 1) (n - (i + 1))).foldl
          (adjacentStep S T (c.tmpIndexBuffer j) (c.lines (c.tmpIndexBuffer j)))
          { c with lines := setIgnore c.lines (c.tmpIndexBuffer j) true }) ∧
      j + 1 ≤ ((List.range' (i + 1) (n - (i + 1))).foldl
          (adjacentStep S T (c.tmpIndexBuffer j) (c.lines (c.tmpIndexBuffer j)))
          { c with lines := setIgnore c.lines (c.tmpIndexBuffer j) true }).containedLineCount := by
  have hmemflag : ∀ k, i < k → (c.lines k)._ignore = false → k ≠ c.tmpIndexBuffer j := by
    intro k hik hk e
    have : (c.lines k)._ignore = true := by
      rw [hc.flags k]
      refine Or.inr ⟨j, hj, e.symm, ?_⟩
      by_cases hj0 : 0 < j
      · exact Or.inl hj0
      · have hj0' : j = 0 := by omega
        rw [hj0', hc.seed] at e
        omega
    rw [hk] at this
    cases this
  have hc1 : CapCollectInv lines0 n S T i flag0 j (i + 1) true
      { c with lines := setIgnore c.lines (c.tmpIndexBuffer j) true } := by
    refine ⟨fun k => sameGeom_trans (setIgnore_geom _ _ _ _) (hc.geom k), hc.seed, hc.pos,
      hc.cap, hc.mem, hc.inj, fun k => ?_, hc.link, fun h => ?_, fun h t k ht hd hik hkn ha => ?_⟩
    · show (setIgnore c.lines (c.tmpIndexBuffer j) true k)._ignore = true ↔ _
      rw [setIgnore_flag]
      by_cases e : k = c.tmpIndexBuffer j
      · rw [if_pos e]
        exact ⟨fun _ => Or.inr ⟨j, hj, e.symm, Or.inr rfl⟩, fun _ => rfl⟩
      · rw [if_neg e, hc.flags k]
        constructor
        · rintro (h | ⟨t, ht, he, hfl⟩)
          · exact Or.inl h
          · exact Or.inr ⟨t, ht, he, Or.inr rfl⟩
        · rintro (h | ⟨t, ht, he, _⟩)
          · exact Or.inl h
          · refine Or.inr ⟨t, ht, he, ?_⟩
            by_cases ht0 : 0 < t
            · exact Or.inl ht0
            · have ht0' : t = 0 := by omega
              subst ht0'
              by_cases hj0 : 0 < j
              · exact Or.inr (by simpa using hj0)
              · have hj0' : j = 0 := by omega
                subst hj0'
                exact absurd he.symm e
    · obtain ⟨a, t, k, b1, b2, b3, b4, b5, b6⟩ := hc.ranT h
      refine ⟨a, t, k, b1, b2, b3, b4, ?_, b6⟩
      show (setIgnore c.lines (c.tmpIndexBuffer j) true k)._ignore = false
      rw [setIgnore_flag, if_neg (hmemflag k b3 b5)]
      exact b5
    · show (setIgnore c.lines (c.tmpIndexBuffer j) true k)._ignore = true
      rw [setIgnore_flag]
      by_cases e : k = c.tmpIndexBuffer j
      · rw [if_pos e]
      · rw [if_neg e]
        exact hc.ranF h t k ht hd hik hkn ha
  obtain ⟨h1, h2, h3⟩ := capAdjacentFold_inv j (c.tmpIndexBuffer j)
    (c.lines (c.tmpIndexBuffer j)) (hc.geom _) (n - (i + 1))
    { c with lines := setIgnore c.lines (c.tmpIndexBuffer j) true } (by omega) hc1 hj rfl
  generalize ((List.range' (i + 1) (n - (i + 1))).foldl
    (adjacentStep S T (c.tmpIndexBuffer j) (c.lines (c.tmpIndexBuffer j)))
    { c with lines := setIgnore c.lines (c.tmpIndexBuffer j) true }) = c2 at h1 h2 h3
  simp only at h2 h3
  refine ⟨⟨h1.geom, h1.seed, h1.pos, h1.cap, h1.mem, h1.inj, h1.flags, h1.link, fun h => ?_,
    fun h t k ht hd hik hkn ha => ?_⟩, by omega⟩
  · obtain ⟨a, t, k, b1, b2, b3, b4, b5, b6⟩ := h1.ranT h
    exact ⟨a, t, k, b1, by omega, b3, b4, b5, b6⟩
  · exact h1.ranF h t k ht (by omega) hik hkn ha

theorem capCollectLines_inv {lines0 : Nat → YellowScanLine} {n : Nat} {S : Int} {i T : Nat}
    {flag0 : Nat → Bool} (hi : i < n) :
    ∀ (fuel j : Nat) (c : CollectState),
      CapCollectInv lines0 n S T i flag0 j (i + 1) (decide (0 < j)) c →
      j ≤ c.containedLineCount → n - j < fuel →
      ∃ c', collectLines n S T i fuel j c = some c' ∧
        CapCollectInv lines0 n S T i flag0 c'.containedLineCount (i + 1) true c' := by
  intro fuel
  induction fuel with
  | zero => intro j c _ _ hf; omega
  | succ fuel ih =>
    intro j c hc hj hf
    rw [collectLines]
    by_cases hlt : j < c.containedLineCount
    · rw [if_pos hlt]
      obtain ⟨h1, h2⟩ := capCollect_expand hi j c hc hlt
      have hcn : c.containedLineCount ≤ n :=
        count_le_of_inj _ _ n (fun t ht => (hc.mem t ht).1) hc.inj
      exact ih (j + 1) _ (by simpa using h1) h2 (by omega)
    · rw [if_neg hlt]
      have hjc : j = c.containedLineCount := by omega
      have hpos := hc.pos
      have : decide (0 < j) = true := by simp; omega
      rw [this] at hc
      exact ⟨c, rfl, by rw [← hjc]; exact hc⟩
theorem mem_collected (tmp : Nat → Nat) (count a : Nat) :
    a ∈ collected tmp count ↔ ∃ t < count, tmp t = a := by
  simp [collected]

theorem collected_length (tmp : Nat → Nat) (count : Nat) :
    (collected tmp count).length = count := by
  simp [collected]

theorem collected_getD (tmp : Nat → Nat) (count t : Nat) (ht : t < count) :
    (collected tmp count).getD t 0 = tmp t := by
  simp [collected, List.getD_eq_getElem?_getD, List.getElem?_range ht]

theorem collected_headD (tmp : Nat → Nat) (count : Nat) (h : 1 ≤ count) :
    (collected tmp count).headD 0 = tmp 0 := by
  obtain ⟨m, rfl⟩ : ∃ m, count = m + 1 := ⟨count - 1, by omega⟩
  simp [collected, List.range_succ_eq_map]

theorem collected_nodup (tmp : Nat → Nat) (count : Nat)
    (hinj : ∀ t t', t < count → t' < count → tmp t = tmp t' → t = t') :
    (collected tmp count).Nodup := by
  unfold collected
  refine List.Nodup.map_on (fun x hx y hy h => ?_) (List.nodup_range count)
  exact hinj x y (List.mem_range.mp hx) (List.mem_range.mp hy) h

theorem groupBox_of_collect {lines0 : Nat → YellowScanLine} {n : Nat} {S : Int} {T i : Nat}
    {flag0 : Nat → Bool} {c : CollectState} {prev : List (List Nat)} {box : YellowBoundingBox}
    (hc : CapCollectInv lines0 n S T i flag0 c.containedLineCount (i + 1) true c)
    (hprev : ∀ k < n, flag0 k = true ↔ ∃ p ∈ prev, k ∈ p)
    (hbelow : ∀ k < i, flag0 k = true) (hi : i < n)
    (hfit : FitInv lines0 c.tmpIndexBuffer (lines0 i) c.containedLineCount box)
    (hcomplete : box.isComplete = !c.ranOutOfTempSpace) :
    GroupBox lines0 n S T prev (collected c.tmpIndexBuffer c.containedLineCount) box := by
  have hhead : (collected c.tmpIndexBuffer c.containedLineCount).headD 0 = i := by
    rw [collected_headD _ _ hc.pos, hc.seed]
  have hseedmem : i ∈ collected c.tmpIndexBuffer c.containedLineCount :=
    (mem_collected _ _ _).mpr ⟨0, hc.pos, hc.seed⟩
  have hnotprev : ∀ k < n, flag0 k = false → ∀ p ∈ prev, k ∉ p := by
    intro k hk hf p hp hkp
    have := (hprev k hk).mpr ⟨p, hp, hkp⟩
    rw [hf] at this
    cases this
  have hunflag : ∀ k < n, (c.lines k)._ignore = false →
      k ∉ collected c.tmpIndexBuffer c.containedLineCount ∧ ∀ p ∈ prev, k ∉ p := by
    intro k hk hf
    have hnot : ¬ (flag0 k = true ∨ ∃ t < c.containedLineCount,
        c.tmpIndexBuffer t = k ∧ (0 < t ∨ true = true)) := by
      rw [← hc.flags k, hf]; simp
    refine ⟨fun hm => ?_, fun p hp hkp => ?_⟩
    · obtain ⟨t, ht, he⟩ := (mem_collected _ _ _).mp hm
      exact hnot (Or.inr ⟨t, ht, he, Or.inr rfl⟩)
    · exact hnot (Or.inl ((hprev k hk).mpr ⟨p, hp, hkp⟩))
  refine ⟨fun e => ?_, collected_nodup _ _ hc.inj, by rw [collected_length]; exact hc.cap,
    fun a ha => ?_, fun k hk => ?_, fun t ht ht0 => ?_, ⟨fun a ha => ?_, ?_⟩,
    ⟨fun a ha => ?_, ?_⟩, ⟨fun a ha => ?_, ?_⟩, ⟨fun a ha => ?_, ?_⟩, ?_, fun hf => ?_⟩
  · rw [e] at hseedmem; cases hseedmem
  · obtain ⟨t, ht, rfl⟩ := (mem_collected _ _ _).mp ha
    obtain ⟨m1, m2, m3⟩ := hc.mem t ht
    rw [hhead]
    exact ⟨m2, m1, hnotprev _ m1 m3⟩
  · rw [hhead] at hk
    exact (hprev k (by omega)).mp (hbelow k hk)
  · rw [collected_length] at ht
    obtain ⟨t', ht', hl⟩ := hc.link t ht ht0
    exact ⟨t', ht', by rw [collected_getD _ _ _ (by omega), collected_getD _ _ _ ht]; exact hl⟩
  · obtain ⟨t, ht, rfl⟩ := (mem_collected _ _ _).mp ha
    exact hfit.left_le.2 t ht
  · rcases hfit.left_mem with e | ⟨t, ht, e⟩
    · exact ⟨i, hseedmem, e⟩
    · exact ⟨_, (mem_collected _ _ _).mpr ⟨t, ht, rfl⟩, e⟩
  · obtain ⟨t, ht, rfl⟩ := (mem_collected _ _ _).mp ha
    exact hfit.right_le.2 t ht
  · rcases hfit.right_mem with e | ⟨t, ht, e⟩
    · exact ⟨i, hseedmem, e⟩
    · exact ⟨_, (mem_collected _ _ _).mpr ⟨t, ht, rfl⟩, e⟩
  · obtain ⟨t, ht, rfl⟩ := (mem_collected _ _ _).mp ha
    exact hfit.top_le.2 t ht
  · rcases hfit.top_mem with e | ⟨t, ht, e⟩
    · exact ⟨i, hseedmem, e⟩
    · exact ⟨_, (mem_collected _ _ _).mpr ⟨t, ht, rfl⟩, e⟩
  · obtain ⟨t, ht, rfl⟩ := (mem_collected _ _ _).mp ha
    exact hfit.bottom_le.2 t ht
  · rcases hfit.bottom_mem with e | ⟨t, ht, e⟩
    · exact ⟨i, hseedmem, e⟩
    · exact ⟨_, (mem_collected _ _ _).mpr ⟨t, ht, rfl⟩, e⟩
  · rw [hcomplete, hhead]
    constructor
    · intro hr
      have hr' : c.ranOutOfTempSpace = true := by simpa using hr
      obtain ⟨_, t, k, b1, _, b3, b4, b5, b6⟩ := hc.ranT hr'
      obtain ⟨u1, u2⟩ := hunflag k b4 b5
      exact ⟨_, (mem_collected _ _ _).mpr ⟨t, b1, rfl⟩, k, b3, b4, u1, u2, b6⟩
    · rintro ⟨a, ha, k, hik, hkn, hkg, hkp, hadj⟩
      obtain ⟨t, ht, rfl⟩ := (mem_collected _ _ _).mp ha
      by_contra hr
      have hr' : c.ranOutOfTempSpace = false := by simpa using hr
      have hfl := hc.ranF hr' t k ht (Or.inl ht) hik hkn hadj
      rcases (hc.flags k).mp hfl with h0 | ⟨t', ht', he, _⟩
      · obtain ⟨p, hp, hkp'⟩ := (hprev k hkn).mp h0
        exact hkp p hp hkp'
      · exact hkg ((mem_collected _ _ _).mpr ⟨t', ht', he⟩)
  · rw [hcomplete] at hf
    have hr' : c.ranOutOfTempSpace = true := by simpa using hf
    have := (hc.ranT hr').1
    have := hc.cap
    rw [collected_length]
    omega
theorem capBoxStep_inv {lines0 : Nat → YellowScanLine} {n : Nat} {S : Int} {T M fuel : Nat}
    (hT : 1 ≤ T) (hfuel : n < fuel) (i : Nat) (hi : i < n) (s : RectState)
    (groups : List (List Nat)) (h : GroupsInv lines0 n S T M i s groups) :
    (∃ s' groups', boxStep fuel n S T M s i = .ok s' ∧
        GroupsInv lines0 n S T M (i + 1) s' groups') ∨
      (∃ s', boxStep fuel n S T M s i = .error (.returned s') ∧ s'.dst = s.dst ∧
        s.dst.length = M) := by
  unfold boxStep
  by_cases hig : (s.lines i)._ignore = true
  · rw [if_pos hig]
    refine Or.inl ⟨s, groups, rfl, h.geom, h.flags, fun k hk => ?_, h.len, h.fits, h.boxes⟩
    by_cases e : k = i
    · rw [e]; exact hig
    · exact h.below k (by omega)
  · rw [if_neg hig]
    simp only []
    have hseed : (s.lines i)._ignore = false := by simpa using hig
    have hc0 : CapCollectInv lines0 n S T i (fun k => (s.lines k)._ignore) 0 (i + 1)
        (decide (0 < 0))
        { lines := s.lines, tmpIndexBuffer := Function.update s.tmpIndexBuffer 0 i,
          containedLineCount := 1, ranOutOfTempSpace := false } := by
      refine ⟨h.geom, by simp, le_refl _, hT, fun t ht => ?_, fun t t' ht ht' _ => ?_,
        fun k => ?_, fun t ht ht0 => ?_, fun hr => ?_, fun _ t k ht hd hik _ _ => ?_⟩
      · simp only at ht
        have e : t = 0 := by omega
        subst e
        simp only [Function.update_same]
        exact ⟨hi, le_refl _, hseed⟩
      · simp only at ht ht'
        omega
      · constructor
        · intro hf; exact Or.inl hf
        · rintro (hf | ⟨t, ht, _, h0⟩)
          · exact hf
          · simp only at ht
            rcases h0 with h0 | h0
            · omega
            · simp at h0
      · simp only at ht
        omega
      · cases hr
      · omega
    obtain ⟨c, hcl, hc⟩ := capCollectLines_inv hi fuel 0 _ hc0 (by simp) (by omega)
    rw [hcl]
    simp only []
    have hfit0 : FitInv lines0 c.tmpIndexBuffer (lines0 i) 0
        { left := (s.lines i).start, top := (s.lines i).y, right := (s.lines i).end_,
          bottom := (s.lines i).y, isComplete := !c.ranOutOfTempSpace } := by
      obtain ⟨g1, g2, g3⟩ := h.geom i
      simp only [g1, g2, g3]
      exact ⟨⟨le_refl _, fun t ht => by omega⟩, Or.inl rfl, ⟨le_refl _, fun t ht => by omega⟩,
        Or.inl rfl, ⟨le_refl _, fun t ht => by omega⟩, Or.inl rfl,
        ⟨le_refl _, fun t ht => by omega⟩, Or.inl rfl⟩
    obtain ⟨f1, f2, f3, f4⟩ := fitFold_inv lines0 c.tmpIndexBuffer (lines0 i) _ c.lines hc.geom
      hfit0 c.containedLineCount
    by_cases hroom : s.dst.length < M
    · rw [if_pos hroom]
      have hgb : GroupBox lines0 n S T groups (collected c.tmpIndexBuffer c.containedLineCount)
          ((List.range c.containedLineCount).foldl (fitStep c.tmpIndexBuffer)
            ({ left := (s.lines i).start, top := (s.lines i).y, right := (s.lines i).end_,
               bottom := (s.lines i).y, isComplete := !c.ranOutOfTempSpace }, c.lines)).1 :=
        groupBox_of_collect hc h.flags h.below hi f1 f2
      refine Or.inl ⟨_, groups ++ [collected c.tmpIndexBuffer c.containedLineCount], rfl, f3,
        fun k hk => ?_, fun k hk => ?_, by simp [h.len], by simp; omega,
        fun m g box hg hb => ?_⟩
      · show (((List.range c.containedLineCount).foldl (fitStep c.tmpIndexBuffer) _).2 k)._ignore
          = true ↔ _
        rw [f4 k, hc.flags k]
        constructor
        · rintro ((hf | ⟨t, ht, he, _⟩) | ⟨t, ht, he⟩)
          · obtain ⟨g, hg, hkg⟩ := (h.flags k hk).mp hf
            exact ⟨g, List.mem_append_left _ hg, hkg⟩
          · exact ⟨_, List.mem_append_right _ (List.mem_singleton_self _),
              (mem_collected _ _ _).mpr ⟨t, ht, he⟩⟩
          · exact ⟨_, List.mem_append_right _ (List.mem_singleton_self _),
              (mem_collected _ _ _).mpr ⟨t, ht, he⟩⟩
        · rintro ⟨g, hg, hkg⟩
          rcases List.mem_append.mp hg with hg | hg
          · exact Or.inl (Or.inl ((h.flags k hk).mpr ⟨g, hg, hkg⟩))
          · rw [List.mem_singleton] at hg
            subst hg
            exact Or.inr ((mem_collected _ _ _).mp hkg)
      · show (((List.range c.containedLineCount).foldl (fitStep c.tmpIndexBuffer) _).2 k)._ignore
          = true
        rw [f4 k]
        by_cases e : k = i
        · exact Or.inr ⟨0, hc.pos, by rw [hc.seed, e]⟩
        · refine Or.inl ?_
          rw [hc.flags k]
          exact Or.inl (h.below k (by omega))
      · have hlen := h.len
        by_cases hm : m < groups.length
        · rw [List.getElem?_append_left hm] at hg
          simp only at hb
          rw [List.getElem?_append_left (by omega)] at hb
          rw [List.take_append_of_le_length (le_of_lt hm)]
          exact h.boxes m g box hg hb
        · have hm2 : m = groups.length := by
            by_contra hne
            have : (groups ++ [collected c.tmpIndexBuffer c.containedLineCount])[m]? = none := by
              rw [List.getElem?_eq_none_iff]
              simp
              omega
            rw [this] at hg
            cases hg
          subst hm2
          simp only [List.getElem?_concat_length, Option.some.injEq] at hg
          simp only [hlen, List.getElem?_concat_length, Option.some.injEq] at hb
          subst hg hb
          rw [List.take_left']
          · exact hgb
          · rfl
    · rw [if_neg hroom]
      exact Or.inr ⟨_, rfl, rfl, by have := h.fits; omega⟩

theorem foldlM_range_except_exit {ε σ : Type} (step : σ → Nat → Except ε σ)
    (Inv : Nat → σ → Prop) (Q : ε → Prop) (n : Nat) (s0 : σ) (h0 : Inv 0 s0)
    (hstep : ∀ i s, i < n → Inv i s →
      (∃ s', step s i = .ok s' ∧ Inv (i + 1) s') ∨ (∃ e, step s i = .error e ∧ Q e)) :
    (∃ s', (List.range n).foldlM step s0 = .ok s' ∧ Inv n s') ∨
      (∃ e, (List.range n).foldlM step s0 = .error e ∧ Q e) := by
  induction n with
  | zero => exact Or.inl ⟨s0, rfl, h0⟩
  | succ n ih =>
    rw [List.range_succ, List.foldlM_append]
    rcases ih (fun i s hi => hstep i s (by omega)) with ⟨s1, h1, hI⟩ | ⟨e, h1, hq⟩
    · rw [h1]
      rcases hstep n s1 (by omega) hI with ⟨s2, h2, hI2⟩ | ⟨e, h2, hq⟩
      · refine Or.inl ⟨s2, ?_, hI2⟩
        simp only [List.foldlM_cons, List.foldlM_nil, bind, Except.bind, h2]
        rfl
      · refine Or.inr ⟨e, ?_, hq⟩
        simp only [List.foldlM_cons, List.foldlM_nil, bind, Except.bind, h2]
    · rw [h1]
      exact Or.inr ⟨e, rfl, hq⟩

theorem find_yellow_rectangles_groups (fuel : Nat) (lines : Nat → YellowScanLine)
    (n : Nat) (S : Int) (tmp : Nat → Nat) (T M : Nat) (hT : 1 ≤ T) (hfuel : n < fuel) :
    ∃ (s : RectState) (groups : List (List Nat)),
      find_yellow_rectangles fuel lines n S tmp T M = some s ∧
      groups.length = s.dst.length ∧ s.dst.length ≤ M ∧
      (∀ m g box, groups[m]? = some g → s.dst[m]? = some box →
        GroupBox lines n S T (groups.take m) g box) ∧
      (s.dst.length = M ∨ ∀ k < n, ∃ g ∈ groups, k ∈ g) := by
  obtain ⟨hr1, hr2⟩ := resetIgnore_spec lines n
  have hfold := foldlM_range_except_exit (boxStep fuel n S T M)
    (fun i s => ∃ groups, GroupsInv lines n S T M i s groups)
    (fun e => ∃ (s' : RectState) (groups : List (List Nat)), e = RectExit.returned s' ∧ groups.length = s'.dst.length ∧
      s'.dst.length = M ∧ ∀ m g box, groups[m]? = some g → s'.dst[m]? = some box →
        GroupBox lines n S T (groups.take m) g box) n
    { lines := (List.range n).foldl (fun l i => setIgnore l i false) lines,
      tmpIndexBuffer := tmp, dst := [] }
    ⟨[], hr1, fun k hk => by simp [hr2 k hk], fun k hk => by omega, rfl, Nat.zero_le _,
      fun m g box hg _ => by simp at hg⟩
    (fun i s hi ⟨groups, hinv⟩ => by
      rcases capBoxStep_inv hT hfuel i hi s groups hinv with
        ⟨s', groups', h1, h2⟩ | ⟨s', h1, h2, h3⟩
      · exact Or.inl ⟨s', h1, groups', h2⟩
      · exact Or.inr ⟨_, h1, s', groups, rfl, by rw [h2]; exact hinv.len, by rw [h2]; exact h3,
          by rw [h2]; exact hinv.boxes⟩)
  unfold find_yellow_rectangles
  rcases hfold with ⟨s, hs, groups, hinv⟩ | ⟨e, hs, s', groups, rfl, h1, h2, h3⟩
  · refine ⟨s, groups, by simp only [hs], hinv.len, hinv.fits, hinv.boxes, Or.inr ?_⟩
    intro k hk
    exact (hinv.flags k hk).mp (hinv.below k hk)
  · exact ⟨s', groups, by simp only [hs], h1, by omega, h3, Or.inl h2⟩
/-- C19: with an index scratch of at least one entry (and fuel for the collecting loop above
`lineCount`), `find_yellow_rectangles` returns, and each emitted box `dst[m]` has a list
`groups[m]` of collected lines (the seed first, each later line adjacent to an earlier one, no
line of an earlier box) such that: the box has `isComplete = false` exactly when some collected
line has an adjacent line after the seed that is in no box so far, and then the scratch is full
(`maxTmpIndexCount` lines were collected); the sides of the box are the least start, greatest
end, least and greatest row over exactly the collected lines. No box is dropped for being
incomplete: unless the destination holds `maxCount` boxes, every line is in an emitted box. -/
theorem find_yellow_rectangles_incomplete (fuel : Nat) (lines : Nat → YellowScanLine)
    (lineCount : Nat) (maxSpacing : Int) (tmpIndexBuffer : Nat → Nat)
    (maxTmpIndexCount maxCount : Nat) (hT : 1 ≤ maxTmpIndexCount) (hfuel : lineCount < fuel) :
    ∃ (s : RectState) (groups : List (List Nat)),
      find_yellow_rectangles fuel lines lineCount maxSpacing tmpIndexBuffer maxTmpIndexCount
        maxCount = some s ∧
      groups.length = s.dst.length ∧
      (∀ m g box, groups[m]? = some g → s.dst[m]? = some box →
        GroupBox lines lineCount maxSpacing maxTmpIndexCount (groups.take m) g box) ∧
      (s.dst.length = maxCount ∨ ∀ k < lineCount, ∃ g ∈ groups, k ∈ g) := by
  obtain ⟨s, groups, h1, h2, _, h4, h5⟩ := find_yellow_rectangles_groups fuel lines lineCount
    maxSpacing tmpIndexBuffer maxTmpIndexCount maxCount hT hfuel
  exact ⟨s, groups, h1, h2, h4, h5⟩

theorem find_yellow_rectangles_incomplete_witness :
    (find_yellow_rectangles 4 (linesOf [⟨0, 3, 0, false⟩, ⟨2, 5, 1, false⟩, ⟨4, 9, 2, false⟩])
        3 0 (fun _ => 0) 2 3).map (fun s => s.dst)
      = some [⟨0, 0, 5, 1, false⟩, ⟨4, 2, 9, 2, true⟩] ∧
    ∃ (s : RectState) (groups : List (List Nat)),
      find_yellow_rectangles 4 (linesOf [⟨0, 3, 0, false⟩, ⟨2, 5, 1, false⟩, ⟨4, 9, 2, false⟩])
        3 0 (fun _ => 0) 2 3 = some s ∧
      groups.length = s.dst.length ∧
      (∀ m g box, groups[m]? = some g → s.dst[m]? = some box →
        GroupBox (linesOf [⟨0, 3, 0, false⟩, ⟨2, 5, 1, false⟩, ⟨4, 9, 2, false⟩]) 3 0 2
          (groups.take m) g box) ∧
      (s.dst.length = 3 ∨ ∀ k < 3, ∃ g ∈ groups, k ∈ g) :=
  ⟨by decide, find_yellow_rectangles_incomplete 4 (linesOf [⟨0, 3, 0, false⟩, ⟨2, 5, 1, false⟩,
    ⟨4, 9, 2, false⟩]) 3 0 (fun _ => 0) 2 3 (by decide) (by decide)⟩

/-- C20, evaluated on the code at a failing input: the lines 0 `(0..3, row 0)`, 1
`(2..5, row 1)` and 2 `(5..9, row 1)` form one chain of adjacent lines (0 with 1, 1 with 2).
With place for 2 indices in the scratch, the first box takes the lines 0 and 1 and is flagged
incomplete; the line 2 then seeds a second box `(5, 1)-(9, 1)`, which is emitted with
`isComplete = true` although it is not the bounding box of the component of its seed: the
line 0 is linked to the seed and starts at 0, left of the box. -/
theorem find_yellow_rectangles_complete_fragment :
    (find_yellow_rectangles 4 (linesOf [⟨0, 3, 0, false⟩, ⟨2, 5, 1, false⟩, ⟨5, 9, 1, false⟩])
        3 0 (fun _ => 0) 2 3).map (fun s => s.dst)
      = some [⟨0, 0, 5, 1, false⟩, ⟨5, 1, 9, 1, true⟩] ∧
    Connected (linesOf [⟨0, 3, 0, false⟩, ⟨2, 5, 1, false⟩, ⟨5, 9, 1, false⟩]) 3 0 2 0 ∧
    ¬ IsComponentBox (linesOf [⟨0, 3, 0, false⟩, ⟨2, 5, 1, false⟩, ⟨5, 9, 1, false⟩]) 3 0 2
      ⟨5, 1, 9, 1, true⟩ := by
  have hconn : Connected (linesOf [⟨0, 3, 0, false⟩, ⟨2, 5, 1, false⟩, ⟨5, 9, 1, false⟩])
      3 0 2 0 :=
    (Relation.ReflTransGen.refl.tail
      (show lineAdjacent _ 3 0 2 1 from ⟨by decide, by decide, by decide⟩)).tail
      (show lineAdjacent _ 3 0 1 0 from ⟨by decide, by decide, by decide⟩)
  refine ⟨by decide, hconn, fun h => ?_⟩
  have := h.1.2 0 hconn
  revert this
  decide

/-! ## Theorems: assertion of `find_yellow_lines`, range of the score, length of the walks -/

/-- C27: `find_yellow_lines` fails its assertion (the result is `none`) if and only if `width`
is not a multiple of 8; for every width that is a multiple of 8 it returns the lines found, at
most `maxCount` of them, whatever the pixel data and the capacity. -/
theorem find_yellow_lines_assertion (rgba8 : Nat → Nat) (width height : Int)
    (cfg : YellowConfig) (maxCount : Nat) :
    (find_yellow_lines rgba8 width height cfg maxCount = none ↔ ¬ (8 : Int) ∣ width) ∧
    ((8 : Int) ∣ width ↔
      ∃ L, find_yellow_lines rgba8 width height cfg maxCount = some L ∧ L.length ≤ maxCount) := by
  by_cases hw : (8 : Int) ∣ width
  · obtain ⟨L, _, _, hL⟩ := find_yellow_lines_truncates rgba8 width height cfg
      (Int.emod_eq_zero_of_dvd hw)
    obtain ⟨R, hR, _, hlen⟩ := hL maxCount
    refine ⟨⟨fun h => ?_, fun h => absurd hw h⟩, fun _ => ⟨R, hR, by omega⟩, fun _ => hw⟩
    rw [hR] at h
    cases h
  · have hnone : find_yellow_lines rgba8 width height cfg maxCount = none := by
      unfold find_yellow_lines
      rw [if_pos]
      intro h
      exact hw (Int.dvd_of_tmod_eq_zero h)
    refine ⟨⟨fun _ => hw, fun _ => hnone⟩, fun h => absurd h hw, ?_⟩
    rintro ⟨L, hL, _⟩
    rw [hnone] at hL
    cases hL

theorem clamp01_range (q : ℚ) : 0 ≤ clamp01 q ∧ clamp01 q ≤ 1 := by
  unfold clamp01
  exact ⟨le_max_left _ _, max_le (by norm_num) (min_le_left _ _)⟩

/-- C28: for every pattern of length `N >= 1` (a `size_t`, with more fuel than `N`) and every
appearance with `N` sections, `quantify_bar_code_appearance_match` returns a value, and the
value is in `[0, 1]`. -/
theorem quantify_bar_code_appearance_match_range (fuel : Nat) (code : BarCode)
    (appearance : BarCodeAppearance) (hN1 : 1 ≤ code.colorCount)
    (hN : code.colorCount < 2 ^ 64) (hf : code.colorCount < fuel)
    (hA : (code.colorCount : Int) = appearance.sectionCount) :
    ∃ q, quantify_bar_code_appearance_match fuel code appearance = some q ∧ 0 ≤ q ∧ q ≤ 1 := by
  refine ⟨_, quantify_eq_max fuel code appearance hN hf hA, ?_, ?_⟩
  · exact le_trans (clamp01_range _).1 (le_max_left _ _)
  · exact max_le (clamp01_range _).2 (clamp01_range _).2

theorem quantify_bar_code_appearance_match_range_witness :
    ∃ q, quantify_bar_code_appearance_match 2 (barCodeOf [.BAR_CODE_RED])
        (rankTestAppearances 1) = some q ∧ 0 ≤ q ∧ q ≤ 1 :=
  quantify_bar_code_appearance_match_range 2 (barCodeOf [.BAR_CODE_RED]) (rankTestAppearances 1)
    (by decide) (by decide) (by decide) (by decide)
theorem walkTrace_length_le (x2 y2 dx dy sx sy : Int) :
    ∀ (fuel : Nat) (x1 y1 e : Int) (t : List (Int × Int)),
      walkTrace x2 y2 dx dy sx sy fuel x1 y1 e = some t → t.length ≤ fuel := by
  intro fuel
  induction fuel with
  | zero => intro x1 y1 e t h; simp [walkTrace] at h
  | succ fuel ih =>
    intro x1 y1 e t h
    rw [walkTrace] at h
    by_cases hc : x1 = x2 ∧ y1 = y2
    · rw [if_pos hc] at h
      rw [← Option.some.inj h]
      simp
    · rw [if_neg hc] at h
      cases hw : walkTrace x2 y2 dx dy sx sy fuel (walkStep dx dy sx sy x1 y1 e).1
          (walkStep dx dy sx sy x1 y1 e).2.1 (walkStep dx dy sx sy x1 y1 e).2.2 with
      | none => rw [hw] at h; simp at h
      | some t' =>
        rw [hw] at h
        rw [← Option.some.inj h]
        have := ih _ _ _ t' hw
        simp only [List.length_cons]
        omega

theorem walkTrace_succ (x2 y2 dx dy sx sy : Int) :
    ∀ (fuel : Nat) (x1 y1 e : Int) (t : List (Int × Int)),
      walkTrace x2 y2 dx dy sx sy fuel x1 y1 e = some t →
      walkTrace x2 y2 dx dy sx sy (fuel + 1) x1 y1 e = some t := by
  intro fuel
  induction fuel with
  | zero => intro x1 y1 e t h; simp [walkTrace] at h
  | succ fuel ih =>
    intro x1 y1 e t h
    rw [walkTrace] at h ⊢
    by_cases hc : x1 = x2 ∧ y1 = y2
    · rw [if_pos hc] at h ⊢
      exact h
    · rw [if_neg hc] at h ⊢
      cases hw : walkTrace x2 y2 dx dy sx sy fuel (walkStep dx dy sx sy x1 y1 e).1
          (walkStep dx dy sx sy x1 y1 e).2.1 (walkStep dx dy sx sy x1 y1 e).2.2 with
      | none => rw [hw] at h; simp at h
      | some t' =>
        rw [hw] at h
        rw [ih _ _ _ t' hw]
        exact h

theorem walkTrace_mono (x2 y2 dx dy sx sy : Int) (fuel : Nat) (x1 y1 e : Int)
    (t : List (Int × Int)) (h : walkTrace x2 y2 dx dy sx sy fuel x1 y1 e = some t) :
    ∀ k : Nat, walkTrace x2 y2 dx dy sx sy (fuel + k) x1 y1 e = some t := by
  intro k
  induction k with
  | zero => exact h
  | succ k ih => exact walkTrace_succ _ _ _ _ _ _ _ _ _ _ _ ih

theorem walkTrace_exact (x1 y1 x2 y2 : Int) (fuel : Nat) :
    (walkTrace x2 y2 |x2 - x1| |y2 - y1| (if x1 < x2 then 1 else -1)
        (if y1 < y2 then 1 else -1) fuel x1 y1
        (Int.tdiv (if |x2 - x1| > |y2 - y1| then |x2 - x1| else -|y2 - y1|) 2)).map
          (fun t => (t.length : Int))
      = if max |x2 - x1| |y2 - y1| < (fuel : Int) then some (max |x2 - x1| |y2 - y1| + 1)
        else none := by
  have hm0 : 0 ≤ max |x2 - x1| |y2 - y1| := le_trans (abs_nonneg _) (le_max_left _ _)
  by_cases hf : max |x2 - x1| |y2 - y1| < (fuel : Int)
  · rw [if_pos hf]
    obtain ⟨t, ht, hl, _⟩ := walkTrace_good x1 y1 x2 y2 fuel hf
    rw [ht, Option.map_some', hl]
    congr 1
    push_cast
    rw [Int.toNat_of_nonneg hm0]
  · rw [if_neg hf]
    cases hw : walkTrace x2 y2 |x2 - x1| |y2 - y1| (if x1 < x2 then 1 else -1)
        (if y1 < y2 then 1 else -1) fuel x1 y1
        (Int.tdiv (if |x2 - x1| > |y2 - y1| then |x2 - x1| else -|y2 - y1|) 2) with
    | none => rfl
    | some t =>
      exfalso
      have hlen := walkTrace_length_le _ _ _ _ _ _ _ _ _ _ _ hw
      have hk := walkTrace_mono _ _ _ _ _ _ _ _ _ _ _ hw
        ((max |x2 - x1| |y2 - y1|).toNat + 1 - fuel)
      obtain ⟨t', ht', hl', _⟩ := walkTrace_good x1 y1 x2 y2
        (fuel + ((max |x2 - x1| |y2 - y1|).toNat + 1 - fuel)) (by omega)
      rw [hk] at ht'
      rw [← Option.some.inj ht'] at hl'
      omega

/-- C29: for all integer endpoints each of the three line-walk loops (of `_draw_line`, of
`_find_colorful_line_endpoints` and of `_read_bar_code_appearance`, whose initial error term is
computed with the truncating division `Int.tdiv`) ends after exactly
`max(|x2-x1|, |y2-y1|) + 1` iterations: with more fuel than `max(|x2-x1|, |y2-y1|)` it returns
and has visited `max(|x2-x1|, |y2-y1|) + 1` pixels (one pixel when the endpoints coincide),
with less it has not returned. -/
theorem line_walk_length (fuel : Nat) (rgba8 : Nat → Nat) (width height x1 y1 x2 y2 : Int)
    (r g b a : Nat) (yellowCfg : YellowConfig) (uninitialized : BarCodeAppearance)
    (sectionCount : Int) (startBox endBox : YellowBoundingBox) :
    (_draw_line fuel rgba8 width height x1 y1 x2 y2 r g b a).map
        (fun res => (res.2.length : Int))
      = (if max |x2 - x1| |y2 - y1| < (fuel : Int) then some (max |x2 - x1| |y2 - y1| + 1)
        else none) ∧
    (_find_colorful_line_endpoints fuel rgba8 width height yellowCfg x1 y1 x2 y2).map
        (fun s => (s.visited.length : Int))
      = (if max |x2 - x1| |y2 - y1| < (fuel : Int) then some (max |x2 - x1| |y2 - y1| + 1)
        else none) ∧
    (_read_bar_code_appearance fuel uninitialized rgba8 width height sectionCount startBox endBox
        x1 y1 x2 y2).map (fun res => (res.2.2.length : Int))
      = (if max |x2 - x1| |y2 - y1| < (fuel : Int) then some (max |x2 - x1| |y2 - y1| + 1)
        else none) := by
  have hw := walkTrace_exact x1 y1 x2 y2 fuel
  refine ⟨?_, ?_, ?_⟩
  · rw [← hw]
    have h := drawLoop_visited width x2 y2 |x2 - x1| |y2 - y1| (if x1 < x2 then 1 else -1)
      (if y1 < y2 then 1 else -1) r g b a fuel rgba8 x1 y1
      (Int.tdiv (if |x2 - x1| > |y2 - y1| then |x2 - x1| else -|y2 - y1|) 2) []
    unfold _draw_line
    simp only []
    have h2 := congrArg (Option.map (fun (v : List (Int × Int)) => (v.length : Int))) h
    simp only [Option.map_map] at h2
    rw [show ((fun (res : (Nat → Nat) × List (Int × Int)) => (res.2.length : Int))
      = (fun (v : List (Int × Int)) => (v.length : Int)) ∘ Prod.snd) from rfl, h2]
    congr 1
  · rw [← hw]
    unfold _find_colorful_line_endpoints
    simp only []
    rw [endpointLoop_eq, Option.map_map]
    congr 1
    funext t
    simp [endpointFold_visited]
  · rw [← hw]
    unfold _read_bar_code_appearance
    simp only []
    rw [readLoop_eq]
    cases walkTrace x2 y2 |x2 - x1| |y2 - y1| (if x1 < x2 then 1 else -1)
        (if y1 < y2 then 1 else -1) fuel x1 y1
        (Int.tdiv (if |x2 - x1| > |y2 - y1| then |x2 - x1| else -|y2 - y1|) 2) with
    | none => rfl
    | some t =>
      simp only [Option.map_some']
      rw [← Prod.mk.eta (p := List.foldl _ _ t)]
      simp [readFold_buckets]
/-! ## Theorems: shape and membership of the boxes -/

theorem adjacentStep_scratch_zero (S : Int) (ci : Nat) (cl : YellowScanLine) (c : CollectState)
    (k : Nat) (h : 1 ≤ c.containedLineCount) :
    adjacentStep S 0 ci cl c k = adjacentStep S 1 ci cl c k ∧
      1 ≤ (adjacentStep S 1 ci cl c k).containedLineCount := by
  unfold adjacentStep
  have h0 : ¬ c.containedLineCount < 0 := by omega
  have h1 : ¬ c.containedLineCount < 1 := by omega
  simp only [h0, h1, if_false]
  refine ⟨trivial, ?_⟩
  split_ifs <;> exact h

theorem adjacentFold_scratch_zero (S : Int) (ci : Nat) (cl : YellowScanLine) :
    ∀ (l : List Nat) (c : CollectState), 1 ≤ c.containedLineCount →
      l.foldl (adjacentStep S 0 ci cl) c = l.foldl (adjacentStep S 1 ci cl) c ∧
        1 ≤ (l.foldl (adjacentStep S 1 ci cl) c).containedLineCount := by
  intro l
  induction l with
  | nil => intro c h; exact ⟨rfl, h⟩
  | cons k l ih =>
    intro c h
    obtain ⟨e, h1⟩ := adjacentStep_scratch_zero S ci cl c k h
    simp only [List.foldl_cons]
    rw [e]
    exact ih _ h1

theorem collectLines_scratch_zero (n : Nat) (S : Int) (i : Nat) :
    ∀ (fuel j : Nat) (c : CollectState), 1 ≤ c.containedLineCount →
      collectLines n S 0 i fuel j c = collectLines n S 1 i fuel j c := by
  intro fuel
  induction fuel with
  | zero => intro j c _; rfl
  | succ fuel ih =>
    intro j c h
    rw [collectLines, collectLines]
    by_cases hj : j < c.containedLineCount
    · simp only [if_pos hj]
      obtain ⟨e, h1⟩ := adjacentFold_scratch_zero S (c.tmpIndexBuffer j)
        (c.lines (c.tmpIndexBuffer j)) (List.range' (i + 1) (n - (i + 1)))
        { c with lines := setIgnore c.lines (c.tmpIndexBuffer j) true } h
      rw [e]
      exact ih _ _ h1
    · simp only [if_neg hj]

theorem find_yellow_rectangles_scratch_zero (fuel : Nat) (lines : Nat → YellowScanLine)
    (n : Nat) (S : Int) (tmp : Nat → Nat) (M : Nat) :
    find_yellow_rectangles fuel lines n S tmp 0 M
      = find_yellow_rectangles fuel lines n S tmp 1 M := by
  have hstep : boxStep fuel n S 0 M = boxStep fuel n S 1 M := by
    funext s i
    unfold boxStep
    simp only []
    rw [collectLines_scratch_zero n S i fuel 0 _ (le_refl 1)]
  unfold find_yellow_rectangles
  rw [hstep]

theorem find_yellow_rectangles_groups_any (fuel : Nat) (lines : Nat → YellowScanLine)
    (n : Nat) (S : Int) (tmp : Nat → Nat) (T M : Nat) (hfuel : n < fuel) :
    ∃ (s : RectState) (groups : List (List Nat)),
      find_yellow_rectangles fuel lines n S tmp T M = some s ∧
      groups.length = s.dst.length ∧ s.dst.length ≤ M ∧
      (∀ m g box, groups[m]? = some g → s.dst[m]? = some box →
        GroupBox lines n S (max T 1) (groups.take m) g box) ∧
      (s.dst.length = M ∨ ∀ k < n, ∃ g ∈ groups, k ∈ g) := by
  by_cases hT : 1 ≤ T
  · rw [max_eq_left hT]
    exact find_yellow_rectangles_groups fuel lines n S tmp T M hT hfuel
  · have hT0 : T = 0 := by omega
    subst hT0
    rw [find_yellow_rectangles_scratch_zero]
    exact find_yellow_rectangles_groups fuel lines n S tmp 1 M (le_refl 1) hfuel

/-- C21: for every array of scan lines with `start <= end` (any capacities, fuel for the
collecting loop above `lineCount`), `find_yellow_rectangles` returns, and each emitted box
`dst[m]`, with the list `groups[m]` of the lines collected into it (the seed first), satisfies
`left <= right` and `top <= bottom` and contains the span and the row of every collected
line, the seed line included. -/
theorem find_yellow_rectangles_box_shape (fuel : Nat) (lines : Nat → YellowScanLine)
    (lineCount : Nat) (maxSpacing : Int) (tmpIndexBuffer : Nat → Nat)
    (maxTmpIndexCount maxCount : Nat)
    (hse : ∀ k < lineCount, (lines k).start ≤ (lines k).end_) (hfuel : lineCount < fuel) :
    ∃ (s : RectState) (groups : List (List Nat)),
      find_yellow_rectangles fuel lines lineCount maxSpacing tmpIndexBuffer maxTmpIndexCount
        maxCount = some s ∧
      groups.length = s.dst.length ∧
      ∀ m g box, groups[m]? = some g → s.dst[m]? = some box →
        GroupBox lines lineCount maxSpacing (max maxTmpIndexCount 1) (groups.take m) g box ∧
        box.left ≤ box.right ∧ box.top ≤ box.bottom ∧ g.headD 0 ∈ g ∧
        ∀ a ∈ g, box.left ≤ (lines a).start ∧ (lines a).end_ ≤ box.right ∧
          box.top ≤ (lines a).y ∧ (lines a).y ≤ box.bottom := by
  obtain ⟨s, groups, h1, h2, _, h4, _⟩ := find_yellow_rectangles_groups_any fuel lines lineCount
    maxSpacing tmpIndexBuffer maxTmpIndexCount maxCount hfuel
  refine ⟨s, groups, h1, h2, fun m g box hg hb => ?_⟩
  have hgb := h4 m g box hg hb
  have hhead : g.headD 0 ∈ g := by
    cases g with
    | nil => exact absurd rfl hgb.nonempty
    | cons a rest => simp
  have hbox : ∀ a ∈ g, box.left ≤ (lines a).start ∧ (lines a).end_ ≤ box.right ∧
      box.top ≤ (lines a).y ∧ (lines a).y ≤ box.bottom :=
    fun a ha => ⟨hgb.left.1 a ha, hgb.right.1 a ha, hgb.top.1 a ha, hgb.bottom.1 a ha⟩
  obtain ⟨b1, b2, b3, b4⟩ := hbox _ hhead
  have := hse _ (hgb.mem _ hhead).2.1
  exact ⟨hgb, by omega, by omega, hhead, hbox⟩

theorem find_yellow_rectangles_box_shape_witness :
    (∀ k < 3, (linesOf [⟨0, 3, 0, false⟩, ⟨2, 5, 1, false⟩, ⟨7, 9, 1, false⟩] k).start
      ≤ (linesOf [⟨0, 3, 0, false⟩, ⟨2, 5, 1, false⟩, ⟨7, 9, 1, false⟩] k).end_) ∧
    ∃ (s : RectState) (groups : List (List Nat)),
      find_yellow_rectangles 4 (linesOf [⟨0, 3, 0, false⟩, ⟨2, 5, 1, false⟩, ⟨7, 9, 1, false⟩])
        3 0 (fun _ => 0) 3 3 = some s ∧
      groups.length = s.dst.length ∧
      ∀ m g box, groups[m]? = some g → s.dst[m]? = some box →
        GroupBox (linesOf [⟨0, 3, 0, false⟩, ⟨2, 5, 1, false⟩, ⟨7, 9, 1, false⟩]) 3 0
          (max 3 1) (groups.take m) g box ∧
        box.left ≤ box.right ∧ box.top ≤ box.bottom ∧ g.headD 0 ∈ g ∧
        ∀ a ∈ g,
          box.left ≤ (linesOf [⟨0, 3, 0, false⟩, ⟨2, 5, 1, false⟩, ⟨7, 9, 1, false⟩] a).start ∧
          (linesOf [⟨0, 3, 0, false⟩, ⟨2, 5, 1, false⟩, ⟨7, 9, 1, false⟩] a).end_
            ≤ box.right ∧
          box.top ≤ (linesOf [⟨0, 3, 0, false⟩, ⟨2, 5, 1, false⟩, ⟨7, 9, 1, false⟩] a).y ∧
          (linesOf [⟨0, 3, 0, false⟩, ⟨2, 5, 1, false⟩, ⟨7, 9, 1, false⟩] a).y ≤ box.bottom :=
  ⟨by decide, find_yellow_rectangles_box_shape 4
    (linesOf [⟨0, 3, 0, false⟩, ⟨2, 5, 1, false⟩, ⟨7, 9, 1, false⟩]) 3 0 (fun _ => 0) 3 3
    (by decide) (by decide)⟩
theorem groups_disjoint {lines : Nat → YellowScanLine} {n : Nat} {S : Int} {T : Nat}
    {groups : List (List Nat)} {dst : List YellowBoundingBox} (hlen : groups.length = dst.length)
    (hbox : ∀ m g box, groups[m]? = some g → dst[m]? = some box →
      GroupBox lines n S T (groups.take m) g box) :
    ∀ (m m' : Nat) (g g' : List Nat), m' < m → groups[m]? = some g → groups[m']? = some g' →
      ∀ a ∈ g, a ∉ g' := by
  intro m m' g g' hlt hg hg' a ha
  have hm : m < groups.length := by
    by_contra hge
    rw [List.getElem?_eq_none_iff.mpr (by omega)] at hg
    cases hg
  have hgb := hbox m g dst[m] hg (List.getElem?_eq_getElem (by omega))
  refine (hgb.mem a ha).2.2 g' ?_
  rw [List.mem_iff_getElem?]
  exact ⟨m', by rw [List.getElem?_take_of_lt hlt]; exact hg'⟩

/-- C30: for every capacity (index scratch of at least 1, fuel for the collecting loop above
`lineCount`), `find_yellow_rectangles` returns, and with `groups[m]` the list of the lines
collected into the emitted box `dst[m]`, in the order in which they are expanded (the seed
first): the concatenation of all the lists has no duplicate, so that no line is a member of
two boxes and each member is expanded at most once; and when the box capacity is at least
`lineCount` every line is a member of exactly one emitted box. -/
theorem find_yellow_rectangles_members (fuel : Nat) (lines : Nat → YellowScanLine)
    (lineCount : Nat) (maxSpacing : Int) (tmpIndexBuffer : Nat → Nat)
    (maxTmpIndexCount maxCount : Nat) (hT : 1 ≤ maxTmpIndexCount) (hfuel : lineCount < fuel) :
    ∃ (s : RectState) (groups : List (List Nat)),
      find_yellow_rectangles fuel lines lineCount maxSpacing tmpIndexBuffer maxTmpIndexCount
        maxCount = some s ∧
      groups.length = s.dst.length ∧
      (∀ m g box, groups[m]? = some g → s.dst[m]? = some box →
        GroupBox lines lineCount maxSpacing maxTmpIndexCount (groups.take m) g box) ∧
      groups.flatten.Nodup ∧
      (lineCount ≤ maxCount → ∀ k < lineCount, ∃! m : Nat, ∃ g : List Nat, groups[m]? = some g ∧ k ∈ g) := by
  obtain ⟨s, groups, h1, h2, h3, h4, h5⟩ := find_yellow_rectangles_groups fuel lines lineCount
    maxSpacing tmpIndexBuffer maxTmpIndexCount maxCount hT hfuel
  have hdis := groups_disjoint h2 h4
  have hgb : ∀ g ∈ groups, ∃ m box, GroupBox lines lineCount maxSpacing maxTmpIndexCount
      (groups.take m) g box := by
    intro g hg
    obtain ⟨m, hm⟩ := List.mem_iff_getElem?.mp hg
    have hml : m < groups.length := by
      by_contra hge
      rw [List.getElem?_eq_none_iff.mpr (by omega)] at hm
      cases hm
    exact ⟨m, s.dst[m], h4 m g _ hm (List.getElem?_eq_getElem (by omega))⟩
  have hnodup : groups.flatten.Nodup := by
    rw [List.nodup_flatten]
    refine ⟨fun g hg => ?_, ?_⟩
    · obtain ⟨m, box, hb⟩ := hgb g hg
      exact hb.nodup
    · rw [List.pairwise_iff_getElem]
      intro i j hi hj hij a hai haj
      exact hdis j i _ _ hij (List.getElem?_eq_getElem hj) (List.getElem?_eq_getElem hi) a haj hai
  refine ⟨s, groups, h1, h2, h4, hnodup, fun hM k hk => ?_⟩
  have hcover : ∀ k < lineCount, ∃ g ∈ groups, k ∈ g := by
    rcases h5 with h5 | h5
    · have hlenge : lineCount ≤ groups.flatten.length := by
        rw [List.length_flatten]
        have := List.length_le_sum_of_one_le (groups.map List.length) (fun x hx => by
          obtain ⟨g, hg, rfl⟩ := List.mem_map.mp hx
          obtain ⟨m, box, hb⟩ := hgb g hg
          exact List.length_pos.mpr hb.nonempty)
        simp only [List.length_map] at this
        omega
      have hsub : groups.flatten.toFinset ⊆ Finset.range lineCount := by
        intro a ha
        rw [List.mem_toFinset, List.mem_flatten] at ha
        obtain ⟨g, hg, hag⟩ := ha
        obtain ⟨m, box, hb⟩ := hgb g hg
        exact Finset.mem_range.mpr (hb.mem a hag).2.1
      have heq := Finset.eq_of_subset_of_card_le hsub (by
        rw [Finset.card_range, List.toFinset_card_of_nodup hnodup]; exact hlenge)
      intro k hk
      have : k ∈ groups.flatten.toFinset := by rw [heq]; exact Finset.mem_range.mpr hk
      rw [List.mem_toFinset, List.mem_flatten] at this
      exact this
    · exact h5
  obtain ⟨g, hg, hkg⟩ := hcover k hk
  obtain ⟨m, hm⟩ := List.mem_iff_getElem?.mp hg
  refine ⟨m, ⟨g, hm, hkg⟩, fun m' ⟨g', hm', hkg'⟩ => ?_⟩
  by_contra hne
  rcases Nat.lt_or_gt_of_ne hne with hlt | hlt
  · exact hdis m m' g g' hlt hm hm' k hkg hkg'
  · exact hdis m' m g' g hlt hm' hm k hkg' hkg

theorem find_yellow_rectangles_members_witness :
    ∃ (s : RectState) (groups : List (List Nat)),
      find_yellow_rectangles 4 (linesOf [⟨0, 3, 0, false⟩, ⟨2, 5, 1, false⟩, ⟨8, 9, 1, false⟩])
        3 0 (fun _ => 0) 1 3 = some s ∧
      groups.length = s.dst.length ∧
      (∀ m g box, groups[m]? = some g → s.dst[m]? = some box →
        GroupBox (linesOf [⟨0, 3, 0, false⟩, ⟨2, 5, 1, false⟩, ⟨8, 9, 1, false⟩]) 3 0 1
          (groups.take m) g box) ∧
      groups.flatten.Nodup ∧
      (3 ≤ 3 → ∀ k < 3, ∃! m : Nat, ∃ g : List Nat, groups[m]? = some g ∧ k ∈ g) :=
  find_yellow_rectangles_members 4
    (linesOf [⟨0, 3, 0, false⟩, ⟨2, 5, 1, false⟩, ⟨8, 9, 1, false⟩]) 3 0 (fun _ => 0) 1 3
    (by decide) (by decide)

/-! ## Theorems: appearances between pairs of boxes -/

theorem chain_dist : ∀ (t : List (Int × Int)) (p0 : Int × Int),
    List.Chain adjacentPixels p0 t → ∀ q ∈ p0 :: t,
      |q.1 - p0.1| ≤ (t.length : Int) ∧ |q.2 - p0.2| ≤ (t.length : Int) := by
  intro t
  induction t with
  | nil =>
    intro p0 _ q hq
    simp only [List.mem_singleton] at hq
    subst hq
    simp
  | cons p1 t ih =>
    intro p0 hc q hq
    rw [List.chain_cons] at hc
    obtain ⟨hadj, hc'⟩ := hc
    rcases List.mem_cons.mp hq with rfl | hq'
    · simp only [sub_self, abs_zero, List.length_cons]
      constructor <;> positivity
    · obtain ⟨h1, h2⟩ := ih p1 hc' q hq'
      obtain ⟨a1, a2⟩ := hadj
      rw [abs_le] at h1 h2 a1 a2 ⊢
      simp only [List.length_cons]
      push_cast
      rw [abs_le]
      exact ⟨⟨by omega, by omega⟩, ⟨by omega, by omega⟩⟩

theorem trace_dist (T : List (Int × Int)) (hc : T.Chain' adjacentPixels) (p q : Int × Int)
    (hp : p ∈ T) (hq : q ∈ T) :
    |q.1 - p.1| ≤ (T.length : Int) - 1 ∧ |q.2 - p.2| ≤ (T.length : Int) - 1 := by
  have key : ∀ (a b : Int × Int) (s r : List (Int × Int)), T = s ++ a :: r → b ∈ a :: r →
      |b.1 - a.1| ≤ (T.length : Int) - 1 ∧ |b.2 - a.2| ≤ (T.length : Int) - 1 := by
    intro a b s r hT hb
    have hc2 : List.Chain' adjacentPixels (a :: r) := by
      rw [hT] at hc
      exact hc.right_of_append
    obtain ⟨h1, h2⟩ := chain_dist r a hc2 b hb
    have hl : (r.length : Int) ≤ (T.length : Int) - 1 := by
      rw [hT]
      simp only [List.length_append, List.length_cons]
      push_cast
      omega
    exact ⟨le_trans h1 hl, le_trans h2 hl⟩
  obtain ⟨s, r, hT⟩ := List.append_of_mem hp
  have hq' : q ∈ s ∨ q ∈ p :: r := by
    rw [hT] at hq
    exact List.mem_append.mp hq
  rcases hq' with hqs | hqr
  · obtain ⟨s1, s2, hs⟩ := List.append_of_mem hqs
    have hT2 : T = s1 ++ q :: (s2 ++ p :: r) := by
      rw [hT, hs]; simp
    have := key q p s1 (s2 ++ p :: r) hT2 (by simp)
    rw [abs_sub_comm q.1 p.1, abs_sub_comm q.2 p.2]
    exact this
  · exact key p q s r hT hqr

theorem visitPixel_mem (rgba8 : Nat → Nat) (width : Int) (cfg : YellowConfig)
    (T : List (Int × Int)) (s : EndpointState) (p : Int × Int) (hp : p ∈ T)
    (h1 : (s.firstX, s.firstY) ∈ T) (h2 : (s.secondX, s.secondY) ∈ T)
    (h3 : (s.lastX, s.lastY) ∈ T) :
    ((visitPixel rgba8 width cfg s p).firstX, (visitPixel rgba8 width cfg s p).firstY) ∈ T ∧
    ((visitPixel rgba8 width cfg s p).secondX, (visitPixel rgba8 width cfg s p).secondY) ∈ T ∧
    ((visitPixel rgba8 width cfg s p).lastX, (visitPixel rgba8 width cfg s p).lastY) ∈ T := by
  unfold visitPixel
  simp only []
  split_ifs <;> simp_all

theorem endpointFold_mem (rgba8 : Nat → Nat) (width : Int) (cfg : YellowConfig)
    (T : List (Int × Int)) :
    ∀ (t : List (Int × Int)) (s : EndpointState), (∀ p ∈ t, p ∈ T) →
      (s.firstX, s.firstY) ∈ T → (s.secondX, s.secondY) ∈ T → (s.lastX, s.lastY) ∈ T →
      ((endpointFold rgba8 width cfg t s).firstX, (endpointFold rgba8 width cfg t s).firstY) ∈ T ∧
      ((endpointFold rgba8 width cfg t s).secondX, (endpointFold rgba8 width cfg t s).secondY)
        ∈ T := by
  intro t
  induction t with
  | nil => intro s _ h1 h2 _; exact ⟨h1, h2⟩
  | cons p t ih =>
    intro s ht h1 h2 h3
    obtain ⟨v1, v2, v3⟩ := visitPixel_mem rgba8 width cfg T s p (ht p (List.mem_cons_self _ _))
      h1 h2 h3
    cases t with
    | nil => exact ⟨v1, v2⟩
    | cons q rest =>
      have e : endpointFold rgba8 width cfg (p :: q :: rest) s
          = endpointFold rgba8 width cfg (q :: rest)
            { visitPixel rgba8 width cfg s p with lastX := q.1, lastY := q.2 } := rfl
      rw [e]
      refine ih _ (fun x hx => ht x (List.mem_cons_of_mem _ hx)) v1 v2 ?_
      exact ht q (List.mem_cons_of_mem _ (List.mem_cons_self _ _))

theorem endpoints_refined_close (fuel : Nat) (rgba8 : Nat → Nat) (width height : Int)
    (cfg : YellowConfig) (x1 y1 x2 y2 : Int)
    (hf : max |x2 - x1| |y2 - y1| < (fuel : Int)) :
    ∃ e, _find_colorful_line_endpoints fuel rgba8 width height cfg x1 y1 x2 y2 = some e ∧
      max |e.secondX - e.firstX| |e.secondY - e.firstY| ≤ max |x2 - x1| |y2 - y1| := by
  obtain ⟨t, ht, hl, hh, hlast, _, hchain⟩ := walkTrace_good x1 y1 x2 y2 fuel hf
  have hm0 : 0 ≤ max |x2 - x1| |y2 - y1| := le_trans (abs_nonneg _) (le_max_left _ _)
  have hhead : (x1, y1) ∈ t := List.mem_of_mem_head? hh
  have hlastm : (x2, y2) ∈ t := List.mem_of_mem_getLast? hlast
  refine ⟨endpointFold rgba8 width cfg t
    { firstX := x1, firstY := y1, secondX := x2, secondY := y2,
      foundColorStart := false, inColor := false, lastX := x2, lastY := y2, visited := [] }, by
    unfold _find_colorful_line_endpoints
    simp only []
    rw [endpointLoop_eq, ht]
    rfl, ?_⟩
  obtain ⟨m1, m2⟩ := endpointFold_mem rgba8 width cfg t t
    { firstX := x1, firstY := y1, secondX := x2, secondY := y2,
      foundColorStart := false, inColor := false, lastX := x2, lastY := y2, visited := [] }
    (fun p hp => hp) hhead hlastm hlastm
  obtain ⟨d1, d2⟩ := trace_dist t hchain _ _ m1 m2
  rw [hl] at d1 d2
  push_cast at d1 d2
  rw [Int.toNat_of_nonneg hm0] at d1 d2
  exact max_le (by linarith) (by linarith)
theorem foldl_header {α : Type} (f : BarCodeAppearance → α → BarCodeAppearance)
    (hf : ∀ a x, (f a x).header = a.header) :
    ∀ (l : List α) (a : BarCodeAppearance), (l.foldl f a).header = a.header := by
  intro l
  induction l with
  | nil => intro a; rfl
  | cons x l ih => intro a; rw [List.foldl_cons, ih, hf]

theorem readFold_header (rgba8 : Nat → Nat) (width sectionCount origX origY totalDistance : Int) :
    ∀ (t : List (Int × Int)) (st : BarCodeAppearance × List ((Int × Int) × Int)),
      (t.foldl (readPixel rgba8 width sectionCount origX origY totalDistance) st).1.header
        = st.1.header := by
  intro t
  induction t with
  | nil => intro st; rfl
  | cons p t ih => intro st; rw [List.foldl_cons, ih]; rfl

theorem read_bar_code_appearance_header (fuel : Nat) (uninitialized : BarCodeAppearance)
    (rgba8 : Nat → Nat) (width height sectionCount : Int) (startBox endBox : YellowBoundingBox)
    (startX startY endX endY : Int)
    (r : BarCodeAppearance × BarCodeAppearance × List ((Int × Int) × Int))
    (h : _read_bar_code_appearance fuel uninitialized rgba8 width height sectionCount startBox
      endBox startX startY endX endY = some r) :
    r.2.1.header = (startBox, endBox, startX, startY, endX, endY, sectionCount) := by
  unfold _read_bar_code_appearance at h
  simp only [] at h
  rw [readLoop_eq] at h
  cases hw : walkTrace endX endY |endX - startX| |endY - startY|
      (if startX < endX then 1 else -1) (if startY < endY then 1 else -1) fuel startX startY
      (Int.tdiv (if |endX - startX| > |endY - startY| then |endX - startX|
        else -|endY - startY|) 2) with
  | none => rw [hw] at h; cases h
  | some t =>
    rw [hw] at h
    simp only [Option.map_some'] at h
    rw [← Option.some.inj h]
    show (List.foldl averageSection _ _).header = _
    rw [foldl_header averageSection (fun _ _ => rfl), readFold_header,
      foldl_header clearSection (fun _ _ => rfl)]
    rfl

theorem pairStep_eq (fuel : Nat) (uninitialized : Nat → Nat → BarCodeAppearance)
    (rgba8 : Nat → Nat) (width height : Int) (yellowCfg : YellowConfig)
    (yellowBoxes : Nat → YellowBoundingBox) (sectionCount : Int) (maxCount : Nat) (i j : Nat)
    (dst : List BarCodeAppearance)
    (hf : max |(boxCentre (yellowBoxes j)).1 - (boxCentre (yellowBoxes i)).1|
      |(boxCentre (yellowBoxes j)).2 - (boxCentre (yellowBoxes i)).2| < (fuel : Int)) :
    pairStep fuel uninitialized rgba8 width height yellowCfg yellowBoxes sectionCount maxCount
        i dst j
      = pushAppearance maxCount dst (pairAppearance fuel uninitialized rgba8 width height
          yellowCfg yellowBoxes sectionCount (i, j)) ∧
    (refinedDistinct fuel rgba8 width height yellowCfg yellowBoxes (i, j) = false ∧
        pairAppearance fuel uninitialized rgba8 width height yellowCfg yellowBoxes sectionCount
          (i, j) = none ∨
      refinedDistinct fuel rgba8 width height yellowCfg yellowBoxes (i, j) = true ∧
        ∃ e a, refinedSegment fuel rgba8 width height yellowCfg yellowBoxes (i, j) = some e ∧
          pairAppearance fuel uninitialized rgba8 width height yellowCfg yellowBoxes
            sectionCount (i, j) = some a ∧
          a.header = (yellowBoxes i, yellowBoxes j, e.firstX, e.firstY, e.secondX, e.secondY,
            sectionCount) ∧
          ¬ (e.firstX = e.secondX ∧ e.firstY = e.secondY)) := by
  obtain ⟨e, he, hclose⟩ := endpoints_refined_close fuel rgba8 width height yellowCfg _ _ _ _ hf
  have hseg : refinedSegment fuel rgba8 width height yellowCfg yellowBoxes (i, j) = some e := he
  unfold pairStep pairAppearance refinedDistinct
  simp only [hseg]
  unfold boxCentre at he
  simp only [] at he
  rw [he]
  simp only []
  by_cases heq : e.firstX = e.secondX ∧ e.firstY = e.secondY
  · simp only [if_pos heq]
    refine ⟨?_, Or.inl ⟨?_, ?_⟩⟩
    · rfl
    · simp [heq]
    · trivial
  · simp only [if_neg heq]
    obtain ⟨t, sums, _, hr, _⟩ := read_bar_code_appearance_eq fuel (uninitialized i j) rgba8 width
      height sectionCount (yellowBoxes i) (yellowBoxes j) e.firstX e.firstY e.secondX e.secondY
      (lt_of_le_of_lt hclose hf)
    have hh := read_bar_code_appearance_header _ _ _ _ _ _ _ _ _ _ _ _ _ hr
    rw [hr]
    simp only [Option.map_some', pushAppearance]
    refine ⟨?_, Or.inr ⟨?_, e, _, ?_, ?_, hh, heq⟩⟩
    · trivial
    · simp [heq]
    · rfl
    · rfl
theorem foldlM_pushAppearance {α : Type} (maxCount : Nat) (f : α → Option BarCodeAppearance) :
    ∀ (l : List α) (dst : List BarCodeAppearance), dst.length ≤ maxCount →
      l.foldlM (fun d x => pushAppearance maxCount d (f x)) dst
        = if dst.length + (l.filterMap f).length ≤ maxCount then .ok (dst ++ l.filterMap f)
          else .error (.returned ((dst ++ l.filterMap f).take maxCount)) := by
  intro l
  induction l with
  | nil =>
    intro dst h
    simp only [List.foldlM_nil, List.filterMap_nil, List.length_nil, Nat.add_zero,
      List.append_nil, if_pos h]
    rfl
  | cons x l ih =>
    intro dst h
    rw [List.foldlM_cons]
    cases hx : f x with
    | none =>
      have e : pushAppearance maxCount dst none = .ok dst := rfl
      simp only [e, List.filterMap_cons, hx]
      exact ih dst h
    | some a =>
      simp only [List.filterMap_cons, hx, List.length_cons]
      by_cases hroom : dst.length < maxCount
      · have e : pushAppearance maxCount dst (some a) = .ok (dst ++ [a]) := by
          simp only [pushAppearance, if_pos hroom]
        rw [e]
        have := ih (dst ++ [a]) (by simp; omega)
        simp only [List.length_append, List.length_singleton, List.append_assoc,
          List.singleton_append] at this
        have e2 : (pure (dst ++ [a]) : Except AppearExit (List BarCodeAppearance)) >>=
            (fun s' => l.foldlM (fun d x => pushAppearance maxCount d (f x)) s')
            = l.foldlM (fun d x => pushAppearance maxCount d (f x)) (dst ++ [a]) := rfl
        show (Except.ok (dst ++ [a]) >>= _) = _
        rw [show (Except.ok (dst ++ [a]) : Except AppearExit (List BarCodeAppearance))
          = pure (dst ++ [a]) from rfl, e2, this]
        have hc : (dst.length + 1 + (List.filterMap f l).length ≤ maxCount)
            ↔ (dst.length + ((List.filterMap f l).length + 1) ≤ maxCount) := by omega
        by_cases hcc : dst.length + 1 + (List.filterMap f l).length ≤ maxCount
        · rw [if_pos hcc, if_pos (hc.mp hcc)]
        · rw [if_neg hcc, if_neg (fun h' => hcc (hc.mpr h'))]
      · have e : pushAppearance maxCount dst (some a) = .error (.returned dst) := by
          simp only [pushAppearance, if_neg hroom]
        rw [e, if_neg (by omega)]
        have hlen : dst.length = maxCount := by omega
        rw [List.take_left' hlen]
        rfl

theorem foldlM_congr_mem {ε σ α : Type} (f g : σ → α → Except ε σ) :
    ∀ (l : List α) (s : σ), (∀ x ∈ l, ∀ s, f s x = g s x) → l.foldlM f s = l.foldlM g s := by
  intro l
  induction l with
  | nil => intro s _; rfl
  | cons x l ih =>
    intro s h
    rw [List.foldlM_cons, List.foldlM_cons, h x (List.mem_cons_self _ _)]
    congr 1
    funext s'
    exact ih s' (fun y hy => h y (List.mem_cons_of_mem _ hy))

theorem foldlM_nested {ε σ α β : Type} (g : α → List β) (step : α → σ → β → Except ε σ) :
    ∀ (L : List α) (s : σ),
      L.foldlM (fun s a => (g a).foldlM (step a) s) s
        = (L.flatMap (fun a => (g a).map (fun b => (a, b)))).foldlM
            (fun s p => step p.1 s p.2) s := by
  intro L
  induction L with
  | nil => intro s; rfl
  | cons a L ih =>
    intro s
    rw [List.foldlM_cons, List.flatMap_cons, List.foldlM_append, List.foldlM_map]
    congr 1
    funext s'
    exact ih s'

theorem mem_boxPairs (B : Nat) (p : Nat × Nat) : p ∈ boxPairs B ↔ p.1 < p.2 ∧ p.2 < B := by
  unfold boxPairs
  simp only [List.mem_flatMap, List.mem_range, List.mem_map, List.mem_range'_1]
  constructor
  · rintro ⟨i, hi, j, hj, rfl⟩
    simp only
    omega
  · rintro ⟨h1, h2⟩
    exact ⟨p.1, by omega, p.2, by omega, rfl⟩

theorem boxPairs_sorted (B : Nat) :
    (boxPairs B).Pairwise (fun p q => p.1 < q.1 ∨ (p.1 = q.1 ∧ p.2 < q.2)) := by
  unfold boxPairs
  rw [List.pairwise_flatMap]
  refine ⟨fun i _ => ?_, ?_⟩
  · rw [List.pairwise_map]
    exact (List.pairwise_lt_range' _ _).imp (fun h => Or.inr ⟨rfl, h⟩)
  · refine (List.pairwise_lt_range B).imp (fun {a b} h => ?_)
    intro x hx y hy
    obtain ⟨_, _, rfl⟩ := List.mem_map.mp hx
    obtain ⟨_, _, rfl⟩ := List.mem_map.mp hy
    exact Or.inl h

theorem sum_map_range (f : Nat → Nat) (n : Nat) :
    ((List.range n).map f).sum = ∑ i in Finset.range n, f i := by
  induction n with
  | zero => rfl
  | succ n ih =>
    rw [List.range_succ, List.map_append, List.sum_append, ih, Finset.sum_range_succ]
    simp

theorem boxPairs_length (B : Nat) : 2 * (boxPairs B).length = B * (B - 1) := by
  unfold boxPairs
  rw [List.length_flatMap, sum_map_range]
  have h1 : ∑ i in Finset.range B, (List.length ∘ fun (i : Nat) =>
      (List.range' (i + 1) (B - (i + 1))).map (fun (j : Nat) => (i, j))) i
      = ∑ i in Finset.range B, (B - 1 - i) := by
    apply Finset.sum_congr rfl
    intro i _
    simp only [Function.comp, List.length_map, List.length_range']
    omega
  rw [h1, Finset.sum_range_reflect (fun i => i) B, mul_comm, Finset.sum_range_id_mul_two]
theorem find_bar_code_appearances_eq (fuel : Nat)
    (uninitialized : Nat → Nat → BarCodeAppearance) (rgba8 : Nat → Nat) (width height : Int)
    (yellowCfg : YellowConfig) (yellowBoxes : Nat → YellowBoundingBox) (B : Nat)
    (sectionCount : Int) (maxCount : Nat)
    (hfuel : ∀ i < B, ∀ j < B,
      max |(boxCentre (yellowBoxes j)).1 - (boxCentre (yellowBoxes i)).1|
        |(boxCentre (yellowBoxes j)).2 - (boxCentre (yellowBoxes i)).2| < (fuel : Int)) :
    find_bar_code_appearances fuel uninitialized rgba8 width height yellowCfg yellowBoxes B
        sectionCount maxCount
      = some (((boxPairs B).filterMap (pairAppearance fuel uninitialized rgba8 width height
          yellowCfg yellowBoxes sectionCount)).take maxCount) := by
  unfold find_bar_code_appearances
  rw [foldlM_nested (fun (i : Nat) => List.range' (i + 1) (B - (i + 1)))
    (fun i dst j => pairStep fuel uninitialized rgba8 width height yellowCfg yellowBoxes
      sectionCount maxCount i dst j)]
  have hcongr := foldlM_congr_mem
    (fun (s : List BarCodeAppearance) (p : Nat × Nat) =>
      pairStep fuel uninitialized rgba8 width height yellowCfg yellowBoxes sectionCount maxCount
        p.1 s p.2)
    (fun (d : List BarCodeAppearance) (p : Nat × Nat) =>
      pushAppearance maxCount d (pairAppearance fuel uninitialized rgba8 width height yellowCfg
        yellowBoxes sectionCount p))
    (boxPairs B) [] (fun p hp s => by
      obtain ⟨h1, h2⟩ := (mem_boxPairs B p).mp hp
      exact (pairStep_eq fuel uninitialized rgba8 width height yellowCfg yellowBoxes sectionCount
        maxCount p.1 p.2 s (hfuel p.1 (by omega) p.2 h2)).1)
  have hflat : (List.range B).flatMap (fun (a : Nat) =>
      (List.range' (a + 1) (B - (a + 1))).map (fun (b : Nat) => (a, b))) = boxPairs B := rfl
  rw [hflat, hcongr, foldlM_pushAppearance maxCount _ (boxPairs B) [] (Nat.zero_le _)]
  simp only [List.length_nil, Nat.zero_add, List.nil_append]
  by_cases hc : ((boxPairs B).filterMap (pairAppearance fuel uninitialized rgba8 width height
      yellowCfg yellowBoxes sectionCount)).length ≤ maxCount
  · rw [if_pos hc, List.take_of_length_le hc]
  · rw [if_neg hc]

theorem forall₂_filter_filterMap {α β : Type} (q : α → Bool) (f : α → Option β)
    (R : α → β → Prop) :
    ∀ l : List α,
      (∀ x ∈ l, (q x = false ∧ f x = none) ∨ (q x = true ∧ ∃ b, f x = some b ∧ R x b)) →
      List.Forall₂ R (l.filter q) (l.filterMap f) := by
  intro l
  induction l with
  | nil => intro _; exact List.Forall₂.nil
  | cons x l ih =>
    intro h
    have ih' := ih (fun y hy => h y (List.mem_cons_of_mem _ hy))
    rcases h x (List.mem_cons_self _ _) with ⟨h1, h2⟩ | ⟨h1, b, h2, h3⟩
    · rw [List.filter_cons_of_neg (by simp [h1]), List.filterMap_cons_none h2]
      exact ih'
    · rw [List.filter_cons_of_pos h1, List.filterMap_cons_some h2]
      exact List.Forall₂.cons h3 ih'

/-- C22: with fuel for every walk between two box centres and an appearance capacity that is
not exceeded by the number of pairs whose refined segment has distinct start and end,
`find_bar_code_appearances` returns, and its appearances correspond one to one, in order, to
the pairs `(i, j)`, `i < j < yellowBoxCount`, taken in lexicographic order, whose segment,
traced between the two box centres and refined, has distinct start and end: the appearance
is the one sampled on the refined segment and stores `yellowBoxes[i]`, `yellowBoxes[j]`, the
refined endpoints and the section count. No emitted appearance has equal start and end, and
there are at most `B (B - 1) / 2` of them. -/
theorem find_bar_code_appearances_pairs (fuel : Nat)
    (uninitialized : Nat → Nat → BarCodeAppearance) (rgba8 : Nat → Nat) (width height : Int)
    (yellowCfg : YellowConfig) (yellowBoxes : Nat → YellowBoundingBox) (yellowBoxCount : Nat)
    (sectionCount : Int) (maxCount : Nat)
    (hfuel : ∀ i < yellowBoxCount, ∀ j < yellowBoxCount,
      max |(boxCentre (yellowBoxes j)).1 - (boxCentre (yellowBoxes i)).1|
        |(boxCentre (yellowBoxes j)).2 - (boxCentre (yellowBoxes i)).2| < (fuel : Int))
    (hcap : ((boxPairs yellowBoxCount).filter
      (refinedDistinct fuel rgba8 width height yellowCfg yellowBoxes)).length ≤ maxCount) :
    ∃ dst, find_bar_code_appearances fuel uninitialized rgba8 width height yellowCfg yellowBoxes
        yellowBoxCount sectionCount maxCount = some dst ∧
      List.Forall₂
        (fun p a => ∃ e, refinedSegment fuel rgba8 width height yellowCfg yellowBoxes p = some e ∧
          pairAppearance fuel uninitialized rgba8 width height yellowCfg yellowBoxes
            sectionCount p = some a ∧
          a._firstBox = yellowBoxes p.1 ∧ a._secondBox = yellowBoxes p.2 ∧
          a.colorStartX = e.firstX ∧ a.colorStartY = e.firstY ∧
          a.colorEndX = e.secondX ∧ a.colorEndY = e.secondY ∧
          a.sectionCount = sectionCount ∧
          ¬ (a.colorStartX = a.colorEndX ∧ a.colorStartY = a.colorEndY))
        ((boxPairs yellowBoxCount).filter
          (refinedDistinct fuel rgba8 width height yellowCfg yellowBoxes)) dst ∧
      (∀ p, p ∈ boxPairs yellowBoxCount ↔ p.1 < p.2 ∧ p.2 < yellowBoxCount) ∧
      (boxPairs yellowBoxCount).Pairwise (fun p q => p.1 < q.1 ∨ (p.1 = q.1 ∧ p.2 < q.2)) ∧
      dst.length ≤ yellowBoxCount * (yellowBoxCount - 1) / 2 := by
  have hF := forall₂_filter_filterMap
    (refinedDistinct fuel rgba8 width height yellowCfg yellowBoxes)
    (pairAppearance fuel uninitialized rgba8 width height yellowCfg yellowBoxes sectionCount)
    (fun p a => ∃ e, refinedSegment fuel rgba8 width height yellowCfg yellowBoxes p = some e ∧
      pairAppearance fuel uninitialized rgba8 width height yellowCfg yellowBoxes
        sectionCount p = some a ∧
      a._firstBox = yellowBoxes p.1 ∧ a._secondBox = yellowBoxes p.2 ∧
      a.colorStartX = e.firstX ∧ a.colorStartY = e.firstY ∧
      a.colorEndX = e.secondX ∧ a.colorEndY = e.secondY ∧
      a.sectionCount = sectionCount ∧
      ¬ (a.colorStartX = a.colorEndX ∧ a.colorStartY = a.colorEndY))
    (boxPairs yellowBoxCount) (fun p hp => by
      obtain ⟨h1, h2⟩ := (mem_boxPairs yellowBoxCount p).mp hp
      rcases (pairStep_eq fuel uninitialized rgba8 width height yellowCfg yellowBoxes
        sectionCount maxCount p.1 p.2 [] (hfuel p.1 (by omega) p.2 h2)).2 with
        h | ⟨hd, e, a, he, ha, hh, hne⟩
      · exact Or.inl h
      · refine Or.inr ⟨hd, a, ha, e, he, ha, ?_⟩
        simp only [BarCodeAppearance.header, Prod.mk.injEq] at hh
        obtain ⟨a1, a2, a3, a4, a5, a6, a7⟩ := hh
        exact ⟨a1, a2, a3, a4, a5, a6, a7, by rw [a3, a4, a5, a6]; exact hne⟩)
  have hlen := hF.length_eq
  refine ⟨_, find_bar_code_appearances_eq fuel uninitialized rgba8 width height yellowCfg
    yellowBoxes yellowBoxCount sectionCount maxCount hfuel, ?_, mem_boxPairs yellowBoxCount,
    boxPairs_sorted yellowBoxCount, ?_⟩
  · rw [List.take_of_length_le (by omega)]
    exact hF
  · rw [List.take_of_length_le (by omega), ← hlen]
    have h1 := List.length_filter_le
      (refinedDistinct fuel rgba8 width height yellowCfg yellowBoxes) (boxPairs yellowBoxCount)
    have h2 := boxPairs_length yellowBoxCount
    rw [Nat.le_div_iff_mul_le (by norm_num)]
    omega

theorem find_bar_code_appearances_pairs_witness :
    (find_bar_code_appearances 5 (fun _ _ => appearanceOf 0 0 0 0 [] [] []) endpointTestRow 8 1
        ⟨30, 50, 80⟩ (fun k => [⟨0, 0, 0, 0, true⟩, ⟨3, 0, 4, 0, true⟩].getD k default) 2 1
        4).map (fun dst => dst.map BarCodeAppearance.header)
      = some [(⟨0, 0, 0, 0, true⟩, ⟨3, 0, 4, 0, true⟩, 1, 0, 3, 0, 1)] ∧
    ∃ dst, find_bar_code_appearances 5 (fun _ _ => appearanceOf 0 0 0 0 [] [] [])
        endpointTestRow 8 1 ⟨30, 50, 80⟩
        (fun k => [⟨0, 0, 0, 0, true⟩, ⟨3, 0, 4, 0, true⟩].getD k default) 2 1 4 = some dst ∧
      List.Forall₂
        (fun p a => ∃ e, refinedSegment 5 endpointTestRow 8 1 ⟨30, 50, 80⟩
            (fun k => [⟨0, 0, 0, 0, true⟩, ⟨3, 0, 4, 0, true⟩].getD k default) p = some e ∧
          pairAppearance 5 (fun _ _ => appearanceOf 0 0 0 0 [] [] []) endpointTestRow 8 1
            ⟨30, 50, 80⟩ (fun k => [⟨0, 0, 0, 0, true⟩, ⟨3, 0, 4, 0, true⟩].getD k default)
            1 p = some a ∧
          a._firstBox = (fun k => [⟨0, 0, 0, 0, true⟩, ⟨3, 0, 4, 0, true⟩].getD k default) p.1 ∧
          a._secondBox
            = (fun k => [⟨0, 0, 0, 0, true⟩, ⟨3, 0, 4, 0, true⟩].getD k default) p.2 ∧
          a.colorStartX = e.firstX ∧ a.colorStartY = e.firstY ∧
          a.colorEndX = e.secondX ∧ a.colorEndY = e.secondY ∧
          a.sectionCount = 1 ∧
          ¬ (a.colorStartX = a.colorEndX ∧ a.colorStartY = a.colorEndY))
        ((boxPairs 2).filter (refinedDistinct 5 endpointTestRow 8 1 ⟨30, 50, 80⟩
          (fun k => [⟨0, 0, 0, 0, true⟩, ⟨3, 0, 4, 0, true⟩].getD k default))) dst ∧
      (∀ p, p ∈ boxPairs 2 ↔ p.1 < p.2 ∧ p.2 < 2) ∧
      (boxPairs 2).Pairwise (fun p q => p.1 < q.1 ∨ (p.1 = q.1 ∧ p.2 < q.2)) ∧
      dst.length ≤ 2 * (2 - 1) / 2 :=
  ⟨by
    rw [find_bar_code_appearances_eq 5 _ _ _ _ _ _ 2 1 4 (by decide)]
    rcases (pairStep_eq 5 (fun _ _ => appearanceOf 0 0 0 0 [] [] []) endpointTestRow 8 1
      ⟨30, 50, 80⟩ (fun k => [⟨0, 0, 0, 0, true⟩, ⟨3, 0, 4, 0, true⟩].getD k default) 1 4 0 1 []
      (by decide)).2 with ⟨h, _⟩ | ⟨_, e, a, he, ha, hh, _⟩
    · exact absurd h (by decide)
    · have he2 : refinedSegment 5 endpointTestRow 8 1 ⟨30, 50, 80⟩
          (fun k => [⟨0, 0, 0, 0, true⟩, ⟨3, 0, 4, 0, true⟩].getD k default) (0, 1)
          = some ⟨1, 0, 3, 0, true, false, 3, 0, [(0, 0), (1, 0), (2, 0), (3, 0)]⟩ := by decide
      rw [he2] at he
      cases he
      have hp : boxPairs 2 = [(0, 1)] := by decide
      rw [hp]
      simp only [List.filterMap_cons, ha, List.filterMap_nil, Option.map_some', List.map, hh]
      rfl,
   find_bar_code_appearances_pairs 5 (fun _ _ => appearanceOf 0 0 0 0 [] [] []) endpointTestRow
    8 1 ⟨30, 50, 80⟩ (fun k => [⟨0, 0, 0, 0, true⟩, ⟨3, 0, 4, 0, true⟩].getD k default) 2 1 4
    (by decide) (by decide)⟩

/-! ## Theorems: the search over one image for several contexts -/

theorem RankAgree_refl (s : RankState) : RankAgree s s :=
  ⟨rfl, fun _ _ => ⟨rfl, rfl⟩⟩

theorem find?_congr_mem {α : Type} (p q : α → Bool) :
    ∀ l : List α, (∀ a ∈ l, p a = q a) → l.find? p = l.find? q := by
  intro l
  induction l with
  | nil => intro _; rfl
  | cons a l ih =>
    intro h
    rw [List.find?_cons, List.find?_cons, h a (List.mem_cons_self _ _),
      ih (fun b hb => h b (List.mem_cons_of_mem _ hb))]

theorem insertPosition_agree (s s' : RankState) (h : RankAgree s s') (m : ℚ) :
    ((List.range s.count).find? (fun j => m > s.resultScores j)).getD s.count
      = ((List.range s'.count).find? (fun j => m > s'.resultScores j)).getD s'.count ∧
    ((List.range s.count).find? (fun j => m > s.resultScores j)).getD s.count ≤ s.count := by
  obtain ⟨hc, he⟩ := h
  have hf : (List.range s.count).find? (fun j => decide (m > s.resultScores j))
      = (List.range s'.count).find? (fun j => decide (m > s'.resultScores j)) := by
    rw [← hc]
    apply find?_congr_mem
    intro j hj
    rw [(he j (List.mem_range.mp hj)).2]
  refine ⟨by rw [hf, hc], ?_⟩
  cases hx : (List.range s.count).find? (fun j => decide (m > s.resultScores j)) with
  | none => simp
  | some j =>
    have := List.mem_of_find?_eq_some hx
    simp only [Option.getD_some]
    exact le_of_lt (List.mem_range.mp this)

theorem insertedState_agree (s s' : RankState) (h : RankAgree s s') (p i : Nat) (m : ℚ)
    (hp : p ≤ s.count) : RankAgree (insertedState s p i m) (insertedState s' p i m) := by
  obtain ⟨hc, he⟩ := h
  refine ⟨by simp only [insertedState, hc], fun t ht => ?_⟩
  simp only [insertedState] at ht ⊢
  rw [← hc]
  by_cases h1 : t = p
  · simp only [if_pos h1, and_self]
  · simp only [if_neg h1]
    by_cases h2 : p < t ∧ t ≤ s.count
    · simp only [if_pos h2]
      exact he (t - 1) (by omega)
    · simp only [if_neg h2]
      exact he t (by omega)

theorem rankStep_none (fuel : Nat) (barCode : BarCode) (minLineDistance : Int)
    (minMatchScore : ℚ) (appearances : Nat → BarCodeAppearance) (K : Nat) (s : RankState)
    (i : Nat) (hq : quantify_bar_code_appearance_match fuel barCode (appearances i) = none) :
    rankStep fuel barCode minLineDistance minMatchScore appearances K s i
      = if _get_distance (appearances i).colorStartX (appearances i).colorStartY
            (appearances i).colorEndX (appearances i).colorEndY < minLineDistance then some s
        else none := by
  unfold rankStep
  simp only [hq]

theorem rankStep_agree (fuel : Nat) (barCode : BarCode) (minLineDistance : Int)
    (minMatchScore : ℚ) (A A' : Nat → BarCodeAppearance) (K : Nat) (s s' : RankState)
    (i : Nat) (hA : A i = A' i) (h : RankAgree s s') :
    (rankStep fuel barCode minLineDistance minMatchScore A K s i = none ∧
        rankStep fuel barCode minLineDistance minMatchScore A' K s' i = none) ∨
      ∃ r r', rankStep fuel barCode minLineDistance minMatchScore A K s i = some r ∧
        rankStep fuel barCode minLineDistance minMatchScore A' K s' i = some r' ∧
        RankAgree r r' := by
  cases hq : quantify_bar_code_appearance_match fuel barCode (A i) with
  | none =>
    rw [rankStep_none _ _ _ _ _ _ _ _ hq, rankStep_none _ _ _ _ _ _ _ _ (hA ▸ hq), ← hA]
    by_cases hd : _get_distance (A i).colorStartX (A i).colorStartY (A i).colorEndX
        (A i).colorEndY < minLineDistance
    · rw [if_pos hd, if_pos hd]
      exact Or.inr ⟨s, s', rfl, rfl, h⟩
    · rw [if_neg hd, if_neg hd]
      exact Or.inl ⟨rfl, rfl⟩
  | some m =>
    rw [rankStep_eq _ _ _ _ _ _ _ _ m hq, rankStep_eq _ _ _ _ _ _ _ _ m (hA ▸ hq), ← hA]
    refine Or.inr ⟨_, _, rfl, rfl, ?_⟩
    obtain ⟨hp1, hp2⟩ := insertPosition_agree s s' h m
    by_cases hd : _get_distance (A i).colorStartX (A i).colorStartY (A i).colorEndX
        (A i).colorEndY < minLineDistance
    · simp only [if_pos hd]; exact h
    · simp only [if_neg hd]
      by_cases hm : m < minMatchScore
      · simp only [if_pos hm]; exact h
      · simp only [if_neg hm]
        by_cases hK : s.count < K
        · rw [if_pos hK, if_pos (h.1 ▸ hK), ← hp1]
          exact insertedState_agree s s' h _ i m hp2
        · rw [if_neg hK, if_neg (h.1 ▸ hK)]; exact h

theorem rankFold_agree (fuel : Nat) (barCode : BarCode) (minLineDistance : Int)
    (minMatchScore : ℚ) (A A' : Nat → BarCodeAppearance) (K : Nat) :
    ∀ (l : List Nat) (s s' : RankState), (∀ i ∈ l, A i = A' i) → RankAgree s s' →
      (l.foldlM (rankStep fuel barCode minLineDistance minMatchScore A K) s = none ∧
          l.foldlM (rankStep fuel barCode minLineDistance minMatchScore A' K) s' = none) ∨
        ∃ r r', l.foldlM (rankStep fuel barCode minLineDistance minMatchScore A K) s = some r ∧
          l.foldlM (rankStep fuel barCode minLineDistance minMatchScore A' K) s' = some r' ∧
          RankAgree r r' := by
  intro l
  induction l with
  | nil => intro s s' _ h; exact Or.inr ⟨s, s', rfl, rfl, h⟩
  | cons i l ih =>
    intro s s' hA h
    rw [List.foldlM_cons, List.foldlM_cons]
    rcases rankStep_agree fuel barCode minLineDistance minMatchScore A A' K s s' i
      (hA i (List.mem_cons_self _ _)) h with ⟨h1, h2⟩ | ⟨r, r', h1, h2, h3⟩
    · rw [h1, h2]
      exact Or.inl ⟨rfl, rfl⟩
    · rw [h1, h2]
      exact ih r r' (fun j hj => hA j (List.mem_cons_of_mem _ hj)) h3

theorem find_appearances_agree (fuel : Nat) (barCode : BarCode) (minLineDistance : Int)
    (minMatchScore : ℚ) (A A' : Nat → BarCodeAppearance) (n : Nat)
    (R R' : Nat → Nat) (S S' : Nat → ℚ) (K : Nat) (hA : ∀ i < n, A i = A' i) :
    (find_appearances_of_bar_code fuel barCode minLineDistance minMatchScore A n R S K = none ∧
        find_appearances_of_bar_code fuel barCode minLineDistance minMatchScore A' n R' S' K
          = none) ∨
      ∃ r r', find_appearances_of_bar_code fuel barCode minLineDistance minMatchScore A n R S K
          = some r ∧
        find_appearances_of_bar_code fuel barCode minLineDistance minMatchScore A' n R' S' K
          = some r' ∧ RankAgree r r' := by
  unfold find_appearances_of_bar_code
  exact rankFold_agree fuel barCode minLineDistance minMatchScore A A' K (List.range n) _ _
    (fun i hi => hA i (List.mem_range.mp hi))
    ⟨rfl, fun j hj => absurd hj (Nat.not_lt_zero j)⟩
theorem sizeToInt_small (c : Nat) (h : c < 2 ^ 31) : sizeToInt c = (c : Int) := by
  unfold sizeToInt
  have h1 : c % 2 ^ 32 = c := Nat.mod_eq_of_lt (by omega)
  rw [h1, if_pos h]

theorem sectionCountLoop_spec (contexts : Nat → BarCodeFindContext) :
    ∀ n : Nat, 1 ≤ n →
      ((∀ i < n, 0 < i → sizeToInt (contexts 0).barCode.colorCount % 2 ^ 64
            = ((contexts i).barCode.colorCount : Int)) →
          sectionCountLoop contexts n = some (sizeToInt (contexts 0).barCode.colorCount)) ∧
      ((∃ i < n, 0 < i ∧ sizeToInt (contexts 0).barCode.colorCount % 2 ^ 64
            ≠ ((contexts i).barCode.colorCount : Int)) →
          sectionCountLoop contexts n = none) := by
  intro n hn
  induction n with
  | zero => omega
  | succ n ih =>
    unfold sectionCountLoop at ih ⊢
    rw [List.range_succ, List.foldlM_append]
    by_cases hn0 : n = 0
    · subst hn0
      refine ⟨fun _ => ?_, ?_⟩
      · simp only [List.range_zero, List.foldlM_nil, List.foldlM_cons, if_true,
          bind, Option.bind, pure]
      · rintro ⟨i, hi, hi0, _⟩
        omega
    · obtain ⟨ih1, ih2⟩ := ih (by omega)
      refine ⟨fun h => ?_, ?_⟩
      · rw [ih1 (fun i hi hi0 => h i (by omega) hi0)]
        simp only [List.foldlM_cons, List.foldlM_nil, bind, Option.bind, pure, if_neg hn0,
          if_pos (h n (by omega) (by omega))]
      · rintro ⟨i, hi, hi0, hne⟩
        by_cases hall : ∀ i < n, 0 < i → sizeToInt (contexts 0).barCode.colorCount % 2 ^ 64
            = ((contexts i).barCode.colorCount : Int)
        · rw [ih1 hall]
          have hin : i = n := by
            by_contra hx
            exact hne (hall i (by omega) hi0)
          subst hin
          simp only [List.foldlM_cons, List.foldlM_nil, bind, Option.bind, pure, if_neg hn0,
            if_neg hne]
        · push_neg at hall
          obtain ⟨i', h1, h2, h3⟩ := hall
          rw [ih2 ⟨i', h1, h2, h3⟩]
          rfl

theorem copyFold_spec (A : Nat → BarCodeAppearance) (R : Nat → Nat) (S : Nat → ℚ)
    (ctx : BarCodeFindContext) :
    ∀ n : Nat,
      ((List.range n).foldl (copyStep A R S) ctx).appearanceCount = ctx.appearanceCount ∧
      ((List.range n).foldl (copyStep A R S) ctx).appearanceBufferCapacity
        = ctx.appearanceBufferCapacity ∧
      ((List.range n).foldl (copyStep A R S) ctx).barCode = ctx.barCode ∧
      ((List.range n).foldl (copyStep A R S) ctx).minMatchScore = ctx.minMatchScore ∧
      ((List.range n).foldl (copyStep A R S) ctx).minLineDistance = ctx.minLineDistance ∧
      ∀ j, ((List.range n).foldl (copyStep A R S) ctx).appearanceBuffer j
          = (if j < n then A (R j) else ctx.appearanceBuffer j) ∧
        ((List.range n).foldl (copyStep A R S) ctx).appearanceMatchScores j
          = (if j < n then S j else ctx.appearanceMatchScores j) := by
  intro n
  induction n with
  | zero => simp
  | succ n ih =>
    obtain ⟨h1, h2, h3, h4, h5, h6⟩ := ih
    rw [List.range_succ, List.foldl_append, List.foldl_cons, List.foldl_nil]
    refine ⟨h1, h2, h3, h4, h5, fun j => ?_⟩
    simp only [copyStep]
    by_cases e : j = n
    · subst e
      simp
    · rw [Function.update_noteq e, Function.update_noteq e, (h6 j).1, (h6 j).2]
      by_cases hj : j < n
      · rw [if_pos hj, if_pos hj, if_pos (by omega), if_pos (by omega)]
        exact ⟨rfl, rfl⟩
      · rw [if_neg hj, if_neg hj, if_neg (by omega), if_neg (by omega)]
        exact ⟨rfl, rfl⟩

theorem matchStep_spec (fuel : Nat) (A : Nat → BarCodeAppearance) (n K : Nat) (s : MatchState)
    (i : Nat) (r : RankState)
    (hr : find_appearances_of_bar_code fuel (s.contexts i).barCode
      (s.contexts i).minLineDistance (s.contexts i).minMatchScore A n s.appearanceSortBuffer
      s.appearanceSortMatchScoreBuffer K = some r) :
    ∃ s', matchStep fuel A n K s i = some s' ∧
      ContextResult A r (s.contexts i) (s'.contexts i) ∧
      ∀ k, k ≠ i → s'.contexts k = s.contexts k := by
  unfold matchStep
  rw [hr]
  simp only []
  refine ⟨_, rfl, ?_, fun k hk => Function.update_noteq hk _ _⟩
  simp only [Function.update_same]
  generalize hc : (if r.count > (s.contexts i).appearanceBufferCapacity then
      { ({ s.contexts i with appearanceCount := r.count } : BarCodeFindContext) with
        appearanceCount := (s.contexts i).appearanceBufferCapacity }
    else ({ s.contexts i with appearanceCount := r.count } : BarCodeFindContext)) = c
  have hc1 : c.appearanceCount = min r.count (s.contexts i).appearanceBufferCapacity ∧
      c.appearanceBufferCapacity = (s.contexts i).appearanceBufferCapacity ∧
      c.barCode = (s.contexts i).barCode ∧ c.minMatchScore = (s.contexts i).minMatchScore ∧
      c.minLineDistance = (s.contexts i).minLineDistance ∧
      c.appearanceBuffer = (s.contexts i).appearanceBuffer ∧
      c.appearanceMatchScores = (s.contexts i).appearanceMatchScores := by
    rw [← hc]
    split_ifs with h
    · exact ⟨by simp only; omega, rfl, rfl, rfl, rfl, rfl, rfl⟩
    · exact ⟨by simp only; omega, rfl, rfl, rfl, rfl, rfl, rfl⟩
  obtain ⟨c1, c2, c3, c4, c5, c6, c7⟩ := hc1
  obtain ⟨f1, f2, f3, f4, f5, f6⟩ := copyFold_spec A r.results r.resultScores c c.appearanceCount
  refine ⟨by rw [f1, c1], fun j hj => ?_, fun j hj => ?_, by rw [f2, c2], by rw [f3, c3],
    by rw [f4, c4], by rw [f5, c5]⟩
  · rw [f1] at hj
    rw [(f6 j).1, (f6 j).2, if_pos hj, if_pos hj]
    exact ⟨rfl, rfl⟩
  · rw [f1] at hj
    rw [(f6 j).1, (f6 j).2, if_neg (by omega), if_neg (by omega), c6, c7]
    exact ⟨rfl, rfl⟩
theorem ContextResult_agree {A : Nat → BarCodeAppearance} {r r' : RankState}
    {ctx0 ctx : BarCodeFindContext} (h : ContextResult A r' ctx0 ctx) (ha : RankAgree r r') :
    ContextResult A r ctx0 ctx := by
  obtain ⟨hc, he⟩ := ha
  refine ⟨by rw [h.count, hc], fun j hj => ?_, h.others, h.capacity, h.barCode, h.minMatchScore,
    h.minLineDistance⟩
  have hj' : j < r.count := by
    have := h.count
    omega
  rw [(h.entries j hj).1, (h.entries j hj).2, (he j hj').1, (he j hj').2]
  exact ⟨rfl, rfl⟩

theorem matchFold_spec (fuel : Nat) (A : Nat → BarCodeAppearance) (n K : Nat)
    (contexts : Nat → BarCodeFindContext) (R0 : Nat → Nat) (S0 : Nat → ℚ) (contextCount : Nat)
    (htotal : ∀ k < contextCount, ∃ r, find_appearances_of_bar_code fuel (contexts k).barCode
      (contexts k).minLineDistance (contexts k).minMatchScore A n R0 S0 K = some r) :
    ∃ s, (List.range contextCount).foldlM (matchStep fuel A n K)
        { contexts := contexts, appearanceSortBuffer := R0,
          appearanceSortMatchScoreBuffer := S0 } = some s ∧
      (∀ k, contextCount ≤ k → s.contexts k = contexts k) ∧
      ∀ k < contextCount, ∃ r, find_appearances_of_bar_code fuel (contexts k).barCode
          (contexts k).minLineDistance (contexts k).minMatchScore A n R0 S0 K = some r ∧
        ContextResult A r (contexts k) (s.contexts k) := by
  refine foldlM_range_option (matchStep fuel A n K)
    (fun i s => (∀ k, i ≤ k → s.contexts k = contexts k) ∧
      ∀ k < i, ∃ r, find_appearances_of_bar_code fuel (contexts k).barCode
          (contexts k).minLineDistance (contexts k).minMatchScore A n R0 S0 K = some r ∧
        ContextResult A r (contexts k) (s.contexts k))
    contextCount _ ⟨fun _ _ => rfl, fun k hk => absurd hk (Nat.not_lt_zero k)⟩ ?_
  intro i s hi ⟨h1, h2⟩
  obtain ⟨r0, hr0⟩ := htotal i hi
  have hci := h1 i (le_refl i)
  rcases find_appearances_agree fuel (contexts i).barCode (contexts i).minLineDistance
    (contexts i).minMatchScore A A n R0 s.appearanceSortBuffer S0
    s.appearanceSortMatchScoreBuffer K (fun _ _ => rfl) with ⟨e1, _⟩ | ⟨r, r', e1, e2, ha⟩
  · rw [hr0] at e1; cases e1
  · rw [hr0] at e1
    cases e1
    obtain ⟨s', hs', hres, hother⟩ := matchStep_spec fuel A n K s i r' (by rw [hci]; exact e2)
    refine ⟨s', hs', fun k hk => ?_, fun k hk => ?_⟩
    · rw [hother k (by omega)]
      exact h1 k (by omega)
    · by_cases e : k = i
      · subst e
        rw [hci] at hres
        exact ⟨r0, hr0, ContextResult_agree hres ha⟩
      · rw [hother k e]
        exact h2 k (by omega)

theorem find_yellow_lines_bounds (rgba8 : Nat → Nat) (width height : Int) (cfg : YellowConfig)
    (maxCount : Nat) (hw : (8 : Int) ∣ width) :
    ∃ L, find_yellow_lines rgba8 width height cfg maxCount = some L ∧ L.length ≤ maxCount ∧
      ∀ l ∈ L, 0 ≤ l.y ∧ l.y < height ∧ 0 ≤ l.start ∧ l.start ≤ l.end_ ∧ l.end_ < width := by
  have hw' : width % 8 = 0 := Int.emod_eq_zero_of_dvd hw
  refine ⟨_, find_yellow_lines_eq rgba8 width height cfg maxCount hw', ?_, fun l hl => ?_⟩
  · rw [List.length_take]
    exact Nat.min_le_left _ _
  · obtain ⟨_, hinv⟩ := ImageInv_fold rgba8 width cfg (width.toNat / 8) (by omega) height.toNat
    obtain ⟨a1, a2, a3, a4, a5⟩ := hinv.wf l (List.mem_of_mem_take hl)
    exact ⟨a1, by omega, a3, a4, by omega⟩
theorem setIgnore_congr {n : Nat} {l l' : Nat → YellowScanLine}
    (h : ∀ k < n, l k = l' k) (a : Nat) (v : Bool) :
    ∀ k < n, setIgnore l a v k = setIgnore l' a v k := by
  intro k hk
  rw [setIgnore_apply, setIgnore_apply]
  by_cases e : k = a
  · rw [if_pos e, if_pos e, ← e, h k hk]
  · rw [if_neg e, if_neg e, h k hk]

theorem adjacentStep_rel (S : Int) (T ci : Nat) (cl : YellowScanLine) {n : Nat}
    {c c' : CollectState} (h : CollectRel n c c') (k : Nat) (hk : k < n) :
    CollectRel n (adjacentStep S T ci cl c k) (adjacentStep S T ci cl c' k) := by
  unfold adjacentStep
  rw [← h.lines k hk, ← h.count]
  by_cases h1 : (c.lines k)._ignore = true
  · simp only [if_pos h1]; exact h
  · simp only [if_neg h1]
    by_cases h2 : k = ci
    · simp only [if_pos h2]; exact h
    · simp only [if_neg h2]
      by_cases h3 : _are_lines_adjacent cl (c.lines k) S = true
      · simp only [if_pos h3]
        by_cases h4 : c.containedLineCount < T
        · simp only [if_pos h4]
          refine ⟨setIgnore_congr h.lines k true, by simp only [h.count], h.ran, fun t ht => ?_⟩
          simp only at ht ⊢
          by_cases e : t = c.containedLineCount
          · rw [e, Function.update_same, Function.update_same]
            exact ⟨rfl, hk⟩
          · rw [Function.update_noteq e, Function.update_noteq e]
            exact h.tmp t (by omega)
        · simp only [if_neg h4]
          exact ⟨h.lines, rfl, rfl, h.tmp⟩
      · simp only [if_neg h3]; exact h

theorem adjacentFold_rel (S : Int) (T ci : Nat) (cl : YellowScanLine) {n : Nat} :
    ∀ (l : List Nat) (c c' : CollectState), (∀ k ∈ l, k < n) → CollectRel n c c' →
      CollectRel n (l.foldl (adjacentStep S T ci cl) c) (l.foldl (adjacentStep S T ci cl) c') := by
  intro l
  induction l with
  | nil => intro c c' _ h; exact h
  | cons k l ih =>
    intro c c' hl h
    simp only [List.foldl_cons]
    exact ih _ _ (fun x hx => hl x (List.mem_cons_of_mem _ hx))
      (adjacentStep_rel S T ci cl h k (hl k (List.mem_cons_self _ _)))

theorem collectLines_rel (n : Nat) (S : Int) (T i : Nat) :
    ∀ (fuel j : Nat) (c c' : CollectState), CollectRel n c c' →
      (collectLines n S T i fuel j c = none ∧ collectLines n S T i fuel j c' = none) ∨
      ∃ r r', collectLines n S T i fuel j c = some r ∧ collectLines n S T i fuel j c' = some r' ∧
        CollectRel n r r' := by
  intro fuel
  induction fuel with
  | zero => intro j c c' _; exact Or.inl ⟨rfl, rfl⟩
  | succ fuel ih =>
    intro j c c' h
    rw [collectLines, collectLines, ← h.count]
    by_cases hj : j < c.containedLineCount
    · simp only [if_pos hj]
      obtain ⟨e1, e2⟩ := h.tmp j hj
      rw [← e1, ← h.lines _ e2]
      apply ih
      apply adjacentFold_rel
      · intro k hk
        have := List.mem_range'_1.mp hk
        omega
      · exact ⟨setIgnore_congr h.lines _ true, rfl, h.ran, h.tmp⟩
    · simp only [if_neg hj]
      exact Or.inr ⟨c, c', rfl, rfl, h⟩

theorem fitFold_rel (n : Nat) (tmp tmp' : Nat → Nat) :
    ∀ (m : Nat) (box : YellowBoundingBox) (l l' : Nat → YellowScanLine),
      (∀ k < n, l k = l' k) → (∀ t < m, tmp t = tmp' t ∧ tmp t < n) →
      ((List.range m).foldl (fitStep tmp) (box, l)).1
          = ((List.range m).foldl (fitStep tmp') (box, l')).1 ∧
        ∀ k < n, ((List.range m).foldl (fitStep tmp) (box, l)).2 k
          = ((List.range m).foldl (fitStep tmp') (box, l')).2 k := by
  intro m
  induction m with
  | zero => intro box l l' h _; exact ⟨rfl, h⟩
  | succ m ih =>
    intro box l l' h ht
    obtain ⟨h1, h2⟩ := ih box l l' h (fun t ht' => ht t (by omega))
    rw [List.range_succ, List.foldl_append, List.foldl_append]
    simp only [List.foldl_cons, List.foldl_nil]
    generalize (List.range m).foldl (fitStep tmp) (box, l) = r at h1 h2
    generalize (List.range m).foldl (fitStep tmp') (box, l') = r' at h1 h2
    obtain ⟨b, ll⟩ := r
    obtain ⟨b', ll'⟩ := r'
    simp only at h1 h2
    subst h1
    obtain ⟨e1, e2⟩ := ht m (by omega)
    unfold fitStep
    simp only []
    rw [← e1, ← h2 _ e2]
    exact ⟨rfl, setIgnore_congr h2 _ true⟩

theorem boxStep_rel (fuel n : Nat) (S : Int) (T M : Nat) (s s' : RectState) (i : Nat)
    (hi : i < n) (hl : ∀ k < n, s.lines k = s'.lines k) (hd : s.dst = s'.dst) :
    (boxStep fuel n S T M s i = .error .outOfFuel ∧
        boxStep fuel n S T M s' i = .error .outOfFuel) ∨
      (∃ r r', boxStep fuel n S T M s i = .error (.returned r) ∧
        boxStep fuel n S T M s' i = .error (.returned r') ∧ r.dst = r'.dst) ∨
      ∃ r r', boxStep fuel n S T M s i = .ok r ∧ boxStep fuel n S T M s' i = .ok r' ∧
        (∀ k < n, r.lines k = r'.lines k) ∧ r.dst = r'.dst := by
  unfold boxStep
  rw [← hl i hi, ← hd]
  by_cases hig : (s.lines i)._ignore = true
  · simp only [if_pos hig]
    exact Or.inr (Or.inr ⟨s, s', rfl, rfl, hl, hd⟩)
  · simp only [if_neg hig]
    have hrel : CollectRel n
        { lines := s.lines, tmpIndexBuffer := Function.update s.tmpIndexBuffer 0 i,
          containedLineCount := 1, ranOutOfTempSpace := false }
        { lines := s'.lines, tmpIndexBuffer := Function.update s'.tmpIndexBuffer 0 i,
          containedLineCount := 1, ranOutOfTempSpace := false } := by
      refine ⟨hl, rfl, rfl, fun t ht => ?_⟩
      simp only at ht
      have e : t = 0 := by omega
      subst e
      simp only [Function.update_same]
      exact ⟨trivial, hi⟩
    rcases collectLines_rel n S T i fuel 0 _ _ hrel with ⟨e1, e2⟩ | ⟨c, c', e1, e2, hc⟩
    · rw [e1, e2]
      exact Or.inl ⟨rfl, rfl⟩
    · rw [e1, e2]
      simp only []
      rw [← hc.ran, ← hc.count]
      obtain ⟨f1, f2⟩ := fitFold_rel n c.tmpIndexBuffer c'.tmpIndexBuffer c.containedLineCount
        { left := (s.lines i).start, top := (s.lines i).y, right := (s.lines i).end_,
          bottom := (s.lines i).y, isComplete := !c.ranOutOfTempSpace } c.lines c'.lines
        hc.lines hc.tmp
      by_cases hroom : s.dst.length < M
      · simp only [if_pos hroom]
        exact Or.inr (Or.inr ⟨_, _, rfl, rfl, f2, by simp only [f1]⟩)
      · simp only [if_neg hroom]
        exact Or.inr (Or.inl ⟨_, _, rfl, rfl, rfl⟩)

theorem rectFold_rel (fuel n : Nat) (S : Int) (T M : Nat) :
    ∀ (l : List Nat) (s s' : RectState), (∀ i ∈ l, i < n) →
      (∀ k < n, s.lines k = s'.lines k) → s.dst = s'.dst →
      (l.foldlM (boxStep fuel n S T M) s = .error .outOfFuel ∧
          l.foldlM (boxStep fuel n S T M) s' = .error .outOfFuel) ∨
        (∃ r r', l.foldlM (boxStep fuel n S T M) s = .error (.returned r) ∧
          l.foldlM (boxStep fuel n S T M) s' = .error (.returned r') ∧ r.dst = r'.dst) ∨
        ∃ r r', l.foldlM (boxStep fuel n S T M) s = .ok r ∧
          l.foldlM (boxStep fuel n S T M) s' = .ok r' ∧ r.dst = r'.dst := by
  intro l
  induction l with
  | nil => intro s s' _ _ hd; exact Or.inr (Or.inr ⟨s, s', rfl, rfl, hd⟩)
  | cons i l ih =>
    intro s s' hl hlines hd
    rw [List.foldlM_cons, List.foldlM_cons]
    rcases boxStep_rel fuel n S T M s s' i (hl i (List.mem_cons_self _ _)) hlines hd with
      ⟨e1, e2⟩ | ⟨r, r', e1, e2, h⟩ | ⟨r, r', e1, e2, h1, h2⟩
    · rw [e1, e2]
      exact Or.inl ⟨rfl, rfl⟩
    · rw [e1, e2]
      exact Or.inr (Or.inl ⟨r, r', rfl, rfl, h⟩)
    · rw [e1, e2]
      exact ih r r' (fun j hj => hl j (List.mem_cons_of_mem _ hj)) h1 h2

theorem find_yellow_rectangles_congr (fuel : Nat) (lines lines' : Nat → YellowScanLine)
    (n : Nat) (S : Int) (tmp tmp' : Nat → Nat) (T M : Nat)
    (h : ∀ k < n, sameGeom (lines k) (lines' k)) :
    (find_yellow_rectangles fuel lines n S tmp T M).map (fun s => s.dst)
      = (find_yellow_rectangles fuel lines' n S tmp' T M).map (fun s => s.dst) := by
  obtain ⟨g1, f1⟩ := resetIgnore_spec lines n
  obtain ⟨g2, f2⟩ := resetIgnore_spec lines' n
  have hl : ∀ k < n, (List.range n).foldl (fun l i => setIgnore l i false) lines k
      = (List.range n).foldl (fun l i => setIgnore l i false) lines' k := by
    intro k hk
    obtain ⟨a1, a2, a3⟩ := g1 k
    obtain ⟨b1, b2, b3⟩ := g2 k
    obtain ⟨c1, c2, c3⟩ := h k hk
    have d1 := f1 k hk
    have d2 := f2 k hk
    generalize (List.range n).foldl (fun l i => setIgnore l i false) lines k = x at *
    generalize (List.range n).foldl (fun l i => setIgnore l i false) lines' k = y at *
    cases x
    cases y
    simp only at *
    simp only [YellowScanLine.mk.injEq]
    exact ⟨by rw [a1, c1, b1], by rw [a2, c2, b2], by rw [a3, c3, b3], by rw [d1, d2]⟩
  unfold find_yellow_rectangles
  simp only []
  rcases rectFold_rel fuel n S T M (List.range n)
    { lines := (List.range n).foldl (fun l i => setIgnore l i false) lines,
      tmpIndexBuffer := tmp, dst := [] }
    { lines := (List.range n).foldl (fun l i => setIgnore l i false) lines',
      tmpIndexBuffer := tmp', dst := [] }
    (fun i hi => List.mem_range.mp hi) hl rfl with
    ⟨e1, e2⟩ | ⟨r, r', e1, e2, h⟩ | ⟨r, r', e1, e2, h⟩
  · rw [e1, e2]
  · rw [e1, e2]
    simp only [Option.map_some', h]
  · rw [e1, e2]
    simp only [Option.map_some', h]
theorem getD_mem_of_lt {α : Type} (L : List α) (k : Nat) (d : α) (h : k < L.length) :
    L.getD k d ∈ L ∧ ∀ d', L.getD k d = L.getD k d' := by
  rw [List.getD_eq_getElem _ _ h]
  exact ⟨List.getElem_mem h, fun d' => (List.getD_eq_getElem _ _ h).symm⟩

theorem pairAppearance_congr (fuel : Nat) (uninitialized : Nat → Nat → BarCodeAppearance)
    (rgba8 : Nat → Nat) (width height : Int) (yellowCfg : YellowConfig)
    (yb yb' : Nat → YellowBoundingBox) (sectionCount : Int) (p : Nat × Nat)
    (h1 : yb p.1 = yb' p.1) (h2 : yb p.2 = yb' p.2) :
    pairAppearance fuel uninitialized rgba8 width height yellowCfg yb sectionCount p
      = pairAppearance fuel uninitialized rgba8 width height yellowCfg yb' sectionCount p := by
  unfold pairAppearance refinedSegment
  rw [h1, h2]

theorem filterMap_congr_mem {α β : Type} (f g : α → Option β) :
    ∀ l : List α, (∀ a ∈ l, f a = g a) → l.filterMap f = l.filterMap g := by
  intro l
  induction l with
  | nil => intro _; rfl
  | cons a l ih =>
    intro h
    rw [List.filterMap_cons, List.filterMap_cons, h a (List.mem_cons_self _ _),
      ih (fun b hb => h b (List.mem_cons_of_mem _ hb))]

theorem rect_boxes_bounds (fuel : Nat) (L : List YellowScanLine) (S : Int) (T M : Nat)
    (W H : Int) (hfuel : L.length < fuel)
    (hL : ∀ l ∈ L, 0 ≤ l.y ∧ l.y < H ∧ 0 ≤ l.start ∧ l.start ≤ l.end_ ∧ l.end_ < W) :
    ∃ rect, find_yellow_rectangles fuel (fun k => L.getD k default) L.length S (fun _ => 0) T M
        = some rect ∧ rect.dst.length ≤ M ∧
      ∀ box ∈ rect.dst, 0 ≤ box.left ∧ box.left < W ∧ 0 ≤ box.right ∧ box.right < W ∧
        0 ≤ box.top ∧ box.top < H ∧ 0 ≤ box.bottom ∧ box.bottom < H := by
  obtain ⟨s, groups, h1, h2, h3, h4, _⟩ := find_yellow_rectangles_groups_any fuel
    (fun k => L.getD k default) L.length S (fun _ => 0) T M hfuel
  refine ⟨s, h1, h3, fun box hb => ?_⟩
  obtain ⟨m, hm⟩ := List.mem_iff_getElem?.mp hb
  have hml : m < s.dst.length := by
    by_contra hge
    rw [List.getElem?_eq_none_iff.mpr (by omega)] at hm
    cases hm
  have hgb := h4 m groups[m] box (List.getElem?_eq_getElem (by omega)) hm
  have hline : ∀ a ∈ groups[m], (fun k => L.getD k default) a ∈ L :=
    fun a ha => (getD_mem_of_lt L a default (hgb.mem a ha).2.1).1
  obtain ⟨a1, ha1, e1⟩ := hgb.left.2
  obtain ⟨a2, ha2, e2⟩ := hgb.right.2
  obtain ⟨a3, ha3, e3⟩ := hgb.top.2
  obtain ⟨a4, ha4, e4⟩ := hgb.bottom.2
  have b1 := hL _ (hline a1 ha1)
  have b2 := hL _ (hline a2 ha2)
  have b3 := hL _ (hline a3 ha3)
  have b4 := hL _ (hline a4 ha4)
  rw [e1, e2, e3, e4]
  simp only at b1 b2 b3 b4 ⊢
  refine ⟨b1.2.2.1, ?_, ?_, b2.2.2.2.2, b3.1, b3.2.1, b4.1, b4.2.1⟩
  · omega
  · omega

theorem boxCentre_fuel (boxes : List YellowBoundingBox) (yb : Nat → YellowBoundingBox)
    (W H : Int) (fuel : Nat) (hW : W ≤ fuel) (hH : H ≤ fuel)
    (hyb : ∀ k < boxes.length, yb k ∈ boxes)
    (hb : ∀ box ∈ boxes, 0 ≤ box.left ∧ box.left < W ∧ 0 ≤ box.right ∧ box.right < W ∧
        0 ≤ box.top ∧ box.top < H ∧ 0 ≤ box.bottom ∧ box.bottom < H) :
    ∀ i < boxes.length, ∀ j < boxes.length,
      max |(boxCentre (yb j)).1 - (boxCentre (yb i)).1|
        |(boxCentre (yb j)).2 - (boxCentre (yb i)).2| < (fuel : Int) := by
  intro i hi j hj
  obtain ⟨a1, a2, a3, a4, a5, a6, a7, a8⟩ := hb _ (hyb i hi)
  obtain ⟨c1, c2, c3, c4, c5, c6, c7, c8⟩ := hb _ (hyb j hj)
  unfold boxCentre
  simp only []
  rw [Int.tdiv_eq_ediv (by omega) (by norm_num), Int.tdiv_eq_ediv (by omega) (by norm_num),
    Int.tdiv_eq_ediv (by omega) (by norm_num), Int.tdiv_eq_ediv (by omega) (by norm_num)]
  apply max_lt
  · rw [abs_lt]; constructor <;> omega
  · rw [abs_lt]; constructor <;> omega
theorem pairAppearance_sectionCount (fuel : Nat) (uninitialized : Nat → Nat → BarCodeAppearance)
    (rgba8 : Nat → Nat) (width height : Int) (yellowCfg : YellowConfig)
    (yb : Nat → YellowBoundingBox) (sectionCount : Int) (p : Nat × Nat) (a : BarCodeAppearance)
    (h : pairAppearance fuel uninitialized rgba8 width height yellowCfg yb sectionCount p
      = some a) : a.sectionCount = sectionCount := by
  unfold pairAppearance at h
  cases hs : refinedSegment fuel rgba8 width height yellowCfg yb p with
  | none => rw [hs] at h; cases h
  | some e =>
    rw [hs] at h
    simp only [] at h
    by_cases heq : e.firstX = e.secondX ∧ e.firstY = e.secondY
    · rw [if_pos heq] at h; cases h
    · rw [if_neg heq] at h
      cases hr : _read_bar_code_appearance fuel (uninitialized p.1 p.2) rgba8 width height
          sectionCount (yb p.1) (yb p.2) e.firstX e.firstY e.secondX e.secondY with
      | none => rw [hr] at h; cases h
      | some r =>
        rw [hr] at h
        have hh := read_bar_code_appearance_header _ _ _ _ _ _ _ _ _ _ _ _ _ hr
        simp only [Option.map_some', Option.some.injEq] at h
        rw [← h]
        simp only [BarCodeAppearance.header, Prod.mk.injEq] at hh
        exact hh.2.2.2.2.2.2

theorem findAllAppearances_eq (fuel : Nat) (uninitialized : Nat → Nat → BarCodeAppearance)
    (rgba8 : Nat → Nat) (width height : Int) (yellowCfg : YellowConfig)
    (maxYellowSpacing sectionCount : Int) (memory : BarCodeFindTemporaryMemory)
    (hw : (8 : Int) ∣ width) (hf1 : memory.scanLineCapacity < fuel) (hf2 : width ≤ fuel)
    (hf3 : height ≤ fuel) :
    ∃ apps mem', sampledAppearances fuel uninitialized rgba8 width height yellowCfg
        maxYellowSpacing sectionCount memory.scanLineCapacity
        memory.temporaryIndexBufferCapacity memory.yellowBoxCapacity memory.appearanceCapacity
        = some apps ∧
      findAllAppearances fuel uninitialized rgba8 width height yellowCfg maxYellowSpacing
        sectionCount memory = some (mem', apps.length) ∧
      (∀ k < apps.length, mem'.appearances k = appearancesOf apps k) ∧
      mem'.appearanceSortBuffer = memory.appearanceSortBuffer ∧
      mem'.appearanceSortMatchScoreBuffer = memory.appearanceSortMatchScoreBuffer ∧
      mem'.appearanceSortBufferCapacity = memory.appearanceSortBufferCapacity ∧
      (∀ a ∈ apps, a.sectionCount = sectionCount) ∧
      apps.length ≤ memory.appearanceCapacity := by
  obtain ⟨L, hL, hLlen, hLb⟩ := find_yellow_lines_bounds rgba8 width height yellowCfg
    memory.scanLineCapacity hw
  obtain ⟨rect0, hr0, _, hb0⟩ := rect_boxes_bounds fuel L maxYellowSpacing
    memory.temporaryIndexBufferCapacity memory.yellowBoxCapacity width height (by omega) hLb
  have hc := find_yellow_rectangles_congr fuel (fun k => L.getD k default)
    (fun k => L.getD k (memory.scanLines k)) L.length maxYellowSpacing (fun _ => 0)
    memory.temporaryIndexBuffer memory.temporaryIndexBufferCapacity memory.yellowBoxCapacity
    (fun k hk => by
      simp only []
      rw [(getD_mem_of_lt L k default hk).2 (memory.scanLines k)]
      exact ⟨rfl, rfl, rfl⟩)
  rw [hr0] at hc
  cases hr : find_yellow_rectangles fuel (fun k => L.getD k (memory.scanLines k)) L.length
      maxYellowSpacing memory.temporaryIndexBuffer memory.temporaryIndexBufferCapacity
      memory.yellowBoxCapacity with
  | none => rw [hr] at hc; cases hc
  | some rect =>
    rw [hr] at hc
    simp only [Option.map_some', Option.some.injEq] at hc
    have hfuel0 := boxCentre_fuel rect0.dst (fun k => rect0.dst.getD k default) width height
      fuel hf2 hf3 (fun k hk => (getD_mem_of_lt _ k default hk).1) hb0
    have hfuel1 := boxCentre_fuel rect0.dst (fun k => rect0.dst.getD k (memory.yellowBoxes k))
      width height fuel hf2 hf3 (fun k hk => (getD_mem_of_lt _ k _ hk).1) hb0
    have e0 := find_bar_code_appearances_eq fuel uninitialized rgba8 width height yellowCfg
      (fun k => rect0.dst.getD k default) rect0.dst.length sectionCount
      memory.appearanceCapacity hfuel0
    have e1 := find_bar_code_appearances_eq fuel uninitialized rgba8 width height yellowCfg
      (fun k => rect0.dst.getD k (memory.yellowBoxes k)) rect0.dst.length sectionCount
      memory.appearanceCapacity hfuel1
    have hlist : (boxPairs rect0.dst.length).filterMap (pairAppearance fuel uninitialized rgba8
        width height yellowCfg (fun k => rect0.dst.getD k (memory.yellowBoxes k)) sectionCount)
        = (boxPairs rect0.dst.length).filterMap (pairAppearance fuel uninitialized rgba8
        width height yellowCfg (fun k => rect0.dst.getD k default) sectionCount) := by
      apply filterMap_congr_mem
      intro p hp
      obtain ⟨h1, h2⟩ := (mem_boxPairs _ p).mp hp
      apply pairAppearance_congr
      · exact ((getD_mem_of_lt _ p.1 default (by omega)).2 _).symm
      · exact ((getD_mem_of_lt _ p.2 default h2).2 _).symm
    rw [hlist] at e1
    refine ⟨((boxPairs rect0.dst.length).filterMap (pairAppearance fuel uninitialized rgba8
        width height yellowCfg (fun k => rect0.dst.getD k default) sectionCount)).take
          memory.appearanceCapacity,
      { memory with
        scanLines := rect.lines
        temporaryIndexBuffer := rect.tmpIndexBuffer
        yellowBoxes := fun k => rect0.dst.getD k (memory.yellowBoxes k)
        appearances := fun k => (((boxPairs rect0.dst.length).filterMap (pairAppearance fuel
          uninitialized rgba8 width height yellowCfg (fun k => rect0.dst.getD k default)
          sectionCount)).take memory.appearanceCapacity).getD k (memory.appearances k) },
      ?_, ?_, ?_, rfl, rfl, rfl, ?_, ?_⟩
    · unfold sampledAppearances
      rw [hL]
      simp only []
      rw [hr0]
      simp only []
      exact e0
    · unfold findAllAppearances
      rw [hL]
      simp only []
      rw [hr]
      simp only []
      rw [← hc, e1]
    · intro k hk
      simp only [appearancesOf]
      rw [(getD_mem_of_lt _ k _ hk).2 (appearanceOf 0 0 0 0 [] [] [])]
    · intro a ha
      obtain ⟨p, _, hp⟩ := List.mem_filterMap.mp (List.mem_of_mem_take ha)
      exact pairAppearance_sectionCount _ _ _ _ _ _ _ _ _ _ hp
    · rw [List.length_take]
      exact Nat.min_le_left _ _
theorem RankAgree_symm {s s' : RankState} (h : RankAgree s s') : RankAgree s' s :=
  ⟨h.1.symm, fun j hj => ⟨((h.2 j (h.1 ▸ hj)).1).symm, ((h.2 j (h.1 ▸ hj)).2).symm⟩⟩

theorem ContextResult_congr {A A' : Nat → BarCodeAppearance} {r : RankState}
    {ctx0 ctx : BarCodeFindContext} (h : ContextResult A r ctx0 ctx)
    (hA : ∀ j < r.count, A (r.results j) = A' (r.results j)) : ContextResult A' r ctx0 ctx := by
  refine ⟨h.count, fun j hj => ?_, h.others, h.capacity, h.barCode, h.minMatchScore,
    h.minLineDistance⟩
  have hj' : j < r.count := by
    have := h.count
    omega
  rw [← hA j hj']
  exact h.entries j hj

theorem interests_spec (fuel : Nat) (uninitialized : Nat → Nat → BarCodeAppearance)
    (rgba8 : Nat → Nat) (width height : Int) (yellowCfg : YellowConfig)
    (maxYellowSpacing : Int) (contexts : Nat → BarCodeFindContext) (contextCount : Nat)
    (memory : BarCodeFindTemporaryMemory) (N : Nat)
    (hw : (8 : Int) ∣ width) (hf1 : memory.scanLineCapacity < fuel) (hf2 : width ≤ fuel)
    (hf3 : height ≤ fuel) (hN : ∀ i < contextCount, (contexts i).barCode.colorCount = N)
    (hN31 : N < 2 ^ 31) (hfN : N < fuel) :
    ∃ apps final, sampledAppearances fuel uninitialized rgba8 width height yellowCfg
        maxYellowSpacing (N : Int) memory.scanLineCapacity memory.temporaryIndexBufferCapacity
        memory.yellowBoxCapacity memory.appearanceCapacity = some apps ∧
      find_appearances_of_bar_code_interests_in_bitmap fuel uninitialized rgba8 width height
        yellowCfg maxYellowSpacing contexts contextCount memory = some final ∧
      (∀ a ∈ apps, a.sectionCount = (N : Int)) ∧
      (∀ k, contextCount ≤ k → final.1 k = contexts k) ∧
      ∀ c < contextCount, ∃ r, find_appearances_of_bar_code fuel (contexts c).barCode
          (contexts c).minLineDistance (contexts c).minMatchScore (appearancesOf apps)
          apps.length (fun _ => 0) (fun _ => 0) memory.appearanceSortBufferCapacity = some r ∧
        ContextResult (appearancesOf apps) r (contexts c) (final.1 c) := by
  obtain ⟨apps, mem', h1, h2, h3, h4, h5, h6, h7, _⟩ := findAllAppearances_eq fuel uninitialized
    rgba8 width height yellowCfg maxYellowSpacing (N : Int) memory hw hf1 hf2 hf3
  by_cases hn : contextCount = 0
  · subst hn
    refine ⟨apps, (contexts, memory), h1, ?_, h7, fun _ _ => rfl, fun c hc => ?_⟩
    · unfold find_appearances_of_bar_code_interests_in_bitmap
      rw [if_pos rfl]
    · omega
  · have hc0 : (contexts 0).barCode.colorCount = N := hN 0 (by omega)
    have hsec : sectionCountLoop contexts contextCount = some (N : Int) := by
      have := (sectionCountLoop_spec contexts contextCount (by omega)).1 (fun i hi _ => by
        rw [hc0, hN i hi, sizeToInt_small N hN31]
        omega)
      rw [this, hc0, sizeToInt_small N hN31]
    have htotal : ∀ k < contextCount, ∃ r, find_appearances_of_bar_code fuel
        (contexts k).barCode (contexts k).minLineDistance (contexts k).minMatchScore
        mem'.appearances apps.length mem'.appearanceSortBuffer
        mem'.appearanceSortMatchScoreBuffer mem'.appearanceSortBufferCapacity = some r := by
      intro k hk
      apply find_appearances_total
      · rw [hN k hk]; omega
      · rw [hN k hk]; exact hfN
      · intro i hi _
        rw [hN k hk, h3 i hi]
        exact (h7 _ (getD_mem_of_lt apps i _ hi).1).symm
    obtain ⟨s, hs, hs1, hs2⟩ := matchFold_spec fuel mem'.appearances apps.length
      mem'.appearanceSortBufferCapacity contexts mem'.appearanceSortBuffer
      mem'.appearanceSortMatchScoreBuffer contextCount htotal
    refine ⟨apps, (s.contexts, { mem' with
      appearanceSortBuffer := s.appearanceSortBuffer
      appearanceSortMatchScoreBuffer := s.appearanceSortMatchScoreBuffer }), h1, ?_, h7, hs1,
      fun c hc => ?_⟩
    · unfold find_appearances_of_bar_code_interests_in_bitmap
      rw [if_neg hn, hsec]
      simp only []
      rw [h2]
      simp only []
      rw [hs]
    · obtain ⟨r, hr, hres⟩ := hs2 c hc
      rcases find_appearances_agree fuel (contexts c).barCode (contexts c).minLineDistance
        (contexts c).minMatchScore mem'.appearances (appearancesOf apps) apps.length
        mem'.appearanceSortBuffer (fun _ => 0) mem'.appearanceSortMatchScoreBuffer (fun _ => 0)
        mem'.appearanceSortBufferCapacity h3 with ⟨e1, _⟩ | ⟨r1, r2, e1, e2, ha⟩
      · rw [hr] at e1; cases e1
      · rw [hr] at e1
        cases e1
        rw [h6] at e2
        refine ⟨r2, e2, ?_⟩
        have hres2 := ContextResult_agree hres (RankAgree_symm ha)
        apply ContextResult_congr hres2
        intro j hj
        have hlt := ((find_appearances_entries _ _ _ _ _ _ _ _ _ r2 e2).2 j hj).1
        exact h3 _ hlt
/-- C24: the result that `find_appearances_of_bar_code_interests_in_bitmap` writes to a
context depends only on the image, the configuration, the spacing, the capacities of the memory
and the pattern, thresholds and capacity of that context: two runs on the same image whose
memories have the same capacities, whose contexts all have colour count `N`, and in which the
context `c` of the first run and the context `c2` of the second (at any positions, among any
other contexts) have the same pattern, thresholds and capacity, both return and leave the same
count and the same appearances and scores below the count in these two contexts. -/
theorem interests_context_independent (fuel : Nat)
    (uninitialized : Nat → Nat → BarCodeAppearance) (rgba8 : Nat → Nat) (width height : Int)
    (yellowCfg : YellowConfig) (maxYellowSpacing : Int)
    (contexts contexts2 : Nat → BarCodeFindContext) (contextCount contextCount2 : Nat)
    (memory memory2 : BarCodeFindTemporaryMemory) (N c c2 : Nat)
    (hw : (8 : Int) ∣ width) (hf1 : memory.scanLineCapacity < fuel) (hf2 : width ≤ fuel)
    (hf3 : height ≤ fuel) (hN31 : N < 2 ^ 31) (hfN : N < fuel)
    (hN : ∀ i < contextCount, (contexts i).barCode.colorCount = N)
    (hN2 : ∀ i < contextCount2, (contexts2 i).barCode.colorCount = N)
    (hm1 : memory2.scanLineCapacity = memory.scanLineCapacity)
    (hm2 : memory2.yellowBoxCapacity = memory.yellowBoxCapacity)
    (hm3 : memory2.temporaryIndexBufferCapacity = memory.temporaryIndexBufferCapacity)
    (hm4 : memory2.appearanceCapacity = memory.appearanceCapacity)
    (hm5 : memory2.appearanceSortBufferCapacity = memory.appearanceSortBufferCapacity)
    (hc : c < contextCount) (hc2 : c2 < contextCount2)
    (hb : (contexts2 c2).barCode = (contexts c).barCode)
    (hs : (contexts2 c2).minMatchScore = (contexts c).minMatchScore)
    (hd : (contexts2 c2).minLineDistance = (contexts c).minLineDistance)
    (hk : (contexts2 c2).appearanceBufferCapacity = (contexts c).appearanceBufferCapacity) :
    ∃ final final2,
      find_appearances_of_bar_code_interests_in_bitmap fuel uninitialized rgba8 width height
        yellowCfg maxYellowSpacing contexts contextCount memory = some final ∧
      find_appearances_of_bar_code_interests_in_bitmap fuel uninitialized rgba8 width height
        yellowCfg maxYellowSpacing contexts2 contextCount2 memory2 = some final2 ∧
      (final2.1 c2).appearanceCount = (final.1 c).appearanceCount ∧
      ∀ j < (final.1 c).appearanceCount,
        (final2.1 c2).appearanceBuffer j = (final.1 c).appearanceBuffer j ∧
        (final2.1 c2).appearanceMatchScores j = (final.1 c).appearanceMatchScores j := by
  obtain ⟨apps, final, h1, h2, _, _, h5⟩ := interests_spec fuel uninitialized rgba8 width
    height yellowCfg maxYellowSpacing contexts contextCount memory N hw hf1 hf2 hf3 hN hN31 hfN
  obtain ⟨apps2, final2, g1, g2, _, _, g5⟩ := interests_spec fuel uninitialized rgba8 width
    height yellowCfg maxYellowSpacing contexts2 contextCount2 memory2 N hw (hm1 ▸ hf1) hf2 hf3
    hN2 hN31 hfN
  rw [hm1, hm2, hm3, hm4, h1] at g1
  cases g1
  obtain ⟨r, hr, hres⟩ := h5 c hc
  obtain ⟨r2, hr2, hres2⟩ := g5 c2 hc2
  rw [hb, hs, hd, hm5, hr] at hr2
  cases hr2
  have hcnt : (final2.1 c2).appearanceCount = (final.1 c).appearanceCount := by
    rw [hres.count, hres2.count, hk]
  refine ⟨final, final2, h2, g2, hcnt, fun j hj => ?_⟩
  rw [(hres.entries j hj).1, (hres.entries j hj).2, (hres2.entries j (hcnt ▸ hj)).1,
    (hres2.entries j (hcnt ▸ hj)).2]
  exact ⟨rfl, rfl⟩

theorem interests_context_independent_witness :
    ∃ final final2,
      find_appearances_of_bar_code_interests_in_bitmap 9
        (fun _ _ => appearanceOf 0 0 0 0 [] [] []) endpointTestRow 8 1 ⟨30, 50, 80⟩ 1
        (fun k => if k = 0 then contextOf [BarCodeColor.BAR_CODE_RED] 2 0 0
          else contextOf [BarCodeColor.BAR_CODE_BLUE] 1 0 0) 2 (memoryOf 4 4 4 4 4)
        = some final ∧
      find_appearances_of_bar_code_interests_in_bitmap 9
        (fun _ _ => appearanceOf 0 0 0 0 [] [] []) endpointTestRow 8 1 ⟨30, 50, 80⟩ 1
        (fun k => if k = 2 then contextOf [BarCodeColor.BAR_CODE_RED] 2 0 0
          else contextOf [BarCodeColor.BAR_CODE_GREEN] 3 1 2) 3
        { memoryOf 4 4 4 4 4 with appearanceSortBuffer := fun _ => 7 } = some final2 ∧
      (final2.1 2).appearanceCount = (final.1 0).appearanceCount ∧
      ∀ j < (final.1 0).appearanceCount,
        (final2.1 2).appearanceBuffer j = (final.1 0).appearanceBuffer j ∧
        (final2.1 2).appearanceMatchScores j = (final.1 0).appearanceMatchScores j :=
  interests_context_independent 9 (fun _ _ => appearanceOf 0 0 0 0 [] [] []) endpointTestRow
    8 1 ⟨30, 50, 80⟩ 1
    (fun k => if k = 0 then contextOf [BarCodeColor.BAR_CODE_RED] 2 0 0
      else contextOf [BarCodeColor.BAR_CODE_BLUE] 1 0 0)
    (fun k => if k = 2 then contextOf [BarCodeColor.BAR_CODE_RED] 2 0 0
      else contextOf [BarCodeColor.BAR_CODE_GREEN] 3 1 2) 2 3 (memoryOf 4 4 4 4 4)
    { memoryOf 4 4 4 4 4 with appearanceSortBuffer := fun _ => 7 } 1 0 2
    (by decide) (by decide) (by decide) (by decide) (by decide) (by decide)
    (fun i _ => by by_cases h : i = 0 <;> simp [h, contextOf, barCodeOf])
    (fun i _ => by by_cases h : i = 2 <;> simp [h, contextOf, barCodeOf])
    rfl rfl rfl rfl rfl (by decide) (by decide) rfl rfl rfl rfl
/-- C31: for all scan lines `a`, `b` and every spacing `S`, `_are_lines_adjacent a b S` is true
if and only if `|a.y - b.y| <= S + 1` and an endpoint of one line lies within `S` of the span
of the other: `a.start` or `a.end` lies in `[b.start - S, b.end + S]`, or `b.start` or `b.end`
lies in `[a.start - S, a.end + S]`. -/
theorem are_lines_adjacent_endpoint_spans (a b : YellowScanLine) (S : Int) :
    _are_lines_adjacent a b S = true ↔
      |a.y - b.y| ≤ S + 1 ∧
      ((b.start - S ≤ a.start ∧ a.start ≤ b.end_ + S) ∨
       (b.start - S ≤ a.end_ ∧ a.end_ ≤ b.end_ + S) ∨
       (a.start - S ≤ b.start ∧ b.start ≤ a.end_ + S) ∨
       (a.start - S ≤ b.end_ ∧ b.end_ ≤ a.end_ + S)) := by
  rw [are_lines_adjacent_iff]
  constructor
  · rintro ⟨hy, h | h | h | h⟩
    · exact ⟨hy, Or.inl ⟨by omega, by omega⟩⟩
    · exact ⟨hy, Or.inr (Or.inr (Or.inl ⟨by omega, by omega⟩))⟩
    · exact ⟨hy, Or.inr (Or.inl ⟨by omega, by omega⟩)⟩
    · exact ⟨hy, Or.inr (Or.inr (Or.inr ⟨by omega, by omega⟩))⟩
  · rintro ⟨hy, h | h | h | h⟩
    · exact ⟨hy, Or.inl ⟨by omega, by omega⟩⟩
    · exact ⟨hy, Or.inr (Or.inr (Or.inl ⟨by omega, by omega⟩))⟩
    · exact ⟨hy, Or.inr (Or.inl ⟨by omega, by omega⟩)⟩
    · exact ⟨hy, Or.inr (Or.inr (Or.inr ⟨by omega, by omega⟩))⟩

/-- C39: for scan lines `a`, `b` with `start <= end` and every `S >= 0`,
`_are_lines_adjacent a b S` holds if and only if `|a.y - b.y| <= S + 1`,
`a.start <= b.end + S` and `b.start <= a.end + S`; hence the relation is symmetric in `a` and
`b`, reflexive, and monotone in `S`. -/
theorem are_lines_adjacent_gap (a b : YellowScanLine) (S : Int)
    (ha : a.start ≤ a.end_) (hb : b.start ≤ b.end_) (hS : 0 ≤ S) :
    (_are_lines_adjacent a b S = true ↔
      |a.y - b.y| ≤ S + 1 ∧ a.start ≤ b.end_ + S ∧ b.start ≤ a.end_ + S) ∧
    _are_lines_adjacent a b S = _are_lines_adjacent b a S ∧
    _are_lines_adjacent a a S = true ∧
    ∀ S2, S ≤ S2 → _are_lines_adjacent a b S = true → _are_lines_adjacent a b S2 = true := by
  have key : ∀ (c d : YellowScanLine) (T : Int), c.start ≤ c.end_ → d.start ≤ d.end_ → 0 ≤ T →
      (_are_lines_adjacent c d T = true ↔
        |c.y - d.y| ≤ T + 1 ∧ c.start ≤ d.end_ + T ∧ d.start ≤ c.end_ + T) := by
    intro c d T hc hd hT
    rw [are_lines_adjacent_iff]
    constructor
    · rintro ⟨hy, h | h | h | h⟩ <;> exact ⟨hy, by omega, by omega⟩
    · rintro ⟨hy, h1, h2⟩
      refine ⟨hy, ?_⟩
      by_cases h : c.start + T ≥ d.start
      · exact Or.inl ⟨h, by omega⟩
      · exact Or.inr (Or.inl ⟨by omega, by omega⟩)
  refine ⟨key a b S ha hb hS, are_lines_adjacent_symm a b S, ?_, fun S2 h2 h => ?_⟩
  · rw [key a a S ha ha hS]
    refine ⟨?_, by omega, by omega⟩
    rw [sub_self, abs_zero]
    omega
  · rw [key a b S ha hb hS] at h
    rw [key a b S2 ha hb (by omega)]
    exact ⟨by omega, by omega, by omega⟩

theorem are_lines_adjacent_gap_witness :
    (_are_lines_adjacent ⟨0, 3, 0, false⟩ ⟨5, 9, 1, false⟩ 2 = true ↔
      |(⟨0, 3, 0, false⟩ : YellowScanLine).y - (⟨5, 9, 1, false⟩ : YellowScanLine).y| ≤ 2 + 1 ∧
      (⟨0, 3, 0, false⟩ : YellowScanLine).start ≤ (⟨5, 9, 1, false⟩ : YellowScanLine).end_ + 2 ∧
      (⟨5, 9, 1, false⟩ : YellowScanLine).start ≤ (⟨0, 3, 0, false⟩ : YellowScanLine).end_ + 2) ∧
    _are_lines_adjacent ⟨0, 3, 0, false⟩ ⟨5, 9, 1, false⟩ 2
      = _are_lines_adjacent ⟨5, 9, 1, false⟩ ⟨0, 3, 0, false⟩ 2 ∧
    _are_lines_adjacent ⟨0, 3, 0, false⟩ ⟨0, 3, 0, false⟩ 2 = true ∧
    ∀ S2, 2 ≤ S2 → _are_lines_adjacent ⟨0, 3, 0, false⟩ ⟨5, 9, 1, false⟩ 2 = true →
      _are_lines_adjacent ⟨0, 3, 0, false⟩ ⟨5, 9, 1, false⟩ S2 = true :=
  are_lines_adjacent_gap ⟨0, 3, 0, false⟩ ⟨5, 9, 1, false⟩ 2 (by decide) (by decide) (by decide)

/-- C34: for every `(r, g, b)`, `quantify_red` is 1 if `r > g` and `r > b` and 0 otherwise,
`quantify_green` is 1 if `g > r` and `g > b` and 0 otherwise, `quantify_blue` is 1 if `b > r`
and `b > g` and 0 otherwise; at most one of the three is 1, and all three are 0 exactly when
the largest channel value is shared by two or more channels. -/
theorem quantify_color_dominance (r g b : Nat) :
    (quantify_red r g b = 1 ↔ r > g ∧ r > b) ∧
    (quantify_red r g b = 0 ↔ ¬ (r > g ∧ r > b)) ∧
    (quantify_green r g b = 1 ↔ g > r ∧ g > b) ∧
    (quantify_green r g b = 0 ↔ ¬ (g > r ∧ g > b)) ∧
    (quantify_blue r g b = 1 ↔ b > r ∧ b > g) ∧
    (quantify_blue r g b = 0 ↔ ¬ (b > r ∧ b > g)) ∧
    ¬ (quantify_red r g b = 1 ∧ quantify_green r g b = 1) ∧
    ¬ (quantify_red r g b = 1 ∧ quantify_blue r g b = 1) ∧
    ¬ (quantify_green r g b = 1 ∧ quantify_blue r g b = 1) ∧
    ((quantify_red r g b = 0 ∧ quantify_green r g b = 0 ∧ quantify_blue r g b = 0) ↔
      ((r = g ∧ b ≤ r) ∨ (r = b ∧ g ≤ r) ∨ (g = b ∧ r ≤ g))) := by
  have h1 : ∀ (p : Prop) [Decidable p], ((if p then (1 : ℚ) else 0) = 1 ↔ p) := by
    intro p _
    by_cases hp : p <;> simp [hp]
  have h0 : ∀ (p : Prop) [Decidable p], ((if p then (1 : ℚ) else 0) = 0 ↔ ¬ p) := by
    intro p _
    by_cases hp : p <;> simp [hp]
  unfold quantify_red quantify_green quantify_blue
  simp only [h1, h0]
  refine ⟨trivial, trivial, trivial, trivial, trivial, trivial, by omega, by omega, by omega, ?_⟩
  constructor
  · intro h
    omega
  · intro h
    omega

/-! ## Theorems: the three line walks -/

/-- C35: the three line-walk loops (of `_draw_line`, of `_find_colorful_line_endpoints` and of
`_read_bar_code_appearance`) visit the same sequence of pixels for every pair of endpoints and
every amount of fuel: the lists of visited pixels they return are equal, and they are returned
exactly when the fuel exceeds `max(|x2-x1|, |y2-y1|)`. -/
theorem line_walks_agree (fuel : Nat) (rgba8 : Nat → Nat) (width height x1 y1 x2 y2 : Int)
    (r g b a : Nat) (yellowCfg : YellowConfig) (uninitialized : BarCodeAppearance)
    (sectionCount : Int) (startBox endBox : YellowBoundingBox) :
    (_draw_line fuel rgba8 width height x1 y1 x2 y2 r g b a).map Prod.snd
      = (_find_colorful_line_endpoints fuel rgba8 width height yellowCfg x1 y1 x2 y2).map
          (fun s => s.visited) ∧
    (_read_bar_code_appearance fuel uninitialized rgba8 width height sectionCount startBox endBox
        x1 y1 x2 y2).map (fun res => res.2.2.map Prod.fst)
      = (_find_colorful_line_endpoints fuel rgba8 width height yellowCfg x1 y1 x2 y2).map
          (fun s => s.visited) ∧
    ((_find_colorful_line_endpoints fuel rgba8 width height yellowCfg x1 y1 x2 y2).isSome
      = decide (max |x2 - x1| |y2 - y1| < (fuel : Int))) := by
  have he : (_find_colorful_line_endpoints fuel rgba8 width height yellowCfg x1 y1 x2 y2).map
      (fun s => s.visited)
      = walkTrace x2 y2 |x2 - x1| |y2 - y1| (if x1 < x2 then 1 else -1)
        (if y1 < y2 then 1 else -1) fuel x1 y1
        (Int.tdiv (if |x2 - x1| > |y2 - y1| then |x2 - x1| else -|y2 - y1|) 2) := by
    unfold _find_colorful_line_endpoints
    simp only []
    rw [endpointLoop_eq, Option.map_map]
    cases walkTrace x2 y2 |x2 - x1| |y2 - y1| (if x1 < x2 then 1 else -1)
        (if y1 < y2 then 1 else -1) fuel x1 y1
        (Int.tdiv (if |x2 - x1| > |y2 - y1| then |x2 - x1| else -|y2 - y1|) 2) with
    | none => rfl
    | some t => simp [endpointFold_visited]
  refine ⟨?_, ?_, ?_⟩
  · rw [he]
    unfold _draw_line
    simp only []
    rw [drawLoop_visited]
    cases walkTrace x2 y2 |x2 - x1| |y2 - y1| (if x1 < x2 then 1 else -1)
        (if y1 < y2 then 1 else -1) fuel x1 y1
        (Int.tdiv (if |x2 - x1| > |y2 - y1| then |x2 - x1| else -|y2 - y1|) 2) with
    | none => rfl
    | some t => simp
  · rw [he]
    unfold _read_bar_code_appearance
    simp only []
    rw [readLoop_eq]
    cases walkTrace x2 y2 |x2 - x1| |y2 - y1| (if x1 < x2 then 1 else -1)
        (if y1 < y2 then 1 else -1) fuel x1 y1
        (Int.tdiv (if |x2 - x1| > |y2 - y1| then |x2 - x1| else -|y2 - y1|) 2) with
    | none => rfl
    | some t =>
      simp only [Option.map_some']
      rw [← Prod.mk.eta (p := List.foldl _ _ t)]
      simp only [Option.map_some', readFold_buckets, List.nil_append, List.map_map]
      congr 1
      exact List.map_id _
  · have hw := walkTrace_exact x1 y1 x2 y2 fuel
    have h2 := congrArg Option.isSome he
    simp only [Option.isSome_map'] at h2
    rw [h2]
    have h3 := congrArg Option.isSome hw
    simp only [Option.isSome_map'] at h3
    rw [h3]
    by_cases h : max |x2 - x1| |y2 - y1| < (fuel : Int)
    · simp [h]
    · simp [h]

theorem neg_one_lt_of_mul {k d : Int} (hd : 0 < d) (h : -d < k * d) : 0 ≤ k := by
  by_contra hk
  have : k * d ≤ -1 * d := by
    apply mul_le_mul_of_nonneg_right _ (le_of_lt hd)
    omega
  linarith

theorem walkTrace_xmajor_box (x2 y2 dx dy sx sy e0 : Int) (hd : dy < dx) (hdy : 0 ≤ dy)
    (he0 : 0 ≤ e0) (he0' : e0 < dx) :
    ∀ (m fuel : Nat) (x y e ry : Int) (t : List (Int × Int)), x2 = x + sx * m →
      y2 = y + sy * ry → 0 ≤ e → e < dx → e + ry * dx = e0 + m * dy →
      walkTrace x2 y2 dx dy sx sy fuel x y e = some t →
      ∀ p ∈ t, ∃ (k : Nat) (r : Int), k ≤ m ∧ x2 = p.1 + sx * k ∧ y2 = p.2 + sy * r ∧
        0 ≤ r ∧ r ≤ ry := by
  have hry0 : ∀ (m : Nat) (e ry : Int), 0 ≤ e → e < dx → e + ry * dx = e0 + m * dy → 0 ≤ ry := by
    intro m e ry h1 h2 hinv
    apply neg_one_lt_of_mul (show 0 < dx by omega)
    have : (0 : Int) ≤ m * dy := mul_nonneg (by omega) hdy
    linarith
  intro m
  induction m with
  | zero =>
    intro fuel x y e ry t hx hy h1 h2 hinv ht p hp
    have hry : ry = 0 := by
      apply small_multiple_zero (show 0 < dx by omega)
      · simp at hinv; linarith
      · simp at hinv; linarith
    cases fuel with
    | zero => simp [walkTrace] at ht
    | succ f =>
      have hxe : x = x2 := by simp at hx; omega
      have hye : y = y2 := by rw [hy, hry]; ring
      rw [walkTrace, if_pos ⟨hxe, hye⟩] at ht
      cases ht
      simp only [List.mem_singleton] at hp
      subst hp
      exact ⟨0, 0, le_refl _, by simp [hxe], by simp [hye], le_refl _, by omega⟩
  | succ m ih =>
    intro fuel x y e ry t hx hy h1 h2 hinv ht p hp
    have hr0 := hry0 (m + 1) e ry h1 h2 hinv
    cases fuel with
    | zero => simp [walkTrace] at ht
    | succ f =>
      by_cases hend : x = x2 ∧ y = y2
      · rw [walkTrace, if_pos hend] at ht
        cases ht
        simp only [List.mem_singleton] at hp
        subst hp
        exact ⟨m + 1, ry, le_refl _, hx, hy, hr0, le_refl _⟩
      · have hx' : x2 = (x + sx) + sx * (m : Int) := by
          rw [hx]; push_cast; ring
        have hinv' : e + ry * dx = e0 + m * dy + dy := by
          rw [hinv]; push_cast; ring
        rw [walkTrace, if_neg hend, walkStep_xmajor dx dy sx sy x y e h1 h2] at ht
        by_cases hlt : e < dy
        · simp only [if_pos hlt] at ht
          cases hw : walkTrace x2 y2 dx dy sx sy f (x + sx) (y + sy) (e - dy + dx) with
          | none => rw [hw] at ht; cases ht
          | some t' =>
            rw [hw] at ht
            cases ht
            rcases List.mem_cons.mp hp with rfl | hp
            · exact ⟨m + 1, ry, le_refl _, hx, hy, hr0, le_refl _⟩
            · obtain ⟨k, r, hk1, hk2, hk3, hk4, hk5⟩ := ih f (x + sx) (y + sy) (e - dy + dx)
                (ry - 1) t' hx' (by rw [hy]; ring) (by omega) (by omega)
                (by linarith [(show (ry - 1) * dx = ry * dx - dx by ring)]) hw p hp
              exact ⟨k, r, by omega, hk2, hk3, hk4, by omega⟩
        · simp only [if_neg hlt] at ht
          cases hw : walkTrace x2 y2 dx dy sx sy f (x + sx) y (e - dy) with
          | none => rw [hw] at ht; cases ht
          | some t' =>
            rw [hw] at ht
            cases ht
            rcases List.mem_cons.mp hp with rfl | hp
            · exact ⟨m + 1, ry, le_refl _, hx, hy, hr0, le_refl _⟩
            · obtain ⟨k, r, hk1, hk2, hk3, hk4, hk5⟩ := ih f (x + sx) y (e - dy) ry t' hx' hy
                (by omega) (by omega) (by linarith) hw p hp
              exact ⟨k, r, by omega, hk2, hk3, hk4, hk5⟩

theorem walkTrace_ymajor_box (x2 y2 dx dy sx sy e0 : Int) (hd : dx ≤ dy) (hdx : 0 ≤ dx)
    (hdy : 0 < dy) (he0 : -dy < e0) (he0' : e0 ≤ 0) :
    ∀ (m fuel : Nat) (x y e rx : Int) (t : List (Int × Int)), y2 = y + sy * m →
      x2 = x + sx * rx → -dy < e → e ≤ 0 → e + m * dx = e0 + rx * dy →
      walkTrace x2 y2 dx dy sx sy fuel x y e = some t →
      ∀ p ∈ t, ∃ (k : Nat) (r : Int), k ≤ m ∧ y2 = p.2 + sy * k ∧ x2 = p.1 + sx * r ∧
        0 ≤ r ∧ r ≤ rx := by
  have hrx0 : ∀ (m : Nat) (e rx : Int), -dy < e → e ≤ 0 → e + m * dx = e0 + rx * dy → 0 ≤ rx := by
    intro m e rx h1 h2 hinv
    apply neg_one_lt_of_mul hdy
    have : (0 : Int) ≤ m * dx := mul_nonneg (by omega) hdx
    linarith
  intro m
  induction m with
  | zero =>
    intro fuel x y e rx t hy hx h1 h2 hinv ht p hp
    have hrx : rx = 0 := by
      apply small_multiple_zero hdy
      · simp at hinv; linarith
      · simp at hinv; linarith
    cases fuel with
    | zero => simp [walkTrace] at ht
    | succ f =>
      have hye : y = y2 := by simp at hy; omega
      have hxe : x = x2 := by rw [hx, hrx]; ring
      rw [walkTrace, if_pos ⟨hxe, hye⟩] at ht
      cases ht
      simp only [List.mem_singleton] at hp
      subst hp
      exact ⟨0, 0, le_refl _, by simp [hye], by simp [hxe], le_refl _, by omega⟩
  | succ m ih =>
    intro fuel x y e rx t hy hx h1 h2 hinv ht p hp
    have hr0 := hrx0 (m + 1) e rx h1 h2 hinv
    cases fuel with
    | zero => simp [walkTrace] at ht
    | succ f =>
      by_cases hend : x = x2 ∧ y = y2
      · rw [walkTrace, if_pos hend] at ht
        cases ht
        simp only [List.mem_singleton] at hp
        subst hp
        exact ⟨m + 1, rx, le_refl _, hy, hx, hr0, le_refl _⟩
      · have hy' : y2 = (y + sy) + sy * (m : Int) := by
          rw [hy]; push_cast; ring
        have hinv' : e + m * dx + dx = e0 + rx * dy := by
          rw [← hinv]; push_cast; ring
        rw [walkTrace, if_neg hend, walkStep_ymajor dx dy sx sy x y e h2 hdy] at ht
        by_cases hgt : e > -dx
        · simp only [if_pos hgt] at ht
          cases hw : walkTrace x2 y2 dx dy sx sy f (x + sx) (y + sy) (e - dy + dx) with
          | none => rw [hw] at ht; cases ht
          | some t' =>
            rw [hw] at ht
            cases ht
            rcases List.mem_cons.mp hp with rfl | hp
            · exact ⟨m + 1, rx, le_refl _, hy, hx, hr0, le_refl _⟩
            · obtain ⟨k, r, hk1, hk2, hk3, hk4, hk5⟩ := ih f (x + sx) (y + sy) (e - dy + dx)
                (rx - 1) t' hy' (by rw [hx]; ring) (by omega) (by omega)
                (by linarith [(show (rx - 1) * dy = rx * dy - dy by ring)]) hw p hp
              exact ⟨k, r, by omega, hk2, hk3, hk4, by omega⟩
        · simp only [if_neg hgt] at ht
          cases hw : walkTrace x2 y2 dx dy sx sy f x (y + sy) (e + dx) with
          | none => rw [hw] at ht; cases ht
          | some t' =>
            rw [hw] at ht
            cases ht
            rcases List.mem_cons.mp hp with rfl | hp
            · exact ⟨m + 1, rx, le_refl _, hy, hx, hr0, le_refl _⟩
            · obtain ⟨k, r, hk1, hk2, hk3, hk4, hk5⟩ := ih f x (y + sy) (e + dx) rx t' hy' hx
                (by omega) (by omega) (by linarith) hw p hp
              exact ⟨k, r, by omega, hk2, hk3, hk4, hk5⟩

theorem walkTrace_box (x1 y1 x2 y2 : Int) (fuel : Nat) (t : List (Int × Int))
    (ht : walkTrace x2 y2 |x2 - x1| |y2 - y1| (if x1 < x2 then 1 else -1)
        (if y1 < y2 then 1 else -1) fuel x1 y1
        (Int.tdiv (if |x2 - x1| > |y2 - y1| then |x2 - x1| else -|y2 - y1|) 2) = some t) :
    ∀ p ∈ t, min x1 x2 ≤ p.1 ∧ p.1 ≤ max x1 x2 ∧ min y1 y2 ≤ p.2 ∧ p.2 ≤ max y1 y2 := by
  have key : ∀ p ∈ t, ∃ (kx ky : Int), 0 ≤ kx ∧ kx ≤ |x2 - x1| ∧ 0 ≤ ky ∧ ky ≤ |y2 - y1| ∧
      x2 = p.1 + (if x1 < x2 then 1 else -1) * kx ∧
      y2 = p.2 + (if y1 < y2 then 1 else -1) * ky := by
    have hdx0 : 0 ≤ |x2 - x1| := abs_nonneg _
    have hdy0 : 0 ≤ |y2 - y1| := abs_nonneg _
    have hx : x2 = x1 + (if x1 < x2 then (1 : Int) else -1) * |x2 - x1| := by
      split_ifs with h
      · rw [abs_of_nonneg (by omega)]; ring
      · rw [abs_of_nonpos (by omega)]; ring
    have hy : y2 = y1 + (if y1 < y2 then (1 : Int) else -1) * |y2 - y1| := by
      split_ifs with h
      · rw [abs_of_nonneg (by omega)]; ring
      · rw [abs_of_nonpos (by omega)]; ring
    generalize (if x1 < x2 then (1 : Int) else -1) = sx at hx ht
    generalize (if y1 < y2 then (1 : Int) else -1) = sy at hy ht
    generalize |x2 - x1| = dx at hdx0 hx ht
    generalize |y2 - y1| = dy at hdy0 hy ht
    intro p hp
    by_cases hgt : dx > dy
    · simp only [if_pos hgt] at ht
      rw [Int.tdiv_eq_ediv hdx0 (by norm_num)] at ht
      obtain ⟨k, r, h1, h2, h3, h4, h5⟩ := walkTrace_xmajor_box x2 y2 dx dy sx sy (dx / 2) hgt
        hdy0 (by omega) (by omega) dx.toNat fuel x1 y1 (dx / 2) dy t
        (by rw [Int.toNat_of_nonneg hdx0]; exact hx) hy (by omega) (by omega)
        (by rw [Int.toNat_of_nonneg hdx0]; ring) ht p hp
      exact ⟨k, r, by omega, by omega, h4, h5, h2, h3⟩
    · simp only [if_neg hgt] at ht
      rw [Int.neg_tdiv, Int.tdiv_eq_ediv hdy0 (by norm_num)] at ht
      by_cases hz : dy = 0
      · have hdxz : dx = 0 := by omega
        subst hz hdxz
        have hxe : x1 = x2 := by rw [hx]; ring
        have hye : y1 = y2 := by rw [hy]; ring
        cases fuel with
        | zero => simp [walkTrace] at ht
        | succ f =>
          rw [walkTrace, if_pos ⟨hxe, hye⟩] at ht
          cases ht
          simp only [List.mem_singleton] at hp
          subst hp
          exact ⟨0, 0, le_refl _, le_refl _, le_refl _, le_refl _, by simp [hxe], by simp [hye]⟩
      · obtain ⟨k, r, h1, h2, h3, h4, h5⟩ := walkTrace_ymajor_box x2 y2 dx dy sx sy (-(dy / 2))
          (not_lt.mp hgt) hdx0 (by omega) (by omega) (by omega) dy.toNat fuel x1 y1 (-(dy / 2))
          dx t (by rw [Int.toNat_of_nonneg hdy0]; exact hy) hx (by omega) (by omega)
          (by rw [Int.toNat_of_nonneg hdy0]; ring) ht p hp
        exact ⟨r, k, h4, h5, by omega, by omega, h3, h2⟩
  intro p hp
  obtain ⟨kx, ky, h1, h2, h3, h4, h5, h6⟩ := key p hp
  have hx : min x1 x2 ≤ p.1 ∧ p.1 ≤ max x1 x2 := by
    by_cases h : x1 < x2
    · rw [if_pos h] at h5
      rw [abs_of_nonneg (by omega)] at h2
      rw [min_eq_left (le_of_lt h), max_eq_right (le_of_lt h)]
      constructor <;> omega
    · rw [if_neg h] at h5
      rw [abs_of_nonpos (by omega)] at h2
      rw [min_eq_right (not_lt.mp h), max_eq_left (not_lt.mp h)]
      constructor <;> omega
  have hy : min y1 y2 ≤ p.2 ∧ p.2 ≤ max y1 y2 := by
    by_cases h : y1 < y2
    · rw [if_pos h] at h6
      rw [abs_of_nonneg (by omega)] at h4
      rw [min_eq_left (le_of_lt h), max_eq_right (le_of_lt h)]
      constructor <;> omega
    · rw [if_neg h] at h6
      rw [abs_of_nonpos (by omega)] at h4
      rw [min_eq_right (not_lt.mp h), max_eq_left (not_lt.mp h)]
      constructor <;> omega
  exact ⟨hx.1, hx.2, hy.1, hy.2⟩

theorem pixelOffset_inside (width height x y : Int) (c : Nat) (hx0 : 0 ≤ x) (hx : x < width)
    (hy0 : 0 ≤ y) (hy : y < height) (hc : c < 4) :
    0 ≤ (x + y * width) * 4 ∧ pixelOffset width x y c < (width * height * 4).toNat := by
  have h1 : 0 ≤ y * width := mul_nonneg hy0 (by omega)
  have h2 : y * width + width ≤ width * height := by
    have : (y + 1) * width ≤ height * width :=
      mul_le_mul_of_nonneg_right (by omega) (by omega)
    linarith
  unfold pixelOffset
  generalize y * width = A at h1 h2
  generalize width * height = B at h2
  constructor
  · omega
  · omega

/-- C38: every pixel visited by the walks of `_find_colorful_line_endpoints` and of
`_read_bar_code_appearance` (which return, given more fuel than `max(|x2-x1|, |y2-y1|)`) lies in
the axis-aligned rectangle spanned by the two endpoints; the refined endpoints are pixels of the
walk; and when both endpoints satisfy `0 <= x < width` and `0 <= y < height`, the byte offsets
`((x + y * width) * 4) + c`, `c < 4`, of every visited pixel are non-negative and below
`width * height * 4`. -/
theorem line_walk_inside (fuel : Nat) (rgba8 : Nat → Nat) (width height x1 y1 x2 y2 : Int)
    (yellowCfg : YellowConfig) (uninitialized : BarCodeAppearance) (sectionCount : Int)
    (startBox endBox : YellowBoundingBox)
    (hf : max |x2 - x1| |y2 - y1| < (fuel : Int)) :
    ∃ e res, _find_colorful_line_endpoints fuel rgba8 width height yellowCfg x1 y1 x2 y2 = some e ∧
      _read_bar_code_appearance fuel uninitialized rgba8 width height sectionCount startBox endBox
        x1 y1 x2 y2 = some res ∧
      (∀ p ∈ e.visited,
        min x1 x2 ≤ p.1 ∧ p.1 ≤ max x1 x2 ∧ min y1 y2 ≤ p.2 ∧ p.2 ≤ max y1 y2) ∧
      (∀ q ∈ res.2.2,
        min x1 x2 ≤ q.1.1 ∧ q.1.1 ≤ max x1 x2 ∧ min y1 y2 ≤ q.1.2 ∧ q.1.2 ≤ max y1 y2) ∧
      (e.firstX, e.firstY) ∈ e.visited ∧ (e.secondX, e.secondY) ∈ e.visited ∧
      (0 ≤ x1 → x1 < width → 0 ≤ y1 → y1 < height →
        0 ≤ x2 → x2 < width → 0 ≤ y2 → y2 < height →
        (∀ p ∈ e.visited, ∀ c < 4, 0 ≤ (p.1 + p.2 * width) * 4 ∧
          pixelOffset width p.1 p.2 c < (width * height * 4).toNat) ∧
        (∀ q ∈ res.2.2, ∀ c < 4, 0 ≤ (q.1.1 + q.1.2 * width) * 4 ∧
          pixelOffset width q.1.1 q.1.2 c < (width * height * 4).toNat)) := by
  obtain ⟨t, ht, hl, hh, hlast, _, hchain⟩ := walkTrace_good x1 y1 x2 y2 fuel hf
  have hbox := walkTrace_box x1 y1 x2 y2 fuel t ht
  have hhead : (x1, y1) ∈ t := List.mem_of_mem_head? hh
  have hlastm : (x2, y2) ∈ t := List.mem_of_mem_getLast? hlast
  obtain ⟨sums, hres, _⟩ := read_bar_code_appearance_of_trace fuel uninitialized rgba8 width
    height sectionCount startBox endBox x1 y1 x2 y2 t ht
  obtain ⟨m1, m2⟩ := endpointFold_mem rgba8 width yellowCfg t t
    { firstX := x1, firstY := y1, secondX := x2, secondY := y2,
      foundColorStart := false, inColor := false, lastX := x2, lastY := y2, visited := [] }
    (fun p hp => hp) hhead hlastm hlastm
  have hvis : (endpointFold rgba8 width yellowCfg t
      { firstX := x1, firstY := y1, secondX := x2, secondY := y2,
        foundColorStart := false, inColor := false, lastX := x2, lastY := y2,
        visited := [] }).visited = t := by
    rw [endpointFold_visited]
    rfl
  have hq : ∀ q ∈ t.map (fun p => (p, sectionOfPixel sectionCount x1 y1
      (_get_distance x1 y1 x2 y2) p)), q.1 ∈ t := by
    intro q hq
    obtain ⟨p, hp, rfl⟩ := List.mem_map.mp hq
    exact hp
  refine ⟨_, _, by
    unfold _find_colorful_line_endpoints
    simp only []
    rw [endpointLoop_eq, ht]
    rfl, hres, ?_, ?_, ?_, ?_, ?_⟩
  · rw [hvis]
    exact hbox
  · intro q hq'
    exact hbox q.1 (hq q hq')
  · rw [hvis]
    exact m1
  · rw [hvis]
    exact m2
  · intro a1 a2 a3 a4 b1 b2 b3 b4
    have hin : ∀ p ∈ t, ∀ c < 4, 0 ≤ (p.1 + p.2 * width) * 4 ∧
        pixelOffset width p.1 p.2 c < (width * height * 4).toNat := by
      intro p hp c hc
      obtain ⟨h1, h2, h3, h4⟩ := hbox p hp
      exact pixelOffset_inside width height p.1 p.2 c (le_trans (le_min a1 b1) h1)
        (lt_of_le_of_lt h2 (max_lt a2 b2)) (le_trans (le_min a3 b3) h3)
        (lt_of_le_of_lt h4 (max_lt a4 b4)) hc
    refine ⟨?_, fun q hq' => hin q.1 (hq q hq')⟩
    rw [hvis]
    exact hin

theorem line_walk_inside_witness :
    ∃ e res, _find_colorful_line_endpoints 5 endpointTestRow 8 1 ⟨30, 50, 80⟩ 0 0 4 0 = some e ∧
      _read_bar_code_appearance 5 (appearanceOf 0 0 0 0 [] [] []) endpointTestRow 8 1 2
        default default 0 0 4 0 = some res ∧
      (∀ p ∈ e.visited,
        min (0 : Int) 4 ≤ p.1 ∧ p.1 ≤ max (0 : Int) 4 ∧ min (0 : Int) 0 ≤ p.2 ∧
          p.2 ≤ max (0 : Int) 0) ∧
      (∀ q ∈ res.2.2,
        min (0 : Int) 4 ≤ q.1.1 ∧ q.1.1 ≤ max (0 : Int) 4 ∧ min (0 : Int) 0 ≤ q.1.2 ∧
          q.1.2 ≤ max (0 : Int) 0) ∧
      (e.firstX, e.firstY) ∈ e.visited ∧ (e.secondX, e.secondY) ∈ e.visited ∧
      ((0 : Int) ≤ 0 → (0 : Int) < 8 → (0 : Int) ≤ 0 → (0 : Int) < 1 →
        (0 : Int) ≤ 4 → (4 : Int) < 8 → (0 : Int) ≤ 0 → (0 : Int) < 1 →
        (∀ p ∈ e.visited, ∀ c < 4, 0 ≤ (p.1 + p.2 * 8) * 4 ∧
          pixelOffset 8 p.1 p.2 c < ((8 : Int) * 1 * 4).toNat) ∧
        (∀ q ∈ res.2.2, ∀ c < 4, 0 ≤ (q.1.1 + q.1.2 * 8) * 4 ∧
          pixelOffset 8 q.1.1 q.1.2 c < ((8 : Int) * 1 * 4).toNat)) :=
  line_walk_inside 5 endpointTestRow 8 1 0 0 4 0 ⟨30, 50, 80⟩ (appearanceOf 0 0 0 0 [] [] []) 2
    default default (by decide)

/-! ## Theorems: independence of `find_yellow_rectangles` from scratch contents -/

theorem sameGeom_refl (a : YellowScanLine) : sameGeom a a := ⟨rfl, rfl, rfl⟩

theorem adjacentStep_geom (S : Int) (T ci : Nat) (cl : YellowScanLine) (s : CollectState)
    (k : Nat) : ∀ k', sameGeom ((adjacentStep S T ci cl s k).lines k') (s.lines k') := by
  intro k'
  unfold adjacentStep
  split_ifs
  · exact sameGeom_refl _
  · exact sameGeom_refl _
  · exact setIgnore_geom _ _ _ _
  · exact sameGeom_refl _
  · exact sameGeom_refl _

theorem adjacentFold_geom (S : Int) (T ci : Nat) (cl : YellowScanLine) :
    ∀ (l : List Nat) (s : CollectState) (k' : Nat),
      sameGeom ((l.foldl (adjacentStep S T ci cl) s).lines k') (s.lines k') := by
  intro l
  induction l with
  | nil => intro s k'; exact sameGeom_refl _
  | cons k l ih =>
    intro s k'
    rw [List.foldl_cons]
    exact sameGeom_trans (ih _ k') (adjacentStep_geom S T ci cl s k k')

theorem collectLines_geom (n : Nat) (S : Int) (T i : Nat) :
    ∀ (fuel j : Nat) (s c : CollectState), collectLines n S T i fuel j s = some c →
      ∀ k', sameGeom (c.lines k') (s.lines k') := by
  intro fuel
  induction fuel with
  | zero => intro j s c h; simp [collectLines] at h
  | succ f ih =>
    intro j s c h k'
    rw [collectLines] at h
    by_cases hj : j < s.containedLineCount
    · rw [if_pos hj] at h
      simp only [] at h
      refine sameGeom_trans (ih _ _ _ h k') ?_
      exact sameGeom_trans (adjacentFold_geom S T _ _ _ _ k') (setIgnore_geom _ _ _ _)
    · rw [if_neg hj] at h
      cases h
      exact sameGeom_refl _

theorem fitFold_geom (tmp : Nat → Nat) :
    ∀ (l : List Nat) (st : YellowBoundingBox × (Nat → YellowScanLine)) (k' : Nat),
      sameGeom ((l.foldl (fitStep tmp) st).2 k') (st.2 k') := by
  intro l
  induction l with
  | nil => intro st k'; exact sameGeom_refl _
  | cons j l ih =>
    intro st k'
    rw [List.foldl_cons]
    refine sameGeom_trans (ih _ k') ?_
    rw [(fitStep_fields tmp st.1 st.2 j).2.2.2.2.2]
    exact setIgnore_geom _ _ _ _

theorem boxStep_geom (fuel n : Nat) (S : Int) (T M : Nat) (s : RectState) (i : Nat) :
    (∀ r, boxStep fuel n S T M s i = .ok r → ∀ k, sameGeom (r.lines k) (s.lines k)) ∧
    (∀ r, boxStep fuel n S T M s i = .error (.returned r) →
      ∀ k, sameGeom (r.lines k) (s.lines k)) := by
  unfold boxStep
  by_cases hig : (s.lines i)._ignore = true
  · rw [if_pos hig]
    refine ⟨fun r h k => ?_, fun r h => ?_⟩
    · cases h
      exact sameGeom_refl _
    · cases h
  · rw [if_neg hig]
    simp only []
    cases hc : collectLines n S T i fuel 0
        { lines := s.lines, tmpIndexBuffer := Function.update s.tmpIndexBuffer 0 i,
          containedLineCount := 1, ranOutOfTempSpace := false } with
    | none =>
      refine ⟨fun r h => ?_, fun r h => ?_⟩
      · cases h
      · cases h
    | some c =>
      have hg := collectLines_geom n S T i fuel 0 _ c hc
      simp only []
      by_cases hroom : s.dst.length < M
      · rw [if_pos hroom]
        refine ⟨fun r h k => ?_, fun r h => ?_⟩
        · cases h
          exact sameGeom_trans (fitFold_geom _ _ _ k) (hg k)
        · cases h
      · rw [if_neg hroom]
        refine ⟨fun r h => ?_, fun r h k => ?_⟩
        · cases h
        · cases h
          exact sameGeom_trans (fitFold_geom _ _ _ k) (hg k)

theorem rectFold_geom (fuel n : Nat) (S : Int) (T M : Nat) :
    ∀ (l : List Nat) (s : RectState),
      (∀ r, l.foldlM (boxStep fuel n S T M) s = .ok r → ∀ k, sameGeom (r.lines k) (s.lines k)) ∧
      (∀ r, l.foldlM (boxStep fuel n S T M) s = .error (.returned r) →
        ∀ k, sameGeom (r.lines k) (s.lines k)) := by
  intro l
  induction l with
  | nil =>
    intro s
    refine ⟨fun r h k => ?_, fun r h => ?_⟩
    · cases h
      exact sameGeom_refl _
    · cases h
  | cons i l ih =>
    intro s
    have hb := boxStep_geom fuel n S T M s i
    cases hs : boxStep fuel n S T M s i with
    | error e =>
      refine ⟨fun r h => ?_, fun r h k => ?_⟩
      · simp only [List.foldlM_cons, bind, Except.bind, hs] at h
        cases h
      · simp only [List.foldlM_cons, bind, Except.bind, hs] at h
        cases h
        exact hb.2 r hs k
    | ok s1 =>
      refine ⟨fun r h k => ?_, fun r h k => ?_⟩
      · simp only [List.foldlM_cons, bind, Except.bind, hs] at h
        exact sameGeom_trans ((ih s1).1 r h k) (hb.1 s1 hs k)
      · simp only [List.foldlM_cons, bind, Except.bind, hs] at h
        exact sameGeom_trans ((ih s1).2 r h k) (hb.1 s1 hs k)

theorem find_yellow_rectangles_geom (fuel : Nat) (lines : Nat → YellowScanLine) (n : Nat)
    (S : Int) (tmp : Nat → Nat) (T M : Nat) (s : RectState)
    (h : find_yellow_rectangles fuel lines n S tmp T M = some s) :
    ∀ k, sameGeom (s.lines k) (lines k) := by
  intro k
  unfold find_yellow_rectangles at h
  simp only [] at h
  have hg := rectFold_geom fuel n S T M (List.range n)
    { lines := (List.range n).foldl (fun l i => setIgnore l i false) lines,
      tmpIndexBuffer := tmp, dst := [] }
  have hr := (resetIgnore_spec lines n).1 k
  cases hf : (List.range n).foldlM (boxStep fuel n S T M)
      { lines := (List.range n).foldl (fun l i => setIgnore l i false) lines,
        tmpIndexBuffer := tmp, dst := [] } with
  | ok r =>
    rw [hf] at h
    cases h
    exact sameGeom_trans (hg.1 _ hf k) hr
  | error e =>
    rw [hf] at h
    cases e with
    | outOfFuel => cases h
    | returned r =>
      cases h
      exact sameGeom_trans (hg.2 _ hf k) hr

/-- C36: the boxes and the count produced by `find_yellow_rectangles` depend neither on the
initial contents of `tmpIndexBuffer` nor on the initial `_ignore` flags of the lines: two runs
whose first `lineCount` lines have the same `start`, `end` and `y` both return (given fuel above
`lineCount`) the same boxes, and each run leaves the `start`, `end` and `y` of every line
unchanged. -/
theorem find_yellow_rectangles_scratch_independent (fuel : Nat)
    (lines lines2 : Nat → YellowScanLine) (lineCount : Nat) (maxSpacing : Int)
    (tmpIndexBuffer tmpIndexBuffer2 : Nat → Nat) (maxTmpIndexCount maxCount : Nat)
    (hfuel : lineCount < fuel)
    (h : ∀ k < lineCount, (lines k).start = (lines2 k).start ∧
      (lines k).end_ = (lines2 k).end_ ∧ (lines k).y = (lines2 k).y) :
    ∃ s s2, find_yellow_rectangles fuel lines lineCount maxSpacing tmpIndexBuffer
        maxTmpIndexCount maxCount = some s ∧
      find_yellow_rectangles fuel lines2 lineCount maxSpacing tmpIndexBuffer2
        maxTmpIndexCount maxCount = some s2 ∧
      s.dst = s2.dst ∧ s.dst.length = s2.dst.length ∧
      (∀ k, (s.lines k).start = (lines k).start ∧ (s.lines k).end_ = (lines k).end_ ∧
        (s.lines k).y = (lines k).y) ∧
      (∀ k, (s2.lines k).start = (lines2 k).start ∧ (s2.lines k).end_ = (lines2 k).end_ ∧
        (s2.lines k).y = (lines2 k).y) := by
  obtain ⟨s, _, hs, _⟩ := find_yellow_rectangles_groups_any fuel lines lineCount maxSpacing
    tmpIndexBuffer maxTmpIndexCount maxCount hfuel
  obtain ⟨s2, _, hs2, _⟩ := find_yellow_rectangles_groups_any fuel lines2 lineCount maxSpacing
    tmpIndexBuffer2 maxTmpIndexCount maxCount hfuel
  have hc := find_yellow_rectangles_congr fuel lines lines2 lineCount maxSpacing tmpIndexBuffer
    tmpIndexBuffer2 maxTmpIndexCount maxCount h
  rw [hs, hs2] at hc
  have hd : s.dst = s2.dst := Option.some.inj hc
  exact ⟨s, s2, hs, hs2, hd, by rw [hd],
    find_yellow_rectangles_geom fuel lines lineCount maxSpacing tmpIndexBuffer maxTmpIndexCount
      maxCount s hs,
    find_yellow_rectangles_geom fuel lines2 lineCount maxSpacing tmpIndexBuffer2
      maxTmpIndexCount maxCount s2 hs2⟩

theorem find_yellow_rectangles_scratch_independent_witness :
    ∃ s s2, find_yellow_rectangles 4
        (linesOf [⟨0, 3, 0, false⟩, ⟨2, 5, 1, false⟩, ⟨4, 9, 2, false⟩]) 3 0 (fun _ => 0) 2 3
        = some s ∧
      find_yellow_rectangles 4
        (linesOf [⟨0, 3, 0, true⟩, ⟨2, 5, 1, false⟩, ⟨4, 9, 2, true⟩]) 3 0 (fun _ => 7) 2 3
        = some s2 ∧
      s.dst = s2.dst ∧ s.dst.length = s2.dst.length ∧
      (∀ k, (s.lines k).start
          = (linesOf [⟨0, 3, 0, false⟩, ⟨2, 5, 1, false⟩, ⟨4, 9, 2, false⟩] k).start ∧
        (s.lines k).end_
          = (linesOf [⟨0, 3, 0, false⟩, ⟨2, 5, 1, false⟩, ⟨4, 9, 2, false⟩] k).end_ ∧
        (s.lines k).y = (linesOf [⟨0, 3, 0, false⟩, ⟨2, 5, 1, false⟩, ⟨4, 9, 2, false⟩] k).y) ∧
      (∀ k, (s2.lines k).start
          = (linesOf [⟨0, 3, 0, true⟩, ⟨2, 5, 1, false⟩, ⟨4, 9, 2, true⟩] k).start ∧
        (s2.lines k).end_
          = (linesOf [⟨0, 3, 0, true⟩, ⟨2, 5, 1, false⟩, ⟨4, 9, 2, true⟩] k).end_ ∧
        (s2.lines k).y = (linesOf [⟨0, 3, 0, true⟩, ⟨2, 5, 1, false⟩, ⟨4, 9, 2, true⟩] k).y) :=
  find_yellow_rectangles_scratch_independent 4
    (linesOf [⟨0, 3, 0, false⟩, ⟨2, 5, 1, false⟩, ⟨4, 9, 2, false⟩])
    (linesOf [⟨0, 3, 0, true⟩, ⟨2, 5, 1, false⟩, ⟨4, 9, 2, true⟩]) 3 0 (fun _ => 0)
    (fun _ => 7) 2 3 (by decide) (by decide)

/-! ## Theorems: the averages of a sampled appearance -/

theorem clearFold_averages (n : Nat) (ret : BarCodeAppearance) (i : Nat) (hi : i < n) :
    ((List.range n).foldl clearSection ret).redAverage i = 0 ∧
    ((List.range n).foldl clearSection ret).greenAverage i = 0 ∧
    ((List.range n).foldl clearSection ret).blueAverage i = 0 := by
  induction n with
  | zero => omega
  | succ n ih =>
    rw [List.range_succ, List.foldl_append, List.foldl_cons, List.foldl_nil]
    by_cases h : i = n
    · subst h
      simp [clearSection]
    · simp only [clearSection, Function.update_noteq h]
      exact ih (by omega)

theorem readFold_sums (rgba8 : Nat → Nat) (width sectionCount origX origY totalDistance : Int)
    (i : Nat) (t : List (Int × Int)) :
    ∀ st : BarCodeAppearance × List ((Int × Int) × Int),
      (t.foldl (readPixel rgba8 width sectionCount origX origY totalDistance) st).1.redAverage i
        = st.1.redAverage i +
          ((t.countP (fun p =>
            decide (sectionOfPixel sectionCount origX origY totalDistance p = (i : Int) ∧
              (pixelAt rgba8 width p).1 > (pixelAt rgba8 width p).2.1 ∧
              (pixelAt rgba8 width p).1 > (pixelAt rgba8 width p).2.2)) : Nat) : ℚ) ∧
      (t.foldl (readPixel rgba8 width sectionCount origX origY totalDistance) st).1.greenAverage i
        = st.1.greenAverage i +
          ((t.countP (fun p =>
            decide (sectionOfPixel sectionCount origX origY totalDistance p = (i : Int) ∧
              (pixelAt rgba8 width p).2.1 > (pixelAt rgba8 width p).1 ∧
              (pixelAt rgba8 width p).2.1 > (pixelAt rgba8 width p).2.2)) : Nat) : ℚ) ∧
      (t.foldl (readPixel rgba8 width sectionCount origX origY totalDistance) st).1.blueAverage i
        = st.1.blueAverage i +
          ((t.countP (fun p =>
            decide (sectionOfPixel sectionCount origX origY totalDistance p = (i : Int) ∧
              (pixelAt rgba8 width p).2.2 > (pixelAt rgba8 width p).1 ∧
              (pixelAt rgba8 width p).2.2 > (pixelAt rgba8 width p).2.1)) : Nat) : ℚ) := by
  induction t with
  | nil => intro st; simp
  | cons p t ih =>
    intro st
    rw [List.foldl_cons]
    obtain ⟨h1, h2, h3⟩ := ih (readPixel rgba8 width sectionCount origX origY totalDistance st p)
    rw [h1, h2, h3]
    simp only [List.countP_cons]
    have hr := sectionIndexOf_range sectionCount totalDistance (_get_distance p.1 p.2 origX origY)
    by_cases h : sectionOfPixel sectionCount origX origY totalDistance p = (i : Int)
    · have hn : (sectionOfPixel sectionCount origX origY totalDistance p).toNat = i := by
        rw [h]; simp
      have hadd : ∀ (c : Prop) [Decidable c] (a : ℚ) (n : Nat),
          a + (if c then (1 : ℚ) else 0) + (n : ℚ)
            = a + (((n + if decide c = true then 1 else 0 : Nat)) : ℚ) := by
        intro c _ a n
        by_cases hc : c
        · simp only [hc, if_true, decide_True]
          push_cast
          ring
        · simp only [hc, if_false, decide_False, Bool.false_eq_true]
          push_cast
          ring
      have hn2 : ((i : Int)).toNat = i := by simp
      simp only [readPixel, accumulate, h, hn2, Function.update_same, true_and, pixelAt,
        quantify_red, quantify_green, quantify_blue]
      exact ⟨hadd _ _ _, hadd _ _ _, hadd _ _ _⟩
    · have hn : i ≠ (sectionOfPixel sectionCount origX origY totalDistance p).toNat := by
        intro hi
        apply h
        unfold sectionOfPixel at hi ⊢
        omega
      simp only [readPixel, accumulate, Function.update_noteq hn, h, false_and, decide_False]
      simp

theorem countP_three_le {α : Type} (a r g b : α → Bool)
    (hrg : ∀ x, ¬ (r x = true ∧ g x = true)) (hrb : ∀ x, ¬ (r x = true ∧ b x = true))
    (hgb : ∀ x, ¬ (g x = true ∧ b x = true)) :
    ∀ l : List α, l.countP (fun x => a x && r x) + l.countP (fun x => a x && g x)
      + l.countP (fun x => a x && b x) ≤ l.countP a := by
  intro l
  induction l with
  | nil => simp
  | cons x l ih =>
    simp only [List.countP_cons]
    have h1 := hrg x
    have h2 := hrb x
    have h3 := hgb x
    cases ha : a x <;> cases hr : r x <;> cases hg : g x <;> cases hb : b x <;>
      simp_all <;> omega

/-- C33: in `_read_bar_code_appearance` (distinct endpoints, at most 25 sections, enough
fuel), for every section `i < sectionCount` that received at least one pixel, `pixelCount[i]`
is the number of visited pixels bucketed into `i`, and `redAverage[i]`, `greenAverage[i]`,
`blueAverage[i]` are the numbers of those pixels that are red-, green- and blue-dominant,
divided by `pixelCount[i]`; each average lies in `[0, 1]` and the three sum to at most 1. -/
theorem read_bar_code_appearance_averages (fuel : Nat) (uninitialized : BarCodeAppearance)
    (rgba8 : Nat → Nat) (width height sectionCount : Int) (startBox endBox : YellowBoundingBox)
    (startX startY endX endY : Int)
    (hne : ¬ (startX = endX ∧ startY = endY)) (h25 : sectionCount ≤ 25)
    (hf : max |endX - startX| |endY - startY| < (fuel : Int)) :
    ∃ sums ret buckets,
      _read_bar_code_appearance fuel uninitialized rgba8 width height sectionCount startBox
        endBox startX startY endX endY = some (sums, ret, buckets) ∧
      ∀ i : Nat, (i : Int) < sectionCount →
        0 < buckets.countP (fun q => decide (q.2 = (i : Int))) →
        ret.pixelCount i = ((buckets.countP (fun q => decide (q.2 = (i : Int))) : Nat) : Int) ∧
        ret.redAverage i
          = ((buckets.countP (fun q => decide (q.2 = (i : Int) ∧
              (pixelAt rgba8 width q.1).1 > (pixelAt rgba8 width q.1).2.1 ∧
              (pixelAt rgba8 width q.1).1 > (pixelAt rgba8 width q.1).2.2)) : Nat) : ℚ)
            / ((ret.pixelCount i : Int) : ℚ) ∧
        ret.greenAverage i
          = ((buckets.countP (fun q => decide (q.2 = (i : Int) ∧
              (pixelAt rgba8 width q.1).2.1 > (pixelAt rgba8 width q.1).1 ∧
              (pixelAt rgba8 width q.1).2.1 > (pixelAt rgba8 width q.1).2.2)) : Nat) : ℚ)
            / ((ret.pixelCount i : Int) : ℚ) ∧
        ret.blueAverage i
          = ((buckets.countP (fun q => decide (q.2 = (i : Int) ∧
              (pixelAt rgba8 width q.1).2.2 > (pixelAt rgba8 width q.1).1 ∧
              (pixelAt rgba8 width q.1).2.2 > (pixelAt rgba8 width q.1).2.1)) : Nat) : ℚ)
            / ((ret.pixelCount i : Int) : ℚ) ∧
        0 ≤ ret.redAverage i ∧ ret.redAverage i ≤ 1 ∧
        0 ≤ ret.greenAverage i ∧ ret.greenAverage i ≤ 1 ∧
        0 ≤ ret.blueAverage i ∧ ret.blueAverage i ≤ 1 ∧
        ret.redAverage i + ret.greenAverage i + ret.blueAverage i ≤ 1 := by
  obtain ⟨t, ht, _⟩ := walkTrace_good startX startY endX endY fuel hf
  have hres : _read_bar_code_appearance fuel uninitialized rgba8 width height sectionCount
      startBox endBox startX startY endX endY
      = some ((t.foldl (readPixel rgba8 width sectionCount startX startY
          (_get_distance startX startY endX endY))
          ((List.range sectionCount.toNat).foldl clearSection
            { uninitialized with
              _firstBox := startBox, _secondBox := endBox, sectionCount := sectionCount,
              colorStartX := startX, colorStartY := startY, colorEndX := endX,
              colorEndY := endY }, [])).1,
        (List.range sectionCount.toNat).foldl averageSection
          (t.foldl (readPixel rgba8 width sectionCount startX startY
            (_get_distance startX startY endX endY))
            ((List.range sectionCount.toNat).foldl clearSection
              { uninitialized with
                _firstBox := startBox, _secondBox := endBox, sectionCount := sectionCount,
                colorStartX := startX, colorStartY := startY, colorEndX := endX,
                colorEndY := endY }, [])).1,
        t.map (fun p => (p, sectionOfPixel sectionCount startX startY
          (_get_distance startX startY endX endY) p))) := by
    unfold _read_bar_code_appearance
    simp only []
    rw [readLoop_eq, ht]
    simp only [Option.map_some']
    rw [← Prod.mk.eta (p := List.foldl _ _ t)]
    simp only [readFold_buckets, List.nil_append]
  refine ⟨_, _, _, hres, ?_⟩
  · intro i hi hpos
    have hin : i < sectionCount.toNat := by omega
    obtain ⟨a0, a1, a2, a3⟩ := averageFold_spec sectionCount.toNat
      (t.foldl (readPixel rgba8 width sectionCount startX startY
        (_get_distance startX startY endX endY))
        ((List.range sectionCount.toNat).foldl clearSection
          { uninitialized with
            _firstBox := startBox, _secondBox := endBox, sectionCount := sectionCount,
            colorStartX := startX, colorStartY := startY, colorEndX := endX,
            colorEndY := endY }, [])).1 i
    obtain ⟨s1, s2, s3⟩ := readFold_sums rgba8 width sectionCount startX startY
      (_get_distance startX startY endX endY) i t
      ((List.range sectionCount.toNat).foldl clearSection
        { uninitialized with
          _firstBox := startBox, _secondBox := endBox, sectionCount := sectionCount,
          colorStartX := startX, colorStartY := startY, colorEndX := endX, colorEndY := endY },
        [])
    have sc := readFold_count rgba8 width sectionCount startX startY
      (_get_distance startX startY endX endY) i t
      ((List.range sectionCount.toNat).foldl clearSection
        { uninitialized with
          _firstBox := startBox, _secondBox := endBox, sectionCount := sectionCount,
          colorStartX := startX, colorStartY := startY, colorEndX := endX, colorEndY := endY },
        [])
    obtain ⟨c1, c2, c3⟩ := clearFold_averages sectionCount.toNat
      { uninitialized with
        _firstBox := startBox, _secondBox := endBox, sectionCount := sectionCount,
        colorStartX := startX, colorStartY := startY, colorEndX := endX, colorEndY := endY }
      i hin
    simp only [] at s1 s2 s3 sc
    rw [c1, zero_add] at s1
    rw [c2, zero_add] at s2
    rw [c3, zero_add] at s3
    rw [clearFold_pixelCount, if_pos hin, zero_add] at sc
    simp only [List.countP_map] at hpos ⊢
    rw [a0, a1, a2, a3, if_pos hin, if_pos hin, if_pos hin, s1, s2, s3, sc]
    have hle := countP_three_le
      (fun p : Int × Int => decide (sectionOfPixel sectionCount startX startY
        (_get_distance startX startY endX endY) p = (i : Int)))
      (fun p => decide ((pixelAt rgba8 width p).1 > (pixelAt rgba8 width p).2.1 ∧
        (pixelAt rgba8 width p).1 > (pixelAt rgba8 width p).2.2))
      (fun p => decide ((pixelAt rgba8 width p).2.1 > (pixelAt rgba8 width p).1 ∧
        (pixelAt rgba8 width p).2.1 > (pixelAt rgba8 width p).2.2))
      (fun p => decide ((pixelAt rgba8 width p).2.2 > (pixelAt rgba8 width p).1 ∧
        (pixelAt rgba8 width p).2.2 > (pixelAt rgba8 width p).2.1))
      (fun x h => by simp only [decide_eq_true_eq] at h; omega)
      (fun x h => by simp only [decide_eq_true_eq] at h; omega)
      (fun x h => by simp only [decide_eq_true_eq] at h; omega) t
    simp only [← Bool.decide_and] at hle
    simp only [Function.comp_def] at hpos ⊢
    generalize List.countP (fun p => decide (sectionOfPixel sectionCount startX startY
        (_get_distance startX startY endX endY) p = (i : Int))) t = N at hpos hle ⊢
    generalize List.countP (fun p => decide (sectionOfPixel sectionCount startX startY
        (_get_distance startX startY endX endY) p = (i : Int) ∧
        (pixelAt rgba8 width p).1 > (pixelAt rgba8 width p).2.1 ∧
        (pixelAt rgba8 width p).1 > (pixelAt rgba8 width p).2.2)) t = R at hle ⊢
    generalize List.countP (fun p => decide (sectionOfPixel sectionCount startX startY
        (_get_distance startX startY endX endY) p = (i : Int) ∧
        (pixelAt rgba8 width p).2.1 > (pixelAt rgba8 width p).1 ∧
        (pixelAt rgba8 width p).2.1 > (pixelAt rgba8 width p).2.2)) t = G at hle ⊢
    generalize List.countP (fun p => decide (sectionOfPixel sectionCount startX startY
        (_get_distance startX startY endX endY) p = (i : Int) ∧
        (pixelAt rgba8 width p).2.2 > (pixelAt rgba8 width p).1 ∧
        (pixelAt rgba8 width p).2.2 > (pixelAt rgba8 width p).2.1)) t = B at hle ⊢
    have hN : (0 : ℚ) < ((N : Int) : ℚ) := by exact_mod_cast hpos
    have hR : (0 : ℚ) ≤ (R : ℚ) := by exact_mod_cast Nat.zero_le R
    have hG : (0 : ℚ) ≤ (G : ℚ) := by exact_mod_cast Nat.zero_le G
    have hB : (0 : ℚ) ≤ (B : ℚ) := by exact_mod_cast Nat.zero_le B
    have hsum : (R : ℚ) + (G : ℚ) + (B : ℚ) ≤ ((N : Int) : ℚ) := by exact_mod_cast hle
    refine ⟨trivial, trivial, trivial, trivial, div_nonneg hR (le_of_lt hN), ?_, div_nonneg hG (le_of_lt hN),
      ?_, div_nonneg hB (le_of_lt hN), ?_, ?_⟩
    · rw [div_le_one hN]; linarith
    · rw [div_le_one hN]; linarith
    · rw [div_le_one hN]; linarith
    · rw [← add_div, ← add_div, div_le_one hN]
      exact hsum

theorem read_bar_code_appearance_averages_witness :
    ∃ sums ret buckets,
      _read_bar_code_appearance 5 (appearanceOf 0 0 0 0 [] [] []) endpointTestRow 8 1 2
        default default 0 0 4 0 = some (sums, ret, buckets) ∧
      ∀ i : Nat, (i : Int) < 2 →
        0 < buckets.countP (fun q => decide (q.2 = (i : Int))) →
        ret.pixelCount i = ((buckets.countP (fun q => decide (q.2 = (i : Int))) : Nat) : Int) ∧
        ret.redAverage i
          = ((buckets.countP (fun q => decide (q.2 = (i : Int) ∧
              (pixelAt endpointTestRow 8 q.1).1 > (pixelAt endpointTestRow 8 q.1).2.1 ∧
              (pixelAt endpointTestRow 8 q.1).1 > (pixelAt endpointTestRow 8 q.1).2.2)) : Nat) : ℚ)
            / ((ret.pixelCount i : Int) : ℚ) ∧
        ret.greenAverage i
          = ((buckets.countP (fun q => decide (q.2 = (i : Int) ∧
              (pixelAt endpointTestRow 8 q.1).2.1 > (pixelAt endpointTestRow 8 q.1).1 ∧
              (pixelAt endpointTestRow 8 q.1).2.1 > (pixelAt endpointTestRow 8 q.1).2.2)) : Nat) : ℚ)
            / ((ret.pixelCount i : Int) : ℚ) ∧
        ret.blueAverage i
          = ((buckets.countP (fun q => decide (q.2 = (i : Int) ∧
              (pixelAt endpointTestRow 8 q.1).2.2 > (pixelAt endpointTestRow 8 q.1).1 ∧
              (pixelAt endpointTestRow 8 q.1).2.2 > (pixelAt endpointTestRow 8 q.1).2.1)) : Nat) : ℚ)
            / ((ret.pixelCount i : Int) : ℚ) ∧
        0 ≤ ret.redAverage i ∧ ret.redAverage i ≤ 1 ∧
        0 ≤ ret.greenAverage i ∧ ret.greenAverage i ≤ 1 ∧
        0 ≤ ret.blueAverage i ∧ ret.blueAverage i ≤ 1 ∧
        ret.redAverage i + ret.greenAverage i + ret.blueAverage i ≤ 1 :=
  read_bar_code_appearance_averages 5 (appearanceOf 0 0 0 0 [] [] []) endpointTestRow 8 1 2
    default default 0 0 4 0 (by decide) (by decide) (by decide)

/-! ## Theorems: ranking with enough capacity -/

theorem are_yellow_unfold (rgba8 : M256) (config : YellowConfigAVX) :
    _are_yellow rgba8 config
      = _mm256_and_si256
          (_mm256_cmpgt_epi32 (_mm256_and_si256 rgba8 redMask) config.redGreaterThan)
          (_mm256_and_si256
            (_mm256_cmpgt_epi32 config.redGreenSeparationLessThan
              (_mm256_sub_epi32 (_mm256_and_si256 rgba8 redMask)
                (_mm256_shuffle_epi8 (_mm256_and_si256 rgba8 greenMask) greenShuffle)))
            (_mm256_cmpgt_epi32
              (_mm256_sub_epi32 (_mm256_and_si256 rgba8 redMask)
                (_mm256_shuffle_epi8 (_mm256_and_si256 rgba8 blueMask) blueShuffle))
              config.redBlueSeparationGreaterThan)) := rfl

theorem redMask_eq : ∀ j < 32, redMask j = if j % 4 = 0 then 255 else 0 := by decide

theorem greenMask_eq : ∀ j < 32, greenMask j = if j % 4 = 1 then 255 else 0 := by decide

theorem blueMask_eq : ∀ j < 32, blueMask j = if j % 4 = 2 then 255 else 0 := by decide

theorem greenShuffle_eq : ∀ j < 32, greenShuffle j = if j % 4 = 0 then j + 1 else 0 := by
  decide

theorem blueShuffle_eq : ∀ j < 32, blueShuffle j = if j % 4 = 0 then j + 2 else 0 := by
  decide

theorem and_255 (x : Nat) (h : x < 256) : x &&& 255 = x := by
  have := Nat.and_pow_two_sub_one_eq_mod x 8
  norm_num at this
  rw [this, Nat.mod_eq_of_lt h]

theorem m256i_u32_ofLanes32 (f : Nat → Int) (i : Nat) :
    m256i_u32 (ofLanes32 f) i = (f i % 2 ^ 32).toNat := by
  unfold m256i_u32 ofLanes32
  have e0 : 4 * i / 4 = i := by omega
  have e1 : (4 * i + 1) / 4 = i := by omega
  have e2 : (4 * i + 2) / 4 = i := by omega
  have e3 : (4 * i + 3) / 4 = i := by omega
  have m0 : 4 * i % 4 = 0 := by omega
  have m1 : (4 * i + 1) % 4 = 1 := by omega
  have m2 : (4 * i + 2) % 4 = 2 := by omega
  have m3 : (4 * i + 3) % 4 = 3 := by omega
  rw [e0, e1, e2, e3, m0, m1, m2, m3]
  have hn : (f i % 2 ^ 32).toNat < 2 ^ 32 := by omega
  generalize (f i % 2 ^ 32).toNat = n at hn
  norm_num at hn ⊢
  omega

theorem m256i_i32_ofLanes32 (f : Nat → Int) (i : Nat) (h1 : -2 ^ 31 ≤ f i) (h2 : f i < 2 ^ 31) :
    m256i_i32 (ofLanes32 f) i = f i := by
  unfold m256i_i32
  rw [m256i_u32_ofLanes32]
  split_ifs with h <;> omega

theorem m256i_i32_set1 (a : Int) (i : Nat) (h1 : -2 ^ 31 ≤ a) (h2 : a < 2 ^ 31) :
    m256i_i32 (_mm256_set1_epi32 a) i = a :=
  m256i_i32_ofLanes32 (fun _ => a) i h1 h2

theorem lane_of_low_byte (v : M256) (i x : Nat) (h0 : v (4 * i) = x) (h1 : v (4 * i + 1) = 0)
    (h2 : v (4 * i + 2) = 0) (h3 : v (4 * i + 3) = 0) (hx : x < 256) :
    m256i_i32 v i = (x : Int) := by
  have hu : m256i_u32 v i = x := by
    unfold m256i_u32
    rw [h0, h1, h2, h3]
    omega
  unfold m256i_i32
  rw [hu, if_pos (by omega)]

theorem reds_lane (rgba8 : M256) (i : Nat) (hi : i < 8) (hr : rgba8 (4 * i) < 256) :
    m256i_i32 (_mm256_and_si256 rgba8 redMask) i = (rgba8 (4 * i) : Int) := by
  have hz : ∀ k, 1 ≤ k → k ≤ 3 → _mm256_and_si256 rgba8 redMask (4 * i + k) = 0 := by
    intro k hk1 hk3
    unfold _mm256_and_si256
    rw [redMask_eq (4 * i + k) (by omega)]
    have : ¬ (4 * i + k) % 4 = 0 := by omega
    rw [if_neg this, Nat.and_zero]
  refine lane_of_low_byte _ i _ ?_ (hz 1 (by omega) (by omega)) (hz 2 (by omega) (by omega))
    (hz 3 (by omega) (by omega)) hr
  unfold _mm256_and_si256
  rw [redMask_eq (4 * i) (by omega)]
  have : 4 * i % 4 = 0 := by omega
  rw [if_pos this, and_255 _ hr]

theorem shuffled_lane (rgba8 mask ctrl : M256) (c i : Nat) (hc1 : 1 ≤ c) (hc3 : c ≤ 3)
    (hmask : ∀ j < 32, mask j = if j % 4 = c then 255 else 0)
    (hctrl : ∀ j < 32, ctrl j = if j % 4 = 0 then j + c else 0)
    (hi : i < 8) (hv : rgba8 (4 * i + c) < 256) :
    m256i_i32 (_mm256_shuffle_epi8 (_mm256_and_si256 rgba8 mask) ctrl) i
      = (rgba8 (4 * i + c) : Int) := by
  have b0 : _mm256_shuffle_epi8 (_mm256_and_si256 rgba8 mask) ctrl (4 * i)
      = rgba8 (4 * i + c) := by
    unfold _mm256_shuffle_epi8 _mm256_and_si256
    have e0 : 4 * i % 4 = 0 := by omega
    rw [hctrl (4 * i) (by omega), if_pos e0]
    have e1 : ¬ 128 ≤ 4 * i + c := by omega
    rw [if_neg e1]
    have e : 16 * (4 * i / 16) + (4 * i + c) % 16 = 4 * i + c := by omega
    rw [e, hmask (4 * i + c) (by omega)]
    have e2 : (4 * i + c) % 4 = c := by omega
    rw [if_pos e2, and_255 _ hv]
  have bk : ∀ k, 1 ≤ k → k ≤ 3 →
      _mm256_shuffle_epi8 (_mm256_and_si256 rgba8 mask) ctrl (4 * i + k) = 0 := by
    intro k hk1 hk3
    unfold _mm256_shuffle_epi8 _mm256_and_si256
    have e0 : ¬ (4 * i + k) % 4 = 0 := by omega
    rw [hctrl (4 * i + k) (by omega), if_neg e0]
    have e1 : ¬ 128 ≤ 0 := by omega
    rw [if_neg e1]
    simp only [Nat.zero_mod, Nat.add_zero]
    have e2 : ¬ 16 * ((4 * i + k) / 16) % 4 = c := by omega
    rw [hmask (16 * ((4 * i + k) / 16)) (by omega), if_neg e2, Nat.and_zero]
  exact lane_of_low_byte _ i _ b0 (bk 1 (by omega) (by omega)) (bk 2 (by omega) (by omega))
    (bk 3 (by omega) (by omega)) hv

theorem ofLanes32_mask (c : Nat → Prop) [DecidablePred c] (j : Nat) :
    ofLanes32 (fun i => if c i then (-1 : Int) else 0) j = if c (j / 4) then 255 else 0 := by
  unfold ofLanes32
  have hk : j % 4 < 4 := Nat.mod_lt _ (by norm_num)
  by_cases h : c (j / 4)
  · simp only [if_pos h]
    generalize j % 4 = k at hk
    interval_cases k <;> decide
  · simp only [if_neg h]
    simp

theorem mask_and (p q : Prop) [Decidable p] [Decidable q] :
    (if p then 255 else 0) &&& (if q then 255 else 0) = if p ∧ q then 255 else 0 := by
  by_cases hp : p <;> by_cases hq : q <;> simp [hp, hq]

theorem mask_lane (v : M256) (i : Nat) (c : Prop) [Decidable c]
    (h : ∀ k < 4, v (4 * i + k) = if c then 255 else 0) :
    m256i_i32 v i = if c then -1 else 0 := by
  unfold m256i_i32 m256i_u32
  have h0 := h 0 (by norm_num)
  rw [Nat.add_zero] at h0
  rw [h0, h 1 (by norm_num), h 2 (by norm_num), h 3 (by norm_num)]
  by_cases hc : c
  · simp only [if_pos hc]
    norm_num
  · simp only [if_neg hc]
    norm_num

theorem are_yellow_lane (rgba8 : M256) (config : YellowConfig) (i : Nat) (hi : i < 8)
    (hr : rgba8 (4 * i) < 256) (hg : rgba8 (4 * i + 1) < 256) (hb : rgba8 (4 * i + 2) < 256)
    (h1 : config.maxRedGreenSeparation < 256) (h2 : config.minRedBlueSeparation < 256)
    (h3 : config.minRed < 256) :
    m256i_i32 (_are_yellow rgba8 (to_avx config)) i
      = if (rgba8 (4 * i) : Int) - (rgba8 (4 * i + 1) : Int)
            ≤ (config.maxRedGreenSeparation : Int) ∧
          (rgba8 (4 * i) : Int) - (rgba8 (4 * i + 2) : Int)
            ≥ (config.minRedBlueSeparation : Int) ∧
          rgba8 (4 * i) ≥ config.minRed then -1 else 0 := by
  have hR := reds_lane rgba8 i hi hr
  have hG := shuffled_lane rgba8 greenMask greenShuffle 1 i (by norm_num) (by norm_num)
    greenMask_eq greenShuffle_eq hi hg
  have hB := shuffled_lane rgba8 blueMask blueShuffle 2 i (by norm_num) (by norm_num)
    blueMask_eq blueShuffle_eq hi hb
  have hRG : m256i_i32 (_mm256_sub_epi32 (_mm256_and_si256 rgba8 redMask)
      (_mm256_shuffle_epi8 (_mm256_and_si256 rgba8 greenMask) greenShuffle)) i
      = (rgba8 (4 * i) : Int) - (rgba8 (4 * i + 1) : Int) := by
    unfold _mm256_sub_epi32
    rw [m256i_i32_ofLanes32 _ i (by simp only [hR, hG]; omega) (by simp only [hR, hG]; omega),
      hR, hG]
  have hRB : m256i_i32 (_mm256_sub_epi32 (_mm256_and_si256 rgba8 redMask)
      (_mm256_shuffle_epi8 (_mm256_and_si256 rgba8 blueMask) blueShuffle)) i
      = (rgba8 (4 * i) : Int) - (rgba8 (4 * i + 2) : Int) := by
    unfold _mm256_sub_epi32
    rw [m256i_i32_ofLanes32 _ i (by simp only [hR, hB]; omega) (by simp only [hR, hB]; omega),
      hR, hB]
  have c1 := m256i_i32_set1 ((config.maxRedGreenSeparation : Int) + 1) i (by omega) (by omega)
  have c2 := m256i_i32_set1 ((config.minRedBlueSeparation : Int) - 1) i (by omega) (by omega)
  have c3 := m256i_i32_set1 ((config.minRed : Int) - 1) i (by omega) (by omega)
  rw [are_yellow_unfold]
  apply mask_lane
  intro k hk
  have hd : (4 * i + k) / 4 = i := by omega
  simp only [_mm256_and_si256, _mm256_cmpgt_epi32, ofLanes32_mask, hd, to_avx, hR, hRG, hRB,
    c1, c2, c3, mask_and]
  congr 1
  apply propext
  constructor
  · rintro ⟨a1, a2, a3⟩
    exact ⟨by omega, by omega, by omega⟩
  · rintro ⟨a1, a2, a3⟩
    exact ⟨by omega, by omega, by omega⟩

/-- C37: for a group of 8 pixels whose pixel `i` has byte values `r`, `g`, `b` and a
configuration of three byte thresholds, the lane `i` of `_are_yellow group (to_avx config)` is
all ones if the signed difference `r - g` is at most `maxRedGreenSeparation` (no absolute
value), `r - b >= minRedBlueSeparation` and `r >= minRed`, and zero otherwise; it is the same
for every group with the same three bytes at pixel `i`; and it is all ones whenever the scalar
`is_yellow r g b config` is true. -/
theorem are_yellow_lane_signed (rgba8 : M256) (config : YellowConfig) (i : Nat) (hi : i < 8)
    (hr : rgba8 (4 * i) < 256) (hg : rgba8 (4 * i + 1) < 256) (hb : rgba8 (4 * i + 2) < 256)
    (h1 : config.maxRedGreenSeparation < 256) (h2 : config.minRedBlueSeparation < 256)
    (h3 : config.minRed < 256) :
    (m256i_i32 (_are_yellow rgba8 (to_avx config)) i
      = if (rgba8 (4 * i) : Int) - (rgba8 (4 * i + 1) : Int)
            ≤ (config.maxRedGreenSeparation : Int) ∧
          (rgba8 (4 * i) : Int) - (rgba8 (4 * i + 2) : Int)
            ≥ (config.minRedBlueSeparation : Int) ∧
          rgba8 (4 * i) ≥ config.minRed then -1 else 0) ∧
    (m256i_i32 (_are_yellow rgba8 (to_avx config)) i ≠ 0 ↔
      (rgba8 (4 * i) : Int) - (rgba8 (4 * i + 1) : Int) ≤ (config.maxRedGreenSeparation : Int) ∧
      (rgba8 (4 * i) : Int) - (rgba8 (4 * i + 2) : Int) ≥ (config.minRedBlueSeparation : Int) ∧
      rgba8 (4 * i) ≥ config.minRed) ∧
    (∀ other : M256, other (4 * i) = rgba8 (4 * i) → other (4 * i + 1) = rgba8 (4 * i + 1) →
      other (4 * i + 2) = rgba8 (4 * i + 2) →
      m256i_i32 (_are_yellow other (to_avx config)) i
        = m256i_i32 (_are_yellow rgba8 (to_avx config)) i) ∧
    (is_yellow (rgba8 (4 * i)) (rgba8 (4 * i + 1)) (rgba8 (4 * i + 2)) config = true →
      m256i_i32 (_are_yellow rgba8 (to_avx config)) i = -1) := by
  have hl := are_yellow_lane rgba8 config i hi hr hg hb h1 h2 h3
  refine ⟨hl, ?_, fun other e0 e1 e2 => ?_, fun hy => ?_⟩
  · rw [hl]
    split_ifs with hc
    · exact ⟨fun _ => hc, fun _ => by decide⟩
    · exact ⟨fun h => absurd rfl h, fun h => absurd h hc⟩
  · rw [hl, are_yellow_lane other config i hi (by rw [e0]; exact hr) (by rw [e1]; exact hg)
      (by rw [e2]; exact hb) h1 h2 h3, e0, e1, e2]
  · rw [hl]
    obtain ⟨a1, a2, a3⟩ := (is_yellow_iff_aux _ _ _ config hr hg).mp hy
    rw [if_pos ⟨le_trans (le_abs_self _) a1, a2, a3⟩]

theorem are_yellow_lane_signed_witness :
    (m256i_i32 (_are_yellow (pixelGroup 100 200 0 255) (to_avx ⟨30, 50, 80⟩)) 3
      = if ((pixelGroup 100 200 0 255 (4 * 3) : Nat) : Int)
            - ((pixelGroup 100 200 0 255 (4 * 3 + 1) : Nat) : Int)
            ≤ (((⟨30, 50, 80⟩ : YellowConfig).maxRedGreenSeparation : Nat) : Int) ∧
          ((pixelGroup 100 200 0 255 (4 * 3) : Nat) : Int)
            - ((pixelGroup 100 200 0 255 (4 * 3 + 2) : Nat) : Int)
            ≥ (((⟨30, 50, 80⟩ : YellowConfig).minRedBlueSeparation : Nat) : Int) ∧
          pixelGroup 100 200 0 255 (4 * 3) ≥ (⟨30, 50, 80⟩ : YellowConfig).minRed
        then -1 else 0) ∧
    (m256i_i32 (_are_yellow (pixelGroup 100 200 0 255) (to_avx ⟨30, 50, 80⟩)) 3 ≠ 0 ↔
      ((pixelGroup 100 200 0 255 (4 * 3) : Nat) : Int)
          - ((pixelGroup 100 200 0 255 (4 * 3 + 1) : Nat) : Int)
        ≤ (((⟨30, 50, 80⟩ : YellowConfig).maxRedGreenSeparation : Nat) : Int) ∧
      ((pixelGroup 100 200 0 255 (4 * 3) : Nat) : Int)
          - ((pixelGroup 100 200 0 255 (4 * 3 + 2) : Nat) : Int)
        ≥ (((⟨30, 50, 80⟩ : YellowConfig).minRedBlueSeparation : Nat) : Int) ∧
      pixelGroup 100 200 0 255 (4 * 3) ≥ (⟨30, 50, 80⟩ : YellowConfig).minRed) ∧
    (∀ other : M256, other (4 * 3) = pixelGroup 100 200 0 255 (4 * 3) →
      other (4 * 3 + 1) = pixelGroup 100 200 0 255 (4 * 3 + 1) →
      other (4 * 3 + 2) = pixelGroup 100 200 0 255 (4 * 3 + 2) →
      m256i_i32 (_are_yellow other (to_avx ⟨30, 50, 80⟩)) 3
        = m256i_i32 (_are_yellow (pixelGroup 100 200 0 255) (to_avx ⟨30, 50, 80⟩)) 3) ∧
    (is_yellow (pixelGroup 100 200 0 255 (4 * 3)) (pixelGroup 100 200 0 255 (4 * 3 + 1))
        (pixelGroup 100 200 0 255 (4 * 3 + 2)) ⟨30, 50, 80⟩ = true →
      m256i_i32 (_are_yellow (pixelGroup 100 200 0 255) (to_avx ⟨30, 50, 80⟩)) 3 = -1) :=
  are_yellow_lane_signed (pixelGroup 100 200 0 255) ⟨30, 50, 80⟩ 3 (by decide) (by decide)
    (by decide) (by decide) (by decide) (by decide) (by decide)

end BarCodeFinder

